import Mathlib

/-!
# spiflash: SPI flash programmer firmware (Teensy 2.x)

A shallow embedding of `xmodem.c`, `bits.h` and the parts of `probe.c` that the
block-transfer sender, the upload command and the sector-erase command are made of,
together with the theorems that settle what the specification says about them.

Conventions of the embedding
* `uint8_t` / `uint32_t` values are `Nat` with an explicit `% 256` / `% 2 ^ 32` wherever
  the C arithmetic can wrap; C `int` values are `Int`.
* The serial link is a list `rx` of the results of the future `usb_serial_getchar` calls
  (`-1`: no byte available yet, otherwise a byte) and a list `tx` of the writes made so
  far, one entry per `usb_serial_write` / `usb_serial_putchar` call.
* The SPI slave is a state machine `Device σ`; every byte transaction and every change of
  the chip-select line is also appended to the log `spi`.
* A function that reads the serial link returns `none` when `rx` is used up before the
  function returns: on the hardware it would still be sitting in its read loop.
-/

namespace Spiflash

/-! ## The environment: serial link, SPI slave, I/O registers -/

/-- One entry of the SPI log. -/
inductive SpiEvent where
  /-- The chip-select line was driven; `true` is asserted (pin low). -/
  | cs (asserted : Bool)
  /-- One byte transaction, recorded by the byte shifted out on MOSI. -/
  | byte (mosi : Nat)
  deriving DecidableEq, Repr

/-- An SPI slave: how it reacts to chip select and to a byte transaction. -/
structure Device (σ : Type) where
  /-- The chip-select line is driven (`true` = asserted). -/
  select : σ → Bool → σ
  /-- One byte transaction: the byte on MOSI in, the byte on MISO out. -/
  xfer : σ → Nat → Nat × σ

/-- The `PORTx` output registers of the AVR that `bits.h` can address. -/
structure Regs where
  PORTB : Nat
  PORTC : Nat
  PORTD : Nat
  PORTE : Nat
  PORTF : Nat
  deriving DecidableEq, Repr

/-- Everything outside the program's own variables. -/
structure World (σ : Type) where
  /-- Results of the future `usb_serial_getchar` calls. -/
  rx : List Int
  /-- Serial writes made so far, oldest first, one entry per call. -/
  tx : List (List Nat)
  /-- State of the SPI slave. -/
  dev : σ
  /-- Log of chip-select changes and byte transactions, oldest first. -/
  spi : List SpiEvent
  /-- The port output registers. -/
  regs : Regs

/-- `usb_serial_getchar`: the next received byte, or `-1` when none is available.
`none` when the model's input is used up. -/
def usb_serial_getchar {σ : Type} (w : World σ) : Option (Int × World σ) :=
  match w.rx with
  | [] => none
  | r :: rest => some (r, { w with rx := rest })

/-- `usb_serial_putchar(c)` with `c` a `uint8_t`. -/
def usb_serial_putchar {σ : Type} (c : Nat) (w : World σ) : World σ :=
  { w with tx := w.tx ++ [[c % 256]] }

/-- `usb_serial_write(buf, size)`: the first `size` bytes at `buf`. -/
def usb_serial_write {σ : Type} (buf : List Nat) (size : Nat) (w : World σ) : World σ :=
  { w with tx := w.tx ++ [buf.take size] }

/-! ## xmodem.h -/

/-- The packed struct `xmodem_block_t`. -/
structure xmodem_block_t where
  soh : Nat
  block_num : Nat
  block_num_complement : Nat
  data : List Nat
  cksum : Nat
  deriving DecidableEq, Repr

/-- The bytes of an `xmodem_block_t` in memory order (the struct is packed). -/
def xmodem_block_t.bytes (b : xmodem_block_t) : List Nat :=
  [b.soh, b.block_num, b.block_num_complement] ++ b.data ++ [b.cksum]

/-- `sizeof(xmodem_block_t)`: 1 + 1 + 1 + 128 + 1. -/
def sizeof_xmodem_block_t : Nat := 132

/-- `sizeof(block->data)`. -/
def sizeof_data : Nat := 128

def XMODEM_SOH : Nat := 0x01
def XMODEM_EOT : Nat := 0x04
def XMODEM_ACK : Nat := 0x06
def XMODEM_CAN : Nat := 0x18
def XMODEM_NAK : Nat := 0x15

/-! ## xmodem.c -/

/-- How the inner `while (1)` of `xmodem_send` is left. -/
inductive Reply where
  /-- A `return v` statement. -/
  | ret (v : Int)
  /-- The `break` on NAK. -/
  | again
  /-- The input ran out inside the loop. -/
  | starved
  deriving DecidableEq, Repr

/-- The inner `while (1)` of `xmodem_send` (lines 81-93), over the pending input. -/
def xmodem_send_wait (wait_for_ack : Int) : List Int → Reply × List Int
  | [] => (Reply.starved, [])
  | r :: rest =>
    let c := (r % 256).toNat
    if c = XMODEM_ACK then (Reply.ret 0, rest)
    else if c = XMODEM_CAN then (Reply.ret (-1), rest)
    else if c = XMODEM_NAK then (Reply.again, rest)
    else if wait_for_ack = 0 then (Reply.ret 0, rest)
    else xmodem_send_wait wait_for_ack rest

/-- The loop `while (retry_count++ < 10)` of `xmodem_send` (lines 77-94) followed by the
final `return -1`. The first argument bounds the number of loop tests; eleven are enough,
since `retry_count` starts at 0 and the loop is left once it has reached 10. -/
def xmodem_send_loop {σ : Type} (block : xmodem_block_t) (wait_for_ack : Int) :
    Nat → Nat → World σ → Option Int × World σ
  | 0, _, w => (none, w)
  | fuel + 1, retry_count, w =>
    if retry_count < 10 then
      let w1 := usb_serial_write block.bytes sizeof_xmodem_block_t w
      match xmodem_send_wait wait_for_ack w1.rx with
      | (Reply.ret v, rest) => (some v, { w1 with rx := rest })
      | (Reply.again, rest) =>
        xmodem_send_loop block wait_for_ack fuel ((retry_count + 1) % 256) { w1 with rx := rest }
      | (Reply.starved, rest) => (none, { w1 with rx := rest })
    else (some (-1), w)

/-- The checksum loop of `xmodem_send` (lines 66-68). -/
def xmodem_cksum (data : List Nat) : Nat :=
  (List.range sizeof_data).foldl (fun cksum i => (cksum + data.getD i 0) % 256) 0

/-- `xmodem_send(block, wait_for_ack)`: the value returned (`none`: still waiting for the
receiver when the input ran out), the block as it is left, and the world. -/
def xmodem_send {σ : Type} (block : xmodem_block_t) (wait_for_ack : Int) (w : World σ) :
    Option Int × xmodem_block_t × World σ :=
  let block := { block with cksum := xmodem_cksum block.data }
  let block := { block with block_num := (block.block_num + 1) % 256 }
  let block := { block with block_num_complement := (0xFF - block.block_num) % 256 }
  let r := xmodem_send_loop block wait_for_ack 11 0 w
  (r.1, block, r.2)

/-- The `while (1)` of `xmodem_init` (lines 114-121), over the pending input. -/
def xmodem_init_wait : List Int → Option Int × List Int
  | [] => (none, [])
  | r :: rest =>
    let c := (r % 256).toNat
    if c = XMODEM_NAK then (some 0, rest)
    else if c = XMODEM_CAN then (some (-1), rest)
    else xmodem_init_wait rest

/-- `xmodem_init(block, already_received_first_nak)`. -/
def xmodem_init {σ : Type} (block : xmodem_block_t) (already_received_first_nak : Int)
    (w : World σ) : Option Int × xmodem_block_t × World σ :=
  let block := { block with soh := 0x01 }
  let block := { block with block_num := 0x00 }
  if already_received_first_nak ≠ 0 then (some 0, block, w)
  else
    let r := xmodem_init_wait w.rx
    (r.1, block, { w with rx := r.2 })

/-- The inner `while (1)` of `xmodem_fini` (lines 144-153), over the pending input. The
variable `c` is a `uint16_t`; `c == -1` compares it with 0xFFFF. The loop has no `break`:
it is left by one of the two `return` statements only. -/
def xmodem_fini_wait : List Int → Option Int × List Int
  | [] => (none, [])
  | r :: rest =>
    let c := (r % 65536).toNat
    if c = 65535 then xmodem_fini_wait rest
    else if c = XMODEM_ACK then (some 0, rest)
    else if c = XMODEM_CAN then (some (-1), rest)
    else xmodem_fini_wait rest

/-- `xmodem_fini(block)`: the outer `while (1)` (lines 140-154). Its body ends in a loop
that only returns, so the body runs once. -/
def xmodem_fini {σ : Type} (_block : xmodem_block_t) (w : World σ) :
    Option Int × World σ :=
  let w1 := usb_serial_putchar XMODEM_EOT w
  let r := xmodem_fini_wait w1.rx
  (r.1, { w1 with rx := r.2 })

/-! ## bits.h -/

/-- The macro `sbi(PORT, PIN)`: `PORT |= (1 << PIN)` on an 8-bit register. -/
def sbi (PORT PIN : Nat) : Nat := (PORT ||| (1 <<< PIN)) % 256

/-- The macro `cbi(PORT, PIN)`: `PORT &= ~(1 << PIN)` on an 8-bit register; the
complement is taken in the 16-bit `int` of the AVR. -/
def cbi (PORT PIN : Nat) : Nat := (PORT &&& (0xFFFF - (1 <<< PIN) % 65536)) % 256

/-- The macro `BITS_FOR_ALL(PORT, func, port, pin)`: the switch over the port nibble,
with no default case. -/
def BITS_FOR_ALL_PORT (func : Nat → Nat → Nat) (port pin : Nat) (r : Regs) : Regs :=
  match port with
  | 0xB => { r with PORTB := func r.PORTB pin }
  | 0xC => { r with PORTC := func r.PORTC pin }
  | 0xD => { r with PORTD := func r.PORTD pin }
  | 0xE => { r with PORTE := func r.PORTE pin }
  | 0xF => { r with PORTF := func r.PORTF pin }
  | _ => r

/-- `__inline_out(id, value)`. -/
def __inline_out (id value : Nat) (r : Regs) : Regs :=
  let port := (id >>> 4) &&& 0xF
  let pin := (id >>> 0) &&& 0xF
  if value ≠ 0 then BITS_FOR_ALL_PORT sbi port pin r
  else BITS_FOR_ALL_PORT cbi port pin r

/-- `__bits_out(id, value)` of `bits.c`. -/
def __bits_out (id value : Nat) (r : Regs) : Regs := __inline_out id value r

/-- `out(port, value)` of `bits.h` (lines 100-111). `constant` is the value of the test
`__builtin_constant_p(port) && __builtin_constant_p(value)`, which the compiler decides
for each call: the inline version is taken when it holds and `__bits_out` of `bits.c`
otherwise. Where a caller does not give it, the test is taken to hold, as it does for a
call with two literals such as `out(0xD6, 1)`. -/
def out (port value : Nat) (r : Regs) (constant : Bool := true) : Regs :=
  if constant then __inline_out port value r
  else __bits_out port value r

/-! ## probe.c -/

def SPI_POW : Nat := 0xB7
def SPI_PAGE_SIZE : Nat := 4096
def SPI_PAGE_MASK : Nat := SPI_PAGE_SIZE - 1
def SPI_WIP : Nat := 1
def SPI_WEL : Nat := 2
def SPI_WRITE_ENABLE : Nat := 0x06

/-- The file-scope variables of `probe.c`. -/
structure Globals where
  xmodem_block : xmodem_block_t
  bytes_uploaded : Nat
  target_flash_size : Nat
  deriving DecidableEq, Repr

/-- The bytes of a C string literal. -/
def cstr (s : String) : List Nat := s.toList.map Char.toNat

/-- The loop of `usb_serial_getchar_echo` (lines 116-130), over the pending input, with
the serial output so far. -/
def usb_serial_getchar_echo_loop (tx : List (List Nat)) :
    List Int → Option Int × List Int × List (List Nat)
  | [] => (none, [], tx)
  | c :: rest =>
    if c = -1 then usb_serial_getchar_echo_loop tx rest
    else
      let tx := tx ++ [[(c % 256).toNat]]
      let tx := if c = 13 then tx ++ [[10]] else tx
      (some c, rest, tx)

/-- `usb_serial_getchar_echo()`. -/
def usb_serial_getchar_echo {σ : Type} (w : World σ) : Option Int × World σ :=
  let r := usb_serial_getchar_echo_loop w.tx w.rx
  (r.1, { w with rx := r.2.1, tx := r.2.2 })

/-- `spi_power(i)`. -/
def spi_power {σ : Type} (i : Nat) (w : World σ) : World σ :=
  { w with regs := out SPI_POW i w.regs }

/-- `spi_cs(i)`: chip select is pin 0 of port B, active low. -/
def spi_cs {σ : Type} (D : Device σ) (i : Nat) (w : World σ) : World σ :=
  if i ≠ 0 then
    { w with regs := { w.regs with PORTB := cbi w.regs.PORTB 0 }
             dev := D.select w.dev true
             spi := w.spi ++ [SpiEvent.cs true] }
  else
    { w with regs := { w.regs with PORTB := sbi w.regs.PORTB 0 }
             dev := D.select w.dev false
             spi := w.spi ++ [SpiEvent.cs false] }

/-- `hexdigit(x)` with `x` a `uint8_t`. -/
def hexdigit (x : Nat) : Nat :=
  let x := (x % 256) &&& 0xF
  if x < 0xA then x + 48 else x + 65 - 0xA

/-- `send_str(s)`: one `usb_serial_putchar` per character up to the terminating NUL. -/
def send_str {σ : Type} (s : List Nat) (w : World σ) : World σ :=
  (s.takeWhile (fun c => c ≠ 0)).foldl (fun w c => usb_serial_putchar c w) w

/-- `spi_send(c)` with `CONFIG_SPI_HW` defined: one byte transaction. -/
def spi_send {σ : Type} (D : Device σ) (c : Nat) (w : World σ) : Nat × World σ :=
  let r := D.xfer w.dev (c % 256)
  (r.1 % 256, { w with dev := r.2, spi := w.spi ++ [SpiEvent.byte (c % 256)] })

/-- `spi_status()`. -/
def spi_status {σ : Type} (D : Device σ) (w : World σ) : Nat × World σ :=
  let w := spi_cs D 1 w
  let w := (spi_send D 0x05 w).2
  let r1 := spi_send D 0x00 w
  let w := spi_cs D 0 r1.2
  (r1.1, w)

/-- The loop of `usb_serial_readhex` (lines 448-473). Every turn takes at least one entry
off `rx`, so the first argument, set to the length of `rx` plus one by the caller, is
never used up. -/
def usb_serial_readhex_loop {σ : Type} : Nat → Nat → World σ → Option Nat × World σ
  | 0, _, w => (none, w)
  | fuel + 1, val, w =>
    match usb_serial_getchar_echo w with
    | (none, w1) => (none, w1)
    | (some c, w1) =>
      if 48 ≤ c ∧ c ≤ 57 then
        usb_serial_readhex_loop fuel (((val <<< 4) % 2 ^ 32) ||| (c - 48).toNat) w1
      else if 65 ≤ c ∧ c ≤ 70 then
        usb_serial_readhex_loop fuel (((val <<< 4) % 2 ^ 32) ||| (c - 65 + 0xA).toNat) w1
      else if 97 ≤ c ∧ c ≤ 102 then
        usb_serial_readhex_loop fuel (((val <<< 4) % 2 ^ 32) ||| (c - 97 + 0xA).toNat) w1
      else (some val, w1)

/-- `usb_serial_readhex()`. -/
def usb_serial_readhex {σ : Type} (w : World σ) : Option Nat × World σ :=
  usb_serial_readhex_loop (w.rx.length + 1) 0 w

/-- `spi_write_enable()`. -/
def spi_write_enable {σ : Type} (D : Device σ) (w : World σ) : World σ :=
  let w := spi_power 1 w
  let r1 := spi_status D w
  let w := spi_cs D 1 r1.2
  let w := (spi_send D SPI_WRITE_ENABLE w).2
  spi_cs D 0 w

/-- The busy-wait `while (spi_status() & SPI_WIP) ;`. The device decides how long it
lasts; the first argument bounds the number of status reads, and `none` is returned when
the device is still busy after that many. -/
def spi_wait_wip {σ : Type} (D : Device σ) : Nat → World σ → Option Unit × World σ
  | 0, w => (none, w)
  | polls + 1, w =>
    let r := spi_status D w
    if r.1 &&& SPI_WIP ≠ 0 then spi_wait_wip D polls r.2
    else (some (), r.2)

/-- `spi_erase_sector(addr)`. -/
def spi_erase_sector {σ : Type} (D : Device σ) (polls : Nat) (addr : Nat) (w : World σ) :
    Option Unit × World σ :=
  let w := spi_cs D 1 w
  let w := (spi_send D 0x20 w).2
  let w := (spi_send D (addr >>> 16) w).2
  let w := (spi_send D (addr >>> 8) w).2
  let w := (spi_send D (addr >>> 0) w).2
  let w := spi_cs D 0 w
  spi_wait_wip D polls w

/-- `spi_erase_sector_interactive()`. -/
def spi_erase_sector_interactive {σ : Type} (D : Device σ) (polls : Nat) (w : World σ) :
    Option Unit × World σ :=
  match usb_serial_readhex w with
  | (none, w) => (none, w)
  | (some addr, w) =>
    let st := spi_status D w
    if st.1 &&& SPI_WEL = 0 then
      (some (), send_str (cstr "wp!\r\n") st.2)
    else
      match spi_erase_sector D polls addr st.2 with
      | (none, w) => (none, w)
      | (some _, w) =>
        let buf := [69, hexdigit (addr >>> 20), hexdigit (addr >>> 16), hexdigit (addr >>> 12),
          hexdigit (addr >>> 8), hexdigit (addr >>> 4), hexdigit (addr >>> 0), 13, 10]
        (some (), usb_serial_write buf 9 w)

/-- The LED blink block that the transfer loops repeat (lines 1053-1067, 1184-1198):
toggle the LED on port D pin 6 every 0x50 turns, then count the turn. -/
def led_blink (led_on led_count : Nat) (r : Regs) : Nat × Nat × Regs :=
  let s : Nat × Nat × Regs :=
    if led_count = 0x50 then
      if led_on = 0 then (1, 0, out 0xD6 1 r)
      else if led_on = 1 then (0, 0, out 0xD6 0 r)
      else (led_on, 0, r)
    else (led_on, led_count, r)
  (s.1, (s.2.1 + 1) % 2 ^ 32, s.2.2)

/-- How a `while (1)` loop that contains `break` and `return` statements is left. -/
inductive LoopExit where
  /-- By `break`: the code after the loop runs. -/
  | brk
  /-- By `return`: the function is left. -/
  | ret
  /-- Not at all: the input ran out while the loop was waiting for the receiver. -/
  | stuck
  deriving DecidableEq, Repr

/-- The loop that fills the payload in `prom_send` (lines 1036-1039). -/
def prom_send_fill {σ : Type} (D : Device σ) (data : List Nat) (w : World σ) :
    List Nat × World σ :=
  (List.range sizeof_data).foldl
    (fun s off => let r := spi_send D 0 s.2; (s.1.set off r.1, r.2)) (data, w)

/-- The `while (1)` of `prom_send` (lines 1034-1068). Every turn that goes on has taken
an answer off `rx`, so the first argument, set to the length of `rx` plus one by the
caller, is never used up. -/
def prom_send_loop {σ : Type} (D : Device σ) (end_addr : Nat) :
    Nat → Nat → Nat → Nat → xmodem_block_t → World σ → LoopExit × xmodem_block_t × World σ
  | 0, _, _, _, block, w => (LoopExit.stuck, block, w)
  | fuel + 1, addr, led_on, led_count, block, w =>
    let f := prom_send_fill D block.data w
    match xmodem_send { block with data := f.1 } 1 f.2 with
    | (none, block, w) => (LoopExit.stuck, block, w)
    | (some r, block, w) =>
      if r < 0 then (LoopExit.ret, block, w)
      else
        let addr := (addr + sizeof_data) % 2 ^ 32
        if addr ≥ end_addr then (LoopExit.brk, block, { w with regs := out 0xD6 0 w.regs })
        else
          let l := led_blink led_on led_count w.regs
          prom_send_loop D end_addr fuel addr l.1 l.2.1 block { w with regs := l.2.2 }

/-- `prom_send()`: dump the device over xmodem. -/
def prom_send {σ : Type} (D : Device σ) (g : Globals) (w : World σ) :
    Option Unit × Globals × World σ :=
  match xmodem_init g.xmodem_block 1 w with
  | (none, block, w) => (none, { g with xmodem_block := block }, w)
  | (some r, block, w) =>
    if r < 0 then (some (), { g with xmodem_block := block }, w)
    else
      let end_addr := g.target_flash_size
      let w := spi_power 1 w
      let addr := 0
      let w := { w with regs := out 0xD6 1 w.regs }
      let w := spi_cs D 1 w
      let w := (spi_send D 0x03 w).2
      let w := (spi_send D (addr >>> 16) w).2
      let w := (spi_send D (addr >>> 8) w).2
      let w := (spi_send D (addr >>> 0) w).2
      match prom_send_loop D end_addr (w.rx.length + 1) addr 1 0 block w with
      | (LoopExit.stuck, block, w) => (none, { g with xmodem_block := block }, w)
      | (LoopExit.ret, block, w) => (some (), { g with xmodem_block := block }, w)
      | (LoopExit.brk, block, w) =>
        let w := spi_cs D 0 w
        let w := spi_power 0 w
        let r := xmodem_fini block w
        (r.1.map (fun _ => ()), { g with xmodem_block := block }, r.2)

/-- The busy-wait `while ((c = usb_serial_getchar()) == -1) ;` (lines 1153-1156). -/
def upload_getchar : List Int → Option Int × List Int
  | [] => (none, [])
  | c :: rest => if c = -1 then upload_getchar rest else (some c, rest)

/-- The loop that reads one chunk from the host in `spi_upload` (lines 1150-1158). The
flag tells whether all 128 bytes arrived. -/
def upload_read_chunk (buf : List Nat) (rx : List Int) : Bool × List Nat × List Int :=
  (List.range sizeof_data).foldl
    (fun s i =>
      if s.1 then
        match upload_getchar s.2.2 with
        | (none, rx) => (false, s.2.1, rx)
        | (some c, rx) => (true, s.2.1.set i (c % 256).toNat, rx)
      else s)
    (true, buf, rx)

/-- The loop that shifts one chunk out in `spi_upload` (lines 1177-1181). -/
def upload_send_chunk {σ : Type} (D : Device σ) (buf : List Nat) (bytes_uploaded : Nat)
    (w : World σ) : Nat × World σ :=
  (List.range sizeof_data).foldl
    (fun s i => ((s.1 + 1) % 2 ^ 32, (spi_send D (buf.getD i 0) s.2).2)) (bytes_uploaded, w)

/-- The `for (offset = 0 ; offset < len ; offset += chunk_size)` loop of `spi_upload`
(lines 1147-1210). `none`: the host data or the status polls ran out. Every turn takes
128 entries off `rx`, so the argument after `len` is never used up. -/
def spi_upload_loop {σ : Type} (D : Device σ) (polls len : Nat) :
    Nat → Nat → Nat → Nat → Nat → Globals → World σ → Option Unit × Globals × World σ
  | 0, _, _, _, _, g, w => (none, g, w)
  | fuel + 1, offset, addr, led_on, led_count, g, w =>
    if offset < len then
      let c := upload_read_chunk g.xmodem_block.data w.rx
      let g := { g with xmodem_block := { g.xmodem_block with data := c.2.1 } }
      let w := { w with rx := c.2.2 }
      if c.1 then
        let w := spi_write_enable D w
        let r2 := spi_status D w
        let w := spi_cs D 1 r2.2
        let w := (spi_send D 0x02 w).2
        let w := (spi_send D (addr >>> 16) w).2
        let w := (spi_send D (addr >>> 8) w).2
        let w := (spi_send D (addr >>> 0) w).2
        let u := upload_send_chunk D g.xmodem_block.data g.bytes_uploaded w
        let g := { g with bytes_uploaded := u.1 }
        let l := led_blink led_on led_count u.2.regs
        let w := { u.2 with regs := l.2.2 }
        let w := spi_cs D 0 w
        match spi_wait_wip D polls w with
        | (none, w) => (none, g, w)
        | (some _, w) =>
          spi_upload_loop D polls len fuel ((offset + sizeof_data) % 2 ^ 32)
            ((addr + sizeof_data) % 2 ^ 32) l.1 l.2.1 g w
      else (none, g, w)
    else (some (), g, w)

/-- The answer line of `spi_upload` (lines 1109-1130): `!` or `G`, then address and
length as seven hex digits each. -/
def spi_upload_outbuf (fail : Bool) (addr len : Nat) : List Nat :=
  [if fail then 33 else 71, 32,
   hexdigit (addr >>> 24), hexdigit (addr >>> 20), hexdigit (addr >>> 16),
   hexdigit (addr >>> 12), hexdigit (addr >>> 8), hexdigit (addr >>> 4),
   hexdigit (addr >>> 0), 32,
   hexdigit (len >>> 24), hexdigit (len >>> 20), hexdigit (len >>> 16),
   hexdigit (len >>> 12), hexdigit (len >>> 8), hexdigit (len >>> 4),
   hexdigit (len >>> 0), 13, 10]

/-- `spi_upload()`: write some number of pages into the PROM. -/
def spi_upload {σ : Type} (D : Device σ) (polls : Nat) (g : Globals) (w : World σ) :
    Option Unit × Globals × World σ :=
  let g := { g with bytes_uploaded := 0 }
  match usb_serial_readhex w with
  | (none, w) => (none, g, w)
  | (some addr, w) =>
    match usb_serial_readhex w with
    | (none, w) => (none, g, w)
    | (some len, w) =>
      let fail : Bool := (len &&& SPI_PAGE_MASK ≠ 0) || (addr &&& SPI_PAGE_MASK ≠ 0)
      let w := usb_serial_write (spi_upload_outbuf fail addr len) 19 w
      if fail then (some (), g, w)
      else
        let w := { w with regs := out 0xD6 1 w.regs }
        match spi_upload_loop D polls len (w.rx.length + 1) 0 addr 1 0 g w with
        | (none, g, w) => (none, g, w)
        | (some _, g, w) => (some (), g, send_str (cstr "done!\r\n") w)

/-! ## Vocabulary for the statements about `xmodem.c` -/

/-- The wire image of a block: what `usb_serial_write((void*) block, sizeof(*block))`
hands to the serial link. -/
def xmodem_frame (block : xmodem_block_t) : List Nat :=
  block.bytes.take sizeof_xmodem_block_t

/-- The block as `xmodem_send` leaves it. -/
def xmodem_sent_block (block : xmodem_block_t) : xmodem_block_t :=
  { block with
    cksum := xmodem_cksum block.data
    block_num := (block.block_num + 1) % 256
    block_num_complement := (0xFF - (block.block_num + 1) % 256) % 256 }

/-- The unsigned byte that `uint8_t c = usb_serial_getchar()` holds. -/
def rx_byte (r : Int) : Nat := (r % 256).toNat

/-- The block left by a run of `xmodem_send` calls on one block, the caller refilling
the payload before each call; every call has its own flag and meets its own world. -/
def xmodem_send_calls {σ : Type} (block : xmodem_block_t) :
    List (List Nat × Int × World σ) → xmodem_block_t
  | [] => block
  | c :: calls =>
    xmodem_send_calls (xmodem_send { block with data := c.1 } c.2.1 c.2.2).2.1 calls

/-- The retry loop of `xmodem_send` seen right after a transmission: wait for the answer
and go on from there. -/
def xmodem_send_resume {σ : Type} (block : xmodem_block_t) (wait_for_ack : Int)
    (fuel retry_count : Nat) (w1 : World σ) : Option Int × World σ :=
  match xmodem_send_wait wait_for_ack w1.rx with
  | (Reply.ret v, rest) => (some v, { w1 with rx := rest })
  | (Reply.again, rest) =>
    xmodem_send_loop block wait_for_ack fuel ((retry_count + 1) % 256) { w1 with rx := rest }
  | (Reply.starved, rest) => (none, { w1 with rx := rest })

/-- The value that `uint16_t c = usb_serial_getchar()` holds. -/
def rx_word (r : Int) : Nat := (r % 65536).toNat

/-- A device that answers every byte transaction with the same byte. -/
def const_device (v : Nat) : Device Unit where
  select := fun s _ => s
  xfer := fun s _ => (v, s)

/-- A world at power-up with the given serial input pending. -/
def World.start (rx : List Int) : World Unit :=
  { rx := rx, tx := [], dev := (), spi := [],
    regs := { PORTB := 0, PORTC := 0, PORTD := 0, PORTE := 0, PORTF := 0 } }

/-- A block with the given payload and all other fields zero. -/
def xmodem_block_t.zero (data : List Nat) : xmodem_block_t :=
  { soh := 0, block_num := 0, block_num_complement := 0, data := data, cksum := 0 }

/-- What `xmodem_send` makes of the receiver's answers `rx`, whatever the block: the
value returned, the number of times the frame is transmitted, and the answers left
unread. It is read off a run of the code on an empty block. -/
def xmodem_send_outcome (wait_for_ack : Int) (rx : List Int) : Option Int × Nat × List Int :=
  let r := xmodem_send_loop (xmodem_block_t.zero []) wait_for_ack 11 0 (World.start rx)
  (r.1, r.2.tx.length, r.2.rx)

/-- The bytes a device shifts out, and the state it ends in, when the bytes `mosi` are
shifted into it one after the other. -/
def Device.run {σ : Type} (D : Device σ) : σ → List Nat → List Nat × σ
  | s, [] => ([], s)
  | s, c :: mosi =>
    let r := D.xfer s (c % 256)
    let t := Device.run D r.2 mosi
    (r.1 % 256 :: t.1, t.2)

/-- The first `n` chunks of 128 bytes that a device shifts out while zeros are shifted
into it. -/
def Device.chunks {σ : Type} (D : Device σ) : σ → Nat → List (List Nat)
  | _, 0 => []
  | s, n + 1 =>
    (D.run s (List.replicate 128 0)).1 :: Device.chunks D (D.run s (List.replicate 128 0)).2 n

/-- The xmodem frame with sequence number `seq` and the given payload, as the
specification describes it: header 0x01, sequence, complement, payload, additive
checksum. -/
def spec_frame (seq : Nat) (payload : List Nat) : List Nat :=
  [0x01, seq % 256, 255 - seq % 256] ++ payload ++ [payload.sum % 256]

/-- The world in which the dump loop of `prom_send` starts: power and LED on, chip select
asserted, read command 0x03 with address 0 shifted out (lines 1019-1032). -/
def prom_send_start {σ : Type} (D : Device σ) (w : World σ) : World σ :=
  let w := spi_power 1 w
  let w := { w with regs := out 0xD6 1 w.regs }
  let w := spi_cs D 1 w
  let w := (spi_send D 0x03 w).2
  let w := (spi_send D (0 >>> 16) w).2
  let w := (spi_send D (0 >>> 8) w).2
  (spi_send D (0 >>> 0) w).2

/-- The state of a device after chip select has been asserted and the read command
0x03 with the three address bytes 00 00 00 has been shifted in. -/
def Device.after_read_cmd {σ : Type} (D : Device σ) (s : σ) : σ :=
  (D.run (D.select s true) [0x03, 0, 0, 0]).2

/-- The SPI log of one `spi_status()` call. -/
def status_events : List SpiEvent :=
  [SpiEvent.cs true, SpiEvent.byte 0x05, SpiEvent.byte 0x00, SpiEvent.cs false]

/-- The SPI log of the sector-erase command that `spi_erase_sector(addr)` shifts out. -/
def erase_events (addr : Nat) : List SpiEvent :=
  [SpiEvent.cs true, SpiEvent.byte 0x20, SpiEvent.byte ((addr >>> 16) % 256),
   SpiEvent.byte ((addr >>> 8) % 256), SpiEvent.byte (addr % 256), SpiEvent.cs false]

/-- State of the read-only flash model: whether it is selected, how many command bytes
it has taken since it was selected (counted up to 4), the opcode, and the address it
will read next. -/
structure RomState where
  selected : Bool
  phase : Nat
  opcode : Nat
  addr : Nat
  deriving DecidableEq, Repr

/-- A flash chip reduced to its read command, as the specification describes it: after
opcode 0x03 and three address bytes (most significant first) every further byte
transaction while the chip stays selected shifts out the byte at the current address,
and the address counts up. Bytes past the end of the image read as 0xFF. -/
def rom_device (image : List Nat) : Device RomState where
  select := fun s b =>
    if b then { selected := true, phase := 0, opcode := 0, addr := 0 }
    else { s with selected := false }
  xfer := fun s c =>
    if s.selected then
      if s.phase = 0 then (0xFF, { s with phase := 1, opcode := c })
      else if s.phase < 4 then (0xFF, { s with phase := s.phase + 1, addr := s.addr * 256 + c })
      else if s.opcode = 0x03 then (image.getD s.addr 0xFF, { s with addr := s.addr + 1 })
      else (0xFF, s)
    else (0xFF, s)

/-! ## Vocabulary for the statements about the flash commands -/

/-- What one `spi_status()` call does to a device: the status byte it reads and the state
the device is left in. -/
def Device.status_step {σ : Type} (D : Device σ) (s : σ) : Nat × σ :=
  let r := D.xfer (D.xfer (D.select s true) 0x05).2 0x00
  (r.1 % 256, D.select r.2 false)

/-- The next `k` status reads show Write-In-Progress (bit 0) set and the one after them
shows it clear. -/
def Device.busy_for {σ : Type} (D : Device σ) : Nat → σ → Prop
  | 0, s => (D.status_step s).1 &&& SPI_WIP = 0
  | k + 1, s => (D.status_step s).1 &&& SPI_WIP ≠ 0 ∧ Device.busy_for D k (D.status_step s).2

/-- The next `n` status reads all show Write-In-Progress set. -/
def Device.busy_through {σ : Type} (D : Device σ) : Nat → σ → Prop
  | 0, _ => True
  | n + 1, s => (D.status_step s).1 &&& SPI_WIP ≠ 0 ∧ Device.busy_through D n (D.status_step s).2

/-- The state of a device after `n` status reads. -/
def Device.after_polls {σ : Type} (D : Device σ) : Nat → σ → σ
  | 0, s => s
  | n + 1, s => Device.after_polls D n (D.status_step s).2

/-- The state of a device after one complete command: chip select asserted, the bytes
shifted in, chip select deasserted. -/
def Device.after_cmd {σ : Type} (D : Device σ) (s : σ) (bytes : List Nat) : σ :=
  D.select (D.run (D.select s true) bytes).2 false

/-- The three address bytes of a flash command, most significant first. -/
def addr_bytes (addr : Nat) : List Nat :=
  [(addr >>> 16) % 256, (addr >>> 8) % 256, addr % 256]


/-! ## probe.c: the password scanner -/

/-- `print_address(addr, newline)`: `0x`, six hex digits, and CR LF if asked for. -/
def print_address {σ : Type} (addr newline : Nat) (w : World σ) : World σ :=
  let addr_buf := [48, 120, hexdigit (addr >>> 20), hexdigit (addr >>> 16),
    hexdigit (addr >>> 12), hexdigit (addr >>> 8), hexdigit (addr >>> 4), hexdigit (addr >>> 0)]
  if newline ≠ 0 then usb_serial_write (addr_buf ++ [13, 10]) 10 w
  else usb_serial_write addr_buf 8 w

/-- The loop that reads one 256-byte window in `spi_locate_pwd` and `spi_erase_pwd`
(lines 560-563, 637-640). -/
def spi_read_window {σ : Type} (D : Device σ) (data : List Nat) (w : World σ) :
    List Nat × World σ :=
  (List.range 256).foldl (fun s i => let r := spi_send D 0 s.2; (s.1.set i r.1, r.2)) (data, w)

/-- The compare loop of `spi_locate_pwd` over one window (lines 581-591). -/
def spi_locate_pwd_scan {σ : Type} (data : List Nat) (start_addr : Nat) (w : World σ) :
    World σ :=
  (List.range 255).foldl
    (fun w i =>
      if data.getD i 0 = 0xFF ∧ data.getD (i + 1) 0 = 0x23 then
        if i < 254 ∧ data.getD (i + 2) 0 = 0x80 then
          print_address ((start_addr + i) % 2 ^ 32) 1
            (send_str (cstr "Found potential password at address: ") w)
        else w
      else w)
    w

/-- The `while (1)` of `spi_locate_pwd` (lines 558-597). The loop has no input to wait
for; the first argument bounds the number of windows and `none` is returned when it is
used up before `start_addr` reaches `end_addr`. -/
def spi_locate_pwd_loop {σ : Type} (D : Device σ) (end_addr : Nat) :
    Nat → Nat → Nat → Nat → List Nat → World σ → Option Unit × World σ
  | 0, _, _, _, _, w => (none, w)
  | fuel + 1, start_addr, led_on, led_count, data, w =>
    let f := spi_read_window D data w
    let l := led_blink led_on led_count f.2.regs
    let w := spi_locate_pwd_scan f.1 start_addr { f.2 with regs := l.2.2 }
    let start_addr := (start_addr + 256) % 2 ^ 32
    if start_addr ≥ end_addr then (some (), w)
    else spi_locate_pwd_loop D end_addr fuel start_addr l.1 l.2.1 f.1 w

/-- The world in which the scan loop of `spi_locate_pwd` starts (lines 541-556). -/
def spi_locate_pwd_start {σ : Type} (D : Device σ) (w : World σ) : World σ :=
  let start_addr := 0
  let w := spi_power 1 w
  let w := spi_cs D 1 w
  let w := (spi_send D 0x03 w).2
  let w := (spi_send D (start_addr >>> 16) w).2
  let w := (spi_send D (start_addr >>> 8) w).2
  let w := (spi_send D (start_addr >>> 0) w).2
  let w := { w with regs := out 0xD6 1 w.regs }
  send_str (cstr "Locating passwords...\r\n") w

/-- `spi_locate_pwd()`. The window buffer is uninitialised on entry and filled before it
is read; it starts as 256 zeros here. The loop bound is the number of windows in 8 MiB. -/
def spi_locate_pwd {σ : Type} (D : Device σ) (w : World σ) : Option Unit × World σ :=
  let start_addr := 0
  let end_addr := 8 <<< 20
  match spi_locate_pwd_loop D end_addr (end_addr / 256) start_addr 1 0 (List.replicate 256 0)
      (spi_locate_pwd_start D w) with
  | (none, w) => (none, w)
  | (some _, w) =>
    let w := send_str (cstr "All done!\r\n") w
    let w := spi_cs D 0 w
    (some (), spi_power 0 w)

/-- The serial output of one report of `spi_locate_pwd`: the message, one character per
write, and the address line. -/
def locate_report (a : Nat) : List (List Nat) :=
  (cstr "Found potential password at address: ").map (fun c => [c])
    ++ [[48, 120, hexdigit (a >>> 20), hexdigit (a >>> 16), hexdigit (a >>> 12),
         hexdigit (a >>> 8), hexdigit (a >>> 4), hexdigit (a >>> 0), 13, 10]]

/-- The addresses `start + 256 * j + i` at which the first `n` 256-byte windows of `img`
hold FF 23 80 at an offset `i` of at most 253, in increasing order. -/
def locate_hits_from (img : List Nat) (start n : Nat) : List Nat :=
  ((List.range n).map (fun j =>
    ((List.range 254).filter (fun i =>
        img.getD (256 * j + i) 0 = 0xFF ∧ img.getD (256 * j + i + 1) 0 = 0x23
          ∧ img.getD (256 * j + i + 2) 0 = 0x80)).map
      (fun i => start + 256 * j + i))).flatten

/-- The addresses in an 8 MiB image that the specification has `spi_locate_pwd` report. -/
def locate_hits (img : List Nat) : List Nat := locate_hits_from img 0 32768


/-- The SPI log of a read command at address 0: chip select, 03 00 00 00. -/
def read_cmd_events : List SpiEvent :=
  [SpiEvent.cs true, SpiEvent.byte 3, SpiEvent.byte 0, SpiEvent.byte 0, SpiEvent.byte 0]


def MAX_PWDS : Nat := 4
def FLASH_SUBSECTOR_SIZE : Nat := 4096
def FLASH_SUBSECTOR_MASK : Nat := FLASH_SUBSECTOR_SIZE - 1

/-- The LED blink block of `spi_erase_pwd` (lines 642-656): as `led_blink`, with a period
of 0x1000 turns. -/
def led_blink_slow (led_on led_count : Nat) (r : Regs) : Nat × Nat × Regs :=
  let s : Nat × Nat × Regs :=
    if led_count = 0x1000 then
      if led_on = 0 then (1, 0, out 0xD6 1 r)
      else if led_on = 1 then (0, 0, out 0xD6 0 r)
      else (led_on, 0, r)
    else (led_on, led_count, r)
  (s.1, (s.2.1 + 1) % 2 ^ 32, s.2.2)

/-- The store `pwd_addr[i] = v` of line 667 into `uint32_t pwd_addr[MAX_PWDS]`. The
store comes before the test `pwd_count > MAX_PWDS` of line 669, so a fifth match stores
at index 4, one past the last entry. In C the behaviour is undefined from that store on.
Here the array, which has no such entry, is left as it is and the run goes on to the test
of line 669, as the code does when the four bytes behind the array are no object that the
function still uses. Up to that store the model follows the C semantics; for an image
with at most four matches the store is never out of bounds. `spi_erase_pwd_stores` gives
the indices stored to. -/
def pwd_addr_store (pwd_addr : List Nat) (i v : Nat) : List Nat :=
  if i < pwd_addr.length then pwd_addr.set i v
  else pwd_addr

/-- The compare loop of `spi_erase_pwd` over one window (lines 658-675). The state is
whether the function is still running (`false` once the `return` of line 671 is taken),
the array `pwd_addr` and the counter `pwd_count`. `~FLASH_SUBSECTOR_MASK` is 0xFFFFF000 in
the 32 bits of `start_addr`. The store of line 667 is `pwd_addr_store`: with a fifth
match it is out of bounds, and what is computed from there on (the `false` of the
`return`) follows the model of that store, not the C semantics. -/
def spi_erase_pwd_scan (data : List Nat) (start_addr : Nat) (s : Bool × List Nat × Nat) :
    Bool × List Nat × Nat :=
  (List.range 255).foldl
    (fun s i =>
      if s.1 then
        if data.getD i 0 = 0xFF ∧ data.getD (i + 1) 0 = 0x23 then
          if i < 253 ∧ data.getD (i + 2) 0 = 0x80 ∧ data.getD (i + 3) 0 = 0x4E then
            let pwd_addr :=
              pwd_addr_store s.2.1 s.2.2 (start_addr &&& (2 ^ 32 - 1 - FLASH_SUBSECTOR_MASK))
            let pwd_count := (s.2.2 + 1) % 256
            if pwd_count > MAX_PWDS then (false, pwd_addr, pwd_count)
            else (true, pwd_addr, pwd_count)
          else s
        else s
      else s)
    s

/-- The `while (1)` of `spi_erase_pwd` (lines 635-681). The loop has no input to wait
for; the first argument bounds the number of windows. -/
def spi_erase_pwd_loop {σ : Type} (D : Device σ) (end_addr : Nat) :
    Nat → Nat → Nat → Nat → List Nat → List Nat → Nat → World σ →
      LoopExit × List Nat × Nat × World σ
  | 0, _, _, _, _, pwd_addr, pwd_count, w => (LoopExit.stuck, pwd_addr, pwd_count, w)
  | fuel + 1, start_addr, led_on, led_count, data, pwd_addr, pwd_count, w =>
    let f := spi_read_window D data w
    let l := led_blink_slow led_on led_count f.2.regs
    let w := { f.2 with regs := l.2.2 }
    let s := spi_erase_pwd_scan f.1 start_addr (true, pwd_addr, pwd_count)
    if s.1 then
      let start_addr := (start_addr + 256) % 2 ^ 32
      if start_addr ≥ end_addr then (LoopExit.brk, s.2.1, s.2.2, w)
      else spi_erase_pwd_loop D end_addr fuel start_addr l.1 l.2.1 f.1 s.2.1 s.2.2 w
    else (LoopExit.ret, s.2.1, s.2.2, w)

/-- The world in which the scan loop of `spi_erase_pwd` starts (lines 615-633). -/
def spi_erase_pwd_start {σ : Type} (D : Device σ) (w : World σ) : World σ :=
  let start_addr := 0
  let w := spi_power 1 w
  let w := spi_cs D 1 w
  let w := (spi_send D 0x03 w).2
  let w := (spi_send D (start_addr >>> 16) w).2
  let w := (spi_send D (start_addr >>> 8) w).2
  let w := (spi_send D (start_addr >>> 0) w).2
  let w := send_str (cstr "Locating passwords...\r\n") w
  { w with regs := out 0xD6 1 w.regs }

/-- The final loop of `spi_erase_pwd` (lines 689-695): erase the recorded sectors. -/
def spi_erase_pwd_erase {σ : Type} (D : Device σ) (polls : Nat) (pwd_addr : List Nat)
    (pwd_count : Nat) (w : World σ) : Option Unit × World σ :=
  (List.range pwd_count).foldl
    (fun s i =>
      match s.1 with
      | none => s
      | some _ =>
        let w := send_str (cstr "Clearing password from address: ") s.2
        let w := print_address (pwd_addr.getD i 0) 1 w
        let w := spi_write_enable D w
        spi_erase_sector D polls (pwd_addr.getD i 0) w)
    (some (), w)

/-- The part of `spi_erase_pwd` after the scan loop (lines 683-696), given how the loop
ended. -/
def spi_erase_pwd_finish {σ : Type} (D : Device σ) (polls : Nat) :
    LoopExit × List Nat × Nat × World σ → Option Unit × World σ
  | (LoopExit.stuck, _, _, w) => (none, w)
  | (LoopExit.ret, _, _, w) => (some (), w)
  | (LoopExit.brk, pwd_addr, pwd_count, w) =>
    let w := spi_cs D 0 w
    let w := spi_power 0 w
    let w := send_str (cstr "Erasing passwords...\r\n") w
    match spi_erase_pwd_erase D polls pwd_addr pwd_count w with
    | (none, w) => (none, w)
    | (some _, w) => (some (), send_str (cstr "All done!\r\n") w)

/-- `spi_erase_pwd()`. The window buffer starts as 256 zeros, as in `spi_locate_pwd`. -/
def spi_erase_pwd {σ : Type} (D : Device σ) (polls : Nat) (w : World σ) :
    Option Unit × World σ :=
  if MAX_PWDS > 255 then (some (), w)
  else
    spi_erase_pwd_finish D polls
      (spi_erase_pwd_loop D (8 <<< 20) ((8 <<< 20) / 256) 0 1 0 (List.replicate 256 0)
        (List.replicate MAX_PWDS 0) 0 (spi_erase_pwd_start D w))

/-- The addresses `start + 256 * j + i` at which the first `n` 256-byte windows of `img`
hold FF 23 80 4E at an offset `i` of at most 252, in increasing order. -/
def erase_matches_from (img : List Nat) (start n : Nat) : List Nat :=
  ((List.range n).map (fun j =>
    ((List.range 253).filter (fun i =>
        img.getD (256 * j + i) 0 = 0xFF ∧ img.getD (256 * j + i + 1) 0 = 0x23
          ∧ img.getD (256 * j + i + 2) 0 = 0x80 ∧ img.getD (256 * j + i + 3) 0 = 0x4E)).map
      (fun i => start + 256 * j + i))).flatten

/-- The signature matches of `spi_erase_pwd` in an 8 MiB image. -/
def erase_matches (img : List Nat) : List Nat := erase_matches_from img 0 32768

/-- An address with its low 12 bits cleared: the start of its 4 KiB sector. -/
def sector_of (a : Nat) : Nat := a / 4096 * 4096

/-- The SPI log of one `spi_write_enable()` call: a status read, then opcode 0x06. -/
def write_enable_events : List SpiEvent :=
  status_events ++ [SpiEvent.cs true, SpiEvent.byte 0x06, SpiEvent.cs false]

/-- A device that, from any state, shows WIP clear after fewer than `polls` status
reads. -/
def Device.ready_within {σ : Type} (D : Device σ) (polls : Nat) : Prop :=
  ∀ s : σ, ∃ k, k < polls ∧ D.busy_for k s

/-- One store of the compare loop of `spi_erase_pwd`: `pwd_addr[pwd_count++] = v`, then
the test against `MAX_PWDS`. -/
def pwd_store (v : Nat) (s : Bool × List Nat × Nat) : Bool × List Nat × Nat :=
  if (s.2.2 + 1) % 256 > MAX_PWDS then (false, pwd_addr_store s.2.1 s.2.2 v, (s.2.2 + 1) % 256)
  else (true, pwd_addr_store s.2.1 s.2.2 v, (s.2.2 + 1) % 256)


/-- The serial output for one erased sector of `spi_erase_pwd`: the message, one
character per write, and the address line. -/
def clear_report (a : Nat) : List (List Nat) :=
  (cstr "Clearing password from address: ").map (fun c => [c])
    ++ [[48, 120, hexdigit (a >>> 20), hexdigit (a >>> 16), hexdigit (a >>> 12),
         hexdigit (a >>> 8), hexdigit (a >>> 4), hexdigit (a >>> 0), 13, 10]]

/-- The SPI log of one turn of the final loop of `spi_erase_pwd` for the sector at `a`,
when the device shows WIP set `k` times after the erase command. -/
def clear_events (a k : Nat) : List SpiEvent :=
  write_enable_events ++ erase_events a ++ (List.replicate (k + 1) status_events).flatten

/-- `spi_erase_block(addr)`: opcode 0xD8 and three address bytes, then the busy-wait. -/
def spi_erase_block {σ : Type} (D : Device σ) (polls : Nat) (addr : Nat) (w : World σ) :
    Option Unit × World σ :=
  let w := spi_cs D 1 w
  let w := (spi_send D 0xD8 w).2
  let w := (spi_send D (addr >>> 16) w).2
  let w := (spi_send D (addr >>> 8) w).2
  let w := (spi_send D (addr >>> 0) w).2
  let w := spi_cs D 0 w
  spi_wait_wip D polls w

/-- The `for (int i = 0; i < 128; i++)` loop of `spi_bulk_erase_MX25L64` (lines 743-758).
The state is whether the function is still running (`none` once a busy-wait did not
end), `addr`, and the world. -/
def spi_bulk_erase_MX25L64_loop {σ : Type} (D : Device σ) (polls : Nat) (w : World σ) :
    Option Unit × Nat × World σ :=
  (List.range 128).foldl
    (fun s _ =>
      match s.1 with
      | none => s
      | some _ =>
        let addr := s.2.1
        let w := spi_write_enable D s.2.2
        let w := spi_cs D 1 w
        let w := (spi_send D 0xD8 w).2
        let w := (spi_send D (addr >>> 16) w).2
        let w := (spi_send D (addr >>> 8) w).2
        let w := (spi_send D (addr >>> 0) w).2
        let w := spi_cs D 0 w
        match spi_wait_wip D polls w with
        | (none, w) => (none, addr, w)
        | (some _, w) => (some (), (addr + 65536) % 2 ^ 32, w))
    (some (), 0, w)

/-- `spi_bulk_erase_MX25L64()`. -/
def spi_bulk_erase_MX25L64 {σ : Type} (D : Device σ) (polls : Nat) (w : World σ) :
    Option Unit × World σ :=
  match spi_bulk_erase_MX25L64_loop D polls
      (send_str (cstr "Starting Macronix MX25L64 bulk erase...\r\n") w) with
  | (none, _, w) => (none, w)
  | (some _, _, w) => (some (), spi_power 0 w)

/-- The `for (int i = 0; i < 128; i++)` loop of `spi_zap_8mb` (lines 855-860). -/
def spi_zap_8mb_loop {σ : Type} (D : Device σ) (polls : Nat) (w : World σ) :
    Option Unit × Nat × World σ :=
  (List.range 128).foldl
    (fun s _ =>
      match s.1 with
      | none => s
      | some _ =>
        let addr := s.2.1
        let w := spi_write_enable D s.2.2
        match spi_erase_block D polls addr w with
        | (none, w) => (none, addr, w)
        | (some _, w) => (some (), (addr + 65536) % 2 ^ 32, w))
    (some (), 0, w)

/-- `spi_zap_8mb()`. The 16-byte buffer holds `done!`, CR, LF and zeros; 8 bytes of it
are written. -/
def spi_zap_8mb {σ : Type} (D : Device σ) (polls : Nat) (w : World σ) :
    Option Unit × World σ :=
  match spi_zap_8mb_loop D polls w with
  | (none, _, w) => (none, w)
  | (some _, _, w) =>
    let buf := cstr "done!\r\n" ++ List.replicate 9 0
    (some (), usb_serial_write buf 8 w)

/-- The loop that fills the 64-byte buffer of `spi_dump` (lines 987-990). -/
def spi_dump_fill {σ : Type} (D : Device σ) (buf : List Nat) (w : World σ) :
    List Nat × World σ :=
  (List.range 64).foldl (fun s off => let r := spi_send D 0 s.2; (s.1.set off r.1, r.2)) (buf, w)

/-- The `while (1)` of `spi_dump` (lines 983-1000). The loop has no input to wait for; the
first argument bounds the number of turns. -/
def spi_dump_loop {σ : Type} (D : Device σ) (end_addr : Nat) :
    Nat → Nat → List Nat → World σ → Option Unit × World σ
  | 0, _, _, w => (none, w)
  | fuel + 1, addr, buf, w =>
    let f := spi_dump_fill D buf w
    let w := usb_serial_write f.1 64 f.2
    let addr := (addr + 64) % 2 ^ 32
    if addr ≥ end_addr then (some (), w)
    else spi_dump_loop D end_addr fuel addr f.1 w

/-- The world in which the loop of `spi_dump` starts (lines 970-981). -/
def spi_dump_start {σ : Type} (D : Device σ) (w : World σ) : World σ :=
  let w := spi_power 1 w
  let addr := 0
  let w := spi_cs D 1 w
  let w := (spi_send D 0x03 w).2
  let w := (spi_send D (addr >>> 16) w).2
  let w := (spi_send D (addr >>> 8) w).2
  (spi_send D (addr >>> 0) w).2

/-- The part of `spi_dump` after the loop (lines 1001-1003), given how the loop ended. -/
def spi_dump_finish {σ : Type} (D : Device σ) : Option Unit × World σ → Option Unit × World σ
  | (none, w) => (none, w)
  | (some _, w) =>
    let w := spi_cs D 0 w
    (some (), spi_power 0 w)

/-- `spi_dump()`: read the ROM out to the serial port. The buffer is uninitialised on
entry and filled before it is written; it starts as 64 zeros here. The end address is
`8L << 20`; the loop bound is the number of 64-byte turns in it. -/
def spi_dump {σ : Type} (D : Device σ) (w : World σ) : Option Unit × World σ :=
  spi_dump_finish D
    (spi_dump_loop D (8 <<< 20) ((8 <<< 20) / 64) 0 (List.replicate 64 0)
      (spi_dump_start D w))

/-- The menu of `spi_change_flash_size` (lines 1452-1462). -/
def spi_change_flash_size_menu {σ : Type} (w : World σ) : World σ :=
  let w := send_str (cstr "Select target flash size:\r\n") w
  let w := send_str (cstr "0 - 1MB (8 Mbit)\r\n") w
  let w := send_str (cstr "1 - 2MB (16 Mbit)\r\n") w
  let w := send_str (cstr "2 - 4MB (32 Mbit)\r\n") w
  let w := send_str (cstr "3 - 8MB (64 Mbit)\r\n") w
  let w := send_str (cstr "4 - 16MB (128 Mbit)\r\n") w
  let w := send_str (cstr "5 - 32MB (256 Mbit)\r\n") w
  let w := send_str (cstr "6 - 64K (512 Kbit)\r\n") w
  let w := send_str (cstr "7 - 128K (1 Mbit)\r\n") w
  let w := send_str (cstr "8 - 256K (2 Mbit)\r\n") w
  send_str (cstr "\r\nDefault is 64 Mbit\r\n") w

/-- `spi_change_flash_size()`. -/
def spi_change_flash_size {σ : Type} (g : Globals) (w : World σ) :
    Option Unit × Globals × World σ :=
  let w := spi_change_flash_size_menu w
  match usb_serial_readhex w with
  | (none, w) => (none, g, w)
  | (some size, w) =>
    match size with
    | 0 => (some (), { g with target_flash_size := 1 <<< 20 }, w)
    | 1 => (some (), { g with target_flash_size := 2 <<< 20 }, w)
    | 2 => (some (), { g with target_flash_size := 4 <<< 20 }, w)
    | 3 => (some (), { g with target_flash_size := 8 <<< 20 }, w)
    | 4 => (some (), { g with target_flash_size := 16 <<< 20 }, w)
    | 5 => (some (), { g with target_flash_size := 32 <<< 20 }, w)
    | 6 => (some (), { g with target_flash_size := 1 <<< 16 }, w)
    | 7 => (some (), { g with target_flash_size := 1 <<< 17 }, w)
    | 8 => (some (), { g with target_flash_size := 1 <<< 18 }, w)
    | _ => (some (), g, send_str (cstr "ERROR: Invalid target size selected.\r\n") w)

/-- The file-scope variables as their initialisers leave them (lines 72-76): the block
and the counter are zero, the target flash size is 8 MiB. -/
def Globals.init : Globals :=
  { xmodem_block := xmodem_block_t.zero (List.replicate 128 0)
    bytes_uploaded := 0
    target_flash_size := 8 <<< 20 }

/-- The values of the file-scope variables that the firmware can reach. They start from
their initialisers. `spi_change_flash_size` is the only function that assigns
`target_flash_size` (lines 1468-1499); every other command leaves it alone and may leave
any value in the block and in the counter. -/
inductive Globals.reachable : Globals → Prop
  | init : Globals.reachable Globals.init
  | change_flash_size {σ : Type} (g : Globals) (w : World σ) :
      Globals.reachable g → Globals.reachable (spi_change_flash_size g w).2.1
  | other (g : Globals) (block : xmodem_block_t) (n : Nat) :
      Globals.reachable g →
      Globals.reachable { g with xmodem_block := block, bytes_uploaded := n }

/-- The SPI log of the block-erase command that `spi_erase_block(addr)` shifts out. -/
def block_erase_events (addr : Nat) : List SpiEvent :=
  [SpiEvent.cs true, SpiEvent.byte 0xD8, SpiEvent.byte ((addr >>> 16) % 256),
   SpiEvent.byte ((addr >>> 8) % 256), SpiEvent.byte (addr % 256), SpiEvent.cs false]

/-- The SPI log of one turn of the block-erase loops for the block at `a`, when the
device shows WIP set `k` times after the erase command: write-enable, block erase, status
polls. -/
def block_events (a k : Nat) : List SpiEvent :=
  write_enable_events ++ block_erase_events a ++ (List.replicate (k + 1) status_events).flatten

/-- The first `n` chunks of 64 bytes that a device shifts out while zeros are shifted
into it. -/
def Device.chunks64 {σ : Type} (D : Device σ) : σ → Nat → List (List Nat)
  | _, 0 => []
  | s, n + 1 =>
    (D.run s (List.replicate 64 0)).1 :: Device.chunks64 D (D.run s (List.replicate 64 0)).2 n

/-- The nine presets of `spi_change_flash_size`, by the number entered. -/
def flash_size_presets : List Nat :=
  [1048576, 2097152, 4194304, 8388608, 16777216, 33554432, 65536, 131072, 262144]

/-- The `PINx` input registers of the AVR that `bits.h` can address. -/
structure Pins where
  PINB : Nat
  PINC : Nat
  PIND : Nat
  PINE : Nat
  PINF : Nat
  deriving DecidableEq, Repr

/-- The macro `bit_is_set(sfr, bit)` of avr-libc: `sfr & (1 << bit)`, with `sfr` an 8-bit
register and the shift taken in the 16-bit `int` of the AVR. -/
def bit_is_set (sfr bit : Nat) : Nat := (sfr % 256) &&& ((1 <<< bit) % 65536)

/-- The macro `BITS_FOR_ALL(PIN, return bit_is_set, port, pin)`: `some` is the value
returned from inside the switch, `none` when no case matches. -/
def BITS_FOR_ALL_PIN (port pin : Nat) (p : Pins) : Option Nat :=
  match port with
  | 0xB => some (bit_is_set p.PINB pin)
  | 0xC => some (bit_is_set p.PINC pin)
  | 0xD => some (bit_is_set p.PIND pin)
  | 0xE => some (bit_is_set p.PINE pin)
  | 0xF => some (bit_is_set p.PINF pin)
  | _ => none

/-- `__inline_in(id)`: the value is returned as a `uint8_t`; `return -1` is 255. -/
def __inline_in (id : Nat) (p : Pins) : Nat :=
  let port := (id >>> 4) &&& 0xF
  let pin := (id >>> 0) &&& 0xF
  match BITS_FOR_ALL_PIN port pin p with
  | some v => v % 256
  | none => 255

/-- `__bits_in(id)` of `bits.c`. -/
def __bits_in (id : Nat) (p : Pins) : Nat := __inline_in id p

/-- The function `in(port)` of `bits.h` (lines 170-179; `in` is a keyword here).
`constant` is the value of the test `__builtin_constant_p(port)`, which the compiler
decides for each call: the inline version is taken when it holds and `__bits_in` of
`bits.c` otherwise. -/
def in_ (port : Nat) (p : Pins) (constant : Bool := true) : Nat :=
  if constant then __inline_in port p
  else __bits_in port p

/-- A register bank in loopback: every `PINx` register reads back its `PORTx`
register. -/
def Regs.loopback (r : Regs) : Pins :=
  { PINB := r.PORTB, PINC := r.PORTC, PIND := r.PORTD, PINE := r.PORTE, PINF := r.PORTF }

/-- The `PORTx` register that a port nibble addresses; 0 for a nibble outside B .. F. -/
def Regs.port (r : Regs) (port : Nat) : Nat :=
  match port with
  | 0xB => r.PORTB
  | 0xC => r.PORTC
  | 0xD => r.PORTD
  | 0xE => r.PORTE
  | 0xF => r.PORTF
  | _ => 0

/-- Whether a byte from the serial link is an ASCII hex digit, of either case. -/
def is_hex (c : Int) : Bool :=
  (48 ≤ c ∧ c ≤ 57) ∨ (65 ≤ c ∧ c ≤ 70) ∨ (97 ≤ c ∧ c ≤ 102)

/-- The value of an ASCII hex digit: `0` .. `9` are 0 .. 9, `A` .. `F` and `a` .. `f`
are 10 .. 15. -/
def hex_digit_value (c : Int) : Nat :=
  if 48 ≤ c ∧ c ≤ 57 then (c - 48).toNat
  else if 65 ≤ c ∧ c ≤ 70 then (c - 55).toNat
  else (c - 87).toNat

/-- The value of a digit string read as a base-16 number, most significant digit
first. -/
def hex_value (digits : List Int) : Nat :=
  digits.foldl (fun v c => 16 * v + hex_digit_value c) 0

/-- The upper-case spelling of a hex digit. -/
def hex_upper (c : Int) : Int := if 97 ≤ c ∧ c ≤ 102 then c - 32 else c

/-- The lower-case spelling of a hex digit. -/
def hex_lower (c : Int) : Int := if 65 ≤ c ∧ c ≤ 70 then c + 32 else c

/-! ## The simulated flash device -/

/-- State of the flash model: the byte at every address, the write-enable latch, whether
a program or erase is in progress, whether the chip is selected, and the bytes shifted in
since it was selected, oldest first. -/
structure FlashState where
  mem : Nat → Nat
  wel : Bool
  busy : Bool
  selected : Bool
  cmd : List Nat

/-- The 24-bit address in the three bytes that follow an opcode. -/
def flash_addr (args : List Nat) : Nat :=
  (args.getD 0 0 % 256) * 65536 + (args.getD 1 0 % 256) * 256 + args.getD 2 0 % 256

/-- The status register of the flash model: WIP is bit 0, WEL is bit 1. -/
def flash_status (s : FlashState) : Nat :=
  (if s.busy then 1 else 0) + (if s.wel then 2 else 0)

/-- Page program: the bytes are written from `addr` on, wrapping inside the 256-byte
page of `addr`; a written byte is the old byte AND the data byte, so programming can only
clear bits. At most 256 bytes are taken. -/
def flash_program (mem : Nat → Nat) (addr : Nat) (data : List Nat) : Nat → Nat :=
  fun a =>
    if a / 256 = addr / 256 ∧ (a + 256 - addr % 256) % 256 < data.length then
      mem a &&& (data.getD ((a + 256 - addr % 256) % 256) 0xFF % 256)
    else mem a

/-- Erase of the `size`-byte unit that holds `addr`: every byte of it becomes 0xFF. -/
def flash_erase (mem : Nat → Nat) (size addr : Nat) : Nat → Nat :=
  fun a => if a / size = addr / size then 0xFF else mem a

/-- What the flash model does when chip select is released, by the command it was
given: 0x06 sets the write-enable latch and 0x04 clears it; page program (0x02), sector
erase (0x20) and block erase (0xD8) act only with the latch set and no operation in
progress, clear the latch and leave the chip busy. -/
def flash_commit (s : FlashState) : FlashState :=
  match s.cmd with
  | [0x06] => { s with selected := false, cmd := [], wel := true }
  | [0x04] => { s with selected := false, cmd := [], wel := false }
  | 0x02 :: a2 :: a1 :: a0 :: d :: data =>
    if s.wel ∧ ¬ s.busy then
      { mem := flash_program s.mem (flash_addr [a2, a1, a0]) (d :: data)
        wel := false, busy := true, selected := false, cmd := [] }
    else { s with selected := false, cmd := [] }
  | [0x20, a2, a1, a0] =>
    if s.wel ∧ ¬ s.busy then
      { mem := flash_erase s.mem 4096 (flash_addr [a2, a1, a0])
        wel := false, busy := true, selected := false, cmd := [] }
    else { s with selected := false, cmd := [] }
  | [0xD8, a2, a1, a0] =>
    if s.wel ∧ ¬ s.busy then
      { mem := flash_erase s.mem 65536 (flash_addr [a2, a1, a0])
        wel := false, busy := true, selected := false, cmd := [] }
    else { s with selected := false, cmd := [] }
  | _ => { s with selected := false, cmd := [] }

/-- A simulated flash chip. Erased bytes are 0xFF. While selected it takes an opcode and
its arguments: a status read (0x05) shifts out the status register, and an operation in
progress ends with the first status read that reports it; a read (0x03 and three address
bytes) shifts out the byte at the address and counts the address up, within 24 bits; the
write commands act when chip select is released. -/
def flash_device : Device FlashState where
  select := fun s b =>
    if b then { s with selected := true, cmd := [] }
    else if s.selected then flash_commit s
    else s
  xfer := fun s c =>
    if s.selected then
      match s.cmd with
      | [] => (0xFF, { s with cmd := [c] })
      | op :: args =>
        if op = 0x05 then (flash_status s, { s with cmd := s.cmd ++ [c], busy := false })
        else if op = 0x03 ∧ 3 ≤ args.length then
          (s.mem ((flash_addr args + (args.length - 3)) % 2 ^ 24) % 256,
            { s with cmd := s.cmd ++ [c] })
        else (0xFF, { s with cmd := s.cmd ++ [c] })
    else (0xFF, s)

/-- A flash chip at rest: not selected, latch clear, nothing in progress. -/
def FlashState.idle (mem : Nat → Nat) : FlashState :=
  { mem := mem, wel := false, busy := false, selected := false, cmd := [] }

/-- The bytes that a device shifts out when it is selected and given the read command
0x03 with the address `addr`, followed by `n` dummy bytes. -/
def Device.read_back {σ : Type} (D : Device σ) (s : σ) (addr n : Nat) : List Nat :=
  (D.run (D.run (D.select s true) (0x03 :: addr_bytes addr)).2 (List.replicate n 0)).1

/-- The SPI log of one page-program command: chip select, opcode 0x02, three address
bytes, the data bytes, chip select released. -/
def program_events (addr : Nat) (data : List Nat) : List SpiEvent :=
  [SpiEvent.cs true, SpiEvent.byte 0x02, SpiEvent.byte ((addr >>> 16) % 256),
   SpiEvent.byte ((addr >>> 8) % 256), SpiEvent.byte (addr % 256)]
    ++ data.map (fun b => SpiEvent.byte (b % 256)) ++ [SpiEvent.cs false]

/-- Memory after `data` has been programmed from `addr` on: every byte of the range is
the old byte AND the data byte. -/
def flash_write (mem : Nat → Nat) (addr : Nat) (data : List Nat) : Nat → Nat :=
  fun a => if addr ≤ a ∧ a < addr + data.length then mem a &&& data.getD (a - addr) 0 else mem a

/-- An erased flash chip and the input of an operator who enters address 0 and length
1000 (hex), each ended by CR, and of a host that then sends 4096 bytes 0x5A. -/
def upload_example : World FlashState :=
  { rx := [48, 13] ++ ([49, 48, 48, 48, 13]
            ++ ((List.replicate 4096 0x5A).map (fun x : Nat => (x : Int)) ++ []))
    tx := [], dev := FlashState.idle (fun _ => 0xFF), spi := []
    regs := { PORTB := 0, PORTC := 0, PORTD := 0, PORTE := 0, PORTF := 0 } }

/-- A flash chip whose first sector holds the password signature FF 23 80 4E twice, at
addresses 0 and 4, and zeros elsewhere. -/
def pwd_example : World FlashState :=
  { rx := [], tx := []
    dev := FlashState.idle
      (fun a => ([0xFF, 0x23, 0x80, 0x4E, 0xFF, 0x23, 0x80, 0x4E] ++ List.replicate 248 0).getD a 0)
    spi := []
    regs := { PORTB := 0, PORTC := 0, PORTD := 0, PORTE := 0, PORTF := 0 } }

/-! ## `probe.c`: chip identification -/

/-- `spi_runiqueid()` (lines 262-281): one length byte, which is not used, then 16 bytes
into the static array `uniqueid`. Every entry of the array is written before the function
returns, so the array starts from its initialiser here. -/
def spi_runiqueid {σ : Type} (D : Device σ) (w : World σ) : List Nat × World σ :=
  let r := spi_send D 0x1 w
  (List.range 16).foldl
    (fun s i => let r := spi_send D 0x1 s.2; (s.1.set i r.1, r.2)) (List.replicate 16 0, r.2)

/-- The `switch (b1)` of `spi_rdid` (lines 315-340): the string handed to `send_str`. -/
def spi_rdid_manufacturer (b1 : Nat) : List Nat :=
  if b1 = 0x20 then cstr "Micron "
  else if b1 = 0xC2 then cstr "Macronix "
  else if b1 = 0x01 then cstr "Spansion "
  else if b1 = 0xEF then cstr "Winbond "
  else if b1 = 0x1C then cstr "Eon "
  else if b1 = 0xBF then cstr "SST "
  else if b1 = 0x7F then cstr "pFLASH "
  else cstr "Unknown manufacturer "

/-- The chain of tests on the device id in `spi_rdid` (lines 341-400): the string handed
to `send_str`. -/
def spi_rdid_chip (b1 b2 b3 : Nat) : List Nat :=
  if b2 = 0xBA ∧ b3 = 0x17 then cstr "N25Q064A\r\n"
  else if b2 = 0x20 ∧ b3 = 0x17 then cstr "MX25L6406E\r\n"
  else if b2 = 0x20 ∧ b3 = 0x14 then cstr "MX25L8006E (8 Mbit)\r\n"
  else if b2 = 0x20 ∧ b3 = 0x15 then cstr "MX25L1606E (16 Mbit)\r\n"
  else if b2 = 0x20 ∧ b3 = 0x18 then cstr "S25FL128S/P\r\n"
  else if b2 = 0x2 ∧ b3 = 0x19 then cstr "S25FL256S/P\r\n"
  else if b2 = 0x15 ∧ b3 = 0x20 then cstr "EN25P16\r\n"
  else if b2 = 0x25 ∧ b3 = 0x8D then cstr "SST25VF040B (4 Mbit)\r\n"
  else if b2 = 0x25 ∧ b3 = 0x8E then cstr "SST25VF080B (8 Mbit)\r\n"
  else if b2 = 0x25 ∧ b3 = 0x41 then cstr "SST25VF016B (16 Mbit)\r\n"
  else if b2 = 0x25 ∧ b3 = 0x4A then cstr "SST25VF032B (32 Mbit)\r\n"
  else if b1 = 0x7F ∧ b2 = 0x9D ∧ b3 = 0x20 then cstr "Pm25LD512 (512 Kbit)\r\n"
  else if b1 = 0x7F ∧ b2 = 0x9D ∧ b3 = 0x21 then cstr "Pm25LD010 (1 Mbit)\r\n"
  else if b1 = 0x7F ∧ b2 = 0x9D ∧ b3 = 0x22 then cstr "Pm25LD020 (2 Mbit)\r\n"
  else cstr "unknown chip\r\n"

/-- The buffer `buf` of `spi_rdid` while it is filled: the memory from the first byte of
`buf` on (the 32 bytes of the array, then what lies after it), the counter `off`, and the
indices at which `buf[off++] = ...` has stored so far. -/
structure RdidBuf where
  mem : List Nat
  off : Nat
  stores : List Nat
  deriving DecidableEq, Repr

/-- One `buf[off++] = v` of `spi_rdid`; `off` is a `uint8_t`. -/
def RdidBuf.put (b : RdidBuf) (v : Nat) : RdidBuf :=
  { mem := b.mem.set b.off (v % 256), off := (b.off + 1) % 256, stores := b.stores ++ [b.off] }

/-- The part of `spi_rdid` that fills `buf` (lines 402-426). `past` is the memory that
follows the 32 bytes of `char buf[32] = {0}`. -/
def spi_rdid_fill (b1 b2 b3 : Nat) (uniqueid past : List Nat) : RdidBuf :=
  let b : RdidBuf := { mem := List.replicate 32 0 ++ past, off := 0, stores := [] }
  let b := b.put (hexdigit (b1 >>> 4))
  let b := b.put (hexdigit (b1 >>> 0))
  let b := b.put (hexdigit (b2 >>> 4))
  let b := b.put (hexdigit (b2 >>> 0))
  let b := b.put (hexdigit (b3 >>> 4))
  let b := b.put (hexdigit (b3 >>> 0))
  let b :=
    if b1 = 0x20 ∧ b2 = 0xBA then
      let b := b.put 45
      let b := (List.range 2).foldl
        (fun b i => (b.put (hexdigit (uniqueid.getD i 0 >>> 4))).put
          (hexdigit (uniqueid.getD i 0 >>> 4))) b
      let b := b.put 45
      (List.range' 2 14).foldl
        (fun b i => (b.put (hexdigit (uniqueid.getD i 0 >>> 4))).put
          (hexdigit (uniqueid.getD i 0 >>> 4))) b
    else b
  let b := b.put 13
  b.put 10

/-- `spi_rdid()` (lines 283-429). `uniqueid` is `NULL` unless `spi_runiqueid` was called,
and is not read then; `past` is the memory that follows `buf`. -/
def spi_rdid {σ : Type} (D : Device σ) (past : List Nat) (w : World σ) : World σ :=
  let w := spi_power 1 w
  let w := spi_cs D 1 w
  let w := (spi_send D 0x9F w).2
  let r1 := spi_send D 0x1 w
  let r2 := spi_send D 0x2 r1.2
  let r3 := spi_send D 0x3 r2.2
  let u := if r1.1 = 0x20 ∧ r2.1 = 0xBA then spi_runiqueid D r3.2 else ([], r3.2)
  let w := spi_cs D 0 u.2
  let w := spi_power 0 w
  let w := send_str (spi_rdid_manufacturer r1.1) w
  let w := send_str (spi_rdid_chip r1.1 r2.1 r3.1) w
  let b := spi_rdid_fill r1.1 r2.1 r3.1 u.1 past
  usb_serial_write b.mem b.off w

/-- The bytes that `spi_rdid` stores into `buf`, in order, for the identification bytes
`b1`, `b2`, `b3` and the array `uniqueid`. -/
def rdid_line (b1 b2 b3 : Nat) (uniqueid : List Nat) : List Nat :=
  [hexdigit (b1 >>> 4), hexdigit b1, hexdigit (b2 >>> 4), hexdigit b2,
    hexdigit (b3 >>> 4), hexdigit b3]
  ++ (if b1 = 0x20 ∧ b2 = 0xBA then
        [45] ++ ((List.range 2).map (fun i =>
            [hexdigit (uniqueid.getD i 0 >>> 4), hexdigit (uniqueid.getD i 0 >>> 4)])).flatten
          ++ [45] ++ ((List.range' 2 14).map (fun i =>
            [hexdigit (uniqueid.getD i 0 >>> 4), hexdigit (uniqueid.getD i 0 >>> 4)])).flatten
      else [])
  ++ [13, 10]

/-- The identification bytes `b1`, `b2`, `b3` that a device in state `s` answers to the
command `9F 01 02 03` of `spi_rdid`. -/
def Device.rdid {σ : Type} (D : Device σ) (s : σ) : Nat × Nat × Nat :=
  let r := (D.run (D.select s true) [0x9F, 1, 2, 3]).1
  (r.getD 1 0, r.getD 2 0, r.getD 3 0)

/-- The 16 bytes that follow the length byte when `spi_rdid` goes on to read the unique
id of a device in state `s`. -/
def Device.uniqueid {σ : Type} (D : Device σ) (s : σ) : List Nat :=
  (D.run (D.run (D.select s true) [0x9F, 1, 2, 3]).2 (List.replicate 17 1)).1.drop 1

/-- A device that, each time it is selected, shifts out the bytes of `script` in order,
whatever is shifted in, and `0xFF` after them. -/
def script_device (script : List Nat) : Device Nat where
  select := fun s b => if b then 0 else s
  xfer := fun s _ => (script.getD s 0xFF, s + 1)

/-- The answer of a Micron N25Q064A to the identification command: a byte while the
opcode is shifted in, `20 BA 17`, the length byte `10`, then 16 bytes of which the first
is `u`. -/
def rdid_script (u : Nat) : List Nat :=
  [0xFF, 0x20, 0xBA, 0x17, 0x10, u, 0x34, 0x56, 0x78, 0x9A, 0xBC, 0xDE, 0xF0, 0x11, 0x22,
    0x33, 0x44, 0x55, 0x66, 0x77, 0x88]

/-- A world at power-up around a `script_device`. -/
def rdid_example : World Nat :=
  { rx := [], tx := [], dev := 0, spi := []
    regs := { PORTB := 0, PORTC := 0, PORTD := 0, PORTE := 0, PORTF := 0 } }

/-! ## `probe.c`: the stores of `spi_erase_pwd` into `pwd_addr` -/

/-- The compare loop of `spi_erase_pwd` over one window (lines 657-675) as in
`spi_erase_pwd_scan`, with the list of the indices at which
`pwd_addr[pwd_count++] = ...` (line 667) has stored carried along. -/
def spi_erase_pwd_scan_stores (data : List Nat) (start_addr : Nat)
    (s : (Bool × List Nat × Nat) × List Nat) : (Bool × List Nat × Nat) × List Nat :=
  (List.range 255).foldl
    (fun s i =>
      if s.1.1 then
        if data.getD i 0 = 0xFF ∧ data.getD (i + 1) 0 = 0x23 then
          if i < 253 ∧ data.getD (i + 2) 0 = 0x80 ∧ data.getD (i + 3) 0 = 0x4E then
            let stores := s.2 ++ [s.1.2.2]
            let pwd_addr :=
              pwd_addr_store s.1.2.1 s.1.2.2
                (start_addr &&& (2 ^ 32 - 1 - FLASH_SUBSECTOR_MASK))
            let pwd_count := (s.1.2.2 + 1) % 256
            if pwd_count > MAX_PWDS then ((false, pwd_addr, pwd_count), stores)
            else ((true, pwd_addr, pwd_count), stores)
          else s
        else s
      else s)
    s

/-- The `while (1)` of `spi_erase_pwd` (lines 635-681) as in `spi_erase_pwd_loop`, with
the list of the indices stored to carried along. -/
def spi_erase_pwd_loop_stores {σ : Type} (D : Device σ) (end_addr : Nat) :
    Nat → Nat → Nat → Nat → List Nat → List Nat → Nat → World σ → List Nat →
      LoopExit × List Nat × Nat × World σ × List Nat
  | 0, _, _, _, _, pwd_addr, pwd_count, w, stores =>
    (LoopExit.stuck, pwd_addr, pwd_count, w, stores)
  | fuel + 1, start_addr, led_on, led_count, data, pwd_addr, pwd_count, w, stores =>
    let f := spi_read_window D data w
    let l := led_blink_slow led_on led_count f.2.regs
    let w := { f.2 with regs := l.2.2 }
    let s := spi_erase_pwd_scan_stores f.1 start_addr ((true, pwd_addr, pwd_count), stores)
    if s.1.1 then
      let start_addr := (start_addr + 256) % 2 ^ 32
      if start_addr ≥ end_addr then (LoopExit.brk, s.1.2.1, s.1.2.2, w, s.2)
      else spi_erase_pwd_loop_stores D end_addr fuel start_addr l.1 l.2.1 f.1 s.1.2.1 s.1.2.2 w
        s.2
    else (LoopExit.ret, s.1.2.1, s.1.2.2, w, s.2)

/-- The indices at which a call of `spi_erase_pwd` stores into `pwd_addr`, in order.
The array is declared as `uint32_t pwd_addr[MAX_PWDS]`, and line 667 is the only store
into it. -/
def spi_erase_pwd_stores {σ : Type} (D : Device σ) (w : World σ) : List Nat :=
  if MAX_PWDS > 255 then []
  else
    (spi_erase_pwd_loop_stores D (8 <<< 20) ((8 <<< 20) / 256) 0 1 0 (List.replicate 256 0)
      (List.replicate MAX_PWDS 0) 0 (spi_erase_pwd_start D w) []).2.2.2.2

/-- A flash chip whose first sector holds the password signature FF 23 80 4E five times,
at the addresses 0, 4, 8, 12 and 16, and zeros elsewhere. -/
def pwd_example5 : World FlashState :=
  { rx := [], tx := []
    dev := FlashState.idle
      (fun a => ([0xFF, 0x23, 0x80, 0x4E, 0xFF, 0x23, 0x80, 0x4E, 0xFF, 0x23, 0x80, 0x4E,
        0xFF, 0x23, 0x80, 0x4E, 0xFF, 0x23, 0x80, 0x4E] ++ List.replicate 236 0).getD a 0)
    spi := []
    regs := { PORTB := 0, PORTC := 0, PORTD := 0, PORTE := 0, PORTF := 0 } }

/-! ## `probe.c`: the read commands -/

/-- The value of `INT32_MAX`. -/
def INT32_MAX : Nat := 2147483647

/-- The loops `data[i] = spi_send(0)` of `spi_read` and `spi_read_size` (lines 893-896,
941-944), over `read_size` bytes. -/
def spi_read_fill {σ : Type} (D : Device σ) (read_size : Nat) (data : List Nat) (w : World σ) :
    List Nat × World σ :=
  (List.range read_size).foldl
    (fun s i => let r := spi_send D 0 s.2; (s.1.set i r.1, r.2)) (data, w)

/-- The hex line of `spi_read` and `spi_read_size` (lines 897-906, 949-958): the buffer
`buf` of 16*3+2 bytes and the counter `off`, a `uint8_t`. The buffer is uninitialised and
only the bytes stored are sent; it starts as zeros here. -/
def spi_read_line (data : List Nat) (read_size : Nat) : List Nat × Nat :=
  let s : List Nat × Nat := (List.range read_size).foldl
    (fun s i =>
      let buf := s.1.set s.2 (hexdigit (data.getD i 0 >>> 4))
      let off := (s.2 + 1) % 256
      let buf := buf.set off (hexdigit (data.getD i 0 >>> 0))
      let off := (off + 1) % 256
      let buf := buf.set off 32
      let off := (off + 1) % 256
      (buf, off))
    (List.replicate (16 * 3 + 2) 0, 0)
  let buf := s.1.set s.2 13
  let off := (s.2 + 1) % 256
  let buf := buf.set off 10
  let off := (off + 1) % 256
  (buf, off)

/-- `spi_read()`: 16 bytes from an address entered by the operator. The array `data` is
uninitialised on entry and filled before it is read; it starts as 16 zeros here. -/
def spi_read {σ : Type} (D : Device σ) (w : World σ) : Option Unit × World σ :=
  match usb_serial_readhex w with
  | (none, w) => (none, w)
  | (some addr, w) =>
    let w := spi_power 1 w
    let w := spi_cs D 1 w
    let w := (spi_send D 0x03 w).2
    let w := (spi_send D (addr >>> 16) w).2
    let w := (spi_send D (addr >>> 8) w).2
    let w := (spi_send D (addr >>> 0) w).2
    let f := spi_read_fill D 16 (List.replicate 16 0) w
    let w := spi_cs D 0 f.2
    let w := spi_power 0 w
    let line := spi_read_line f.1 16
    (some (), usb_serial_write line.1 line.2 w)

/-- The `while (x > 0)` of `spi_read_size` (lines 890-910); `x` is an `int`. Every turn
lowers `x` by at least one, so the first argument, set to `x` by the caller, is enough.
The value of `x` on leaving the loop is returned with the world. -/
def spi_read_size_loop {σ : Type} (D : Device σ) :
    Nat → Int → List Nat → World σ → Int × World σ
  | 0, x, _, w => (x, w)
  | fuel + 1, x, data, w =>
    if x > 0 then
      let read_size : Nat := if x < 16 then x.toNat else 16
      let f := spi_read_fill D read_size data w
      let line := spi_read_line f.1 read_size
      let w := usb_serial_write line.1 line.2 f.2
      spi_read_size_loop D fuel (x - read_size) f.1 w
    else (x, w)

/-- `spi_read_size()`: a number of bytes entered by the operator from an address entered
by the operator. `int` has 16 bits on the AVR, so `(int)len` keeps the low 16 bits of
`len` as a two's complement number. -/
def spi_read_size {σ : Type} (D : Device σ) (w : World σ) : Option Unit × World σ :=
  match usb_serial_readhex w with
  | (none, w) => (none, w)
  | (some addr, w) =>
    match usb_serial_readhex w with
    | (none, w) => (none, w)
    | (some len, w) =>
      let w := spi_power 1 w
      let w := spi_cs D 1 w
      let w := (spi_send D 0x03 w).2
      let w := (spi_send D (addr >>> 16) w).2
      let w := (spi_send D (addr >>> 8) w).2
      let w := (spi_send D (addr >>> 0) w).2
      if len > INT32_MAX then (some (), w)
      else
        let x : Int := if len % 65536 < 32768 then (len % 65536 : Nat) else (len % 65536 : Nat) - 65536
        let w := (spi_read_size_loop D x.toNat x (List.replicate 16 0) w).2
        let w := spi_cs D 0 w
        (some (), spi_power 0 w)

/-- The level of chip select that a log of SPI events leaves behind: asserted when the
last chip-select event asserts it; deasserted when there is none. -/
def cs_asserted (spi : List SpiEvent) : Bool :=
  spi.foldl
    (fun st e =>
      match e with
      | SpiEvent.cs b => b
      | SpiEvent.byte _ => st)
    false

/-! ## `probe.c`: flashing an area -/

/-- The answer line of `spi_biosupload` and `spi_flasharea` (lines 1227-1248, 1339-1360):
`!` or `G`, then address and length as six hex digits each. -/
def spi_flasharea_outbuf (fail : Bool) (addr len : Nat) : List Nat :=
  [if fail then 33 else 71, 32,
   hexdigit (addr >>> 20), hexdigit (addr >>> 16), hexdigit (addr >>> 12),
   hexdigit (addr >>> 8), hexdigit (addr >>> 4), hexdigit (addr >>> 0), 32,
   hexdigit (len >>> 20), hexdigit (len >>> 16), hexdigit (len >>> 12),
   hexdigit (len >>> 8), hexdigit (len >>> 4), hexdigit (len >>> 0), 13, 10]

/-- The block `if ((addr & SPI_PAGE_MASK) == 0) { spi_write_enable(); spi_erase_sector(addr); }`
of the loops of `spi_biosupload` and `spi_flasharea` (lines 1276-1281, 1388-1393). -/
def spi_flasharea_erase {σ : Type} (D : Device σ) (polls : Nat) (addr : Nat) (w : World σ) :
    Option Unit × World σ :=
  if addr &&& SPI_PAGE_MASK = 0 then
    let w := spi_write_enable D w
    spi_erase_sector D polls addr w
  else (some (), w)

/-- The page-program part of one turn of the loops of `spi_biosupload` and `spi_flasharea`
(lines 1283-1316, 1395-1428): write-enable, status read, the command with the 128 bytes of
the block, the LED, chip select released. It returns `led_on`, `led_count`, the globals
and the world. -/
def spi_flasharea_program {σ : Type} (D : Device σ) (addr led_on led_count : Nat) (g : Globals)
    (w : World σ) : Nat × Nat × Globals × World σ :=
  let w := spi_write_enable D w
  let r2 := spi_status D w
  let w := spi_cs D 1 r2.2
  let w := (spi_send D 0x02 w).2
  let w := (spi_send D (addr >>> 16) w).2
  let w := (spi_send D (addr >>> 8) w).2
  let w := (spi_send D (addr >>> 0) w).2
  let u := upload_send_chunk D g.xmodem_block.data g.bytes_uploaded w
  let g := { g with bytes_uploaded := u.1 }
  let l := led_blink led_on led_count u.2.regs
  let w := { u.2 with regs := l.2.2 }
  (l.1, l.2.1, g, spi_cs D 0 w)

/-- The `for (offset = 0 ; offset < len ; offset += chunk_size)` loop of `spi_biosupload`
and `spi_flasharea` (lines 1263-1325, 1375-1437). `none`: the host data or the status
polls ran out. Every turn takes 128 entries off `rx`, so the argument after `len` is never
used up. -/
def spi_flasharea_loop {σ : Type} (D : Device σ) (polls len : Nat) :
    Nat → Nat → Nat → Nat → Nat → Globals → World σ → Option Unit × Globals × World σ
  | 0, _, _, _, _, g, w => (none, g, w)
  | fuel + 1, offset, addr, led_on, led_count, g, w =>
    if offset < len then
      let c := upload_read_chunk g.xmodem_block.data w.rx
      let g := { g with xmodem_block := { g.xmodem_block with data := c.2.1 } }
      let w := { w with rx := c.2.2 }
      if c.1 then
        match spi_flasharea_erase D polls addr w with
        | (none, w) => (none, g, w)
        | (some _, w) =>
          let p := spi_flasharea_program D addr led_on led_count g w
          match spi_wait_wip D polls p.2.2.2 with
          | (none, w) => (none, p.2.2.1, w)
          | (some _, w) =>
            spi_flasharea_loop D polls len fuel ((offset + sizeof_data) % 2 ^ 32)
              ((addr + sizeof_data) % 2 ^ 32) p.1 p.2.1 p.2.2.1 w
      else (none, g, w)
    else (some (), g, w)

/-- `spi_flasharea(addr, len)`: flash an area, erasing each sector before its first
page. -/
def spi_flasharea {σ : Type} (D : Device σ) (polls : Nat) (addr len : Nat) (g : Globals)
    (w : World σ) : Option Unit × Globals × World σ :=
  let g := { g with bytes_uploaded := 0 }
  let fail : Bool := (len &&& SPI_PAGE_MASK ≠ 0) || (addr &&& SPI_PAGE_MASK ≠ 0)
  let w := usb_serial_write (spi_flasharea_outbuf fail addr len) 17 w
  if fail then (some (), g, w)
  else
    let w := { w with regs := out 0xD6 1 w.regs }
    match spi_flasharea_loop D polls len (w.rx.length + 1) 0 addr 1 0 g w with
    | (none, g, w) => (none, g, w)
    | (some _, g, w) => (some (), g, send_str (cstr "done!\r\n") w)

/-- `spi_biosupload()`: the text of `spi_flasharea` with `addr = 0x190000` and
`len = 0x670000` as local variables. -/
def spi_biosupload {σ : Type} (D : Device σ) (polls : Nat) (g : Globals) (w : World σ) :
    Option Unit × Globals × World σ :=
  let g := { g with bytes_uploaded := 0 }
  let addr := 0x190000
  let len := 0x670000
  let fail : Bool := (len &&& SPI_PAGE_MASK ≠ 0) || (addr &&& SPI_PAGE_MASK ≠ 0)
  let w := usb_serial_write (spi_flasharea_outbuf fail addr len) 17 w
  if fail then (some (), g, w)
  else
    let w := { w with regs := out 0xD6 1 w.regs }
    match spi_flasharea_loop D polls len (w.rx.length + 1) 0 addr 1 0 g w with
    | (none, g, w) => (none, g, w)
    | (some _, g, w) => (some (), g, send_str (cstr "done!\r\n") w)

/-- The commands in a log of SPI events: for each stretch from a chip-select assertion to
the next chip-select event, the bytes shifted out in it. The first argument is the command
in progress, if any. -/
def spi_commands_go : Option (List Nat) → List SpiEvent → List (List Nat)
  | none, [] => []
  | some c, [] => [c]
  | none, SpiEvent.cs true :: t => spi_commands_go (some []) t
  | none, SpiEvent.cs false :: t => spi_commands_go none t
  | none, SpiEvent.byte _ :: t => spi_commands_go none t
  | some c, SpiEvent.byte b :: t => spi_commands_go (some (c ++ [b])) t
  | some c, SpiEvent.cs false :: t => c :: spi_commands_go none t
  | some c, SpiEvent.cs true :: t => c :: spi_commands_go (some []) t

/-- The page-program commands in a log of SPI events that starts with chip select
released: the commands whose first byte is the opcode 0x02. -/
def page_programs (log : List SpiEvent) : List (List Nat) :=
  (spi_commands_go none log).filter (fun c => c.head? = some 0x02)

/-- The page-program commands that write `data` from `addr` on in chunks of 128 bytes:
for each `i` below `data.length / 128`, the opcode, the three address bytes of
`addr + 128 * i` (as a 32-bit number), and the `i`-th chunk. -/
def upload_programs (addr : Nat) (data : List Nat) : List (List Nat) :=
  (List.range (data.length / 128)).map (fun i =>
    0x02 :: addr_bytes ((addr + 128 * i) % 2 ^ 32) ++ (data.drop (128 * i)).take 128)

/-- An erased flash chip and a host that sends 4096 bytes 0x5A. -/
def flasharea_example : World FlashState :=
  { rx := (List.replicate 4096 0x5A).map (fun x : Nat => (x : Int)) ++ []
    tx := [], dev := FlashState.idle (fun _ => 0xFF), spi := []
    regs := { PORTB := 0, PORTC := 0, PORTD := 0, PORTE := 0, PORTF := 0 } }

/-- An erased flash chip and a host that sends the 0x670000 bytes of a BIOS image, all
0x5A. -/
def biosupload_example : World FlashState :=
  { rx := (List.replicate 0x670000 0x5A).map (fun x : Nat => (x : Int)) ++ []
    tx := [], dev := FlashState.idle (fun _ => 0xFF), spi := []
    regs := { PORTB := 0, PORTC := 0, PORTD := 0, PORTE := 0, PORTF := 0 } }

/-- The line that `spi_read` and `spi_read_size` print for the bytes of one row: for each
byte the digit of its high nibble, the digit of its low nibble and a space, then CR LF. -/
def hex_row (bytes : List Nat) : List Nat :=
  (bytes.map (fun b => [hexdigit (b >>> 4), hexdigit b, 32])).flatten ++ [13, 10]

/-- The lines that `spi_read_size` prints for data made of rows of 16 bytes, one serial
write per row. -/
def hex_rows (data : List Nat) : List (List Nat) :=
  (List.range (data.length / 16)).map (fun j => hex_row ((data.drop (16 * j)).take 16))

/-- The number of data bytes that `spi_read_size` clocks out for the length `len`: the
value of `(int)len` on the AVR, where `int` has 16 bits, when that is positive. -/
def read_size_count (len : Nat) : Nat := if len % 65536 < 32768 then len % 65536 else 0

/-- An erased flash chip; an operator who enters address 0 and the length `digits` for
`spi_upload`, a host that sends `n` bytes 0x5A, and the operator entering address 0 and
the same length again for `spi_read_size`. -/
def round_trip_example (digits : List Int) (n : Nat) : World FlashState :=
  { rx := [48, 13] ++ (digits ++ 13 ::
            ((List.replicate n 0x5A).map (fun x : Nat => (x : Int))
              ++ ([48] ++ 13 :: (digits ++ 13 :: []))))
    tx := [], dev := FlashState.idle (fun _ => 0xFF), spi := []
    regs := { PORTB := 0, PORTC := 0, PORTD := 0, PORTE := 0, PORTF := 0 } }

/-! ## Facts about `xmodem.c` -/

theorem xmodem_cksum_take (data : List Nat) (n : Nat) :
    (List.range n).foldl (fun cksum i => (cksum + data.getD i 0) % 256) 0
      = (data.take n).sum % 256 := by
  induction n with
  | zero => simp
  | succ n ih =>
    rw [List.range_succ, List.foldl_append, ih, List.take_succ, List.sum_append]
    simp only [List.foldl_cons, List.foldl_nil, List.getD_eq_getElem?_getD]
    cases h : data[n]? with
    | none => simp
    | some v => simp [Nat.add_mod]

theorem xmodem_cksum_eq (data : List Nat) (h : data.length = 128) :
    xmodem_cksum data = data.sum % 256 := by
  unfold xmodem_cksum sizeof_data
  rw [xmodem_cksum_take, ← h, List.take_length]

theorem xmodem_send_block_eq (σ : Type) (block : xmodem_block_t) (wait_for_ack : Int)
    (w : World σ) : (xmodem_send block wait_for_ack w).2.1 = xmodem_sent_block block := rfl

theorem xmodem_send_eq {σ : Type} (block : xmodem_block_t) (wait_for_ack : Int)
    (w : World σ) :
    xmodem_send block wait_for_ack w
      = ((xmodem_send_loop (xmodem_sent_block block) wait_for_ack 11 0 w).1,
         xmodem_sent_block block,
         (xmodem_send_loop (xmodem_sent_block block) wait_for_ack 11 0 w).2) := rfl

/-- The retry loop only appends copies of the frame to `tx`, at most `10 - retry_count`
of them and at least one when it is entered; it reads `rx` and touches nothing else. -/
theorem xmodem_send_loop_trace {σ : Type} (block : xmodem_block_t) (wait_for_ack : Int)
    (fuel : Nat) : ∀ (retry_count : Nat) (w : World σ),
    ∃ k, (xmodem_send_loop block wait_for_ack fuel retry_count w).2.tx
          = w.tx ++ List.replicate k (xmodem_frame block)
      ∧ k + retry_count ≤ max 10 retry_count
      ∧ (0 < fuel → retry_count < 10 → 1 ≤ k)
      ∧ (xmodem_send_loop block wait_for_ack fuel retry_count w).2.dev = w.dev
      ∧ (xmodem_send_loop block wait_for_ack fuel retry_count w).2.spi = w.spi
      ∧ (xmodem_send_loop block wait_for_ack fuel retry_count w).2.regs = w.regs := by
  induction fuel with
  | zero => intro rc w; exact ⟨0, by simp [xmodem_send_loop], by simp, by simp, rfl, rfl, rfl⟩
  | succ fuel ih =>
    intro rc w
    by_cases hrc : rc < 10
    · simp only [xmodem_send_loop, hrc, if_true]
      cases hw : xmodem_send_wait wait_for_ack (usb_serial_write block.bytes sizeof_xmodem_block_t w).rx with
      | mk rep rest =>
        cases rep with
        | ret v =>
          refine ⟨1, ?_, by omega, by omega, rfl, rfl, rfl⟩
          simp [usb_serial_write, xmodem_frame]
        | starved =>
          refine ⟨1, ?_, by omega, by omega, rfl, rfl, rfl⟩
          simp [usb_serial_write, xmodem_frame]
        | again =>
          have hmod : (rc + 1) % 256 = rc + 1 := by omega
          obtain ⟨k, h1, h2, _, h4, h5, h6⟩ := ih ((rc + 1) % 256)
            { usb_serial_write block.bytes sizeof_xmodem_block_t w with rx := rest }
          refine ⟨k + 1, ?_, by omega, by omega, ?_, ?_, ?_⟩
          · simp only [h1]
            simp [usb_serial_write, xmodem_frame, List.replicate_succ]
          · simp only [h4]; rfl
          · simp only [h5]; rfl
          · simp only [h6]; rfl
    · refine ⟨0, ?_, by omega, by omega, ?_, ?_, ?_⟩ <;> simp [xmodem_send_loop, hrc]

theorem xmodem_frame_length (block : xmodem_block_t) (h : block.data.length = 128) :
    (xmodem_frame block).length = 132 := by
  simp [xmodem_frame, xmodem_block_t.bytes, sizeof_xmodem_block_t, h]

theorem xmodem_frame_eq (block : xmodem_block_t) (h : block.data.length = 128) :
    xmodem_frame block
      = [block.soh, block.block_num, block.block_num_complement] ++ block.data ++ [block.cksum] := by
  unfold xmodem_frame
  apply List.take_of_length_le
  simp [xmodem_block_t.bytes, sizeof_xmodem_block_t, h]

theorem xmodem_send_loop_succ {σ : Type} (block : xmodem_block_t) (wait_for_ack : Int)
    (fuel retry_count : Nat) (w : World σ) (h : retry_count < 10) :
    xmodem_send_loop block wait_for_ack (fuel + 1) retry_count w
      = xmodem_send_resume block wait_for_ack fuel retry_count
          (usb_serial_write block.bytes sizeof_xmodem_block_t w) := by
  simp only [xmodem_send_loop, h, if_true, xmodem_send_resume]

/-- C1: for every 128-byte payload, `xmodem_send` stores the sum of the payload bytes
modulo 256 in the checksum field of the block, and every frame it transmits (there is at
least one) is 132 bytes long and ends in that byte. -/
theorem xmodem_send_checksum {σ : Type} (block : xmodem_block_t) (wait_for_ack : Int)
    (w : World σ) (h : block.data.length = 128) :
    (xmodem_send block wait_for_ack w).2.1.cksum = block.data.sum % 256
    ∧ ∃ k frame, 1 ≤ k
        ∧ (xmodem_send block wait_for_ack w).2.2.tx = w.tx ++ List.replicate k frame
        ∧ frame.length = 132
        ∧ frame.getLast? = some (block.data.sum % 256) := by
  have hc := xmodem_cksum_eq block.data h
  refine ⟨by simp [xmodem_send_block_eq, xmodem_sent_block, hc], ?_⟩
  obtain ⟨k, h1, _, h3, _⟩ :=
    xmodem_send_loop_trace (xmodem_sent_block block) wait_for_ack 11 0 w
  refine ⟨k, xmodem_frame (xmodem_sent_block block), h3 (by omega) (by omega), ?_, ?_, ?_⟩
  · rw [xmodem_send_eq]; exact h1
  · exact xmodem_frame_length (xmodem_sent_block block) h
  · rw [xmodem_frame_eq (xmodem_sent_block block) h, List.getLast?_concat]
    simp [xmodem_sent_block, hc]

set_option maxRecDepth 4096 in
theorem xmodem_send_checksum_witness :
    (List.replicate 128 3).length = 128
    ∧ (xmodem_send (xmodem_block_t.zero (List.replicate 128 3)) 1
        (World.start [6])).2.1.cksum = (List.replicate 128 3).sum % 256 :=
  ⟨List.length_replicate 128 3,
   (xmodem_send_checksum (xmodem_block_t.zero (List.replicate 128 3)) 1 (World.start [6])
      (List.length_replicate 128 3)).1⟩

theorem xmodem_send_calls_fields {σ : Type} (calls : List (List Nat × Int × World σ)) :
    ∀ block : xmodem_block_t,
      (xmodem_send_calls block calls).soh = block.soh
      ∧ (xmodem_send_calls block calls).block_num % 256
          = (block.block_num + calls.length) % 256 := by
  induction calls with
  | nil => intro block; simp [xmodem_send_calls]
  | cons c calls ih =>
    intro block
    obtain ⟨h1, h2⟩ := ih (xmodem_send { block with data := c.1 } c.2.1 c.2.2).2.1
    refine ⟨by rw [xmodem_send_calls, h1]; rfl, ?_⟩
    rw [xmodem_send_calls, h2, xmodem_send_block_eq]
    simp only [xmodem_sent_block, List.length_cons]
    omega

/-- C2: after `xmodem_init`, whatever it returned, the n-th call of `xmodem_send`
(n = number of earlier calls + 1; the caller refills the payload before each call)
transmits at least one frame, and every frame it transmits starts with the header byte
0x01, the sequence byte n mod 256 and the complement byte 255 - (n mod 256). -/
theorem xmodem_send_nth_header {σ : Type} (block0 : xmodem_block_t) (flag : Int)
    (w0 : World σ) (calls : List (List Nat × Int × World σ)) (payload : List Nat)
    (wait_for_ack : Int) (w : World σ) :
    ∃ k frame, 1 ≤ k
      ∧ (xmodem_send
          { xmodem_send_calls (xmodem_init block0 flag w0).2.1 calls with data := payload }
          wait_for_ack w).2.2.tx = w.tx ++ List.replicate k frame
      ∧ frame.take 3
          = [0x01, (calls.length + 1) % 256, 255 - (calls.length + 1) % 256] := by
  have hinit : (xmodem_init block0 flag w0).2.1.soh = 1
      ∧ (xmodem_init block0 flag w0).2.1.block_num = 0 := by
    unfold xmodem_init
    split <;> exact ⟨rfl, rfl⟩
  obtain ⟨hs, hb⟩ := xmodem_send_calls_fields calls (xmodem_init block0 flag w0).2.1
  rw [hinit.1] at hs
  rw [hinit.2] at hb
  generalize xmodem_send_calls (xmodem_init block0 flag w0).2.1 calls = b at hs hb
  obtain ⟨k, h1, _, h3, _⟩ :=
    xmodem_send_loop_trace (xmodem_sent_block { b with data := payload }) wait_for_ack 11 0 w
  refine ⟨k, xmodem_frame (xmodem_sent_block { b with data := payload }),
    h3 (by omega) (by omega), ?_, ?_⟩
  · rw [xmodem_send_eq]; exact h1
  · have e1 : (b.block_num + 1) % 256 = (calls.length + 1) % 256 := by omega
    simp only [xmodem_frame, xmodem_block_t.bytes, sizeof_xmodem_block_t, xmodem_sent_block,
      hs, e1]
    simp [List.take_take]
    omega

/-- C3: for a receiver that answers NAK nine times and then ACK, `xmodem_send` returns 0
having transmitted the frame exactly ten times; for a receiver that answers NAK to each
of ten transmissions it returns -1 having transmitted the frame exactly ten times, and
whatever the receiver sends after that is left unread. This holds for every value of
`wait_for_ack`, in particular when it is set. In the input, 21 (0x15) is NAK and 6 is
ACK. -/
theorem xmodem_send_retry_cap {σ : Type} (block : xmodem_block_t) (wait_for_ack : Int)
    (w : World σ) (rest : List Int) :
    xmodem_send block wait_for_ack { w with rx := List.replicate 9 21 ++ 6 :: rest }
      = (some 0, xmodem_sent_block block,
          { w with rx := rest
                   tx := w.tx ++ List.replicate 10 (xmodem_frame (xmodem_sent_block block)) })
    ∧ xmodem_send block wait_for_ack { w with rx := List.replicate 10 21 ++ rest }
      = (some (-1), xmodem_sent_block block,
          { w with rx := rest
                   tx := w.tx ++ List.replicate 10 (xmodem_frame (xmodem_sent_block block)) }) := by
  constructor <;>
  simp [xmodem_send_eq, xmodem_send_loop, xmodem_send_wait, usb_serial_write, xmodem_frame,
      List.replicate, XMODEM_ACK, XMODEM_CAN, XMODEM_NAK]

/-- What the retry loop does from the point where a frame has just been written, when the
receiver's answers are `pre`, then CAN: it adds one frame per NAK in `pre` and returns -1
with everything after the CAN unread. -/
theorem xmodem_send_resume_cancel {σ : Type} (block : xmodem_block_t) (wait_for_ack : Int)
    (rest : List Int) (pre : List Int) :
    ∀ (fuel retry_count : Nat) (w : World σ),
      (∀ r ∈ pre, rx_byte r ≠ XMODEM_ACK ∧ rx_byte r ≠ XMODEM_CAN) →
      (wait_for_ack = 0 → ∀ r ∈ pre, rx_byte r = XMODEM_NAK) →
      retry_count + pre.countP (fun r => rx_byte r = XMODEM_NAK) < 10 →
      pre.countP (fun r => rx_byte r = XMODEM_NAK) ≤ fuel →
      xmodem_send_resume block wait_for_ack fuel retry_count { w with rx := pre ++ 24 :: rest }
        = (some (-1),
            { w with rx := rest
                     tx := w.tx ++ List.replicate
                        (pre.countP (fun r => rx_byte r = XMODEM_NAK)) (xmodem_frame block) }) := by
  induction pre with
  | nil =>
    intro fuel rc w _ _ _ _
    simp [xmodem_send_resume, xmodem_send_wait, XMODEM_ACK, XMODEM_CAN]
  | cons r pre ih =>
    intro fuel rc w h1 h2 h3 h4
    have hr := h1 r (List.mem_cons_self r pre)
    have h1' : ∀ x ∈ pre, rx_byte x ≠ XMODEM_ACK ∧ rx_byte x ≠ XMODEM_CAN :=
      fun x hx => h1 x (List.mem_cons_of_mem r hx)
    have h2' : wait_for_ack = 0 → ∀ x ∈ pre, rx_byte x = XMODEM_NAK :=
      fun hw x hx => h2 hw x (List.mem_cons_of_mem r hx)
    have hr1 : ¬ (r % 256).toNat = 6 := hr.1
    have hr2 : ¬ (r % 256).toNat = 24 := hr.2
    by_cases hn : rx_byte r = XMODEM_NAK
    · have hc : (r :: pre).countP (fun r => rx_byte r = XMODEM_NAK)
          = pre.countP (fun r => rx_byte r = XMODEM_NAK) + 1 := by
        simp [List.countP_cons, hn]
      rw [hc] at h3 h4 ⊢
      obtain ⟨fuel, rfl⟩ : ∃ f, fuel = f + 1 := ⟨fuel - 1, by omega⟩
      have hmod : (rc + 1) % 256 = rc + 1 := by omega
      have hn1 : (r % 256).toNat = 21 := hn
      have step : xmodem_send_resume block wait_for_ack (fuel + 1) rc
            { w with rx := r :: (pre ++ 24 :: rest) }
          = xmodem_send_loop block wait_for_ack (fuel + 1) (rc + 1)
              { w with rx := pre ++ 24 :: rest } := by
        simp [xmodem_send_resume, xmodem_send_wait, XMODEM_ACK, XMODEM_CAN, XMODEM_NAK,
          hn1, hmod]
      rw [List.cons_append, step, xmodem_send_loop_succ _ _ _ _ _ (by omega)]
      have := ih fuel (rc + 1)
        { w with tx := w.tx ++ [xmodem_frame block] } h1' h2' (by omega) (by omega)
      simp only [usb_serial_write, xmodem_frame] at this ⊢
      rw [this]
      simp [List.replicate_succ]
    · have hc : (r :: pre).countP (fun r => rx_byte r = XMODEM_NAK)
          = pre.countP (fun r => rx_byte r = XMODEM_NAK) := by
        simp [List.countP_cons, hn]
      rw [hc] at h3 h4 ⊢
      have hw : wait_for_ack ≠ 0 := fun hw => hn (h2 hw r (List.mem_cons_self r pre))
      have hn1 : ¬ (r % 256).toNat = 21 := hn
      have step : xmodem_send_resume block wait_for_ack fuel rc
            { w with rx := r :: (pre ++ 24 :: rest) }
          = xmodem_send_resume block wait_for_ack fuel rc
              { w with rx := pre ++ 24 :: rest } := by
        simp [xmodem_send_resume, xmodem_send_wait, XMODEM_ACK, XMODEM_CAN, XMODEM_NAK,
          hr1, hr2, hn1, hw]
      rw [List.cons_append, step]
      exact ih fuel rc w h1' h2' h3 h4

/-- What the retry loop does in fire-and-forget mode from the point where a frame has just
been written, when the receiver's answers are the NAKs `naks`, then a byte `x` that is
none of ACK, CAN and NAK: it adds one frame per NAK and returns 0 on reading `x`, with
everything after `x` unread. -/
theorem xmodem_send_resume_stray {σ : Type} (block : xmodem_block_t) (x : Int)
    (rest : List Int) (naks : List Int) :
    ∀ (fuel retry_count : Nat) (w : World σ),
      (∀ r ∈ naks, rx_byte r = XMODEM_NAK) →
      rx_byte x ≠ XMODEM_ACK → rx_byte x ≠ XMODEM_CAN → rx_byte x ≠ XMODEM_NAK →
      retry_count + naks.length < 10 →
      naks.length ≤ fuel →
      xmodem_send_resume block 0 fuel retry_count { w with rx := naks ++ x :: rest }
        = (some 0,
            { w with rx := rest
                     tx := w.tx ++ List.replicate naks.length (xmodem_frame block) }) := by
  induction naks with
  | nil =>
    intro fuel rc w _ h1 h2 h3 _ _
    have a1 : ¬ (x % 256).toNat = 6 := h1
    have a2 : ¬ (x % 256).toNat = 24 := h2
    have a3 : ¬ (x % 256).toNat = 21 := h3
    simp [xmodem_send_resume, xmodem_send_wait, XMODEM_ACK, XMODEM_CAN, XMODEM_NAK, a1, a2, a3]
  | cons r naks ih =>
    intro fuel rc w hn h1 h2 h3 h4 h5
    have hr : rx_byte r = XMODEM_NAK := hn r (List.mem_cons_self r naks)
    have hn' : ∀ y ∈ naks, rx_byte y = XMODEM_NAK :=
      fun y hy => hn y (List.mem_cons_of_mem r hy)
    simp only [List.length_cons] at h4 h5 ⊢
    obtain ⟨fuel, rfl⟩ : ∃ f, fuel = f + 1 := ⟨fuel - 1, by omega⟩
    have hmod : (rc + 1) % 256 = rc + 1 := by omega
    have hn1 : (r % 256).toNat = 21 := hr
    have step : xmodem_send_resume block 0 (fuel + 1) rc
          { w with rx := r :: (naks ++ x :: rest) }
        = xmodem_send_loop block 0 (fuel + 1) (rc + 1)
            { w with rx := naks ++ x :: rest } := by
      simp [xmodem_send_resume, xmodem_send_wait, XMODEM_ACK, XMODEM_CAN, XMODEM_NAK,
        hn1, hmod]
    rw [List.cons_append, step, xmodem_send_loop_succ _ _ _ _ _ (by omega)]
    have := ih fuel (rc + 1)
      { w with tx := w.tx ++ [xmodem_frame block] } hn' h1 h2 h3 (by omega) (by omega)
    simp only [usb_serial_write, xmodem_frame] at this ⊢
    rw [this]
    simp [List.replicate_succ]

/-- C4 as stated fails in fire-and-forget mode: with `wait_for_ack = 0` and the answers
`A` (0x41), CAN, the first ACK-or-CAN byte is the CAN and no NAK precedes it, yet
`xmodem_send` returns 0 on the `A` and never reads the CAN. -/
theorem xmodem_send_cancel_counterexample :
    (∀ r ∈ ([65] : List Int), rx_byte r ≠ XMODEM_ACK ∧ rx_byte r ≠ XMODEM_CAN)
    ∧ ([65] : List Int).countP (fun r => rx_byte r = XMODEM_NAK) < 10
    ∧ (xmodem_send (xmodem_block_t.zero (List.replicate 128 0)) 0
        (World.start [65, 24])).1 = some 0
    ∧ (xmodem_send (xmodem_block_t.zero (List.replicate 128 0)) 0
        (World.start [65, 24])).2.2.rx = [24] := by
  refine ⟨by decide, by decide, ?_, ?_⟩ <;>
  simp [xmodem_send_eq, xmodem_send_loop, xmodem_send_wait, usb_serial_write, World.start,
    XMODEM_ACK, XMODEM_CAN, XMODEM_NAK]

/-- C4, amended: in the input, 24 (0x18) is CAN. First part, for either mode: let the
receiver's answers be `pre`, then CAN, where no byte of `pre` is ACK or CAN, fewer than
ten of them are NAK and, in fire-and-forget mode, all of them are NAK. Then `xmodem_send`
returns -1 on reading the CAN: it has transmitted the frame once plus once per NAK, and
everything after the CAN is left unread. Second part, for fire-and-forget mode
(`wait_for_ack = 0`): let the answers be fewer than ten NAKs, then a byte `x` that is
none of ACK, CAN and NAK (-1, read as 0xFF, when no byte is there). Then `xmodem_send`
returns 0 on reading `x`: it has transmitted the frame once plus once per NAK, and
everything after `x`, a CAN included, is left unread. -/
theorem xmodem_send_cancel {σ : Type} (block : xmodem_block_t) (wait_for_ack : Int)
    (w : World σ) :
    (∀ (pre rest : List Int),
      (∀ r ∈ pre, rx_byte r ≠ XMODEM_ACK ∧ rx_byte r ≠ XMODEM_CAN) →
      (wait_for_ack = 0 → ∀ r ∈ pre, rx_byte r = XMODEM_NAK) →
      pre.countP (fun r => rx_byte r = XMODEM_NAK) < 10 →
      xmodem_send block wait_for_ack { w with rx := pre ++ 24 :: rest }
        = (some (-1), xmodem_sent_block block,
            { w with rx := rest
                     tx := w.tx ++ List.replicate
                       (pre.countP (fun r => rx_byte r = XMODEM_NAK) + 1)
                       (xmodem_frame (xmodem_sent_block block)) }))
    ∧ (wait_for_ack = 0 →
      ∀ (naks : List Int) (x : Int) (rest : List Int),
        (∀ r ∈ naks, rx_byte r = XMODEM_NAK) → naks.length < 10 →
        rx_byte x ≠ XMODEM_ACK → rx_byte x ≠ XMODEM_CAN → rx_byte x ≠ XMODEM_NAK →
        xmodem_send block wait_for_ack { w with rx := naks ++ x :: rest }
          = (some 0, xmodem_sent_block block,
              { w with rx := rest
                       tx := w.tx ++ List.replicate (naks.length + 1)
                         (xmodem_frame (xmodem_sent_block block)) })) := by
  constructor
  · intro pre rest h1 h2 h3
    rw [xmodem_send_eq, xmodem_send_loop_succ _ _ _ _ _ (by omega)]
    have := xmodem_send_resume_cancel (xmodem_sent_block block) wait_for_ack rest pre 10 0
      { w with tx := w.tx ++ [xmodem_frame (xmodem_sent_block block)] } h1 h2 (by omega)
      (by omega)
    simp only [usb_serial_write, xmodem_frame] at this ⊢
    rw [this]
    simp [List.replicate_succ]
  · intro hw naks x rest hn hl h1 h2 h3
    subst hw
    rw [xmodem_send_eq, xmodem_send_loop_succ _ _ _ _ _ (by omega)]
    have := xmodem_send_resume_stray (xmodem_sent_block block) x rest naks 10 0
      { w with tx := w.tx ++ [xmodem_frame (xmodem_sent_block block)] } hn h1 h2 h3 (by omega)
      (by omega)
    simp only [usb_serial_write, xmodem_frame] at this ⊢
    rw [this]
    simp [List.replicate_succ]

/-- In the mode that waits, the answers `A`, NAK, no byte, CAN, ACK: -1 on the CAN. In
fire-and-forget mode, the answers NAK, `A`, CAN: two frames, 0 on the `A`, and the CAN is
left unread; the same with no byte (-1) in place of the `A`. -/
theorem xmodem_send_cancel_witness :
    (∀ r ∈ ([65, 21, -1] : List Int), rx_byte r ≠ XMODEM_ACK ∧ rx_byte r ≠ XMODEM_CAN)
    ∧ ((1 : Int) = 0 → ∀ r ∈ ([65, 21, -1] : List Int), rx_byte r = XMODEM_NAK)
    ∧ ([65, 21, -1] : List Int).countP (fun r => rx_byte r = XMODEM_NAK) < 10
    ∧ (xmodem_send (xmodem_block_t.zero []) 1 (World.start ([65, 21, -1] ++ 24 :: [6]))).1
        = some (-1)
    ∧ (∀ r ∈ ([21] : List Int), rx_byte r = XMODEM_NAK)
    ∧ rx_byte 65 ≠ XMODEM_ACK ∧ rx_byte 65 ≠ XMODEM_CAN ∧ rx_byte 65 ≠ XMODEM_NAK
    ∧ xmodem_send (xmodem_block_t.zero []) 0 (World.start ([21] ++ 65 :: [24]))
        = (some 0, xmodem_sent_block (xmodem_block_t.zero []),
            { World.start [] with
              rx := [24]
              tx := (World.start []).tx ++ List.replicate (1 + 1)
                (xmodem_frame (xmodem_sent_block (xmodem_block_t.zero []))) })
    ∧ rx_byte (-1) ≠ XMODEM_ACK ∧ rx_byte (-1) ≠ XMODEM_CAN ∧ rx_byte (-1) ≠ XMODEM_NAK
    ∧ (xmodem_send (xmodem_block_t.zero []) 0 (World.start ([21] ++ (-1) :: [24]))).1
        = some 0 :=
  ⟨by decide, by decide, by decide,
   congrArg Prod.fst
     ((xmodem_send_cancel (xmodem_block_t.zero []) 1 (World.start [])).1 [65, 21, -1] [6]
       (by decide) (by decide) (by decide)),
   by decide, by decide, by decide, by decide,
   (xmodem_send_cancel (xmodem_block_t.zero []) 0 (World.start [])).2 rfl [21] 65 [24]
     (by decide) (by decide) (by decide) (by decide) (by decide),
   by decide, by decide, by decide,
   congrArg Prod.fst
     ((xmodem_send_cancel (xmodem_block_t.zero []) 0 (World.start [])).2 rfl [21] (-1) [24]
       (by decide) (by decide) (by decide) (by decide) (by decide))⟩

/-- C5: within one call of `xmodem_send` on a block with a 128-byte payload, everything
written to the serial link is k copies (1 ≤ k ≤ 10) of one and the same 132-byte frame:
header, sequence, complement, the 128 payload bytes as the caller gave them, checksum.
The payload in the block is left unchanged. -/
theorem xmodem_send_same_frame {σ : Type} (block : xmodem_block_t) (wait_for_ack : Int)
    (w : World σ) (h : block.data.length = 128) :
    (∃ k, 1 ≤ k ∧ k ≤ 10
      ∧ (xmodem_send block wait_for_ack w).2.2.tx
          = w.tx ++ List.replicate k
              ([block.soh, (block.block_num + 1) % 256, 255 - (block.block_num + 1) % 256]
                ++ block.data ++ [block.data.sum % 256]))
    ∧ ([block.soh, (block.block_num + 1) % 256, 255 - (block.block_num + 1) % 256]
        ++ block.data ++ [block.data.sum % 256]).length = 132
    ∧ (xmodem_send block wait_for_ack w).2.1.data = block.data := by
  refine ⟨?_, by simp [h], rfl⟩
  obtain ⟨k, h1, h2, h3, _⟩ :=
    xmodem_send_loop_trace (xmodem_sent_block block) wait_for_ack 11 0 w
  refine ⟨k, h3 (by omega) (by omega), by simpa using h2, ?_⟩
  rw [xmodem_send_eq]
  simp only [h1]
  rw [xmodem_frame_eq (xmodem_sent_block block) h]
  have e : (255 - (block.block_num + 1) % 256) % 256 = 255 - (block.block_num + 1) % 256 := by
    omega
  simp [xmodem_sent_block, xmodem_cksum_eq block.data h, e]

theorem xmodem_send_same_frame_witness :
    (xmodem_block_t.zero (List.replicate 128 3)).data.length = 128
    ∧ (xmodem_send (xmodem_block_t.zero (List.replicate 128 3)) 1 (World.start [21, 6])).2.1.data
        = List.replicate 128 3 :=
  ⟨List.length_replicate 128 3,
   (xmodem_send_same_frame (xmodem_block_t.zero (List.replicate 128 3)) 1 (World.start [21, 6])
      (List.length_replicate 128 3)).2.2⟩

/-- C6 as stated fails: in fire-and-forget mode a CAN makes `xmodem_send` return -1, and
a NAK makes it transmit the frame a second time. -/
theorem xmodem_send_no_wait_counterexample :
    (xmodem_send (xmodem_block_t.zero (List.replicate 128 0)) 0 (World.start [24])).1
      = some (-1)
    ∧ (xmodem_send (xmodem_block_t.zero (List.replicate 128 0)) 0
        (World.start [21, 65])).2.2.tx.length = 2 := by
  constructor <;>
  simp [xmodem_send_eq, xmodem_send_loop, xmodem_send_wait, usb_serial_write, World.start,
    XMODEM_ACK, XMODEM_CAN, XMODEM_NAK]

/-- C6, amended: in fire-and-forget mode (`wait_for_ack = 0`) `xmodem_send` reads one
answer after the transmission and does not wait for more. If that answer is neither NAK
nor CAN (an ACK, any other byte, or `-1` for no byte yet) it returns 0 having transmitted
the frame exactly once; if it is CAN it returns -1 having transmitted the frame once; if
it is NAK the frame is transmitted again (at least twice in all). -/
theorem xmodem_send_no_wait {σ : Type} (block : xmodem_block_t) (w : World σ) (r : Int)
    (rest : List Int) (h1 : rx_byte r ≠ XMODEM_NAK) (h2 : rx_byte r ≠ XMODEM_CAN) :
    xmodem_send block 0 { w with rx := r :: rest }
      = (some 0, xmodem_sent_block block,
          { w with rx := rest, tx := w.tx ++ [xmodem_frame (xmodem_sent_block block)] })
    ∧ xmodem_send block 0 { w with rx := 24 :: rest }
      = (some (-1), xmodem_sent_block block,
          { w with rx := rest, tx := w.tx ++ [xmodem_frame (xmodem_sent_block block)] })
    ∧ ∃ k, 2 ≤ k
        ∧ (xmodem_send block 0 { w with rx := 21 :: rest }).2.2.tx
            = w.tx ++ List.replicate k (xmodem_frame (xmodem_sent_block block)) := by
  have h1' : ¬ (r % 256).toNat = 21 := h1
  have h2' : ¬ (r % 256).toNat = 24 := h2
  refine ⟨?_, ?_, ?_⟩
  · by_cases ha : (r % 256).toNat = 6 <;>
    simp [xmodem_send_eq, xmodem_send_loop, xmodem_send_wait, usb_serial_write, xmodem_frame,
      XMODEM_ACK, XMODEM_CAN, XMODEM_NAK, h1', h2', ha]
  · simp [xmodem_send_eq, xmodem_send_loop, xmodem_send_wait, usb_serial_write, xmodem_frame,
      XMODEM_ACK, XMODEM_CAN, XMODEM_NAK]
  · obtain ⟨k, e1, _, e3, _⟩ := xmodem_send_loop_trace (xmodem_sent_block block) 0 10 1
      { w with rx := rest, tx := w.tx ++ [xmodem_frame (xmodem_sent_block block)] }
    refine ⟨k + 1, by have := e3 (by omega) (by omega); omega, ?_⟩
    rw [xmodem_send_eq, xmodem_send_loop_succ _ _ _ _ _ (by omega)]
    have step : xmodem_send_resume (xmodem_sent_block block) 0 10 0
          (usb_serial_write (xmodem_sent_block block).bytes sizeof_xmodem_block_t
            { w with rx := 21 :: rest })
        = xmodem_send_loop (xmodem_sent_block block) 0 10 1
            { w with rx := rest, tx := w.tx ++ [xmodem_frame (xmodem_sent_block block)] } := by
      simp [xmodem_send_resume, xmodem_send_wait, usb_serial_write, xmodem_frame,
        XMODEM_ACK, XMODEM_CAN, XMODEM_NAK]
    rw [step, e1]
    simp [List.replicate_succ]

theorem xmodem_send_no_wait_witness :
    rx_byte (-1) ≠ XMODEM_NAK ∧ rx_byte (-1) ≠ XMODEM_CAN
    ∧ (xmodem_send (xmodem_block_t.zero []) 0 (World.start [-1, 24])).1 = some 0 :=
  ⟨by decide, by decide,
   congrArg Prod.fst
     (xmodem_send_no_wait (xmodem_block_t.zero []) (World.start []) (-1) [24]
       (by decide) (by decide)).1⟩

theorem xmodem_fini_wait_skip (junk rest : List Int) (a : Int)
    (h : ∀ r ∈ junk, rx_word r ≠ XMODEM_ACK ∧ rx_word r ≠ XMODEM_CAN) :
    xmodem_fini_wait (junk ++ a :: rest) = xmodem_fini_wait (a :: rest) := by
  induction junk with
  | nil => rfl
  | cons r junk ih =>
    have hr := h r (List.mem_cons_self r junk)
    have hr1 : ¬ (r % 65536).toNat = 6 := hr.1
    have hr2 : ¬ (r % 65536).toNat = 24 := hr.2
    rw [List.cons_append, xmodem_fini_wait]
    simp only [XMODEM_ACK, XMODEM_CAN, hr1, hr2, if_false, ite_self]
    exact ih (fun x hx => h x (List.mem_cons_of_mem r hx))

/-- C7, the code at the failing input: when the receiver first answers bytes that are
neither ACK nor CAN (`junk`, of any length) and then ACK, `xmodem_fini` returns 0, and -1
when it then answers CAN, but in both cases it has written the EOT byte exactly once:
the inner read loop is never left except by `return`, so the outer loop that would send
EOT again never comes round. -/
theorem xmodem_fini_single_eot {σ : Type} (block : xmodem_block_t) (w : World σ)
    (junk rest : List Int)
    (h : ∀ r ∈ junk, rx_word r ≠ XMODEM_ACK ∧ rx_word r ≠ XMODEM_CAN) :
    xmodem_fini block { w with rx := junk ++ 6 :: rest }
      = (some 0, { w with rx := rest, tx := w.tx ++ [[XMODEM_EOT]] })
    ∧ xmodem_fini block { w with rx := junk ++ 24 :: rest }
      = (some (-1), { w with rx := rest, tx := w.tx ++ [[XMODEM_EOT]] }) := by
  constructor <;>
  simp [xmodem_fini, usb_serial_putchar, xmodem_fini_wait_skip _ _ _ h, xmodem_fini_wait,
    XMODEM_ACK, XMODEM_CAN, XMODEM_EOT]

theorem xmodem_fini_single_eot_witness :
    (∀ r ∈ ([21, -1, 21] : List Int), rx_word r ≠ XMODEM_ACK ∧ rx_word r ≠ XMODEM_CAN)
    ∧ (xmodem_fini (xmodem_block_t.zero []) (World.start ([21, -1, 21] ++ 6 :: []))).2.tx
        = [[4]] :=
  ⟨by decide,
   congrArg (fun r => r.2.tx)
     (xmodem_fini_single_eot (xmodem_block_t.zero []) (World.start []) [21, -1, 21] []
       (by decide)).1⟩

/-- The retry loop treats every block alike: its return value, the answers it reads and
the number of frames it writes are those of the run on any other block with the same
answers pending. -/
theorem xmodem_send_loop_factor {σ : Type} (block : xmodem_block_t) (wait_for_ack : Int)
    (fuel : Nat) : ∀ (retry_count : Nat) (w : World σ) (block0 : xmodem_block_t)
      (w0 : World Unit), w0.rx = w.rx →
    ∃ k, xmodem_send_loop block wait_for_ack fuel retry_count w
          = ((xmodem_send_loop block0 wait_for_ack fuel retry_count w0).1,
             { w with rx := (xmodem_send_loop block0 wait_for_ack fuel retry_count w0).2.rx
                      tx := w.tx ++ List.replicate k (xmodem_frame block) })
      ∧ (xmodem_send_loop block0 wait_for_ack fuel retry_count w0).2.tx.length
          = w0.tx.length + k := by
  induction fuel with
  | zero =>
    intro rc w block0 w0 h
    exact ⟨0, by simp only [xmodem_send_loop, h, List.replicate_zero, List.append_nil],
      by simp [xmodem_send_loop]⟩
  | succ fuel ih =>
    intro rc w block0 w0 h
    by_cases hrc : rc < 10
    · simp only [xmodem_send_loop, hrc, if_true]
      have hrx : (usb_serial_write block0.bytes sizeof_xmodem_block_t w0).rx
          = (usb_serial_write block.bytes sizeof_xmodem_block_t w).rx := h
      rw [hrx]
      cases hw : xmodem_send_wait wait_for_ack
          (usb_serial_write block.bytes sizeof_xmodem_block_t w).rx with
      | mk rep rest =>
        cases rep with
        | ret v => exact ⟨1, by simp [usb_serial_write, xmodem_frame], by simp [usb_serial_write]⟩
        | starved =>
          exact ⟨1, by simp [usb_serial_write, xmodem_frame], by simp [usb_serial_write]⟩
        | again =>
          obtain ⟨k, h1, h2⟩ := ih ((rc + 1) % 256)
            { usb_serial_write block.bytes sizeof_xmodem_block_t w with rx := rest } block0
            { usb_serial_write block0.bytes sizeof_xmodem_block_t w0 with rx := rest } rfl
          refine ⟨k + 1, ?_, ?_⟩
          · simp only [h1]
            simp [usb_serial_write, xmodem_frame, List.replicate_succ]
          · simp only [h2]
            simp [usb_serial_write]
            omega
    · exact ⟨0,
        by simp only [xmodem_send_loop, hrc, if_false, h, List.replicate_zero, List.append_nil],
        by simp [xmodem_send_loop, hrc]⟩

/-- `xmodem_send` in terms of `xmodem_send_outcome`. -/
theorem xmodem_send_by_outcome {σ : Type} (block : xmodem_block_t) (wait_for_ack : Int)
    (w : World σ) :
    xmodem_send block wait_for_ack w
      = ((xmodem_send_outcome wait_for_ack w.rx).1, xmodem_sent_block block,
          { w with rx := (xmodem_send_outcome wait_for_ack w.rx).2.2
                   tx := w.tx ++ List.replicate (xmodem_send_outcome wait_for_ack w.rx).2.1
                     (xmodem_frame (xmodem_sent_block block)) }) := by
  obtain ⟨k, h1, h2⟩ := xmodem_send_loop_factor (xmodem_sent_block block) wait_for_ack 11 0 w
    (xmodem_block_t.zero []) (World.start w.rx) rfl
  have hk : (xmodem_send_outcome wait_for_ack w.rx).2.1 = k := by
    simp only [xmodem_send_outcome, h2]
    simp [World.start]
  rw [xmodem_send_eq, h1, hk]
  rfl

theorem Device.run_append {σ : Type} (D : Device σ) (a b : List Nat) : ∀ s : σ,
    D.run s (a ++ b) = ((D.run s a).1 ++ (D.run (D.run s a).2 b).1, (D.run (D.run s a).2 b).2) := by
  induction a with
  | nil => intro s; simp [Device.run]
  | cons c a ih => intro s; simp [Device.run, ih]

theorem Device.run_length {σ : Type} (D : Device σ) (mosi : List Nat) : ∀ s : σ,
    (D.run s mosi).1.length = mosi.length := by
  induction mosi with
  | nil => intro s; simp [Device.run]
  | cons c a ih => intro s; simp [Device.run, ih]

/-- The fill loop of `prom_send`, run for `n` of its 128 turns. -/
theorem prom_send_fill_take {σ : Type} (D : Device σ) (data : List Nat) (w : World σ)
    (n : Nat) (h : n ≤ data.length) :
    (List.range n).foldl
        (fun s off => let r := spi_send D 0 s.2; (s.1.set off r.1, r.2)) (data, w)
      = ((D.run w.dev (List.replicate n 0)).1 ++ data.drop n,
          { w with dev := (D.run w.dev (List.replicate n 0)).2
                   spi := w.spi ++ List.replicate n (SpiEvent.byte 0) }) := by
  induction n with
  | zero => simp [Device.run]
  | succ n ih =>
    have hlen := Device.run_length D (List.replicate n 0) w.dev
    rw [List.range_succ, List.foldl_append, ih (by omega), List.replicate_succ',
      Device.run_append, List.replicate_succ' n (SpiEvent.byte 0)]
    simp only [List.foldl_cons, List.foldl_nil, spi_send, Device.run]
    have hd : data.drop n = data[n] :: data.drop (n + 1) :=
      List.drop_eq_getElem_cons (by omega)
    rw [List.set_append_right _ _ (by simp [hlen])]
    simp only [hlen, List.length_replicate, Nat.sub_self, hd, List.set_cons_zero]
    simp

theorem prom_send_fill_eq {σ : Type} (D : Device σ) (data : List Nat) (w : World σ)
    (h : data.length = 128) :
    prom_send_fill D data w
      = ((D.run w.dev (List.replicate 128 0)).1,
          { w with dev := (D.run w.dev (List.replicate 128 0)).2
                   spi := w.spi ++ List.replicate 128 (SpiEvent.byte 0) }) := by
  unfold prom_send_fill sizeof_data
  rw [prom_send_fill_take D data w 128 (by omega), List.drop_of_length_le (by omega)]
  simp

theorem xmodem_send_outcome_ack (wait_for_ack : Int) (rest : List Int) :
    xmodem_send_outcome wait_for_ack (6 :: rest) = (some 0, 1, rest) := by
  simp [xmodem_send_outcome, xmodem_send_loop, xmodem_send_wait, usb_serial_write,
    World.start, XMODEM_ACK]

theorem Device.run_replicate_add {σ : Type} (D : Device σ) (s : σ) (a b : Nat) :
    D.run s (List.replicate (a + b) 0)
      = ((D.run s (List.replicate a 0)).1
            ++ (D.run (D.run s (List.replicate a 0)).2 (List.replicate b 0)).1,
         (D.run (D.run s (List.replicate a 0)).2 (List.replicate b 0)).2) := by
  rw [List.replicate_add, Device.run_append]

/-- The frame of a block whose header byte is 0x01, in the specification's terms. -/
theorem xmodem_frame_spec (block : xmodem_block_t) (payload : List Nat) (q : Nat)
    (hs : block.soh = 1) (hq : block.block_num % 256 = q % 256) (hp : payload.length = 128) :
    xmodem_frame (xmodem_sent_block { block with data := payload })
      = spec_frame (q + 1) payload := by
  rw [xmodem_frame_eq _ (by simpa [xmodem_sent_block] using hp)]
  have e1 : (block.block_num + 1) % 256 = (q + 1) % 256 := by omega
  have e2 : (255 - (q + 1) % 256) % 256 = 255 - (q + 1) % 256 := by omega
  simp [xmodem_sent_block, spec_frame, hs, e1, e2, xmodem_cksum_eq payload hp]

/-- The dump loop of `prom_send` while the receiver acknowledges and the end address
is not reached: `n` turns read 128 bytes each from the device, send them as the frames
numbered `q + 1`, ..., `q + n`, and leave the loop at its head, `n` chunks further on. -/
theorem prom_send_loop_acked {σ : Type} (D : Device σ) (end_addr : Nat) (rest : List Int)
    (n : Nat) : ∀ (fuel addr led_on led_count q : Nat) (block : xmodem_block_t) (w : World σ),
    block.data.length = 128 → block.soh = 1 → block.block_num % 256 = q % 256 →
    w.rx = List.replicate n 6 ++ rest → n ≤ fuel →
    addr + 128 * n < end_addr → addr + 128 * n < 2 ^ 32 →
    ∃ (led_on1 led_count1 : Nat) (block1 : xmodem_block_t) (w1 : World σ),
      prom_send_loop D end_addr fuel addr led_on led_count block w
        = prom_send_loop D end_addr (fuel - n) (addr + 128 * n) led_on1 led_count1 block1 w1
      ∧ block1.data.length = 128 ∧ block1.soh = 1 ∧ block1.block_num % 256 = (q + n) % 256
      ∧ w1.rx = rest
      ∧ w1.tx = w.tx ++ ((D.chunks w.dev n).enumFrom (q + 1)).map (fun p => spec_frame p.1 p.2)
      ∧ w1.dev = (D.run w.dev (List.replicate (128 * n) 0)).2
      ∧ w1.spi = w.spi ++ List.replicate (128 * n) (SpiEvent.byte 0) := by
  induction n with
  | zero =>
    intro fuel addr lo lc q block w hd hs hq hrx _ _ _
    exact ⟨lo, lc, block, w, rfl, hd, hs, hq, by simpa using hrx,
      by simp [Device.chunks], by simp [Device.run], by simp⟩
  | succ n ih =>
    intro fuel addr lo lc q block w hd hs hq hrx hfuel hend h32
    obtain ⟨fuel, rfl⟩ : ∃ f, fuel = f + 1 := ⟨fuel - 1, by omega⟩
    have hrx' : w.rx = 6 :: (List.replicate n 6 ++ rest) := by
      rw [hrx, List.replicate_succ, List.cons_append]
    have hlen : (D.run w.dev (List.replicate 128 0)).1.length = 128 := by
      rw [Device.run_length, List.length_replicate]
    have haddr : (addr + 128) % 2 ^ 32 = addr + 128 := Nat.mod_eq_of_lt (by omega)
    have hcont : ¬ (addr + 128 ≥ end_addr) := by omega
    obtain ⟨lo1, lc1, block1, w1, e, b1, b2, b3, c1, c2, c3, c4⟩ :=
      ih fuel (addr + 128) (led_blink lo lc w.regs).1 (led_blink lo lc w.regs).2.1 (q + 1)
        (xmodem_sent_block { block with data := (D.run w.dev (List.replicate 128 0)).1 })
        { rx := List.replicate n 6 ++ rest
          tx := w.tx ++ [spec_frame (q + 1) (D.run w.dev (List.replicate 128 0)).1]
          dev := (D.run w.dev (List.replicate 128 0)).2
          spi := w.spi ++ List.replicate 128 (SpiEvent.byte 0)
          regs := (led_blink lo lc w.regs).2.2 }
        (by simpa [xmodem_sent_block] using hlen) (by simpa [xmodem_sent_block] using hs)
        (by simp only [xmodem_sent_block]; omega) rfl (by omega) (by omega) (by omega)
    refine ⟨lo1, lc1, block1, w1, ?_, b1, b2, ?_, c1, ?_, ?_, ?_⟩
    · rw [← show fuel - n = fuel + 1 - (n + 1) by omega,
        ← show addr + 128 + 128 * n = addr + 128 * (n + 1) by omega, ← e]
      simp only [prom_send_loop, prom_send_fill_eq D block.data w hd, xmodem_send_by_outcome,
        hrx', xmodem_send_outcome_ack, sizeof_data, haddr, hcont, if_false,
        xmodem_frame_spec block _ q hs hq hlen, List.replicate_one]
      simp
    · rw [b3]; omega
    · rw [c2]
      simp [Device.chunks, List.enumFrom_cons]
    · rw [c3, show 128 * (n + 1) = 128 + 128 * n by omega, Device.run_replicate_add]
    · rw [c4, show 128 * (n + 1) = 128 + 128 * n by omega, List.replicate_add]
      simp

theorem Device.chunks_length {σ : Type} (D : Device σ) (n : Nat) : ∀ s : σ,
    (D.chunks s n).length = n := by
  induction n with
  | zero => intro s; rfl
  | succ n ih => intro s; simp [Device.chunks, ih]

theorem Device.chunks_mem_length {σ : Type} (D : Device σ) (n : Nat) : ∀ s : σ,
    ∀ p ∈ D.chunks s n, p.length = 128 := by
  induction n with
  | zero => intro s p hp; simp [Device.chunks] at hp
  | succ n ih =>
    intro s p hp
    simp only [Device.chunks, List.mem_cons] at hp
    rcases hp with rfl | hp
    · rw [Device.run_length, List.length_replicate]
    · exact ih _ p hp

theorem Device.chunks_flatten {σ : Type} (D : Device σ) (n : Nat) : ∀ s : σ,
    (D.chunks s n).flatten = (D.run s (List.replicate (128 * n) 0)).1 := by
  induction n with
  | zero => intro s; simp [Device.chunks, Device.run]
  | succ n ih =>
    intro s
    rw [show 128 * (n + 1) = 128 + 128 * n by omega, Device.run_replicate_add]
    simp only [Device.chunks, List.flatten_cons, ih]

theorem Device.chunks_succ_last {σ : Type} (D : Device σ) (n : Nat) : ∀ s : σ,
    D.chunks s (n + 1)
      = D.chunks s n
        ++ [(D.run (D.run s (List.replicate (128 * n) 0)).2 (List.replicate 128 0)).1] := by
  induction n with
  | zero =>
    intro s
    rfl
  | succ n ih =>
    intro s
    rw [Device.chunks, ih, show 128 * (n + 1) = 128 + 128 * n by omega,
      Device.run_replicate_add]
    simp only [Device.chunks, List.cons_append]

/-- The dump loop of `prom_send` when the receiver acknowledges `n + 1` frames and the
last of them reaches the end address: the loop is left by `break`. -/
theorem prom_send_loop_done {σ : Type} (D : Device σ) (end_addr : Nat) (rest : List Int)
    (n fuel addr led_on led_count q : Nat) (block : xmodem_block_t) (w : World σ)
    (hd : block.data.length = 128) (hs : block.soh = 1) (hq : block.block_num % 256 = q % 256)
    (hrx : w.rx = List.replicate (n + 1) 6 ++ rest) (hfuel : n + 1 ≤ fuel)
    (hn : addr + 128 * n < end_addr) (hend : end_addr ≤ addr + 128 * (n + 1))
    (h32 : addr + 128 * (n + 1) < 2 ^ 32) :
    ∃ (block2 : xmodem_block_t) (w2 : World σ),
      prom_send_loop D end_addr fuel addr led_on led_count block w = (LoopExit.brk, block2, w2)
      ∧ w2.rx = rest
      ∧ w2.tx = w.tx
          ++ ((D.chunks w.dev (n + 1)).enumFrom (q + 1)).map (fun p => spec_frame p.1 p.2)
      ∧ w2.dev = (D.run w.dev (List.replicate (128 * (n + 1)) 0)).2
      ∧ w2.spi = w.spi ++ List.replicate (128 * (n + 1)) (SpiEvent.byte 0) := by
  obtain ⟨lo1, lc1, block1, w1, e, b1, b2, b3, c1, c2, c3, c4⟩ :=
    prom_send_loop_acked D end_addr (6 :: rest) n fuel addr led_on led_count q block w hd hs hq
      (by rw [hrx, List.replicate_succ', List.append_assoc]; rfl) (by omega) hn (by omega)
  obtain ⟨f, hf⟩ : ∃ f, fuel - n = f + 1 := ⟨fuel - n - 1, by omega⟩
  have hlen : (D.run w1.dev (List.replicate 128 0)).1.length = 128 := by
    rw [Device.run_length, List.length_replicate]
  have haddr : (addr + 128 * n + 128) % 2 ^ 32 = addr + 128 * n + 128 :=
    Nat.mod_eq_of_lt (by omega)
  have hstop : addr + 128 * n + 128 ≥ end_addr := by omega
  rw [e, hf]
  refine ⟨xmodem_sent_block { block1 with data := (D.run w1.dev (List.replicate 128 0)).1 },
    { rx := rest
      tx := w1.tx ++ [spec_frame (q + n + 1) (D.run w1.dev (List.replicate 128 0)).1]
      dev := (D.run w1.dev (List.replicate 128 0)).2
      spi := w1.spi ++ List.replicate 128 (SpiEvent.byte 0)
      regs := out 0xD6 0 w1.regs }, ?_, rfl, ?_, ?_, ?_⟩
  · simp only [prom_send_loop, prom_send_fill_eq D block1.data w1 b1, xmodem_send_by_outcome,
      c1, xmodem_send_outcome_ack, sizeof_data, haddr, hstop, if_true,
      xmodem_frame_spec block1 _ (q + n) b2 b3 hlen, List.replicate_one]
    simp
  · simp only [c2, c3, Device.chunks_succ_last, List.enumFrom_append, List.map_append,
      Device.chunks_length]
    simp [Nat.add_assoc, Nat.add_comm, Nat.add_left_comm]
  · simp only [c3]
    rw [show 128 * (n + 1) = 128 * n + 128 by omega, Device.run_replicate_add]
  · simp only [c4]
    rw [show 128 * (n + 1) = 128 * n + 128 by omega, List.replicate_add]
    simp

/-- The dump loop of `prom_send` when the receiver acknowledges `n` frames and
`xmodem_send` fails on the next one: the loop is left by `return`. -/
theorem prom_send_loop_fail {σ : Type} (D : Device σ) (end_addr : Nat) (tail : List Int)
    (r : Int) (n fuel addr led_on led_count q : Nat) (block : xmodem_block_t) (w : World σ)
    (hd : block.data.length = 128) (hs : block.soh = 1) (hq : block.block_num % 256 = q % 256)
    (hrx : w.rx = List.replicate n 6 ++ tail) (hfuel : n + 1 ≤ fuel)
    (hn : addr + 128 * n < end_addr) (h32 : addr + 128 * n < 2 ^ 32)
    (hr : (xmodem_send_outcome 1 tail).1 = some r) (hneg : r < 0) :
    ∃ (block2 : xmodem_block_t) (w2 : World σ),
      prom_send_loop D end_addr fuel addr led_on led_count block w = (LoopExit.ret, block2, w2)
      ∧ w2.rx = (xmodem_send_outcome 1 tail).2.2
      ∧ w2.tx = w.tx
          ++ ((D.chunks w.dev n).enumFrom (q + 1)).map (fun p => spec_frame p.1 p.2)
          ++ List.replicate (xmodem_send_outcome 1 tail).2.1
              (spec_frame (q + n + 1)
                (D.run (D.run w.dev (List.replicate (128 * n) 0)).2 (List.replicate 128 0)).1)
      ∧ w2.spi = w.spi ++ List.replicate (128 * (n + 1)) (SpiEvent.byte 0) := by
  obtain ⟨lo1, lc1, block1, w1, e, b1, b2, b3, c1, c2, c3, c4⟩ :=
    prom_send_loop_acked D end_addr tail n fuel addr led_on led_count q block w hd hs hq
      hrx (by omega) hn h32
  obtain ⟨f, hf⟩ : ∃ f, fuel - n = f + 1 := ⟨fuel - n - 1, by omega⟩
  have hlen : (D.run w1.dev (List.replicate 128 0)).1.length = 128 := by
    rw [Device.run_length, List.length_replicate]
  rw [e, hf]
  refine ⟨xmodem_sent_block { block1 with data := (D.run w1.dev (List.replicate 128 0)).1 },
    { rx := (xmodem_send_outcome 1 tail).2.2
      tx := w1.tx ++ List.replicate (xmodem_send_outcome 1 tail).2.1
        (spec_frame (q + n + 1) (D.run w1.dev (List.replicate 128 0)).1)
      dev := (D.run w1.dev (List.replicate 128 0)).2
      spi := w1.spi ++ List.replicate 128 (SpiEvent.byte 0)
      regs := w1.regs }, ?_, rfl, ?_, ?_⟩
  · simp only [prom_send_loop, prom_send_fill_eq D block1.data w1 b1, xmodem_send_by_outcome,
      c1, hr, hneg, if_true, xmodem_frame_spec block1 _ (q + n) b2 b3 hlen]
  · simp only [c2, c3]
  · simp only [c4]
    rw [show 128 * (n + 1) = 128 * n + 128 by omega, List.replicate_add]
    simp

theorem prom_send_start_rx {σ : Type} (D : Device σ) (w : World σ) :
    (prom_send_start D w).rx = w.rx := by
  simp [prom_send_start, spi_send, spi_cs, spi_power]

theorem prom_send_start_tx {σ : Type} (D : Device σ) (w : World σ) :
    (prom_send_start D w).tx = w.tx := by
  simp [prom_send_start, spi_send, spi_cs, spi_power]

theorem prom_send_start_dev {σ : Type} (D : Device σ) (w : World σ) :
    (prom_send_start D w).dev = D.after_read_cmd w.dev := by
  simp [prom_send_start, spi_send, spi_cs, spi_power, Device.after_read_cmd, Device.run]

theorem prom_send_start_spi {σ : Type} (D : Device σ) (w : World σ) :
    (prom_send_start D w).spi
      = w.spi ++ [SpiEvent.cs true, SpiEvent.byte 3, SpiEvent.byte 0, SpiEvent.byte 0,
          SpiEvent.byte 0] := by
  simp [prom_send_start, spi_send, spi_cs, spi_power]

theorem prom_send_eq {σ : Type} (D : Device σ) (g : Globals) (w : World σ) :
    prom_send D g w
      = match prom_send_loop D g.target_flash_size ((prom_send_start D w).rx.length + 1) 0 1 0
            { g.xmodem_block with soh := 1, block_num := 0 } (prom_send_start D w) with
        | (LoopExit.stuck, block, w) => (none, { g with xmodem_block := block }, w)
        | (LoopExit.ret, block, w) => (some (), { g with xmodem_block := block }, w)
        | (LoopExit.brk, block, w) =>
          ((xmodem_fini block (spi_power 0 (spi_cs D 0 w))).1.map (fun _ => ()),
            { g with xmodem_block := block }, (xmodem_fini block (spi_power 0 (spi_cs D 0 w))).2) := by
  simp [prom_send, xmodem_init, prom_send_start]

/-- C8: let the target flash size be `S`, a positive multiple of 128 below 2^32 (every
size that can be configured is one), and let the payload buffer hold 128 bytes.

* If the receiver answers ACK to each of `S / 128` frames, `prom_send` writes to the
  serial link exactly `S / 128` frames, numbered from 1, and then the EOT byte; on SPI it
  asserts chip select, shifts out the one read command 03 00 00 00, then `S` zero bytes,
  and deasserts chip select. It then returns once the receiver answers the EOT.
* The payloads are chunks of 128 bytes whose concatenation is the `S` bytes that the
  device shifts out after that read command (for a flash chip: its bytes 0 .. S-1).
* If the receiver acknowledges `k < S / 128` frames and `xmodem_send` then fails
  (a negative return, by CAN or by ten NAKs), `prom_send` returns at once: the serial
  output ends with the transmissions of frame `k + 1`, no EOT byte follows, and nothing
  more is read from the receiver or from the device.

In the input, 6 is ACK. -/
theorem prom_send_dump {σ : Type} (D : Device σ) (g : Globals) (w : World σ) (S : Nat)
    (hS : g.target_flash_size = S) (h0 : 0 < S) (h128 : S % 128 = 0) (h32 : S < 2 ^ 32)
    (hd : g.xmodem_block.data.length = 128) :
    (∀ rest : List Int,
      (prom_send D g { w with rx := List.replicate (S / 128) 6 ++ rest }).1
          = (xmodem_fini_wait rest).1.map (fun _ => ())
      ∧ (prom_send D g { w with rx := List.replicate (S / 128) 6 ++ rest }).2.2.rx
          = (xmodem_fini_wait rest).2
      ∧ (prom_send D g { w with rx := List.replicate (S / 128) 6 ++ rest }).2.2.tx
          = w.tx
            ++ ((D.chunks (D.after_read_cmd w.dev) (S / 128)).enumFrom 1).map
                (fun p => spec_frame p.1 p.2)
            ++ [[XMODEM_EOT]]
      ∧ (prom_send D g { w with rx := List.replicate (S / 128) 6 ++ rest }).2.2.spi
          = w.spi
            ++ [SpiEvent.cs true, SpiEvent.byte 3, SpiEvent.byte 0, SpiEvent.byte 0,
                SpiEvent.byte 0]
            ++ List.replicate S (SpiEvent.byte 0) ++ [SpiEvent.cs false])
    ∧ ((D.chunks (D.after_read_cmd w.dev) (S / 128)).flatten
          = (D.run (D.after_read_cmd w.dev) (List.replicate S 0)).1
      ∧ (D.chunks (D.after_read_cmd w.dev) (S / 128)).length = S / 128
      ∧ ∀ p ∈ D.chunks (D.after_read_cmd w.dev) (S / 128), p.length = 128)
    ∧ (∀ (k : Nat) (tail : List Int) (r : Int), k < S / 128 →
        (xmodem_send_outcome 1 tail).1 = some r → r < 0 →
        (prom_send D g { w with rx := List.replicate k 6 ++ tail }).1 = some ()
        ∧ (prom_send D g { w with rx := List.replicate k 6 ++ tail }).2.2.rx
            = (xmodem_send_outcome 1 tail).2.2
        ∧ (prom_send D g { w with rx := List.replicate k 6 ++ tail }).2.2.tx
            = w.tx
              ++ ((D.chunks (D.after_read_cmd w.dev) k).enumFrom 1).map
                  (fun p => spec_frame p.1 p.2)
              ++ List.replicate (xmodem_send_outcome 1 tail).2.1
                  (spec_frame (k + 1)
                    (D.run (D.run (D.after_read_cmd w.dev) (List.replicate (128 * k) 0)).2
                      (List.replicate 128 0)).1)
        ∧ (prom_send D g { w with rx := List.replicate k 6 ++ tail }).2.2.spi
            = w.spi
              ++ [SpiEvent.cs true, SpiEvent.byte 3, SpiEvent.byte 0, SpiEvent.byte 0,
                  SpiEvent.byte 0]
              ++ List.replicate (128 * (k + 1)) (SpiEvent.byte 0)) := by
  obtain ⟨n, hn⟩ : ∃ n, S / 128 = n + 1 := ⟨S / 128 - 1, by omega⟩
  have hSn : S = 128 * (n + 1) := by omega
  refine ⟨?_, ⟨?_, Device.chunks_length D _ _, Device.chunks_mem_length D _ _⟩, ?_⟩
  · intro rest
    obtain ⟨block2, w2, e, c1, c2, c3, c4⟩ :=
      prom_send_loop_done D g.target_flash_size rest n
        ((prom_send_start D { w with rx := List.replicate (S / 128) 6 ++ rest }).rx.length + 1)
        0 1 0 0 { g.xmodem_block with soh := 1, block_num := 0 }
        (prom_send_start D { w with rx := List.replicate (S / 128) 6 ++ rest })
        hd rfl rfl (by rw [prom_send_start_rx, hn])
        (by rw [prom_send_start_rx]; simp; omega) (by omega) (by omega) (by omega)
    rw [prom_send_start_tx, prom_send_start_dev, Nat.zero_add, ← hn] at c2
    rw [prom_send_start_spi, ← hSn] at c4
    rw [prom_send_eq, e]
    simp [xmodem_fini, usb_serial_putchar, spi_power, spi_cs, c1, c2, c4, XMODEM_EOT]
  · rw [Device.chunks_flatten, hn, ← hSn]
  · intro k tail r hk hr hneg
    obtain ⟨block2, w2, e, c1, c2, c4⟩ :=
      prom_send_loop_fail D g.target_flash_size tail r k
        ((prom_send_start D { w with rx := List.replicate k 6 ++ tail }).rx.length + 1)
        0 1 0 0 { g.xmodem_block with soh := 1, block_num := 0 }
        (prom_send_start D { w with rx := List.replicate k 6 ++ tail })
        hd rfl rfl (by rw [prom_send_start_rx])
        (by rw [prom_send_start_rx]; simp) (by omega) (by omega) hr hneg
    rw [prom_send_start_tx, prom_send_start_dev, Nat.zero_add, Nat.zero_add] at c2
    rw [prom_send_start_spi] at c4
    rw [prom_send_eq, e]
    exact ⟨rfl, c1, c2, c4⟩

theorem prom_send_dump_witness :
    (65536 : Nat) = 65536 ∧ 0 < 65536 ∧ 65536 % 128 = 0 ∧ 65536 < 2 ^ 32
    ∧ (List.replicate 128 0).length = 128
    ∧ (prom_send (const_device 255)
          { xmodem_block := xmodem_block_t.zero (List.replicate 128 0), bytes_uploaded := 0,
            target_flash_size := 65536 }
          { World.start [] with rx := List.replicate (65536 / 128) 6 ++ [6] }).1
        = (xmodem_fini_wait [6]).1.map (fun _ => ()) :=
  ⟨rfl, by decide, by decide, by decide, List.length_replicate 128 0,
   ((prom_send_dump (const_device 255)
      { xmodem_block := xmodem_block_t.zero (List.replicate 128 0), bytes_uploaded := 0,
        target_flash_size := 65536 }
      (World.start []) 65536 rfl (by decide) (by decide) (by decide)
      (List.length_replicate 128 0)).1 [6]).1⟩

/-! ## Facts about `probe.c`: what the SPI operations leave alone -/

theorem spi_cs_serial {σ : Type} (D : Device σ) (i : Nat) (w : World σ) :
    (spi_cs D i w).tx = w.tx ∧ (spi_cs D i w).rx = w.rx := by
  unfold spi_cs; split <;> exact ⟨rfl, rfl⟩

theorem spi_send_serial {σ : Type} (D : Device σ) (c : Nat) (w : World σ) :
    (spi_send D c w).2.tx = w.tx ∧ (spi_send D c w).2.rx = w.rx := ⟨rfl, rfl⟩

theorem spi_status_serial {σ : Type} (D : Device σ) (w : World σ) :
    (spi_status D w).2.tx = w.tx ∧ (spi_status D w).2.rx = w.rx := by
  simp [spi_status, spi_cs_serial, spi_send_serial]

theorem spi_write_enable_serial {σ : Type} (D : Device σ) (w : World σ) :
    (spi_write_enable D w).tx = w.tx ∧ (spi_write_enable D w).rx = w.rx := by
  simp [spi_write_enable, spi_cs_serial, spi_send_serial, spi_status_serial, spi_power]

theorem spi_wait_wip_serial {σ : Type} (D : Device σ) (polls : Nat) : ∀ w : World σ,
    (spi_wait_wip D polls w).2.tx = w.tx ∧ (spi_wait_wip D polls w).2.rx = w.rx := by
  induction polls with
  | zero => intro w; exact ⟨rfl, rfl⟩
  | succ polls ih =>
    intro w
    simp only [spi_wait_wip]
    split
    · rw [(ih _).1, (ih _).2]; exact spi_status_serial D w
    · exact spi_status_serial D w

theorem upload_send_chunk_serial {σ : Type} (D : Device σ) (buf : List Nat) (n : Nat)
    (w : World σ) :
    (upload_send_chunk D buf n w).2.tx = w.tx ∧ (upload_send_chunk D buf n w).2.rx = w.rx := by
  unfold upload_send_chunk
  generalize List.range sizeof_data = l
  induction l generalizing n w with
  | nil => exact ⟨rfl, rfl⟩
  | cons i l ih =>
    simp only [List.foldl_cons]
    rw [(ih _ _).1, (ih _ _).2]
    exact ⟨rfl, rfl⟩

set_option maxRecDepth 4000 in
/-- The programming loop of `spi_upload` writes nothing to the serial link. -/
theorem spi_upload_loop_tx {σ : Type} (D : Device σ) (polls len : Nat) (fuel : Nat) :
    ∀ (offset addr led_on led_count : Nat) (g : Globals) (w : World σ),
      (spi_upload_loop D polls len fuel offset addr led_on led_count g w).2.2.tx = w.tx := by
  induction fuel with
  | zero => intro offset addr lo lc g w; rfl
  | succ fuel ih =>
    intro offset addr lo lc g w
    simp only [spi_upload_loop]
    split
    · split
      · split
        · next w' heq =>
          have h := congrArg (fun r => r.2.tx) heq
          dsimp only at h
          rw [(spi_wait_wip_serial D polls _).1] at h
          rw [← h]
          simp only [spi_cs_serial, upload_send_chunk_serial, spi_send_serial,
            spi_status_serial, spi_write_enable_serial]
        · next u w' heq =>
          have h := congrArg (fun r => r.2.tx) heq
          dsimp only at h
          rw [(spi_wait_wip_serial D polls _).1] at h
          rw [ih, ← h]
          simp only [spi_cs_serial, upload_send_chunk_serial, spi_send_serial,
            spi_status_serial, spi_write_enable_serial]
      · rfl
    · rfl

theorem send_str_tx {σ : Type} (s : List Nat) (w : World σ) :
    ∃ more, (send_str s w).tx = w.tx ++ more := by
  unfold send_str
  generalize s.takeWhile (fun c => c ≠ 0) = l
  induction l generalizing w with
  | nil => exact ⟨[], by simp⟩
  | cons c l ih =>
    obtain ⟨more, h⟩ := ih (usb_serial_putchar c w)
    exact ⟨[c % 256] :: more, by rw [List.foldl_cons, h]; simp [usb_serial_putchar]⟩

theorem send_str_spi {σ : Type} (s : List Nat) (w : World σ) :
    (send_str s w).spi = w.spi ∧ (send_str s w).dev = w.dev := by
  unfold send_str
  generalize s.takeWhile (fun c => c ≠ 0) = l
  induction l generalizing w with
  | nil => exact ⟨rfl, rfl⟩
  | cons c l ih => simp only [List.foldl_cons]; rw [(ih _).1, (ih _).2]; exact ⟨rfl, rfl⟩

/-- Reading a hex number touches the serial link only. -/
theorem usb_serial_readhex_loop_spi {σ : Type} (fuel : Nat) : ∀ (val : Nat) (w : World σ),
    (usb_serial_readhex_loop fuel val w).2.spi = w.spi
    ∧ (usb_serial_readhex_loop fuel val w).2.dev = w.dev := by
  induction fuel with
  | zero => intro val w; exact ⟨rfl, rfl⟩
  | succ fuel ih =>
    intro val w
    simp only [usb_serial_readhex_loop]
    split
    · next w1 heq =>
      have : w1 = (usb_serial_getchar_echo w).2 := by rw [heq]
      subst this; exact ⟨rfl, rfl⟩
    · next c w1 heq =>
      have : w1 = (usb_serial_getchar_echo w).2 := by rw [heq]
      subst this
      split
      · rw [(ih _ _).1, (ih _ _).2]; exact ⟨rfl, rfl⟩
      · split
        · rw [(ih _ _).1, (ih _ _).2]; exact ⟨rfl, rfl⟩
        · split
          · rw [(ih _ _).1, (ih _ _).2]; exact ⟨rfl, rfl⟩
          · exact ⟨rfl, rfl⟩

theorem usb_serial_readhex_spi {σ : Type} (w : World σ) :
    (usb_serial_readhex w).2.spi = w.spi ∧ (usb_serial_readhex w).2.dev = w.dev :=
  usb_serial_readhex_loop_spi _ _ _

theorem and_SPI_PAGE_MASK (x : Nat) : x &&& SPI_PAGE_MASK = x % 4096 :=
  Nat.and_pow_two_sub_one_eq_mod x 12

set_option maxRecDepth 4000 in
/-- C9: let `addr` and `len` be the two numbers `spi_upload` reads from the operator.
If both are multiples of 4096, the first thing written to the serial link after the echo
of the input is a line that begins with `G`. Otherwise it is a line that begins with `!`,
and with that line written `spi_upload` returns: the SPI log and the device are as they
were on entry, so no SPI byte transaction has taken place. -/
theorem spi_upload_alignment {σ : Type} (D : Device σ) (polls : Nat) (g : Globals)
    (w w1 w2 : World σ) (addr len : Nat)
    (h1 : usb_serial_readhex w = (some addr, w1))
    (h2 : usb_serial_readhex w1 = (some len, w2)) :
    (addr % 4096 = 0 ∧ len % 4096 = 0 →
      ∃ body more, (spi_upload D polls g w).2.2.tx = w2.tx ++ [71 :: body] ++ more)
    ∧ (¬ (addr % 4096 = 0 ∧ len % 4096 = 0) →
      ∃ body, spi_upload D polls g w
          = (some (), { g with bytes_uploaded := 0 }, { w2 with tx := w2.tx ++ [33 :: body] })
        ∧ (spi_upload D polls g w).2.2.spi = w.spi
        ∧ (spi_upload D polls g w).2.2.dev = w.dev) := by
  have e1 := usb_serial_readhex_spi w
  have e2 := usb_serial_readhex_spi w1
  rw [h1] at e1
  rw [h2] at e2
  constructor
  · intro ⟨ha, hl⟩
    simp only [spi_upload, h1, h2, and_SPI_PAGE_MASK, ha, hl]
    simp only [ne_eq, not_true_eq_false, decide_False, Bool.or_self, if_false,
      Bool.false_eq_true]
    split
    · next g' w' heq =>
      refine ⟨(spi_upload_outbuf false addr len).tail, [], ?_⟩
      have h := congrArg (fun r => r.2.2.tx) heq
      dsimp only at h
      rw [spi_upload_loop_tx] at h
      simp [← h, usb_serial_write, spi_upload_outbuf]
    · next u g' w' heq =>
      have h := congrArg (fun r => r.2.2.tx) heq
      dsimp only at h
      rw [spi_upload_loop_tx] at h
      obtain ⟨more, hm⟩ := send_str_tx (cstr "done!\r\n") w'
      refine ⟨(spi_upload_outbuf false addr len).tail, more, ?_⟩
      simp [hm, ← h, usb_serial_write, spi_upload_outbuf]
  · intro hna
    have hf : ((decide (len &&& SPI_PAGE_MASK ≠ 0) || decide (addr &&& SPI_PAGE_MASK ≠ 0)) = true) := by
      simp only [and_SPI_PAGE_MASK, Bool.or_eq_true, decide_eq_true_eq]
      by_cases hl : len % 4096 = 0
      · right; intro ha; exact hna ⟨ha, hl⟩
      · left; exact hl
    simp only [spi_upload, h1, h2, hf, if_true]
    refine ⟨(spi_upload_outbuf true addr len).tail, ?_, e2.1.trans e1.1, e2.2.trans e1.2⟩
    simp [usb_serial_write, spi_upload_outbuf]

theorem spi_upload_alignment_witness :
    usb_serial_readhex (World.start [49, 48, 48, 49, 13, 49, 48, 48, 48, 13])
      = (some 0x1001,
          { World.start [49, 48, 48, 48, 13] with tx := [[49], [48], [48], [49], [13], [10]] })
    ∧ usb_serial_readhex
        { World.start [49, 48, 48, 48, 13] with tx := [[49], [48], [48], [49], [13], [10]] }
      = (some 0x1000,
          { World.start [] with
            tx := [[49], [48], [48], [49], [13], [10], [49], [48], [48], [48], [13], [10]] })
    ∧ ¬ (0x1001 % 4096 = 0 ∧ 0x1000 % 4096 = 0)
    ∧ (spi_upload (const_device 255) 0
        { xmodem_block := xmodem_block_t.zero [], bytes_uploaded := 7, target_flash_size := 0 }
        (World.start [49, 48, 48, 49, 13, 49, 48, 48, 48, 13])).2.2.spi = [] :=
  ⟨rfl, rfl, by decide,
   (((spi_upload_alignment (const_device 255) 0
        { xmodem_block := xmodem_block_t.zero [], bytes_uploaded := 7, target_flash_size := 0 }
        (World.start [49, 48, 48, 49, 13, 49, 48, 48, 48, 13]) _ _ 0x1001 0x1000 rfl rfl).2
      (by decide)).choose_spec).2.1⟩

theorem spi_status_spi {σ : Type} (D : Device σ) (w : World σ) :
    (spi_status D w).2.spi = w.spi ++ status_events := by
  simp [spi_status, spi_cs, spi_send, status_events]

/-- The busy-wait on WIP adds status reads to the SPI log and nothing else. -/
theorem spi_wait_wip_spi {σ : Type} (D : Device σ) (polls : Nat) : ∀ w : World σ,
    ∃ k, k ≤ polls
      ∧ (spi_wait_wip D polls w).2.spi = w.spi ++ (List.replicate k status_events).flatten := by
  induction polls with
  | zero => intro w; exact ⟨0, by omega, by simp [spi_wait_wip]⟩
  | succ polls ih =>
    intro w
    simp only [spi_wait_wip]
    split
    · obtain ⟨k, hk, h⟩ := ih (spi_status D w).2
      exact ⟨k + 1, by omega, by rw [h, spi_status_spi]; simp [List.replicate_succ]⟩
    · exact ⟨1, by omega, by rw [spi_status_spi]; simp⟩

/-- C10 as stated fails: the address 0x1001 is not a multiple of 4096, yet with a device
whose status byte has the Write-Enable-Latch bit set, `spi_erase_sector_interactive`
shifts out the sector-erase opcode 0x20 with the address bytes 00 10 01. The status read
before it is a hardware access too. -/
theorem spi_erase_sector_interactive_counterexample :
    0x1001 % 4096 ≠ 0
    ∧ (usb_serial_readhex (World.start [49, 48, 48, 49, 13])).1 = some 0x1001
    ∧ (spi_erase_sector_interactive (const_device 2) 1 (World.start [49, 48, 48, 49, 13])).2.spi
        = [SpiEvent.cs true, SpiEvent.byte 0x05, SpiEvent.byte 0x00, SpiEvent.cs false,
           SpiEvent.cs true, SpiEvent.byte 0x20, SpiEvent.byte 0x00, SpiEvent.byte 0x10,
           SpiEvent.byte 0x01, SpiEvent.cs false,
           SpiEvent.cs true, SpiEvent.byte 0x05, SpiEvent.byte 0x00, SpiEvent.cs false] := by
  refine ⟨by decide, rfl, rfl⟩

/-- C10, amended: `spi_erase_sector_interactive` makes no alignment check. With `addr` the
address read from the operator, it first reads the status register. If the
Write-Enable-Latch bit of the status byte is clear it writes `wp!` and returns, and the
status read is the only SPI traffic. If the bit is set, then for every address, aligned
or not, the sector-erase command 0x20 with the three address bytes follows the status
read on SPI, and after it come status reads only. -/
theorem spi_erase_sector_interactive_wel {σ : Type} (D : Device σ) (polls : Nat)
    (w w1 : World σ) (addr : Nat) (h : usb_serial_readhex w = (some addr, w1)) :
    ((spi_status D w1).1 &&& SPI_WEL = 0 →
      spi_erase_sector_interactive D polls w
          = (some (), send_str (cstr "wp!\r\n") (spi_status D w1).2)
        ∧ (spi_erase_sector_interactive D polls w).2.spi = w.spi ++ status_events)
    ∧ ((spi_status D w1).1 &&& SPI_WEL ≠ 0 →
      ∃ k, k ≤ polls
        ∧ (spi_erase_sector_interactive D polls w).2.spi
            = w.spi ++ status_events ++ erase_events addr
              ++ (List.replicate k status_events).flatten) := by
  have e1 := (usb_serial_readhex_spi w).1
  rw [h] at e1
  have e1' : w1.spi = w.spi := e1
  constructor
  · intro hw
    have hr : spi_erase_sector_interactive D polls w
        = (some (), send_str (cstr "wp!\r\n") (spi_status D w1).2) := by
      simp only [spi_erase_sector_interactive, h, hw, if_true]
    refine ⟨hr, ?_⟩
    rw [hr]
    show (send_str (cstr "wp!\r\n") (spi_status D w1).2).spi = _
    rw [(send_str_spi _ _).1, spi_status_spi, e1']
  · intro hw
    obtain ⟨k, hk, hspi⟩ := spi_wait_wip_spi D polls
      (spi_cs D 0 (spi_send D (addr >>> 0) (spi_send D (addr >>> 8) (spi_send D (addr >>> 16)
        (spi_send D 0x20 (spi_cs D 1 (spi_status D w1).2)).2).2).2).2)
    refine ⟨k, hk, ?_⟩
    have hlog : (spi_cs D 0 (spi_send D (addr >>> 0) (spi_send D (addr >>> 8)
        (spi_send D (addr >>> 16)
          (spi_send D 0x20 (spi_cs D 1 (spi_status D w1).2)).2).2).2).2).spi
        = w.spi ++ status_events ++ erase_events addr := by
      simp [spi_cs, spi_send, erase_events, spi_status_spi, e1']
    rw [hlog] at hspi
    simp only [spi_erase_sector_interactive, h, hw, if_false, spi_erase_sector]
    split
    · next w' heq =>
      have := congrArg (fun r => r.2.spi) heq
      dsimp only at this
      rw [← this, hspi]
    · next u w' heq =>
      have := congrArg (fun r => r.2.spi) heq
      dsimp only at this
      show (usb_serial_write _ 9 w').spi = _
      rw [show (usb_serial_write _ 9 w').spi = w'.spi from rfl, ← this, hspi]

theorem spi_erase_sector_interactive_wel_witness :
    usb_serial_readhex (World.start [49, 48, 48, 49, 13])
      = (some 0x1001, { World.start [] with tx := [[49], [48], [48], [49], [13], [10]] })
    ∧ (spi_status (const_device 0)
        { World.start [] with tx := [[49], [48], [48], [49], [13], [10]] }).1 &&& SPI_WEL = 0
    ∧ (spi_erase_sector_interactive (const_device 0) 5
        (World.start [49, 48, 48, 49, 13])).2.spi = [] ++ status_events :=
  ⟨rfl, by decide,
   ((spi_erase_sector_interactive_wel (const_device 0) 5 (World.start [49, 48, 48, 49, 13]) _
      0x1001 rfl).1 (by decide)).2⟩

/-! ## The read-only flash model -/

theorem rom_device_stream (image : List Nat) (n : Nat) : ∀ a : Nat,
    ((rom_device image).run { selected := true, phase := 4, opcode := 0x03, addr := a }
        (List.replicate n 0)).1
      = (List.range n).map (fun i => image.getD (a + i) 0xFF % 256) := by
  induction n with
  | zero => intro a; rfl
  | succ n ih =>
    intro a
    rw [List.replicate_succ, Device.run]
    simp only [rom_device, if_true, Nat.lt_irrefl, if_false, show ¬ (4 = 0) by decide]
    have := ih (a + 1)
    simp only [rom_device] at this
    rw [this, List.range_succ_eq_map]
    simp [Nat.add_assoc, Nat.add_comm 1]

/-- For the read-only flash model, the bytes shifted out after the read command
03 00 00 00 are the bytes of the image from address 0 on. -/
theorem rom_device_read (image : List Nat) (s : RomState) (n : Nat) :
    ((rom_device image).run ((rom_device image).after_read_cmd s) (List.replicate n 0)).1
      = (List.range n).map (fun i => image.getD i 0xFF % 256) := by
  have h : (rom_device image).after_read_cmd s
      = { selected := true, phase := 4, opcode := 0x03, addr := 0 } := by
    simp [Device.after_read_cmd, Device.run, rom_device]
  rw [h, rom_device_stream]
  simp

/-! ## Facts about `probe.c`: status polling and sector erase -/

theorem spi_status_eq {σ : Type} (D : Device σ) (w : World σ) :
    (spi_status D w).1 = (D.status_step w.dev).1
    ∧ (spi_status D w).2.dev = (D.status_step w.dev).2
    ∧ (spi_status D w).2.rx = w.rx ∧ (spi_status D w).2.tx = w.tx
    ∧ (spi_status D w).2.spi = w.spi ++ status_events := by
  simp [spi_status, spi_cs, spi_send, Device.status_step, status_events]

/-- The busy-wait returns as soon as a status read shows WIP clear. -/
theorem spi_wait_wip_done {σ : Type} (D : Device σ) (k : Nat) :
    ∀ (polls : Nat) (w : World σ), k < polls → D.busy_for k w.dev →
    ∃ w', spi_wait_wip D polls w = (some (), w')
      ∧ w'.rx = w.rx ∧ w'.tx = w.tx
      ∧ w'.dev = D.after_polls (k + 1) w.dev
      ∧ w'.spi = w.spi ++ (List.replicate (k + 1) status_events).flatten := by
  induction k with
  | zero =>
    intro polls w hp hb
    obtain ⟨polls, rfl⟩ : ∃ p, polls = p + 1 := ⟨polls - 1, by omega⟩
    obtain ⟨e1, e2, e3, e4, e5⟩ := spi_status_eq D w
    have hb' : (D.status_step w.dev).1 &&& SPI_WIP = 0 := hb
    refine ⟨(spi_status D w).2, ?_, e3, e4, ?_, ?_⟩
    · simp only [spi_wait_wip, e1, hb']
      simp
    · rw [e2]; rfl
    · rw [e5]; simp
  | succ k ih =>
    intro polls w hp hb
    obtain ⟨polls, rfl⟩ : ∃ p, polls = p + 1 := ⟨polls - 1, by omega⟩
    obtain ⟨e1, e2, e3, e4, e5⟩ := spi_status_eq D w
    obtain ⟨hb1, hb2⟩ : (D.status_step w.dev).1 &&& SPI_WIP ≠ 0
        ∧ D.busy_for k (D.status_step w.dev).2 := hb
    obtain ⟨w', h1, h2, h3, h4, h5⟩ := ih polls (spi_status D w).2 (by omega) (by rw [e2]; exact hb2)
    refine ⟨w', ?_, h2.trans e3, h3.trans e4, ?_, ?_⟩
    · simp only [spi_wait_wip, e1]
      rw [if_pos hb1]
      exact h1
    · rw [h4, e2]; rfl
    · rw [h5, e5, List.replicate_succ (n := k + 1)]
      simp

/-- The busy-wait does not return while the status reads show WIP set. -/
theorem spi_wait_wip_busy {σ : Type} (D : Device σ) (polls : Nat) :
    ∀ (w : World σ), D.busy_through polls w.dev →
      (spi_wait_wip D polls w).1 = none
      ∧ (spi_wait_wip D polls w).2.spi
          = w.spi ++ (List.replicate polls status_events).flatten := by
  induction polls with
  | zero => intro w _; simp [spi_wait_wip]
  | succ polls ih =>
    intro w hb
    obtain ⟨e1, e2, _, _, e5⟩ := spi_status_eq D w
    obtain ⟨hb1, hb2⟩ : (D.status_step w.dev).1 &&& SPI_WIP ≠ 0
        ∧ D.busy_through polls (D.status_step w.dev).2 := hb
    obtain ⟨h1, h2⟩ := ih (spi_status D w).2 (by rw [e2]; exact hb2)
    simp only [spi_wait_wip, e1]
    rw [if_pos hb1]
    refine ⟨h1, ?_⟩
    rw [h2, e5, List.replicate_succ]
    simp

/-- The command part of `spi_erase_sector`, up to the busy-wait. -/
theorem spi_erase_sector_eq {σ : Type} (D : Device σ) (polls addr : Nat) (w : World σ) :
    ∃ w1 : World σ, spi_erase_sector D polls addr w = spi_wait_wip D polls w1
      ∧ w1.rx = w.rx ∧ w1.tx = w.tx
      ∧ w1.dev = D.after_cmd w.dev (0x20 :: addr_bytes addr)
      ∧ w1.spi = w.spi ++ erase_events addr := by
  refine ⟨_, rfl, ?_, ?_, ?_, ?_⟩ <;>
  simp [spi_cs, spi_send, Device.after_cmd, Device.run, addr_bytes, erase_events]

theorem send_str_tx_eq {σ : Type} (s : List Nat) (w : World σ) :
    (send_str s w).tx = w.tx ++ (s.takeWhile (fun c => c ≠ 0)).map (fun c => [c % 256])
    ∧ (send_str s w).rx = w.rx ∧ (send_str s w).regs = w.regs := by
  unfold send_str
  generalize s.takeWhile (fun c => c ≠ 0) = l
  induction l generalizing w with
  | nil => simp
  | cons c l ih =>
    simp only [List.foldl_cons]
    rw [(ih _).1, (ih _).2.1, (ih _).2.2]
    simp [usb_serial_putchar]

/-- C11: let `addr` be the address `spi_erase_sector_interactive` reads from the operator
and let it then read the status register.

* If the Write-Enable-Latch bit (bit 1) of the status byte is clear, it writes `wp!`,
  CR, LF to the serial link and returns; the status read is all the SPI traffic, so no
  erase opcode is sent.
* If the bit is set, exactly one sector-erase command follows on SPI: 0x20 and the three
  address bytes. After it only status reads follow: when the next `k` of them show WIP
  (bit 0) set and the one after shows it clear, the function returns after exactly
  `k + 1` status reads and writes the line `E`, six hex digits, CR, LF; while the status
  reads show WIP set it does not return. -/
theorem spi_erase_sector_interactive_spec {σ : Type} (D : Device σ) (polls : Nat)
    (w w1 : World σ) (addr : Nat) (h : usb_serial_readhex w = (some addr, w1)) :
    ((spi_status D w1).1 &&& SPI_WEL = 0 →
      (spi_erase_sector_interactive D polls w).1 = some ()
      ∧ (spi_erase_sector_interactive D polls w).2.tx
          = w1.tx ++ [[119], [112], [33], [13], [10]]
      ∧ (spi_erase_sector_interactive D polls w).2.spi = w.spi ++ status_events)
    ∧ ((spi_status D w1).1 &&& SPI_WEL ≠ 0 →
      (∀ k, k < polls →
        D.busy_for k (D.after_cmd (D.status_step w1.dev).2 (0x20 :: addr_bytes addr)) →
        (spi_erase_sector_interactive D polls w).1 = some ()
        ∧ (spi_erase_sector_interactive D polls w).2.spi
            = w.spi ++ status_events ++ erase_events addr
              ++ (List.replicate (k + 1) status_events).flatten
        ∧ (spi_erase_sector_interactive D polls w).2.tx
            = w1.tx ++ [[69, hexdigit (addr >>> 20), hexdigit (addr >>> 16),
                hexdigit (addr >>> 12), hexdigit (addr >>> 8), hexdigit (addr >>> 4),
                hexdigit (addr >>> 0), 13, 10]])
      ∧ (D.busy_through polls (D.after_cmd (D.status_step w1.dev).2 (0x20 :: addr_bytes addr)) →
        (spi_erase_sector_interactive D polls w).1 = none
        ∧ (spi_erase_sector_interactive D polls w).2.spi
            = w.spi ++ status_events ++ erase_events addr
              ++ (List.replicate polls status_events).flatten)) := by
  have e1 : w1.spi = w.spi := by
    have := (usb_serial_readhex_spi w).1
    rw [h] at this
    exact this
  obtain ⟨s1, s2, s3, s4, s5⟩ := spi_status_eq D w1
  constructor
  · intro hw
    simp only [spi_erase_sector_interactive, h, hw, if_true]
    refine ⟨trivial, ?_, ?_⟩
    · rw [(send_str_tx_eq _ _).1, s4]
      rfl
    · rw [(send_str_spi _ _).1, s5, e1]
  · intro hw
    obtain ⟨we, heq, c1, c2, c3, c4⟩ := spi_erase_sector_eq D polls addr (spi_status D w1).2
    rw [s2] at c3
    rw [s4] at c2
    rw [s5, e1] at c4
    constructor
    · intro k hk hb
      obtain ⟨w', d1, _, d3, _, d5⟩ := spi_wait_wip_done D k polls we hk (by rw [c3]; exact hb)
      simp only [spi_erase_sector_interactive, h, hw, if_false, heq, d1]
      refine ⟨trivial, ?_, ?_⟩
      · show (usb_serial_write _ 9 w').spi = _
        rw [show (usb_serial_write _ 9 w').spi = w'.spi from rfl, d5, c4]
      · simp [usb_serial_write, d3, c2]
    · intro hb
      obtain ⟨d1, d2⟩ := spi_wait_wip_busy D polls we (by rw [c3]; exact hb)
      simp only [spi_erase_sector_interactive, h, hw, if_false, heq]
      split
      · next w' hq =>
        rw [hq] at d2
        exact ⟨rfl, by rw [← c4]; exact d2⟩
      · next u w' hq =>
        rw [hq] at d1
        exact absurd d1 (by simp)

theorem spi_erase_sector_interactive_spec_witness :
    usb_serial_readhex (World.start [49, 48, 48, 48, 13])
      = (some 0x1000, { World.start [] with tx := [[49], [48], [48], [48], [13], [10]] })
    ∧ (spi_status (const_device 0)
        { World.start [] with tx := [[49], [48], [48], [48], [13], [10]] }).1 &&& SPI_WEL = 0
    ∧ (spi_erase_sector_interactive (const_device 0) 3 (World.start [49, 48, 48, 48, 13])).2.tx
        = [[49], [48], [48], [48], [13], [10]] ++ [[119], [112], [33], [13], [10]] :=
  ⟨rfl, by decide,
   ((spi_erase_sector_interactive_spec (const_device 0) 3 (World.start [49, 48, 48, 48, 13]) _
      0x1000 rfl).1 (by decide)).2.1⟩

/-! ## Facts about `probe.c`: the password scanner -/

theorem World.eq_of_fields {σ : Type} (a b : World σ) (h1 : a.rx = b.rx) (h2 : a.tx = b.tx)
    (h3 : a.dev = b.dev) (h4 : a.spi = b.spi) (h5 : a.regs = b.regs) : a = b := by
  cases a; cases b; simp_all

/-- A loop that, for the entries of a list that pass a test, appends a report to the
serial output and does nothing else, appends the reports of the passing entries. -/
theorem foldl_reports {σ : Type} (rep : Nat → List (List Nat)) (f : Nat → World σ → World σ)
    (p : Nat → Bool)
    (hf : ∀ i w, f i w = { w with tx := w.tx ++ rep i }) (l : List Nat) :
    ∀ w : World σ, l.foldl (fun w i => if p i then f i w else w) w
      = { w with tx := w.tx ++ ((l.filter p).map rep).flatten } := by
  induction l with
  | nil => intro w; simp
  | cons i l ih =>
    intro w
    rw [List.foldl_cons, ih]
    by_cases hp : p i = true
    · simp [hp, hf, List.filter_cons]
    · simp [hp, List.filter_cons]

theorem locate_report_chars :
    ((cstr "Found potential password at address: ").takeWhile (fun c => c ≠ 0)).map
        (fun c => [c % 256])
      = (cstr "Found potential password at address: ").map (fun c => [c]) := by decide

theorem send_str_eq {σ : Type} (s : List Nat) (w : World σ) :
    send_str s w
      = { w with tx := w.tx ++ (s.takeWhile (fun c => c ≠ 0)).map (fun c => [c % 256]) } :=
  World.eq_of_fields _ _ (send_str_tx_eq s w).2.1 (send_str_tx_eq s w).1 (send_str_spi s w).2
    (send_str_spi s w).1 (send_str_tx_eq s w).2.2

theorem print_address_eq {σ : Type} (a : Nat) (w : World σ) :
    print_address a 1 w
      = { w with tx := w.tx ++ [[48, 120, hexdigit (a >>> 20), hexdigit (a >>> 16),
            hexdigit (a >>> 12), hexdigit (a >>> 8), hexdigit (a >>> 4), hexdigit (a >>> 0),
            13, 10]] } := by
  simp [print_address, usb_serial_write]

theorem locate_report_eq {σ : Type} (a : Nat) (w : World σ) :
    print_address a 1 (send_str (cstr "Found potential password at address: ") w)
      = { w with tx := w.tx ++ locate_report a } := by
  rw [send_str_eq, print_address_eq, locate_report_chars]
  simp only [locate_report, List.append_assoc]

/-- The compare loop of `spi_locate_pwd` reports the offsets up to 253 of the window at
which FF 23 80 stands, and only those. -/
theorem spi_locate_pwd_scan_eq {σ : Type} (data : List Nat) (start_addr : Nat)
    (w : World σ) :
    spi_locate_pwd_scan data start_addr w
      = { w with tx := w.tx ++ (((List.range 254).filter (fun i =>
            data.getD i 0 = 0xFF ∧ data.getD (i + 1) 0 = 0x23
              ∧ data.getD (i + 2) 0 = 0x80)).map
            (fun i => locate_report ((start_addr + i) % 2 ^ 32))).flatten } := by
  have hfun : (fun (w : World σ) i =>
      if data.getD i 0 = 0xFF ∧ data.getD (i + 1) 0 = 0x23 then
        if i < 254 ∧ data.getD (i + 2) 0 = 0x80 then
          print_address ((start_addr + i) % 2 ^ 32) 1
            (send_str (cstr "Found potential password at address: ") w)
        else w
      else w)
      = (fun w i =>
        if (decide (i < 254 ∧ data.getD i 0 = 0xFF ∧ data.getD (i + 1) 0 = 0x23
            ∧ data.getD (i + 2) 0 = 0x80)) = true then
          print_address ((start_addr + i) % 2 ^ 32) 1
            (send_str (cstr "Found potential password at address: ") w)
        else w) := by
    funext w i
    by_cases h1 : data.getD i 0 = 0xFF ∧ data.getD (i + 1) 0 = 0x23
    · by_cases h2 : i < 254 ∧ data.getD (i + 2) 0 = 0x80
      · rw [if_pos h1, if_pos h2, if_pos (decide_eq_true ⟨h2.1, h1.1, h1.2, h2.2⟩)]
      · rw [if_pos h1, if_neg h2,
          if_neg (fun h => h2 ⟨(of_decide_eq_true h).1, (of_decide_eq_true h).2.2.2⟩)]
    · rw [if_neg h1,
        if_neg (fun h => h1 ⟨(of_decide_eq_true h).2.1, (of_decide_eq_true h).2.2.1⟩)]
  unfold spi_locate_pwd_scan
  rw [hfun, foldl_reports (fun i => locate_report ((start_addr + i) % 2 ^ 32))
    (fun i w => print_address ((start_addr + i) % 2 ^ 32) 1
      (send_str (cstr "Found potential password at address: ") w))
    (fun i => decide (i < 254 ∧ data.getD i 0 = 0xFF ∧ data.getD (i + 1) 0 = 0x23
      ∧ data.getD (i + 2) 0 = 0x80))
    (fun i w => locate_report_eq _ w)]
  have hr : List.range 255 = List.range 254 ++ [254] := List.range_succ 254
  rw [hr, List.filter_append]
  have h254 : List.filter (fun i => decide (i < 254 ∧ data.getD i 0 = 0xFF
      ∧ data.getD (i + 1) 0 = 0x23 ∧ data.getD (i + 2) 0 = 0x80)) [254] = [] := by
    simp [List.filter_cons]
  have hcongr : List.filter (fun i => decide (i < 254 ∧ data.getD i 0 = 0xFF
      ∧ data.getD (i + 1) 0 = 0x23 ∧ data.getD (i + 2) 0 = 0x80)) (List.range 254)
      = List.filter (fun i => decide (data.getD i 0 = 0xFF
      ∧ data.getD (i + 1) 0 = 0x23 ∧ data.getD (i + 2) 0 = 0x80)) (List.range 254) := by
    apply List.filter_congr
    intro i hi
    have : i < 254 := List.mem_range.mp hi
    simp [this]
  rw [h254, hcongr, List.append_nil]

theorem spi_read_window_eq {σ : Type} (D : Device σ) (data : List Nat) (w : World σ)
    (h : data.length = 256) :
    spi_read_window D data w
      = ((D.run w.dev (List.replicate 256 0)).1,
          { w with dev := (D.run w.dev (List.replicate 256 0)).2
                   spi := w.spi ++ List.replicate 256 (SpiEvent.byte 0) }) := by
  unfold spi_read_window
  rw [prom_send_fill_take D data w 256 (by omega), List.drop_of_length_le (by omega),
    List.append_nil]

/-- The hits in the windows of `A ++ B`, where `A` is one window long, are the hits in
`A` followed by the hits in the windows of `B`. -/
theorem locate_hits_from_append (A B : List Nat) (start n : Nat) (hA : A.length = 256) :
    locate_hits_from (A ++ B) start (n + 1)
      = ((List.range 254).filter (fun i =>
            A.getD i 0 = 0xFF ∧ A.getD (i + 1) 0 = 0x23 ∧ A.getD (i + 2) 0 = 0x80)).map
          (fun i => start + i)
        ++ locate_hits_from B (start + 256) n := by
  unfold locate_hits_from
  rw [List.range_succ_eq_map n, List.map_cons, List.flatten_cons, List.map_map]
  congr 1
  · simp only [Nat.mul_zero, Nat.zero_add, Nat.add_zero]
    congr 1
    apply List.filter_congr
    intro i hi
    have hi' : i < 254 := List.mem_range.mp hi
    rw [List.getD_append _ _ _ _ (by omega), List.getD_append _ _ _ _ (by omega),
      List.getD_append _ _ _ _ (by omega)]
  · congr 1
    apply List.map_congr_left
    intro j _
    simp only [Function.comp, Nat.succ_eq_add_one]
    have e1 : ∀ i, List.getD (A ++ B) (256 * (j + 1) + i) 0 = B.getD (256 * j + i) 0 := by
      intro i
      rw [List.getD_append_right _ _ _ _ (by omega), hA,
        show 256 * (j + 1) + i - 256 = 256 * j + i by omega]
    have e2 : ∀ i, List.getD (A ++ B) (256 * (j + 1) + i + 1) 0 = B.getD (256 * j + i + 1) 0 := by
      intro i
      rw [List.getD_append_right _ _ _ _ (by omega), hA,
        show 256 * (j + 1) + i + 1 - 256 = 256 * j + i + 1 by omega]
    have e3 : ∀ i, List.getD (A ++ B) (256 * (j + 1) + i + 2) 0 = B.getD (256 * j + i + 2) 0 := by
      intro i
      rw [List.getD_append_right _ _ _ _ (by omega), hA,
        show 256 * (j + 1) + i + 2 - 256 = 256 * j + i + 2 by omega]
    simp only [e1, e2, e3]
    apply List.map_congr_left
    intro i _
    omega

set_option maxRecDepth 4000 in
/-- One turn of the scan loop of `spi_locate_pwd`. -/
theorem spi_locate_pwd_loop_succ {σ : Type} (D : Device σ) (end_addr fuel start_addr led_on
    led_count : Nat) (data : List Nat) (w : World σ) (h : data.length = 256) :
    spi_locate_pwd_loop D end_addr (fuel + 1) start_addr led_on led_count data w
      = if (start_addr + 256) % 2 ^ 32 ≥ end_addr then
          (some (),
            { w with
              tx := w.tx ++ (((List.range 254).filter (fun i =>
                  (D.run w.dev (List.replicate 256 0)).1.getD i 0 = 0xFF
                  ∧ (D.run w.dev (List.replicate 256 0)).1.getD (i + 1) 0 = 0x23
                  ∧ (D.run w.dev (List.replicate 256 0)).1.getD (i + 2) 0 = 0x80)).map
                (fun i => locate_report ((start_addr + i) % 2 ^ 32))).flatten
              dev := (D.run w.dev (List.replicate 256 0)).2
              spi := w.spi ++ List.replicate 256 (SpiEvent.byte 0)
              regs := (led_blink led_on led_count w.regs).2.2 })
        else
          spi_locate_pwd_loop D end_addr fuel ((start_addr + 256) % 2 ^ 32)
            (led_blink led_on led_count w.regs).1 (led_blink led_on led_count w.regs).2.1
            (D.run w.dev (List.replicate 256 0)).1
            { w with
              tx := w.tx ++ (((List.range 254).filter (fun i =>
                  (D.run w.dev (List.replicate 256 0)).1.getD i 0 = 0xFF
                  ∧ (D.run w.dev (List.replicate 256 0)).1.getD (i + 1) 0 = 0x23
                  ∧ (D.run w.dev (List.replicate 256 0)).1.getD (i + 2) 0 = 0x80)).map
                (fun i => locate_report ((start_addr + i) % 2 ^ 32))).flatten
              dev := (D.run w.dev (List.replicate 256 0)).2
              spi := w.spi ++ List.replicate 256 (SpiEvent.byte 0)
              regs := (led_blink led_on led_count w.regs).2.2 } := by
  simp only [spi_locate_pwd_loop, spi_read_window_eq D data w h, spi_locate_pwd_scan_eq]

theorem locate_report_map (start : Nat) (p : Nat → Bool) (h : start + 254 ≤ 2 ^ 32) :
    ((List.range 254).filter p).map (fun i => locate_report ((start + i) % 2 ^ 32))
      = (((List.range 254).filter p).map (fun i => start + i)).map locate_report := by
  rw [List.map_map]
  apply List.map_congr_left
  intro i hi
  have hi' : i < 254 := List.mem_range.mp (List.mem_filter.mp hi).1
  simp only [Function.comp]
  rw [Nat.mod_eq_of_lt (by omega)]

/-- The scan loop of `spi_locate_pwd`, started `n + 1` windows before the end address:
it reads that many windows from the device and reports the hits in them. -/
theorem spi_locate_pwd_loop_eq {σ : Type} (D : Device σ) (end_addr : Nat) (n : Nat) :
    ∀ (fuel start_addr led_on led_count : Nat) (data : List Nat) (w : World σ),
    data.length = 256 → n + 1 ≤ fuel → start_addr + 256 * (n + 1) = end_addr →
    end_addr < 2 ^ 32 →
    ∃ regs1 : Regs,
      spi_locate_pwd_loop D end_addr fuel start_addr led_on led_count data w
        = (some (),
            { w with
              tx := w.tx ++ ((locate_hits_from
                  (D.run w.dev (List.replicate (256 * (n + 1)) 0)).1 start_addr (n + 1)).map
                locate_report).flatten
              dev := (D.run w.dev (List.replicate (256 * (n + 1)) 0)).2
              spi := w.spi ++ List.replicate (256 * (n + 1)) (SpiEvent.byte 0)
              regs := regs1 }) := by
  induction n with
  | zero =>
    intro fuel start lo lc data w hd hfuel hend h32
    obtain ⟨fuel, rfl⟩ : ∃ f, fuel = f + 1 := ⟨fuel - 1, by omega⟩
    have hmod : (start + 256) % 2 ^ 32 = start + 256 := Nat.mod_eq_of_lt (by omega)
    have hlen : (D.run w.dev (List.replicate 256 0)).1.length = 256 := by
      rw [Device.run_length, List.length_replicate]
    refine ⟨(led_blink lo lc w.regs).2.2, ?_⟩
    rw [spi_locate_pwd_loop_succ D end_addr fuel start lo lc data w hd, hmod,
      if_pos (by omega), locate_report_map start _ (by omega)]
    have h := locate_hits_from_append (D.run w.dev (List.replicate 256 0)).1 [] start 0 hlen
    rw [List.append_nil] at h
    have h0 : locate_hits_from [] (start + 256) 0 = [] := rfl
    rw [show 256 * (0 + 1) = 256 from rfl, h, h0, List.append_nil]
  | succ n ih =>
    intro fuel start lo lc data w hd hfuel hend h32
    obtain ⟨fuel, rfl⟩ : ∃ f, fuel = f + 1 := ⟨fuel - 1, by omega⟩
    have hmod : (start + 256) % 2 ^ 32 = start + 256 := Nat.mod_eq_of_lt (by omega)
    have hlen : (D.run w.dev (List.replicate 256 0)).1.length = 256 := by
      rw [Device.run_length, List.length_replicate]
    rw [spi_locate_pwd_loop_succ D end_addr fuel start lo lc data w hd, hmod,
      if_neg (by omega), locate_report_map start _ (by omega)]
    obtain ⟨regs1, h⟩ := ih fuel (start + 256) (led_blink lo lc w.regs).1
      (led_blink lo lc w.regs).2.1 (D.run w.dev (List.replicate 256 0)).1
      { w with
        tx := w.tx ++ ((((List.range 254).filter (fun i =>
            (D.run w.dev (List.replicate 256 0)).1.getD i 0 = 0xFF
            ∧ (D.run w.dev (List.replicate 256 0)).1.getD (i + 1) 0 = 0x23
            ∧ (D.run w.dev (List.replicate 256 0)).1.getD (i + 2) 0 = 0x80)).map
          (fun i => start + i)).map locate_report).flatten
        dev := (D.run w.dev (List.replicate 256 0)).2
        spi := w.spi ++ List.replicate 256 (SpiEvent.byte 0)
        regs := (led_blink lo lc w.regs).2.2 }
      hlen (by omega) (by omega) h32
    refine ⟨regs1, ?_⟩
    rw [h, show 256 * (n + 1 + 1) = 256 + 256 * (n + 1) by omega, Device.run_replicate_add,
      locate_hits_from_append _ _ start (n + 1) hlen, List.replicate_add]
    simp only [List.map_append, List.flatten_append, List.append_assoc]

theorem cstr_locating :
    ((cstr "Locating passwords...\r\n").takeWhile (fun c => c ≠ 0)).map (fun c => [c % 256])
      = (cstr "Locating passwords...\r\n").map (fun c => [c]) := by decide

theorem cstr_all_done :
    ((cstr "All done!\r\n").takeWhile (fun c => c ≠ 0)).map (fun c => [c % 256])
      = (cstr "All done!\r\n").map (fun c => [c]) := by decide

theorem spi_locate_pwd_start_eq {σ : Type} (D : Device σ) (w : World σ) :
    (spi_locate_pwd_start D w).rx = w.rx
    ∧ (spi_locate_pwd_start D w).tx
        = w.tx ++ (cstr "Locating passwords...\r\n").map (fun c => [c])
    ∧ (spi_locate_pwd_start D w).dev = D.after_read_cmd w.dev
    ∧ (spi_locate_pwd_start D w).spi = w.spi ++ read_cmd_events := by
  unfold spi_locate_pwd_start
  simp only [send_str_eq, cstr_locating]
  simp [spi_send, spi_cs, spi_power, Device.after_read_cmd, Device.run, read_cmd_events]

theorem spi_locate_pwd_eq {σ : Type} (D : Device σ) (w w1 : World σ)
    (h : spi_locate_pwd_loop D 8388608 32768 0 1 0 (List.replicate 256 0)
      (spi_locate_pwd_start D w) = (some (), w1)) :
    spi_locate_pwd D w
      = (some (), spi_power 0 (spi_cs D 0 (send_str (cstr "All done!\r\n") w1))) := by
  have e1 : (8 <<< 20 : Nat) = 8388608 := by decide
  have e2 : (8388608 / 256 : Nat) = 32768 := by decide
  unfold spi_locate_pwd
  simp only [e1, e2, h]

theorem locate_hits_mem (img : List Nat) (a : Nat) :
    a ∈ locate_hits img ↔
      ∃ j i, j < 32768 ∧ i ≤ 253 ∧ a = 256 * j + i
        ∧ img.getD a 0 = 0xFF ∧ img.getD (a + 1) 0 = 0x23 ∧ img.getD (a + 2) 0 = 0x80 := by
  simp only [locate_hits, locate_hits_from, List.mem_flatten, List.mem_map, List.mem_range,
    List.mem_filter, decide_eq_true_eq, Nat.zero_add]
  constructor
  · rintro ⟨l, ⟨j, hj, rfl⟩, hmem⟩
    simp only [List.mem_map, List.mem_filter, List.mem_range, decide_eq_true_eq] at hmem
    obtain ⟨i, ⟨hi, h1, h2, h3⟩, rfl⟩ := hmem
    exact ⟨j, i, hj, by omega, rfl, h1, h2, h3⟩
  · rintro ⟨j, i, hj, hi, rfl, h1, h2, h3⟩
    refine ⟨_, ⟨j, hj, rfl⟩, ?_⟩
    simp only [List.mem_map, List.mem_filter, List.mem_range, decide_eq_true_eq]
    exact ⟨i, ⟨by omega, h1, h2, h3⟩, rfl⟩

/-- The end of `spi_locate_pwd`: the closing message, chip select deasserted. -/
theorem spi_locate_pwd_finish {σ : Type} (D : Device σ) (w1 : World σ) :
    (spi_power 0 (spi_cs D 0 (send_str (cstr "All done!\r\n") w1))).tx
        = w1.tx ++ (cstr "All done!\r\n").map (fun c => [c])
    ∧ (spi_power 0 (spi_cs D 0 (send_str (cstr "All done!\r\n") w1))).spi
        = w1.spi ++ [SpiEvent.cs false] := by
  simp only [send_str_eq, cstr_all_done]
  simp [spi_power, spi_cs]

/-- C12: let `img` be the 8 MiB that the device shifts out after the read command
03 00 00 00. `spi_locate_pwd` returns, having read exactly those 8 MiB in one read
command, and its serial output is the banner, one report per address of
`locate_hits img` in increasing order, and `All done!`. An address `a` is in
`locate_hits img` exactly when `a = 256 * j + i` for a window `j < 32768` and an offset
`i ≤ 253` with `img[a .. a+2] = FF 23 80`. So a pattern at offset 100 of a window is
reported at window start + 100, and nothing is reported at offset 254 or 255. -/
theorem spi_locate_pwd_reports {σ : Type} (D : Device σ) (w : World σ) :
    (spi_locate_pwd D w).1 = some ()
    ∧ (spi_locate_pwd D w).2.tx
        = w.tx ++ (cstr "Locating passwords...\r\n").map (fun c => [c])
          ++ ((locate_hits
                (D.run (D.after_read_cmd w.dev) (List.replicate 8388608 0)).1).map
              locate_report).flatten
          ++ (cstr "All done!\r\n").map (fun c => [c])
    ∧ (spi_locate_pwd D w).2.spi
        = w.spi ++ read_cmd_events ++ List.replicate 8388608 (SpiEvent.byte 0)
          ++ [SpiEvent.cs false]
    ∧ (∀ a, a ∈ locate_hits (D.run (D.after_read_cmd w.dev) (List.replicate 8388608 0)).1 ↔
        ∃ j i, j < 32768 ∧ i ≤ 253 ∧ a = 256 * j + i
          ∧ (D.run (D.after_read_cmd w.dev) (List.replicate 8388608 0)).1.getD a 0 = 0xFF
          ∧ (D.run (D.after_read_cmd w.dev) (List.replicate 8388608 0)).1.getD (a + 1) 0 = 0x23
          ∧ (D.run (D.after_read_cmd w.dev) (List.replicate 8388608 0)).1.getD (a + 2) 0 = 0x80)
    ∧ (∀ a ∈ locate_hits (D.run (D.after_read_cmd w.dev) (List.replicate 8388608 0)).1,
        a % 256 ≤ 253) := by
  obtain ⟨s1, s2, s3, s4⟩ := spi_locate_pwd_start_eq D w
  obtain ⟨regs1, h⟩ := spi_locate_pwd_loop_eq D 8388608 32767 32768 0 1 0
    (List.replicate 256 0) (spi_locate_pwd_start D w) (List.length_replicate 256 0)
    (by omega) (by omega) (by omega)
  rw [s2, s3, s4, show 256 * (32767 + 1) = 8388608 from rfl,
    show 32767 + 1 = 32768 from rfl] at h
  refine ⟨?_, ?_, ?_, locate_hits_mem _, ?_⟩
  · rw [spi_locate_pwd_eq D w _ h]
  · rw [spi_locate_pwd_eq D w _ h]
    exact (spi_locate_pwd_finish D _).1
  · rw [spi_locate_pwd_eq D w _ h]
    exact (spi_locate_pwd_finish D _).2
  · intro a ha
    obtain ⟨j, i, _, hi, rfl, _⟩ := (locate_hits_mem _ a).mp ha
    omega

/-! ## Facts about `probe.c`: the password eraser -/


theorem and_sector_mask (x : Nat) (h : x < 2 ^ 32) :
    x &&& (2 ^ 32 - 1 - FLASH_SUBSECTOR_MASK) = sector_of x := by
  show x &&& (2 ^ 32 - 1 - (4096 - 1)) = x / 4096 * 4096
  apply Nat.eq_of_testBit_eq
  intro j
  have e1 : (2 ^ 32 - 1 - (4096 - 1) : Nat) = 2 ^ 32 - (4095 + 1) := by norm_num
  have e2 : x / 4096 * 4096 = 2 ^ 12 * (x >>> 12) := by
    rw [Nat.shiftRight_eq_div_pow, Nat.mul_comm]
    norm_num
  have e3 : (4095 : Nat) = 2 ^ 12 - 1 := by norm_num
  rw [Nat.testBit_and, e1, Nat.testBit_two_pow_sub_succ (by norm_num), e2,
    Nat.testBit_mul_pow_two, Nat.testBit_shiftRight, e3, Nat.testBit_two_pow_sub_one]
  by_cases h12 : 12 ≤ j
  · by_cases h32 : j < 32
    · simp [h12, h32, show ¬ j < 12 by omega, show 12 + (j - 12) = j by omega]
    · have hx : x.testBit j = false :=
        Nat.testBit_lt_two_pow (Nat.lt_of_lt_of_le h (Nat.pow_le_pow_right (by omega) (by omega)))
      simp [hx, h32, show 12 + (j - 12) = j by omega]
  · simp [h12, show j < 12 by omega]

theorem pwd_scan_stopped (v : Nat) (p : Nat → Bool) (l : List Nat) (a : List Nat) (c : Nat) :
    l.foldl (fun s i => if s.1 = true then (if p i = true then pwd_store v s else s) else s)
      (false, a, c) = (false, a, c) := by
  induction l with
  | nil => rfl
  | cons i l ih => simpa using ih

/-- The store into `pwd_addr` as an update of the list, which changes nothing for an
index past the end. -/
theorem pwd_addr_store_eq (pwd_addr : List Nat) (i v : Nat) :
    pwd_addr_store pwd_addr i v = pwd_addr.set i v := by
  unfold pwd_addr_store
  split
  · rfl
  · exact (List.set_eq_of_length_le (by omega)).symm

/-- The compare loop as a fold: starting with `rec` recorded, it records `v` once per
passing entry while the array has room, and stops the function at the fifth. -/
theorem pwd_scan_fold (v : Nat) (p : Nat → Bool) (l : List Nat) :
    ∀ rec : List Nat, rec.length ≤ 4 →
      (rec.length + (l.filter p).length ≤ 4 →
        l.foldl (fun s i => if s.1 = true then (if p i = true then pwd_store v s else s) else s)
            (true, rec ++ List.replicate (4 - rec.length) 0, rec.length)
          = (true,
              rec ++ List.replicate (l.filter p).length v
                ++ List.replicate (4 - rec.length - (l.filter p).length) 0,
              rec.length + (l.filter p).length))
      ∧ (4 < rec.length + (l.filter p).length →
        (l.foldl (fun s i => if s.1 = true then (if p i = true then pwd_store v s else s) else s)
            (true, rec ++ List.replicate (4 - rec.length) 0, rec.length)).1 = false) := by
  induction l with
  | nil =>
    intro rec hrec
    refine ⟨fun _ => by simp, fun h => ?_⟩
    simp at h
    omega
  | cons i l ih =>
    intro rec hrec
    by_cases hp : p i = true
    · have hk : ((i :: l).filter p).length = (l.filter p).length + 1 := by
        simp [List.filter_cons, hp]
      rw [hk, List.foldl_cons]
      by_cases hc : rec.length < 4
      · have hstep : (if (true, rec ++ List.replicate (4 - rec.length) 0, rec.length).1 = true
            then (if p i = true then
              pwd_store v (true, rec ++ List.replicate (4 - rec.length) 0, rec.length)
              else (true, rec ++ List.replicate (4 - rec.length) 0, rec.length))
            else (true, rec ++ List.replicate (4 - rec.length) 0, rec.length))
            = (true, (rec ++ [v]) ++ List.replicate (4 - (rec.length + 1)) 0,
                rec.length + 1) := by
          have hm : (rec.length + 1) % 256 = rec.length + 1 := by omega
          have hz : List.replicate (4 - rec.length) 0
              = (0 : Nat) :: List.replicate (4 - (rec.length + 1)) 0 := by
            rw [← List.replicate_succ]
            congr 1
            omega
          simp only [hp, if_true, pwd_store, pwd_addr_store_eq, hm, MAX_PWDS,
            show ¬ (rec.length + 1 > 4) by omega, if_false]
          rw [List.set_append_right _ _ (Nat.le_refl _), Nat.sub_self, hz, List.set_cons_zero]
          simp
        rw [hstep]
        have hl : (rec ++ [v]).length = rec.length + 1 := by simp
        obtain ⟨h1, h2⟩ := ih (rec ++ [v]) (by rw [hl]; omega)
        rw [hl] at h1 h2
        constructor
        · intro h
          have e1 : 4 - (rec.length + 1) - (l.filter p).length
              = 4 - rec.length - ((l.filter p).length + 1) := by omega
          have e2 : rec.length + 1 + (l.filter p).length
              = rec.length + ((l.filter p).length + 1) := by omega
          rw [h1 (by omega), List.replicate_succ, e1, e2]
          simp
        · intro h
          exact h2 (by omega)
      · have hc4 : rec.length = 4 := by omega
        refine ⟨fun h => by omega, fun _ => ?_⟩
        have hstep : (if (true, rec ++ List.replicate (4 - rec.length) 0, rec.length).1 = true
            then (if p i = true then
              pwd_store v (true, rec ++ List.replicate (4 - rec.length) 0, rec.length)
              else (true, rec ++ List.replicate (4 - rec.length) 0, rec.length))
            else (true, rec ++ List.replicate (4 - rec.length) 0, rec.length))
            = (false, (rec ++ List.replicate (4 - rec.length) 0).set rec.length v, 5) := by
          simp [hp, pwd_store, pwd_addr_store_eq, hc4, MAX_PWDS]
        rw [hstep, pwd_scan_stopped]
    · have hk : ((i :: l).filter p).length = (l.filter p).length := by
        simp [List.filter_cons, hp]
      rw [hk, List.foldl_cons]
      have hstep : (if (true, rec ++ List.replicate (4 - rec.length) 0, rec.length).1 = true
          then (if p i = true then
            pwd_store v (true, rec ++ List.replicate (4 - rec.length) 0, rec.length)
            else (true, rec ++ List.replicate (4 - rec.length) 0, rec.length))
          else (true, rec ++ List.replicate (4 - rec.length) 0, rec.length))
          = (true, rec ++ List.replicate (4 - rec.length) 0, rec.length) := by
        simp [hp]
      rw [hstep]
      exact ih rec hrec

theorem sector_of_window (start i : Nat) (hs : start % 256 = 0) (hi : i < 256) :
    sector_of (start + i) = sector_of start := by
  unfold sector_of
  omega

/-- The compare loop of `spi_erase_pwd` over one window, started with `rec` recorded:
with `k` matches in the window it records the sector of the window `k` times if the
array has room for them, and stops the function if it has not. -/
theorem spi_erase_pwd_scan_eq (data : List Nat) (start_addr : Nat) (h32 : start_addr < 2 ^ 32)
    (rec : List Nat) (hrec : rec.length ≤ 4) :
    (rec.length + ((List.range 253).filter (fun i =>
          data.getD i 0 = 0xFF ∧ data.getD (i + 1) 0 = 0x23 ∧ data.getD (i + 2) 0 = 0x80
            ∧ data.getD (i + 3) 0 = 0x4E)).length ≤ 4 →
      spi_erase_pwd_scan data start_addr
          (true, rec ++ List.replicate (4 - rec.length) 0, rec.length)
        = (true,
            rec ++ List.replicate ((List.range 253).filter (fun i =>
                data.getD i 0 = 0xFF ∧ data.getD (i + 1) 0 = 0x23 ∧ data.getD (i + 2) 0 = 0x80
                  ∧ data.getD (i + 3) 0 = 0x4E)).length (sector_of start_addr)
              ++ List.replicate (4 - rec.length - ((List.range 253).filter (fun i =>
                data.getD i 0 = 0xFF ∧ data.getD (i + 1) 0 = 0x23 ∧ data.getD (i + 2) 0 = 0x80
                  ∧ data.getD (i + 3) 0 = 0x4E)).length) 0,
            rec.length + ((List.range 253).filter (fun i =>
                data.getD i 0 = 0xFF ∧ data.getD (i + 1) 0 = 0x23 ∧ data.getD (i + 2) 0 = 0x80
                  ∧ data.getD (i + 3) 0 = 0x4E)).length))
    ∧ (4 < rec.length + ((List.range 253).filter (fun i =>
          data.getD i 0 = 0xFF ∧ data.getD (i + 1) 0 = 0x23 ∧ data.getD (i + 2) 0 = 0x80
            ∧ data.getD (i + 3) 0 = 0x4E)).length →
      (spi_erase_pwd_scan data start_addr
          (true, rec ++ List.replicate (4 - rec.length) 0, rec.length)).1 = false) := by
  have hfun : (fun (s : Bool × List Nat × Nat) i =>
      if s.1 = true then
        if data.getD i 0 = 0xFF ∧ data.getD (i + 1) 0 = 0x23 then
          if i < 253 ∧ data.getD (i + 2) 0 = 0x80 ∧ data.getD (i + 3) 0 = 0x4E then
            let pwd_addr :=
              pwd_addr_store s.2.1 s.2.2 (start_addr &&& (2 ^ 32 - 1 - FLASH_SUBSECTOR_MASK))
            let pwd_count := (s.2.2 + 1) % 256
            if pwd_count > MAX_PWDS then (false, pwd_addr, pwd_count)
            else (true, pwd_addr, pwd_count)
          else s
        else s
      else s)
      = (fun s i =>
        if s.1 = true then
          (if (decide (i < 253 ∧ data.getD i 0 = 0xFF ∧ data.getD (i + 1) 0 = 0x23
              ∧ data.getD (i + 2) 0 = 0x80 ∧ data.getD (i + 3) 0 = 0x4E)) = true then
            pwd_store (sector_of start_addr) s
          else s)
        else s) := by
    funext s i
    by_cases hs : s.1 = true
    · rw [if_pos hs, if_pos hs]
      by_cases h1 : data.getD i 0 = 0xFF ∧ data.getD (i + 1) 0 = 0x23
      · by_cases h2 : i < 253 ∧ data.getD (i + 2) 0 = 0x80 ∧ data.getD (i + 3) 0 = 0x4E
        · rw [if_pos h1, if_pos h2,
            if_pos (decide_eq_true ⟨h2.1, h1.1, h1.2, h2.2.1, h2.2.2⟩), and_sector_mask _ h32]
          rfl
        · rw [if_pos h1, if_neg h2,
            if_neg (fun h => h2 ⟨(of_decide_eq_true h).1, (of_decide_eq_true h).2.2.2⟩)]
      · rw [if_neg h1,
          if_neg (fun h => h1 ⟨(of_decide_eq_true h).2.1, (of_decide_eq_true h).2.2.1⟩)]
    · rw [if_neg hs, if_neg hs]
  have hr : List.range 255 = List.range 253 ++ [253, 254] := by
    rw [show (255 : Nat) = 253 + 2 from rfl, List.range_add]
    rfl
  have hfilter : (List.range 255).filter (fun i => decide (i < 253 ∧ data.getD i 0 = 0xFF
        ∧ data.getD (i + 1) 0 = 0x23 ∧ data.getD (i + 2) 0 = 0x80
        ∧ data.getD (i + 3) 0 = 0x4E))
      = (List.range 253).filter (fun i => decide (data.getD i 0 = 0xFF
        ∧ data.getD (i + 1) 0 = 0x23 ∧ data.getD (i + 2) 0 = 0x80
        ∧ data.getD (i + 3) 0 = 0x4E)) := by
    rw [hr, List.filter_append]
    have h2 : List.filter (fun i => decide (i < 253 ∧ data.getD i 0 = 0xFF
        ∧ data.getD (i + 1) 0 = 0x23 ∧ data.getD (i + 2) 0 = 0x80
        ∧ data.getD (i + 3) 0 = 0x4E)) [253, 254] = [] := by
      simp [List.filter_cons]
    rw [h2, List.append_nil]
    apply List.filter_congr
    intro i hi
    have : i < 253 := List.mem_range.mp hi
    simp [this]
  unfold spi_erase_pwd_scan
  rw [hfun, ← hfilter]
  exact pwd_scan_fold (sector_of start_addr) _ (List.range 255) rec hrec

/-- The matches in the windows of `A ++ B`, where `A` is one window long, are the matches
in `A` followed by the matches in the windows of `B`. -/
theorem erase_matches_from_append (A B : List Nat) (start n : Nat) (hA : A.length = 256) :
    erase_matches_from (A ++ B) start (n + 1)
      = ((List.range 253).filter (fun i =>
            A.getD i 0 = 0xFF ∧ A.getD (i + 1) 0 = 0x23 ∧ A.getD (i + 2) 0 = 0x80
              ∧ A.getD (i + 3) 0 = 0x4E)).map
          (fun i => start + i)
        ++ erase_matches_from B (start + 256) n := by
  unfold erase_matches_from
  rw [List.range_succ_eq_map n, List.map_cons, List.flatten_cons, List.map_map]
  congr 1
  · simp only [Nat.mul_zero, Nat.zero_add, Nat.add_zero]
    congr 1
    apply List.filter_congr
    intro i hi
    have hi' : i < 253 := List.mem_range.mp hi
    rw [List.getD_append _ _ _ _ (by omega), List.getD_append _ _ _ _ (by omega),
      List.getD_append _ _ _ _ (by omega), List.getD_append _ _ _ _ (by omega)]
  · congr 1
    apply List.map_congr_left
    intro j _
    simp only [Function.comp, Nat.succ_eq_add_one]
    have e1 : ∀ i, List.getD (A ++ B) (256 * (j + 1) + i) 0 = B.getD (256 * j + i) 0 := by
      intro i
      rw [List.getD_append_right _ _ _ _ (by omega), hA,
        show 256 * (j + 1) + i - 256 = 256 * j + i by omega]
    have e2 : ∀ i, List.getD (A ++ B) (256 * (j + 1) + i + 1) 0 = B.getD (256 * j + i + 1) 0 := by
      intro i
      rw [List.getD_append_right _ _ _ _ (by omega), hA,
        show 256 * (j + 1) + i + 1 - 256 = 256 * j + i + 1 by omega]
    have e3 : ∀ i, List.getD (A ++ B) (256 * (j + 1) + i + 2) 0 = B.getD (256 * j + i + 2) 0 := by
      intro i
      rw [List.getD_append_right _ _ _ _ (by omega), hA,
        show 256 * (j + 1) + i + 2 - 256 = 256 * j + i + 2 by omega]
    have e4 : ∀ i, List.getD (A ++ B) (256 * (j + 1) + i + 3) 0 = B.getD (256 * j + i + 3) 0 := by
      intro i
      rw [List.getD_append_right _ _ _ _ (by omega), hA,
        show 256 * (j + 1) + i + 3 - 256 = 256 * j + i + 3 by omega]
    simp only [e1, e2, e3, e4]
    apply List.map_congr_left
    intro i _
    omega

theorem map_sector_window (start : Nat) (hs : start % 256 = 0) (l : List Nat)
    (hl : ∀ i ∈ l, i < 256) :
    (l.map (fun i => start + i)).map sector_of = List.replicate l.length (sector_of start) := by
  induction l with
  | nil => rfl
  | cons i l ih =>
    rw [List.map_cons, List.map_cons, List.length_cons, List.replicate_succ,
      ih (fun j hj => hl j (List.mem_cons_of_mem _ hj)),
      sector_of_window start i hs (hl i (List.mem_cons_self _ _))]

set_option maxRecDepth 4000 in
/-- One turn of the scan loop of `spi_erase_pwd`. -/
theorem spi_erase_pwd_loop_succ {σ : Type} (D : Device σ) (end_addr fuel start_addr led_on
    led_count : Nat) (data pwd_addr : List Nat) (pwd_count : Nat) (w : World σ)
    (h : data.length = 256) :
    spi_erase_pwd_loop D end_addr (fuel + 1) start_addr led_on led_count data pwd_addr
        pwd_count w
      = if (spi_erase_pwd_scan (D.run w.dev (List.replicate 256 0)).1 start_addr
            (true, pwd_addr, pwd_count)).1 = true then
          if (start_addr + 256) % 2 ^ 32 ≥ end_addr then
            (LoopExit.brk,
              (spi_erase_pwd_scan (D.run w.dev (List.replicate 256 0)).1 start_addr
                (true, pwd_addr, pwd_count)).2.1,
              (spi_erase_pwd_scan (D.run w.dev (List.replicate 256 0)).1 start_addr
                (true, pwd_addr, pwd_count)).2.2,
              { w with
                dev := (D.run w.dev (List.replicate 256 0)).2
                spi := w.spi ++ List.replicate 256 (SpiEvent.byte 0)
                regs := (led_blink_slow led_on led_count w.regs).2.2 })
          else
            spi_erase_pwd_loop D end_addr fuel ((start_addr + 256) % 2 ^ 32)
              (led_blink_slow led_on led_count w.regs).1
              (led_blink_slow led_on led_count w.regs).2.1
              (D.run w.dev (List.replicate 256 0)).1
              (spi_erase_pwd_scan (D.run w.dev (List.replicate 256 0)).1 start_addr
                (true, pwd_addr, pwd_count)).2.1
              (spi_erase_pwd_scan (D.run w.dev (List.replicate 256 0)).1 start_addr
                (true, pwd_addr, pwd_count)).2.2
              { w with
                dev := (D.run w.dev (List.replicate 256 0)).2
                spi := w.spi ++ List.replicate 256 (SpiEvent.byte 0)
                regs := (led_blink_slow led_on led_count w.regs).2.2 }
        else
          (LoopExit.ret,
            (spi_erase_pwd_scan (D.run w.dev (List.replicate 256 0)).1 start_addr
              (true, pwd_addr, pwd_count)).2.1,
            (spi_erase_pwd_scan (D.run w.dev (List.replicate 256 0)).1 start_addr
              (true, pwd_addr, pwd_count)).2.2,
            { w with
              dev := (D.run w.dev (List.replicate 256 0)).2
              spi := w.spi ++ List.replicate 256 (SpiEvent.byte 0)
              regs := (led_blink_slow led_on led_count w.regs).2.2 }) := by
  simp only [spi_erase_pwd_loop, spi_read_window_eq D data w h]

/-- The scan loop of `spi_erase_pwd`, started `n + 1` windows before the end address with
`rec` recorded: if the array has room for the matches in those windows it reads all of
them and records the sector of every match, in order; if not, it stops the function,
having only read. -/
theorem spi_erase_pwd_loop_eq {σ : Type} (D : Device σ) (end_addr : Nat) (n : Nat) :
    ∀ (fuel start_addr led_on led_count : Nat) (data rec : List Nat) (w : World σ),
    data.length = 256 → n + 1 ≤ fuel → start_addr + 256 * (n + 1) = end_addr →
    end_addr < 2 ^ 32 → start_addr % 256 = 0 → rec.length ≤ 4 →
    (rec.length + (erase_matches_from
        (D.run w.dev (List.replicate (256 * (n + 1)) 0)).1 start_addr (n + 1)).length ≤ 4 →
      ∃ regs1 : Regs,
        spi_erase_pwd_loop D end_addr fuel start_addr led_on led_count data
            (rec ++ List.replicate (4 - rec.length) 0) rec.length w
          = (LoopExit.brk,
              rec ++ (erase_matches_from
                  (D.run w.dev (List.replicate (256 * (n + 1)) 0)).1 start_addr (n + 1)).map
                  sector_of
                ++ List.replicate (4 - rec.length - (erase_matches_from
                  (D.run w.dev (List.replicate (256 * (n + 1)) 0)).1 start_addr
                    (n + 1)).length) 0,
              rec.length + (erase_matches_from
                  (D.run w.dev (List.replicate (256 * (n + 1)) 0)).1 start_addr (n + 1)).length,
              { w with
                dev := (D.run w.dev (List.replicate (256 * (n + 1)) 0)).2
                spi := w.spi ++ List.replicate (256 * (n + 1)) (SpiEvent.byte 0)
                regs := regs1 }))
    ∧ (4 < rec.length + (erase_matches_from
        (D.run w.dev (List.replicate (256 * (n + 1)) 0)).1 start_addr (n + 1)).length →
      ∃ (pa : List Nat) (pc m : Nat) (regs1 : Regs) (dev1 : σ),
        spi_erase_pwd_loop D end_addr fuel start_addr led_on led_count data
            (rec ++ List.replicate (4 - rec.length) 0) rec.length w
          = (LoopExit.ret, pa, pc,
              { w with
                dev := dev1
                spi := w.spi ++ List.replicate m (SpiEvent.byte 0)
                regs := regs1 })) := by
  induction n with
  | zero =>
    intro fuel start lo lc data rec w hd hfuel hend h32 hs hrec
    obtain ⟨fuel, rfl⟩ : ∃ f, fuel = f + 1 := ⟨fuel - 1, by omega⟩
    have hmod : (start + 256) % 2 ^ 32 = start + 256 := Nat.mod_eq_of_lt (by omega)
    have hlen : (D.run w.dev (List.replicate 256 0)).1.length = 256 := by
      rw [Device.run_length, List.length_replicate]
    have hM := erase_matches_from_append (D.run w.dev (List.replicate 256 0)).1 [] start 0 hlen
    rw [List.append_nil] at hM
    have h0 : erase_matches_from [] (start + 256) 0 = [] := rfl
    rw [h0, List.append_nil] at hM
    rw [show 256 * (0 + 1) = 256 from rfl, hM,
      spi_erase_pwd_loop_succ D end_addr fuel start lo lc data _ _ w hd, hmod]
    obtain ⟨sc1, sc2⟩ := spi_erase_pwd_scan_eq (D.run w.dev (List.replicate 256 0)).1 start
      (by omega) rec hrec
    have hHb : ∀ i ∈ (List.range 253).filter (fun i =>
        (D.run w.dev (List.replicate 256 0)).1.getD i 0 = 0xFF
        ∧ (D.run w.dev (List.replicate 256 0)).1.getD (i + 1) 0 = 0x23
        ∧ (D.run w.dev (List.replicate 256 0)).1.getD (i + 2) 0 = 0x80
        ∧ (D.run w.dev (List.replicate 256 0)).1.getD (i + 3) 0 = 0x4E), i < 256 := by
      intro i hi
      have := List.mem_range.mp (List.mem_filter.mp hi).1
      omega
    rw [map_sector_window start hs _ hHb, List.length_map]
    generalize (List.range 253).filter (fun i =>
        (D.run w.dev (List.replicate 256 0)).1.getD i 0 = 0xFF
        ∧ (D.run w.dev (List.replicate 256 0)).1.getD (i + 1) 0 = 0x23
        ∧ (D.run w.dev (List.replicate 256 0)).1.getD (i + 2) 0 = 0x80
        ∧ (D.run w.dev (List.replicate 256 0)).1.getD (i + 3) 0 = 0x4E) = H at sc1 sc2 ⊢
    constructor
    · intro hle
      refine ⟨(led_blink_slow lo lc w.regs).2.2, ?_⟩
      rw [sc1 hle, if_pos rfl, if_pos (by omega)]
    · intro hgt
      rw [if_neg (by rw [sc2 hgt]; exact Bool.false_ne_true)]
      exact ⟨_, _, 256, _, _, rfl⟩
  | succ n ih =>
    intro fuel start lo lc data rec w hd hfuel hend h32 hs hrec
    obtain ⟨fuel, rfl⟩ : ∃ f, fuel = f + 1 := ⟨fuel - 1, by omega⟩
    have hmod : (start + 256) % 2 ^ 32 = start + 256 := Nat.mod_eq_of_lt (by omega)
    have hlen : (D.run w.dev (List.replicate 256 0)).1.length = 256 := by
      rw [Device.run_length, List.length_replicate]
    rw [show 256 * (n + 1 + 1) = 256 + 256 * (n + 1) by omega, Device.run_replicate_add,
      erase_matches_from_append _ _ start (n + 1) hlen,
      spi_erase_pwd_loop_succ D end_addr fuel start lo lc data _ _ w hd, hmod]
    obtain ⟨sc1, sc2⟩ := spi_erase_pwd_scan_eq (D.run w.dev (List.replicate 256 0)).1 start
      (by omega) rec hrec
    have hHb : ∀ i ∈ (List.range 253).filter (fun i =>
        (D.run w.dev (List.replicate 256 0)).1.getD i 0 = 0xFF
        ∧ (D.run w.dev (List.replicate 256 0)).1.getD (i + 1) 0 = 0x23
        ∧ (D.run w.dev (List.replicate 256 0)).1.getD (i + 2) 0 = 0x80
        ∧ (D.run w.dev (List.replicate 256 0)).1.getD (i + 3) 0 = 0x4E), i < 256 := by
      intro i hi
      have := List.mem_range.mp (List.mem_filter.mp hi).1
      omega
    rw [List.map_append, map_sector_window start hs _ hHb, List.length_append, List.length_map]
    generalize (List.range 253).filter (fun i =>
        (D.run w.dev (List.replicate 256 0)).1.getD i 0 = 0xFF
        ∧ (D.run w.dev (List.replicate 256 0)).1.getD (i + 1) 0 = 0x23
        ∧ (D.run w.dev (List.replicate 256 0)).1.getD (i + 2) 0 = 0x80
        ∧ (D.run w.dev (List.replicate 256 0)).1.getD (i + 3) 0 = 0x4E) = H at sc1 sc2 ⊢
    by_cases hc : rec.length + H.length ≤ 4
    · have hl : (rec ++ List.replicate H.length (sector_of start)).length
          = rec.length + H.length := by
        rw [List.length_append, List.length_replicate]
      obtain ⟨ih1, ih2⟩ := ih fuel (start + 256) (led_blink_slow lo lc w.regs).1
        (led_blink_slow lo lc w.regs).2.1 (D.run w.dev (List.replicate 256 0)).1
        (rec ++ List.replicate H.length (sector_of start))
        { w with
          dev := (D.run w.dev (List.replicate 256 0)).2
          spi := w.spi ++ List.replicate 256 (SpiEvent.byte 0)
          regs := (led_blink_slow lo lc w.regs).2.2 }
        hlen (by omega) (by omega) h32 (by omega) (by omega)
      rw [hl, Nat.sub_add_eq] at ih1 ih2
      dsimp only at ih1 ih2
      rw [sc1 hc, if_pos rfl, if_neg (by omega)]
      constructor
      · intro hle
        obtain ⟨regs1, h⟩ := ih1 (by omega)
        refine ⟨regs1, ?_⟩
        rw [h, List.replicate_add]
        simp only [List.append_assoc, Nat.add_assoc, Nat.sub_add_eq]
      · intro hgt
        obtain ⟨pa, pc, m, regs1, dev1, h⟩ := ih2 (by omega)
        refine ⟨pa, pc, 256 + m, regs1, dev1, ?_⟩
        rw [h, List.replicate_add]
        simp only [List.append_assoc]
    · constructor
      · intro hle
        omega
      · intro _
        rw [if_neg (by rw [sc2 (by omega)]; exact Bool.false_ne_true)]
        exact ⟨_, _, 256, _, _, rfl⟩

theorem clear_report_chars :
    ((cstr "Clearing password from address: ").takeWhile (fun c => c ≠ 0)).map
        (fun c => [c % 256])
      = (cstr "Clearing password from address: ").map (fun c => [c]) := by decide

theorem cstr_erasing :
    ((cstr "Erasing passwords...\r\n").takeWhile (fun c => c ≠ 0)).map (fun c => [c % 256])
      = (cstr "Erasing passwords...\r\n").map (fun c => [c]) := by decide

theorem spi_write_enable_eq {σ : Type} (D : Device σ) (w : World σ) :
    (spi_write_enable D w).rx = w.rx ∧ (spi_write_enable D w).tx = w.tx
    ∧ (spi_write_enable D w).spi = w.spi ++ write_enable_events := by
  simp [spi_write_enable, spi_power, spi_status, spi_cs, spi_send, write_enable_events,
    status_events, SPI_WRITE_ENABLE]

/-- One turn of the final loop of `spi_erase_pwd` on a device that becomes ready. -/
theorem spi_erase_pwd_erase_one {σ : Type} (D : Device σ) (polls : Nat)
    (hr : D.ready_within polls) (a : Nat) (w : World σ) :
    ∃ (k : Nat) (w1 : World σ), k < polls
      ∧ spi_erase_sector D polls a (spi_write_enable D (print_address a 1
          (send_str (cstr "Clearing password from address: ") w))) = (some (), w1)
      ∧ w1.rx = w.rx ∧ w1.tx = w.tx ++ clear_report a
      ∧ w1.spi = w.spi ++ clear_events a k := by
  obtain ⟨we, heq, c1, c2, c3, c4⟩ := spi_erase_sector_eq D polls a
    (spi_write_enable D (print_address a 1
      (send_str (cstr "Clearing password from address: ") w)))
  obtain ⟨k, hk, hb⟩ := hr we.dev
  obtain ⟨w1, d1, d2, d3, _, d5⟩ := spi_wait_wip_done D k polls we hk hb
  obtain ⟨e1, e2, e3⟩ := spi_write_enable_eq D (print_address a 1
      (send_str (cstr "Clearing password from address: ") w))
  refine ⟨k, w1, hk, heq.trans d1, ?_, ?_, ?_⟩
  · rw [d2, c1, e1, print_address_eq, send_str_eq]
  · rw [d3, c2, e2, print_address_eq, send_str_eq, clear_report_chars]
    simp only [clear_report, List.append_assoc]
  · rw [d5, c4, e3, print_address_eq, send_str_eq]
    simp only [clear_events, List.append_assoc]

/-- The final loop of `spi_erase_pwd` on a device that becomes ready: one write-enable
and one sector erase for each of the first `c` entries of the array, in order. -/
theorem spi_erase_pwd_erase_eq {σ : Type} (D : Device σ) (polls : Nat)
    (hr : D.ready_within polls) (pa : List Nat) (w : World σ) :
    ∀ c, c ≤ pa.length →
    ∃ (ks : List Nat) (w1 : World σ), ks.length = c ∧ (∀ k ∈ ks, k < polls)
      ∧ spi_erase_pwd_erase D polls pa c w = (some (), w1)
      ∧ w1.rx = w.rx
      ∧ w1.tx = w.tx ++ ((pa.take c).map clear_report).flatten
      ∧ w1.spi = w.spi
          ++ (((pa.take c).zip ks).map (fun p => clear_events p.1 p.2)).flatten := by
  intro c
  induction c with
  | zero =>
    intro _
    exact ⟨[], w, rfl, by simp, rfl, rfl, by simp, by simp⟩
  | succ c ih =>
    intro hc
    obtain ⟨ks, w1, h1, h2, h3, h4, h5, h6⟩ := ih (by omega)
    obtain ⟨k, w2, g1, g2, g3, g4, g5⟩ := spi_erase_pwd_erase_one D polls hr (pa.getD c 0) w1
    have hget : pa.getD c 0 = pa[c] := by
      rw [List.getD_eq_getElem?_getD, List.getElem?_eq_getElem hc]
      rfl
    have htake : pa.take (c + 1) = pa.take c ++ [pa[c]] := by
      rw [List.take_succ, List.getElem?_eq_getElem hc]
      rfl
    refine ⟨ks ++ [k], w2, by simp [h1], ?_, ?_, g3.trans h4, ?_, ?_⟩
    · intro x hx
      rcases List.mem_append.mp hx with hx | hx
      · exact h2 x hx
      · rw [List.mem_singleton.mp hx]
        exact g1
    · unfold spi_erase_pwd_erase at h3 ⊢
      rw [List.range_succ, List.foldl_append, h3]
      exact g2
    · rw [g4, h5, htake, ← hget]
      simp only [List.map_append, List.flatten_append, List.append_assoc, List.map_cons,
        List.map_nil, List.flatten_cons, List.flatten_nil, List.append_nil]
    · rw [g5, h6, htake, ← hget,
        List.zip_append (by rw [List.length_take, h1]; omega)]
      simp only [List.map_append, List.flatten_append, List.append_assoc, List.map_cons,
        List.map_nil, List.flatten_cons, List.flatten_nil, List.append_nil, List.zip_cons_cons,
        List.zip_nil_right]

theorem spi_erase_pwd_start_eq {σ : Type} (D : Device σ) (w : World σ) :
    (spi_erase_pwd_start D w).rx = w.rx
    ∧ (spi_erase_pwd_start D w).tx
        = w.tx ++ (cstr "Locating passwords...\r\n").map (fun c => [c])
    ∧ (spi_erase_pwd_start D w).dev = D.after_read_cmd w.dev
    ∧ (spi_erase_pwd_start D w).spi = w.spi ++ read_cmd_events := by
  unfold spi_erase_pwd_start
  simp only [send_str_eq, cstr_locating]
  simp [spi_send, spi_cs, spi_power, Device.after_read_cmd, Device.run, read_cmd_events]

/-- The function `spi_erase_pwd` is its final part applied to the outcome of the scan
loop over the 32768 windows of 8 MiB. -/
theorem spi_erase_pwd_eq {σ : Type} (D : Device σ) (polls : Nat) (w : World σ)
    (r : LoopExit × List Nat × Nat × World σ)
    (h : spi_erase_pwd_loop D 8388608 32768 0 1 0 (List.replicate 256 0)
      (List.replicate MAX_PWDS 0) 0 (spi_erase_pwd_start D w) = r) :
    spi_erase_pwd D polls w = spi_erase_pwd_finish D polls r := by
  have e1 : (8 <<< 20 : Nat) = 8388608 := by decide
  have e2 : (8388608 / 256 : Nat) = 32768 := by decide
  have e3 : ¬ MAX_PWDS > 255 := by decide
  unfold spi_erase_pwd
  rw [if_neg e3, e1, e2, h]

theorem erase_matches_mem (img : List Nat) (a : Nat) :
    a ∈ erase_matches img ↔
      ∃ j i, j < 32768 ∧ i ≤ 252 ∧ a = 256 * j + i
        ∧ img.getD a 0 = 0xFF ∧ img.getD (a + 1) 0 = 0x23 ∧ img.getD (a + 2) 0 = 0x80
        ∧ img.getD (a + 3) 0 = 0x4E := by
  simp only [erase_matches, erase_matches_from, List.mem_flatten, List.mem_map, List.mem_range,
    List.mem_filter, decide_eq_true_eq, Nat.zero_add]
  constructor
  · rintro ⟨l, ⟨j, hj, rfl⟩, hmem⟩
    simp only [List.mem_map, List.mem_filter, List.mem_range, decide_eq_true_eq] at hmem
    obtain ⟨i, ⟨hi, h1, h2, h3, h4⟩, rfl⟩ := hmem
    exact ⟨j, i, hj, by omega, rfl, h1, h2, h3, h4⟩
  · rintro ⟨j, i, hj, hi, rfl, h1, h2, h3, h4⟩
    refine ⟨_, ⟨j, hj, rfl⟩, ?_⟩
    simp only [List.mem_map, List.mem_filter, List.mem_range, decide_eq_true_eq]
    exact ⟨i, ⟨by omega, h1, h2, h3, h4⟩, rfl⟩

/-- The scan loop of `spi_erase_pwd` as the function runs it, over the 8 MiB `img` that
the device shifts out after the read command. -/
theorem spi_erase_pwd_scan_all {σ : Type} (D : Device σ) (w : World σ) :
    ((erase_matches (D.run (D.after_read_cmd w.dev) (List.replicate 8388608 0)).1).length ≤ 4 →
      ∃ regs1 : Regs,
        spi_erase_pwd_loop D 8388608 32768 0 1 0 (List.replicate 256 0)
            (List.replicate MAX_PWDS 0) 0 (spi_erase_pwd_start D w)
          = (LoopExit.brk,
              (erase_matches (D.run (D.after_read_cmd w.dev)
                  (List.replicate 8388608 0)).1).map sector_of
                ++ List.replicate (4 - (erase_matches (D.run (D.after_read_cmd w.dev)
                  (List.replicate 8388608 0)).1).length) 0,
              (erase_matches (D.run (D.after_read_cmd w.dev)
                  (List.replicate 8388608 0)).1).length,
              { rx := w.rx
                tx := w.tx ++ (cstr "Locating passwords...\r\n").map (fun c => [c])
                dev := (D.run (D.after_read_cmd w.dev) (List.replicate 8388608 0)).2
                spi := w.spi ++ read_cmd_events ++ List.replicate 8388608 (SpiEvent.byte 0)
                regs := regs1 }))
    ∧ (4 < (erase_matches (D.run (D.after_read_cmd w.dev) (List.replicate 8388608 0)).1).length →
      ∃ (pa : List Nat) (pc m : Nat) (regs1 : Regs) (dev1 : σ),
        spi_erase_pwd_loop D 8388608 32768 0 1 0 (List.replicate 256 0)
            (List.replicate MAX_PWDS 0) 0 (spi_erase_pwd_start D w)
          = (LoopExit.ret, pa, pc,
              { rx := w.rx
                tx := w.tx ++ (cstr "Locating passwords...\r\n").map (fun c => [c])
                dev := dev1
                spi := w.spi ++ read_cmd_events ++ List.replicate m (SpiEvent.byte 0)
                regs := regs1 })) := by
  obtain ⟨s1, s2, s3, s4⟩ := spi_erase_pwd_start_eq D w
  obtain ⟨h1, h2⟩ := spi_erase_pwd_loop_eq D 8388608 32767 32768 0 1 0
    (List.replicate 256 0) [] (spi_erase_pwd_start D w) (List.length_replicate 256 0)
    (by omega) (by omega) (by omega) (by omega) (by simp)
  rw [s1, s2, s3, s4, show 256 * (32767 + 1) = 8388608 from rfl,
    show 32767 + 1 = 32768 from rfl, List.length_nil, Nat.zero_add, Nat.sub_zero,
    List.nil_append] at h1 h2
  rw [List.nil_append] at h1
  unfold erase_matches
  rw [show MAX_PWDS = 4 from rfl]
  exact ⟨h1, h2⟩

/-- The steps of `spi_erase_pwd` between the scan loop and the final loop: chip select
released, the message. -/
theorem spi_erase_pwd_mid_eq {σ : Type} (D : Device σ) (w1 : World σ) :
    (send_str (cstr "Erasing passwords...\r\n") (spi_power 0 (spi_cs D 0 w1))).rx = w1.rx
    ∧ (send_str (cstr "Erasing passwords...\r\n") (spi_power 0 (spi_cs D 0 w1))).tx
        = w1.tx ++ (cstr "Erasing passwords...\r\n").map (fun c => [c])
    ∧ (send_str (cstr "Erasing passwords...\r\n") (spi_power 0 (spi_cs D 0 w1))).spi
        = w1.spi ++ [SpiEvent.cs false] := by
  simp only [send_str_eq, cstr_erasing]
  simp [spi_power, spi_cs]

theorem spi_erase_pwd_finish_brk {σ : Type} (D : Device σ) (polls : Nat) (pa : List Nat)
    (pc : Nat) (w1 w2 : World σ)
    (h : spi_erase_pwd_erase D polls pa pc
      (send_str (cstr "Erasing passwords...\r\n") (spi_power 0 (spi_cs D 0 w1)))
        = (some (), w2)) :
    spi_erase_pwd_finish D polls (LoopExit.brk, pa, pc, w1)
      = (some (), send_str (cstr "All done!\r\n") w2) := by
  simp only [spi_erase_pwd_finish, h]

/-- The whole of `spi_erase_pwd` when the image has at most four matches and the device
becomes ready after every erase. -/
theorem spi_erase_pwd_erases {σ : Type} (D : Device σ) (polls : Nat) (w : World σ)
    (hle : (erase_matches
      (D.run (D.after_read_cmd w.dev) (List.replicate 8388608 0)).1).length ≤ 4)
    (hr : D.ready_within polls) :
    ∃ ks : List Nat,
      ks.length = (erase_matches
        (D.run (D.after_read_cmd w.dev) (List.replicate 8388608 0)).1).length
      ∧ (∀ k ∈ ks, k < polls)
      ∧ (spi_erase_pwd D polls w).1 = some ()
      ∧ (spi_erase_pwd D polls w).2.tx
          = w.tx ++ (cstr "Locating passwords...\r\n").map (fun c => [c])
            ++ (cstr "Erasing passwords...\r\n").map (fun c => [c])
            ++ (((erase_matches (D.run (D.after_read_cmd w.dev)
                  (List.replicate 8388608 0)).1).map sector_of).map clear_report).flatten
            ++ (cstr "All done!\r\n").map (fun c => [c])
      ∧ (spi_erase_pwd D polls w).2.spi
          = w.spi ++ read_cmd_events ++ List.replicate 8388608 (SpiEvent.byte 0)
            ++ [SpiEvent.cs false]
            ++ ((((erase_matches (D.run (D.after_read_cmd w.dev)
                  (List.replicate 8388608 0)).1).map sector_of).zip ks).map
                (fun p => clear_events p.1 p.2)).flatten := by
  obtain ⟨regs1, h⟩ := (spi_erase_pwd_scan_all D w).1 hle
  generalize erase_matches (D.run (D.after_read_cmd w.dev) (List.replicate 8388608 0)).1 = M
    at hle h ⊢
  obtain ⟨m1, m2, m3⟩ := spi_erase_pwd_mid_eq D
    { rx := w.rx
      tx := w.tx ++ (cstr "Locating passwords...\r\n").map (fun c => [c])
      dev := (D.run (D.after_read_cmd w.dev) (List.replicate 8388608 0)).2
      spi := w.spi ++ read_cmd_events ++ List.replicate 8388608 (SpiEvent.byte 0)
      regs := regs1 }
  obtain ⟨ks, w2, k1, k2, k3, _, k5, k6⟩ := spi_erase_pwd_erase_eq D polls hr
    (M.map sector_of ++ List.replicate (4 - M.length) 0)
    (send_str (cstr "Erasing passwords...\r\n") (spi_power 0 (spi_cs D 0
      { rx := w.rx
        tx := w.tx ++ (cstr "Locating passwords...\r\n").map (fun c => [c])
        dev := (D.run (D.after_read_cmd w.dev) (List.replicate 8388608 0)).2
        spi := w.spi ++ read_cmd_events ++ List.replicate 8388608 (SpiEvent.byte 0)
        regs := regs1 })))
    M.length (by rw [List.length_append, List.length_map, List.length_replicate]; omega)
  rw [List.take_left' (List.length_map _ _), m2] at k5
  rw [List.take_left' (List.length_map _ _), m3] at k6
  rw [spi_erase_pwd_eq D polls w _ h, spi_erase_pwd_finish_brk D polls _ _ _ w2 k3]
  refine ⟨ks, k1, k2, rfl, ?_, ?_⟩
  · rw [send_str_eq, cstr_all_done]
    show w2.tx ++ _ = _
    rw [k5]
  · rw [send_str_eq]
    show w2.spi = _
    rw [k6]

/-- The whole of `spi_erase_pwd` when the image has more than four matches. -/
theorem spi_erase_pwd_aborts {σ : Type} (D : Device σ) (polls : Nat) (w : World σ)
    (hgt : 4 < (erase_matches
      (D.run (D.after_read_cmd w.dev) (List.replicate 8388608 0)).1).length) :
    (spi_erase_pwd D polls w).1 = some ()
    ∧ (spi_erase_pwd D polls w).2.tx
        = w.tx ++ (cstr "Locating passwords...\r\n").map (fun c => [c])
    ∧ ∃ m, (spi_erase_pwd D polls w).2.spi
        = w.spi ++ read_cmd_events ++ List.replicate m (SpiEvent.byte 0) := by
  obtain ⟨pa, pc, m, regs1, dev1, h⟩ := (spi_erase_pwd_scan_all D w).2 hgt
  rw [spi_erase_pwd_eq D polls w _ h]
  exact ⟨rfl, rfl, m, rfl⟩

theorem const_device_run (v n : Nat) (s : Unit) :
    (const_device v).run s (List.replicate n 0) = (List.replicate n (v % 256), ()) := by
  induction n with
  | zero => rfl
  | succ n ih =>
    rw [List.replicate_succ, Device.run, ih]
    rfl

theorem erase_matches_from_none (img : List Nat) (start n : Nat)
    (h : ∀ i, img.getD i 0 ≠ 0xFF) : erase_matches_from img start n = [] := by
  unfold erase_matches_from
  rw [List.flatten_eq_nil_iff]
  intro l hl
  obtain ⟨j, _, rfl⟩ := List.mem_map.mp hl
  rw [List.map_eq_nil_iff, List.filter_eq_nil_iff]
  intro i _ hi
  exact h _ (of_decide_eq_true hi).1

theorem const_device_no_matches (s : Unit) :
    erase_matches ((const_device 0).run s (List.replicate 8388608 0)).1 = [] := by
  rw [const_device_run]
  apply erase_matches_from_none
  intro i
  rw [List.getD_eq_getElem?_getD, List.getElem?_replicate]
  split <;> simp

theorem const_device_ready : (const_device 0).ready_within 1 :=
  fun _ => ⟨0, by decide, show (0 % 256) &&& SPI_WIP = 0 by decide⟩

/-- C14 (amended): `spi_erase_pwd` masks but does not de-duplicate. For an image with at
most four matches the scan loop ends with one entry of `pwd_addr` per match, in the order
of the matches: the match address with its low 12 bits cleared, which is a multiple of
4096 whose 4 KiB sector contains the match. A sector that holds `k` matches is therefore
recorded `k` times, and on a device that becomes ready the function prints one
`Clearing password from address` line for every match, the same line again for a
sector met again. -/
theorem spi_erase_pwd_records {σ : Type} (D : Device σ) (polls : Nat) (w : World σ)
    (hle : (erase_matches
      (D.run (D.after_read_cmd w.dev) (List.replicate 8388608 0)).1).length ≤ 4)
    (hr : D.ready_within polls) :
    (∃ w1 : World σ,
      spi_erase_pwd_loop D 8388608 32768 0 1 0 (List.replicate 256 0)
          (List.replicate MAX_PWDS 0) 0 (spi_erase_pwd_start D w)
        = (LoopExit.brk,
            (erase_matches (D.run (D.after_read_cmd w.dev)
                (List.replicate 8388608 0)).1).map sector_of
              ++ List.replicate (4 - (erase_matches (D.run (D.after_read_cmd w.dev)
                (List.replicate 8388608 0)).1).length) 0,
            (erase_matches (D.run (D.after_read_cmd w.dev)
                (List.replicate 8388608 0)).1).length,
            w1))
    ∧ (spi_erase_pwd D polls w).2.tx
        = w.tx ++ (cstr "Locating passwords...\r\n").map (fun c => [c])
          ++ (cstr "Erasing passwords...\r\n").map (fun c => [c])
          ++ (((erase_matches (D.run (D.after_read_cmd w.dev)
                (List.replicate 8388608 0)).1).map sector_of).map clear_report).flatten
          ++ (cstr "All done!\r\n").map (fun c => [c])
    ∧ (∀ a ∈ erase_matches (D.run (D.after_read_cmd w.dev) (List.replicate 8388608 0)).1,
        sector_of a = a &&& 0xFFFFF000 ∧ sector_of a % 4096 = 0
        ∧ sector_of a ≤ a ∧ a < sector_of a + 4096) := by
  refine ⟨?_, ?_, ?_⟩
  · obtain ⟨regs1, h⟩ := (spi_erase_pwd_scan_all D w).1 hle
    exact ⟨_, h⟩
  · obtain ⟨ks, _, _, _, k4, _⟩ := spi_erase_pwd_erases D polls w hle hr
    exact k4
  · intro a ha
    obtain ⟨j, i, hj, hi, rfl, _⟩ := (erase_matches_mem _ a).mp ha
    refine ⟨(and_sector_mask _ (by omega)).symm, ?_, ?_, ?_⟩ <;>
    · unfold sector_of
      omega

set_option maxRecDepth 8000 in
/-- A window that holds the signature at offsets 0 and 4, read at address 0x1000: the
compare loop of `spi_erase_pwd` records the sector 0x1000 twice, and the final loop, run
on that array, sends the sector-erase command for 0x1000 twice. -/
theorem spi_erase_pwd_scan_twice :
    spi_erase_pwd_scan
        ([0xFF, 0x23, 0x80, 0x4E, 0xFF, 0x23, 0x80, 0x4E] ++ List.replicate 248 0) 0x1000
        (true, [0, 0, 0, 0], 0)
      = (true, [0x1000, 0x1000, 0, 0], 2)
    ∧ (spi_erase_pwd_erase (const_device 0) 1 [0x1000, 0x1000, 0, 0] 2 (World.start [])).2.spi
      = write_enable_events ++ erase_events 0x1000 ++ status_events
        ++ (write_enable_events ++ erase_events 0x1000 ++ status_events) := by
  constructor
  · decide
  · decide

/-! ## Facts about `probe.c`: the block-erase loops -/


/-- The command part of `spi_erase_block`, up to the busy-wait. -/
theorem spi_erase_block_eq {σ : Type} (D : Device σ) (polls addr : Nat) (w : World σ) :
    ∃ w1 : World σ, spi_erase_block D polls addr w = spi_wait_wip D polls w1
      ∧ w1.rx = w.rx ∧ w1.tx = w.tx
      ∧ w1.spi = w.spi ++ block_erase_events addr := by
  refine ⟨_, rfl, ?_, ?_, ?_⟩ <;>
  simp [spi_cs, spi_send, block_erase_events]

/-- One turn of the block-erase loops on a device that becomes ready. -/
theorem spi_erase_block_one {σ : Type} (D : Device σ) (polls : Nat)
    (hr : D.ready_within polls) (a : Nat) (w : World σ) :
    ∃ (k : Nat) (w1 : World σ), k < polls
      ∧ spi_erase_block D polls a (spi_write_enable D w) = (some (), w1)
      ∧ w1.rx = w.rx ∧ w1.tx = w.tx
      ∧ w1.spi = w.spi ++ block_events a k := by
  obtain ⟨we, heq, c1, c2, c4⟩ := spi_erase_block_eq D polls a (spi_write_enable D w)
  obtain ⟨k, hk, hb⟩ := hr we.dev
  obtain ⟨w1, d1, d2, d3, _, d5⟩ := spi_wait_wip_done D k polls we hk hb
  obtain ⟨e1, e2, e3⟩ := spi_write_enable_eq D w
  refine ⟨k, w1, hk, heq.trans d1, ?_, ?_, ?_⟩
  · rw [d2, c1, e1]
  · rw [d3, c2, e2]
  · rw [d5, c4, e3]
    simp only [block_events, List.append_assoc]

/-- The block-erase loop of `spi_zap_8mb`, run for `n` of its 128 turns on a device that
becomes ready: one write-enable and one block erase per turn, at 0, 65536, ... -/
theorem spi_zap_8mb_loop_eq {σ : Type} (D : Device σ) (polls : Nat)
    (hr : D.ready_within polls) (w : World σ) :
    ∀ n, n ≤ 128 →
    ∃ (ks : List Nat) (w1 : World σ), ks.length = n ∧ (∀ k ∈ ks, k < polls)
      ∧ (List.range n).foldl
          (fun (s : Option Unit × Nat × World σ) (_ : Nat) =>
            match s.1 with
            | none => s
            | some _ =>
              match spi_erase_block D polls s.2.1 (spi_write_enable D s.2.2) with
              | (none, w) => (none, s.2.1, w)
              | (some _, w) => (some (), (s.2.1 + 65536) % 2 ^ 32, w))
          (some (), 0, w)
        = (some (), 65536 * n, w1)
      ∧ w1.rx = w.rx ∧ w1.tx = w.tx
      ∧ w1.spi = w.spi
          ++ (((List.range n).zip ks).map (fun p => block_events (65536 * p.1) p.2)).flatten := by
  intro n
  induction n with
  | zero =>
    intro _
    exact ⟨[], w, rfl, by simp, rfl, rfl, rfl, by simp⟩
  | succ n ih =>
    intro hn
    obtain ⟨ks, w1, h1, h2, h3, h4, h5, h6⟩ := ih (by omega)
    obtain ⟨k, w2, g1, g2, g3, g4, g5⟩ := spi_erase_block_one D polls hr (65536 * n) w1
    refine ⟨ks ++ [k], w2, by simp [h1], ?_, ?_, g3.trans h4, g4.trans h5, ?_⟩
    · intro x hx
      rcases List.mem_append.mp hx with hx | hx
      · exact h2 x hx
      · rw [List.mem_singleton.mp hx]
        exact g1
    · rw [List.range_succ, List.foldl_append, h3]
      simp only [List.foldl_cons, List.foldl_nil, g2]
      rw [Nat.mod_eq_of_lt (by omega)]
      congr 2
    · rw [g5, h6, List.range_succ, List.zip_append (by rw [List.length_range, h1])]
      simp only [List.map_append, List.flatten_append, List.append_assoc, List.map_cons,
        List.map_nil, List.flatten_cons, List.flatten_nil, List.append_nil, List.zip_cons_cons,
        List.zip_nil_right]

theorem spi_bulk_erase_MX25L64_loop_eq_zap {σ : Type} (D : Device σ) (polls : Nat)
    (w : World σ) :
    spi_bulk_erase_MX25L64_loop D polls w = spi_zap_8mb_loop D polls w := rfl

theorem cstr_starting_mx :
    ((cstr "Starting Macronix MX25L64 bulk erase...\r\n").takeWhile (fun c => c ≠ 0)).map
        (fun c => [c % 256])
      = (cstr "Starting Macronix MX25L64 bulk erase...\r\n").map (fun c => [c]) := by decide

/-- The whole of `spi_zap_8mb` on a device that becomes ready. -/
theorem spi_zap_8mb_eq {σ : Type} (D : Device σ) (polls : Nat)
    (hr : D.ready_within polls) (w : World σ) :
    ∃ ks : List Nat, ks.length = 128 ∧ (∀ k ∈ ks, k < polls)
      ∧ (spi_zap_8mb D polls w).1 = some ()
      ∧ (spi_zap_8mb D polls w).2.tx = w.tx ++ [[100, 111, 110, 101, 33, 13, 10, 0]]
      ∧ (spi_zap_8mb D polls w).2.spi
          = w.spi ++ (((List.range 128).zip ks).map
              (fun p => block_events (65536 * p.1) p.2)).flatten := by
  obtain ⟨ks, w1, h1, h2, h3, _, h5, h6⟩ := spi_zap_8mb_loop_eq D polls hr w 128 (by omega)
  have hl : spi_zap_8mb_loop D polls w = (some (), 65536 * 128, w1) := h3
  unfold spi_zap_8mb
  rw [hl]
  refine ⟨ks, h1, h2, rfl, ?_, ?_⟩
  · show w1.tx ++ _ = _
    rw [h5]
    rfl
  · show w1.spi = _
    rw [h6]

/-- The whole of `spi_bulk_erase_MX25L64` on a device that becomes ready. -/
theorem spi_bulk_erase_MX25L64_eq {σ : Type} (D : Device σ) (polls : Nat)
    (hr : D.ready_within polls) (w : World σ) :
    ∃ ks : List Nat, ks.length = 128 ∧ (∀ k ∈ ks, k < polls)
      ∧ (spi_bulk_erase_MX25L64 D polls w).1 = some ()
      ∧ (spi_bulk_erase_MX25L64 D polls w).2.tx
          = w.tx ++ (cstr "Starting Macronix MX25L64 bulk erase...\r\n").map (fun c => [c])
      ∧ (spi_bulk_erase_MX25L64 D polls w).2.spi
          = w.spi ++ (((List.range 128).zip ks).map
              (fun p => block_events (65536 * p.1) p.2)).flatten := by
  obtain ⟨ks, w1, h1, h2, h3, _, h5, h6⟩ := spi_zap_8mb_loop_eq D polls hr
    (send_str (cstr "Starting Macronix MX25L64 bulk erase...\r\n") w) 128 (by omega)
  have hl : spi_bulk_erase_MX25L64_loop D polls
      (send_str (cstr "Starting Macronix MX25L64 bulk erase...\r\n") w)
        = (some (), 65536 * 128, w1) := h3
  rw [send_str_eq, cstr_starting_mx] at h5 h6
  unfold spi_bulk_erase_MX25L64
  rw [hl]
  refine ⟨ks, h1, h2, rfl, ?_, ?_⟩
  · show w1.tx = _
    rw [h5]
  · show w1.spi = _
    rw [h6]

theorem zip_map_zero {α : Type} (f : Nat → Nat → α) (l ks : List Nat)
    (h : ks.length = l.length) (h0 : ∀ k ∈ ks, k < 1) :
    (l.zip ks).map (fun p => f p.1 p.2) = l.map (fun i => f i 0) := by
  induction l generalizing ks with
  | nil => simp
  | cons a l ih =>
    cases ks with
    | nil => simp at h
    | cons k ks =>
      have hk : k = 0 := by
        have := h0 k (List.mem_cons_self _ _)
        omega
      rw [List.zip_cons_cons, List.map_cons, List.map_cons,
        ih ks (by simpa using h) (fun x hx => h0 x (List.mem_cons_of_mem _ hx)), hk]

/-- C15 (amended): `spi_bulk_erase_MX25L64` and `spi_zap_8mb` take no account of the
configured target flash size. On a device that shows WIP clear after fewer than `polls`
status reads, each of them returns after exactly 128 turns (128 * 65536 = 8 MiB), and all
its SPI traffic is, for `i` = 0 .. 127 in order: a write-enable (a status read, then
0x06), the block-erase command 0xD8 with the address `65536 * i`, and status reads until
the first one that shows WIP clear. -/
theorem spi_bulk_erase_blocks {σ : Type} (D : Device σ) (polls : Nat)
    (hr : D.ready_within polls) (w : World σ) :
    (∃ ks : List Nat, ks.length = 128
      ∧ (spi_bulk_erase_MX25L64 D polls w).1 = some ()
      ∧ (spi_bulk_erase_MX25L64 D polls w).2.spi
          = w.spi ++ (((List.range 128).zip ks).map
              (fun p => write_enable_events ++ block_erase_events (65536 * p.1)
                ++ (List.replicate (p.2 + 1) status_events).flatten)).flatten)
    ∧ (∃ ks : List Nat, ks.length = 128
      ∧ (spi_zap_8mb D polls w).1 = some ()
      ∧ (spi_zap_8mb D polls w).2.spi
          = w.spi ++ (((List.range 128).zip ks).map
              (fun p => write_enable_events ++ block_erase_events (65536 * p.1)
                ++ (List.replicate (p.2 + 1) status_events).flatten)).flatten)
    ∧ 128 * 65536 = 8 <<< 20 := by
  obtain ⟨ks1, a1, _, a3, _, a5⟩ := spi_bulk_erase_MX25L64_eq D polls hr w
  obtain ⟨ks2, b1, _, b3, _, b5⟩ := spi_zap_8mb_eq D polls hr w
  exact ⟨⟨ks1, a1, a3, a5⟩, ⟨ks2, b1, b3, b5⟩, by decide⟩

theorem spi_bulk_erase_blocks_witness :
    (const_device 0).ready_within 1
    ∧ ∃ ks : List Nat, ks.length = 128
      ∧ (spi_zap_8mb (const_device 0) 1 (World.start [])).1 = some ()
      ∧ (spi_zap_8mb (const_device 0) 1 (World.start [])).2.spi
          = (World.start []).spi ++ (((List.range 128).zip ks).map
              (fun p => write_enable_events ++ block_erase_events (65536 * p.1)
                ++ (List.replicate (p.2 + 1) status_events).flatten)).flatten :=
  ⟨const_device_ready,
   (spi_bulk_erase_blocks (const_device 0) 1 const_device_ready (World.start [])).2.1⟩

/-- C15 (counterexample): the operator enters 0 at the size prompt, which sets the target
flash size to 1 MiB, that is 16 blocks of 64 KiB. `spi_zap_8mb` and
`spi_bulk_erase_MX25L64`, run on a device that is never busy, still send 128 block-erase
commands, at 0, 65536, ..., 127 * 65536. -/
theorem spi_zap_8mb_counterexample :
    (spi_change_flash_size Globals.init (World.start [48, 13])).2.1.target_flash_size
      = 1048576
    ∧ 1048576 / 65536 = 16
    ∧ (spi_zap_8mb (const_device 0) 1 (World.start [])).2.spi
        = ((List.range 128).map (fun i => block_events (65536 * i) 0)).flatten
    ∧ (spi_bulk_erase_MX25L64 (const_device 0) 1 (World.start [])).2.spi
        = ((List.range 128).map (fun i => block_events (65536 * i) 0)).flatten := by
  refine ⟨by decide, by decide, ?_, ?_⟩
  · obtain ⟨ks, h1, h2, _, _, h5⟩ := spi_zap_8mb_eq (const_device 0) 1 const_device_ready
      (World.start [])
    rw [h5, zip_map_zero (fun i k => block_events (65536 * i) k) (List.range 128) ks
      (by rw [h1, List.length_range]) h2]
    rfl
  · obtain ⟨ks, h1, h2, _, _, h5⟩ := spi_bulk_erase_MX25L64_eq (const_device 0) 1
      const_device_ready (World.start [])
    rw [h5, zip_map_zero (fun i k => block_events (65536 * i) k) (List.range 128) ks
      (by rw [h1, List.length_range]) h2]
    rfl

/-! ## Facts about `probe.c`: the raw dump -/


theorem spi_dump_fill_eq {σ : Type} (D : Device σ) (buf : List Nat) (w : World σ)
    (h : buf.length = 64) :
    spi_dump_fill D buf w
      = ((D.run w.dev (List.replicate 64 0)).1,
          { w with dev := (D.run w.dev (List.replicate 64 0)).2
                   spi := w.spi ++ List.replicate 64 (SpiEvent.byte 0) }) := by
  unfold spi_dump_fill
  rw [prom_send_fill_take D buf w 64 (by omega), List.drop_of_length_le (by omega),
    List.append_nil]

theorem Device.chunks64_length {σ : Type} (D : Device σ) (n : Nat) : ∀ s : σ,
    (D.chunks64 s n).length = n := by
  induction n with
  | zero => intro s; rfl
  | succ n ih => intro s; simp [Device.chunks64, ih]

theorem Device.chunks64_mem_length {σ : Type} (D : Device σ) (n : Nat) : ∀ s : σ,
    ∀ p ∈ D.chunks64 s n, p.length = 64 := by
  induction n with
  | zero => intro s p hp; simp [Device.chunks64] at hp
  | succ n ih =>
    intro s p hp
    simp only [Device.chunks64, List.mem_cons] at hp
    rcases hp with rfl | hp
    · rw [Device.run_length, List.length_replicate]
    · exact ih _ p hp

theorem Device.chunks64_flatten {σ : Type} (D : Device σ) (n : Nat) : ∀ s : σ,
    (D.chunks64 s n).flatten = (D.run s (List.replicate (64 * n) 0)).1 := by
  induction n with
  | zero => intro s; simp [Device.chunks64, Device.run]
  | succ n ih =>
    intro s
    rw [show 64 * (n + 1) = 64 + 64 * n by omega, Device.run_replicate_add]
    simp only [Device.chunks64, List.flatten_cons, ih]

set_option maxRecDepth 4000 in
/-- One turn of the loop of `spi_dump`. -/
theorem spi_dump_loop_succ {σ : Type} (D : Device σ) (end_addr fuel addr : Nat)
    (buf : List Nat) (w : World σ) (h : buf.length = 64) :
    spi_dump_loop D end_addr (fuel + 1) addr buf w
      = if (addr + 64) % 2 ^ 32 ≥ end_addr then
          (some (),
            { w with
              tx := w.tx ++ [(D.run w.dev (List.replicate 64 0)).1]
              dev := (D.run w.dev (List.replicate 64 0)).2
              spi := w.spi ++ List.replicate 64 (SpiEvent.byte 0) })
        else
          spi_dump_loop D end_addr fuel ((addr + 64) % 2 ^ 32)
            (D.run w.dev (List.replicate 64 0)).1
            { w with
              tx := w.tx ++ [(D.run w.dev (List.replicate 64 0)).1]
              dev := (D.run w.dev (List.replicate 64 0)).2
              spi := w.spi ++ List.replicate 64 (SpiEvent.byte 0) } := by
  have hlen : (D.run w.dev (List.replicate 64 0)).1.length = 64 := by
    rw [Device.run_length, List.length_replicate]
  have ht : (D.run w.dev (List.replicate 64 0)).1.take 64
      = (D.run w.dev (List.replicate 64 0)).1 := List.take_of_length_le (by omega)
  simp only [spi_dump_loop, spi_dump_fill_eq D buf w h, usb_serial_write, ht]

/-- The loop of `spi_dump`, started `n + 1` turns before the end address: it writes that
many chunks of 64 bytes to the serial link, as the device shifts them out. -/
theorem spi_dump_loop_eq {σ : Type} (D : Device σ) (end_addr : Nat) (n : Nat) :
    ∀ (fuel addr : Nat) (buf : List Nat) (w : World σ),
    buf.length = 64 → n + 1 ≤ fuel → addr + 64 * (n + 1) = end_addr → end_addr < 2 ^ 32 →
    spi_dump_loop D end_addr fuel addr buf w
      = (some (),
          { w with
            tx := w.tx ++ D.chunks64 w.dev (n + 1)
            dev := (D.run w.dev (List.replicate (64 * (n + 1)) 0)).2
            spi := w.spi ++ List.replicate (64 * (n + 1)) (SpiEvent.byte 0) }) := by
  induction n with
  | zero =>
    intro fuel addr buf w hd hfuel hend h32
    obtain ⟨fuel, rfl⟩ : ∃ f, fuel = f + 1 := ⟨fuel - 1, by omega⟩
    have hmod : (addr + 64) % 2 ^ 32 = addr + 64 := Nat.mod_eq_of_lt (by omega)
    rw [spi_dump_loop_succ D end_addr fuel addr buf w hd, hmod, if_pos (by omega)]
    rfl
  | succ n ih =>
    intro fuel addr buf w hd hfuel hend h32
    obtain ⟨fuel, rfl⟩ : ∃ f, fuel = f + 1 := ⟨fuel - 1, by omega⟩
    have hmod : (addr + 64) % 2 ^ 32 = addr + 64 := Nat.mod_eq_of_lt (by omega)
    have hlen : (D.run w.dev (List.replicate 64 0)).1.length = 64 := by
      rw [Device.run_length, List.length_replicate]
    rw [spi_dump_loop_succ D end_addr fuel addr buf w hd, hmod, if_neg (by omega),
      ih fuel (addr + 64) _ _ hlen (by omega) (by omega) h32,
      show 64 * (n + 1 + 1) = 64 + 64 * (n + 1) by omega, Device.run_replicate_add,
      List.replicate_add]
    simp only [Device.chunks64, List.append_assoc, List.singleton_append]

/-- The loop of `spi_dump` over `m` turns, `m` positive. -/
theorem spi_dump_loop_turns {σ : Type} (D : Device σ) (end_addr m : Nat) (hm : 0 < m)
    (fuel addr : Nat) (buf : List Nat) (w : World σ)
    (hb : buf.length = 64) (hfuel : m ≤ fuel) (hend : addr + 64 * m = end_addr)
    (h32 : end_addr < 2 ^ 32) :
    spi_dump_loop D end_addr fuel addr buf w
      = (some (),
          { w with
            tx := w.tx ++ D.chunks64 w.dev m
            dev := (D.run w.dev (List.replicate (64 * m) 0)).2
            spi := w.spi ++ List.replicate (64 * m) (SpiEvent.byte 0) }) := by
  obtain ⟨n, rfl⟩ : ∃ n, m = n + 1 := ⟨m - 1, by omega⟩
  exact spi_dump_loop_eq D end_addr n fuel addr buf w hb hfuel hend h32

theorem spi_dump_finish_eq {σ : Type} (D : Device σ) (w1 : World σ) :
    (spi_dump_finish D (some (), w1)).1 = some ()
    ∧ (spi_dump_finish D (some (), w1)).2.tx = w1.tx
    ∧ (spi_dump_finish D (some (), w1)).2.spi = w1.spi ++ [SpiEvent.cs false] := by
  simp [spi_dump_finish, spi_cs, spi_power]

theorem spi_dump_start_eq {σ : Type} (D : Device σ) (w : World σ) :
    (spi_dump_start D w).rx = w.rx
    ∧ (spi_dump_start D w).tx = w.tx
    ∧ (spi_dump_start D w).dev = D.after_read_cmd w.dev
    ∧ (spi_dump_start D w).spi = w.spi ++ read_cmd_events := by
  simp [spi_dump_start, spi_send, spi_cs, spi_power, Device.after_read_cmd, Device.run,
    read_cmd_events]

/-- The function `spi_dump` is its final part applied to the outcome of the loop over
the 131072 chunks of 8 MiB. -/
theorem spi_dump_eq {σ : Type} (D : Device σ) (w : World σ) (r : Option Unit × World σ)
    (h : spi_dump_loop D 8388608 131072 0 (List.replicate 64 0) (spi_dump_start D w) = r) :
    spi_dump D w = spi_dump_finish D r := by
  have e1 : (8 <<< 20 : Nat) = 8388608 := by decide
  have e2 : (8388608 / 64 : Nat) = 131072 := by decide
  unfold spi_dump
  rw [e1, e2, h]

/-- C16: `spi_dump` takes no account of the configured target flash size. Whatever the
size selected with `spi_change_flash_size`, it returns after writing to the serial link
131072 chunks of 64 bytes: the 8388608 bytes (8 MiB) that the device shifts out after
the single read command 03 00 00 00, in order. -/
theorem spi_dump_eight_mib {σ : Type} (D : Device σ) (w : World σ) :
    (spi_dump D w).1 = some ()
    ∧ (spi_dump D w).2.tx = w.tx ++ D.chunks64 (D.after_read_cmd w.dev) 131072
    ∧ (D.chunks64 (D.after_read_cmd w.dev) 131072).flatten
        = (D.run (D.after_read_cmd w.dev) (List.replicate 8388608 0)).1
    ∧ (D.chunks64 (D.after_read_cmd w.dev) 131072).flatten.length = 8388608
    ∧ (∀ p ∈ D.chunks64 (D.after_read_cmd w.dev) 131072, p.length = 64)
    ∧ (spi_dump D w).2.spi
        = w.spi ++ read_cmd_events ++ List.replicate 8388608 (SpiEvent.byte 0)
          ++ [SpiEvent.cs false] := by
  obtain ⟨s1, s2, s3, s4⟩ := spi_dump_start_eq D w
  have h := spi_dump_loop_turns D 8388608 131072 (by decide) 131072 0 (List.replicate 64 0)
    (spi_dump_start D w) (List.length_replicate 64 0) (Nat.le_refl _) (by decide) (by decide)
  rw [s2, s3, s4, show 64 * 131072 = 8388608 from rfl] at h
  have hf := Device.chunks64_flatten D 131072 (D.after_read_cmd w.dev)
  rw [show 64 * 131072 = 8388608 from rfl] at hf
  rw [spi_dump_eq D w _ h]
  refine ⟨(spi_dump_finish_eq D _).1, (spi_dump_finish_eq D _).2.1, hf, ?_,
    Device.chunks64_mem_length D 131072 _, (spi_dump_finish_eq D _).2.2⟩
  rw [hf, Device.run_length, List.length_replicate]

/-! ## Facts about `probe.c`: the target flash size -/


theorem cstr_invalid_size :
    ((cstr "ERROR: Invalid target size selected.\r\n").takeWhile (fun c => c ≠ 0)).map
        (fun c => [c % 256])
      = (cstr "ERROR: Invalid target size selected.\r\n").map (fun c => [c]) := by decide

/-- What `spi_change_flash_size` does with the number entered. -/
theorem spi_change_flash_size_eq {σ : Type} (g : Globals) (w w1 : World σ) (v : Nat)
    (h : usb_serial_readhex (spi_change_flash_size_menu w) = (some v, w1)) :
    (v ≤ 8 →
      spi_change_flash_size g w
        = (some (), { g with target_flash_size := flash_size_presets.getD v 0 }, w1))
    ∧ (8 < v →
      spi_change_flash_size g w
        = (some (), g,
            { w1 with tx := w1.tx
              ++ (cstr "ERROR: Invalid target size selected.\r\n").map (fun c => [c]) })) := by
  constructor
  · intro hv
    unfold spi_change_flash_size
    simp only [h]
    interval_cases v <;> rfl
  · intro hv
    obtain ⟨k, rfl⟩ : ∃ k, v = k + 9 := ⟨v - 9, by omega⟩
    unfold spi_change_flash_size
    simp only [h]
    rw [send_str_eq, cstr_invalid_size]

/-- Whatever is entered, `spi_change_flash_size` leaves one of the nine presets or the
old value in `target_flash_size`. -/
theorem spi_change_flash_size_cases {σ : Type} (g : Globals) (w : World σ) :
    (spi_change_flash_size g w).2.1.target_flash_size ∈ flash_size_presets
    ∨ (spi_change_flash_size g w).2.1.target_flash_size = g.target_flash_size := by
  rcases hr : usb_serial_readhex (spi_change_flash_size_menu w) with ⟨_ | v, w1⟩
  · right
    unfold spi_change_flash_size
    simp only [hr]
  · by_cases hv : v ≤ 8
    · left
      rw [(spi_change_flash_size_eq g w w1 v hr).1 hv]
      show flash_size_presets.getD v 0 ∈ flash_size_presets
      interval_cases v <;> decide
    · right
      rw [(spi_change_flash_size_eq g w w1 v hr).2 (by omega)]

theorem reachable_presets (g : Globals) (h : Globals.reachable g) :
    g.target_flash_size ∈ flash_size_presets := by
  induction h with
  | init => decide
  | change_flash_size g w _ ih =>
    rcases spi_change_flash_size_cases g w with h | h
    · exact h
    · rw [h]
      exact ih
  | other g block n _ ih => exact ih

/-- `prom_send` and `spi_upload` are among the commands that leave `target_flash_size`
alone. -/
theorem prom_send_target_flash_size {σ : Type} (D : Device σ) (g : Globals) (w : World σ) :
    (prom_send D g w).2.1.target_flash_size = g.target_flash_size := by
  unfold prom_send
  split
  · rfl
  · split
    · rfl
    · dsimp only
      split <;> rfl

set_option maxRecDepth 4000 in
theorem spi_upload_loop_target_flash_size {σ : Type} (D : Device σ) (polls len : Nat)
    (fuel : Nat) : ∀ (offset addr led_on led_count : Nat) (g : Globals) (w : World σ),
    (spi_upload_loop D polls len fuel offset addr led_on led_count g w).2.1.target_flash_size
      = g.target_flash_size := by
  induction fuel with
  | zero => intro _ _ _ _ g w; rfl
  | succ fuel ih =>
    intro offset addr lo lc g w
    simp only [spi_upload_loop]
    split
    · split
      · split
        · rfl
        · rw [ih]
      · rfl
    · rfl

theorem spi_upload_target_flash_size {σ : Type} (D : Device σ) (polls : Nat) (g : Globals)
    (w : World σ) :
    (spi_upload D polls g w).2.1.target_flash_size = g.target_flash_size := by
  unfold spi_upload
  split
  · rfl
  · split
    · rfl
    · dsimp only
      split
      · rfl
      · split
        · next h =>
          have e := congrArg
            (fun r : Option Unit × Globals × World σ => r.2.1.target_flash_size) h
          dsimp only at e
          rw [spi_upload_loop_target_flash_size] at e
          exact e.symm
        · next h =>
          have e := congrArg
            (fun r : Option Unit × Globals × World σ => r.2.1.target_flash_size) h
          dsimp only at e
          rw [spi_upload_loop_target_flash_size] at e
          exact e.symm

/-- C17: the target flash size starts at 8 MiB. When the operator enters `v` at the prompt
of `spi_change_flash_size`, the function returns; for `v` = 0 .. 8 it sets the size to
1 MiB, 2 MiB, 4 MiB, 8 MiB, 16 MiB, 32 MiB, 64 KiB, 128 KiB, 256 KiB respectively and
changes nothing else, and for any other `v` it leaves the variables as they are and
prints the error line. Hence in every reachable state the size is one of these nine
values, a positive multiple of 65536. -/
theorem target_flash_size_presets {σ : Type} (g : Globals) (w w1 : World σ) (v : Nat)
    (h : usb_serial_readhex (spi_change_flash_size_menu w) = (some v, w1)) :
    Globals.init.target_flash_size = 8 * 2 ^ 20
    ∧ (v ≤ 8 →
      spi_change_flash_size g w
        = (some (),
            { g with target_flash_size :=
                [1048576, 2097152, 4194304, 8388608, 16777216, 33554432, 65536, 131072,
                  262144].getD v 0 },
            w1))
    ∧ (8 < v →
      spi_change_flash_size g w
        = (some (), g,
            { w1 with tx := w1.tx
              ++ (cstr "ERROR: Invalid target size selected.\r\n").map (fun c => [c]) }))
    ∧ (∀ g1 : Globals, Globals.reachable g1 →
        g1.target_flash_size ∈ [1048576, 2097152, 4194304, 8388608, 16777216, 33554432,
          65536, 131072, 262144]
        ∧ 0 < g1.target_flash_size ∧ g1.target_flash_size % 65536 = 0) := by
  refine ⟨by decide, (spi_change_flash_size_eq g w w1 v h).1,
    (spi_change_flash_size_eq g w w1 v h).2, ?_⟩
  intro g1 hg1
  have hm := reachable_presets g1 hg1
  refine ⟨hm, ?_, ?_⟩
  · simp only [flash_size_presets, List.mem_cons, List.mem_singleton, List.mem_nil_iff,
      or_false] at hm
    omega
  · simp only [flash_size_presets, List.mem_cons, List.mem_singleton, List.mem_nil_iff,
      or_false] at hm
    omega

theorem target_flash_size_presets_witness :
    usb_serial_readhex (spi_change_flash_size_menu (World.start [52, 13]))
      = (some 4,
          (usb_serial_readhex (spi_change_flash_size_menu (World.start [52, 13]))).2)
    ∧ (spi_change_flash_size Globals.init (World.start [52, 13])).2.1.target_flash_size
        = 16777216 :=
  ⟨rfl,
   congrArg (fun r : Option Unit × Globals × World Unit => r.2.1.target_flash_size)
     ((target_flash_size_presets Globals.init (World.start [52, 13])
        (usb_serial_readhex (spi_change_flash_size_menu (World.start [52, 13]))).2 4 rfl).2.1
       (by decide))⟩

/-! ## Facts about `bits.h`: write and read of a pin -/


theorem sbi_testBit (P n j : Nat) :
    (sbi P n).testBit j = (decide (j < 8) && (P.testBit j || decide (n = j))) := by
  unfold sbi
  rw [show (256 : Nat) = 2 ^ 8 from rfl, Nat.testBit_mod_two_pow, Nat.testBit_or,
    Nat.one_shiftLeft, Nat.testBit_two_pow]

theorem cbi_testBit (P n j : Nat) (hn : n < 16) :
    (cbi P n).testBit j = (decide (j < 8) && (P.testBit j && !decide (n = j))) := by
  unfold cbi
  have h1 : (1 <<< n) % 65536 = 2 ^ n := by
    rw [Nat.one_shiftLeft]
    exact Nat.mod_eq_of_lt (by
      calc 2 ^ n < 2 ^ 16 := Nat.pow_lt_pow_right (by decide) hn
        _ = 65536 := rfl)
  have h2 : 0xFFFF - 2 ^ n = 2 ^ 16 - (2 ^ n + 1) := by omega
  rw [h1, h2, show (256 : Nat) = 2 ^ 8 from rfl, Nat.testBit_mod_two_pow, Nat.testBit_and,
    Nat.testBit_two_pow_sub_succ (Nat.pow_lt_pow_right (by decide) hn), Nat.testBit_two_pow]
  by_cases h8 : j < 8
  · have : j < 16 := by omega
    simp [h8, this]
  · simp [h8]

theorem bit_is_set_ne_zero (v n : Nat) (hn : n < 8) :
    bit_is_set v n % 256 ≠ 0 ↔ v.testBit n = true := by
  unfold bit_is_set
  have h1 : (1 <<< n) % 65536 = 2 ^ n := by
    rw [Nat.one_shiftLeft]
    exact Nat.mod_eq_of_lt (by
      calc 2 ^ n < 2 ^ 16 := Nat.pow_lt_pow_right (by decide) (by omega)
        _ = 65536 := rfl)
  have hlt : (v % 256) &&& 2 ^ n < 256 := by
    calc (v % 256) &&& 2 ^ n ≤ v % 256 := Nat.and_le_left
      _ < 256 := Nat.mod_lt _ (by decide)
  rw [h1, Nat.mod_eq_of_lt hlt, Nat.and_two_pow]
  have hb : (v % 256).testBit n = v.testBit n := by
    rw [show (256 : Nat) = 2 ^ 8 from rfl, Nat.testBit_mod_two_pow]
    simp [hn]
  rw [hb]
  cases v.testBit n <;> simp

theorem BITS_FOR_ALL_PORT_port (func : Nat → Nat → Nat) (p0 n : Nat) (r : Regs)
    (hp : p0 ∈ [0xB, 0xC, 0xD, 0xE, 0xF]) :
    (BITS_FOR_ALL_PORT func p0 n r).port p0 = func (r.port p0) n
    ∧ ∀ p, p ≠ p0 → (BITS_FOR_ALL_PORT func p0 n r).port p = r.port p := by
  simp only [List.mem_cons, List.mem_singleton, List.mem_nil_iff, or_false] at hp
  rcases hp with rfl | rfl | rfl | rfl | rfl
  all_goals
    refine ⟨rfl, ?_⟩
    intro p hne
    simp only [BITS_FOR_ALL_PORT, Regs.port]
    split <;> first | rfl | exact absurd rfl hne

theorem BITS_FOR_ALL_PIN_loopback (p0 n : Nat) (r : Regs)
    (hp : p0 ∈ [0xB, 0xC, 0xD, 0xE, 0xF]) :
    BITS_FOR_ALL_PIN p0 n r.loopback = some (bit_is_set (r.port p0) n) := by
  simp only [List.mem_cons, List.mem_singleton, List.mem_nil_iff, or_false] at hp
  rcases hp with rfl | rfl | rfl | rfl | rfl <;> rfl

/-- Both branches of `out` do the same: `__bits_out` calls `__inline_out`. -/
theorem out_constant (port value : Nat) (r : Regs) (constant : Bool) :
    out port value r constant = __inline_out port value r := by
  unfold out __bits_out
  split <;> rfl

/-- Both branches of `in` do the same: `__bits_in` calls `__inline_in`. -/
theorem in_constant (port : Nat) (p : Pins) (constant : Bool) :
    in_ port p constant = __inline_in port p := by
  unfold in_ __bits_in
  split <;> rfl

/-- C18: take a pin address `id` whose port nibble is one of B, C, D, E, F and whose pin
nibble is a bit position 0 .. 7, and a register bank in which every `PINx` register reads
back its `PORTx` register. For every level, `out(id, level)` followed by `in(id)` returns
non-zero exactly when the level is non-zero. The write leaves the other `PORTx`
registers as they are, and in the addressed 8-bit register it changes no bit but the
addressed one, which it makes equal to the level. This holds whichever branch the
`__builtin_constant_p` tests of `out` and `in` select (`c1`, `c2`): the inline versions
`__inline_out`, `__inline_in` or the functions `__bits_out`, `__bits_in` of `bits.c`. -/
theorem out_in_loopback (id level : Nat) (r : Regs) (c1 c2 : Bool)
    (hport : (id >>> 4) &&& 0xF ∈ [0xB, 0xC, 0xD, 0xE, 0xF])
    (hpin : id &&& 0xF < 8) :
    (in_ id (out id level r c1).loopback c2 ≠ 0 ↔ level ≠ 0)
    ∧ (∀ p, p ≠ (id >>> 4) &&& 0xF → (out id level r c1).port p = r.port p)
    ∧ (∀ j, j ≠ id &&& 0xF →
        ((out id level r c1).port ((id >>> 4) &&& 0xF)).testBit j
          = (r.port ((id >>> 4) &&& 0xF) % 256).testBit j)
    ∧ ((out id level r c1).port ((id >>> 4) &&& 0xF)).testBit (id &&& 0xF)
        = decide (level ≠ 0) := by
  rw [in_constant, out_constant]
  have hin : __inline_in id (__inline_out id level r).loopback
      = bit_is_set ((__inline_out id level r).port ((id >>> 4) &&& 0xF)) (id &&& 0xF)
          % 256 := by
    simp only [__inline_in, Nat.shiftRight_zero,
      BITS_FOR_ALL_PIN_loopback _ _ _ hport]
  have hmod : ∀ (P j : Nat), (P % 256).testBit j = (decide (j < 8) && P.testBit j) := by
    intro P j
    rw [show (256 : Nat) = 2 ^ 8 from rfl, Nat.testBit_mod_two_pow]
  by_cases hl : level ≠ 0
  · have hout : __inline_out id level r
        = BITS_FOR_ALL_PORT sbi ((id >>> 4) &&& 0xF) (id &&& 0xF) r := by
      simp only [__inline_out, Nat.shiftRight_zero, if_pos hl]
    obtain ⟨w1, w2⟩ := BITS_FOR_ALL_PORT_port sbi _ (id &&& 0xF) r hport
    rw [hout, w1] at hin
    rw [hout, w1]
    refine ⟨?_, w2, ?_, ?_⟩
    · rw [hin, bit_is_set_ne_zero _ _ hpin, sbi_testBit]
      simp [hpin, hl]
    · intro j hj
      rw [sbi_testBit, hmod]
      simp [Ne.symm hj]
    · rw [sbi_testBit]
      simp [hpin, hl]
  · have hout : __inline_out id level r
        = BITS_FOR_ALL_PORT cbi ((id >>> 4) &&& 0xF) (id &&& 0xF) r := by
      simp only [__inline_out, Nat.shiftRight_zero, if_neg hl]
    obtain ⟨w1, w2⟩ := BITS_FOR_ALL_PORT_port cbi _ (id &&& 0xF) r hport
    rw [hout, w1] at hin
    rw [hout, w1]
    refine ⟨?_, w2, ?_, ?_⟩
    · rw [hin, bit_is_set_ne_zero _ _ hpin, cbi_testBit _ _ _ (by omega)]
      simp [hl]
    · intro j hj
      rw [cbi_testBit _ _ _ (by omega), hmod]
      simp [Ne.symm hj]
    · rw [cbi_testBit _ _ _ (by omega)]
      simp [hl]

/-- Pin 7 of port B driven high through `__bits_out` and read back through `__bits_in`,
and driven low through `__inline_out` and read back through `__bits_in`. -/
theorem out_in_loopback_witness :
    (0xB7 >>> 4) &&& 0xF ∈ [0xB, 0xC, 0xD, 0xE, 0xF] ∧ 0xB7 &&& 0xF < 8
    ∧ (in_ 0xB7
        (out 0xB7 1 { PORTB := 0, PORTC := 0, PORTD := 0, PORTE := 0, PORTF := 0 }
          false).loopback false ≠ 0 ↔ (1 : Nat) ≠ 0)
    ∧ (in_ 0xB7
        (out 0xB7 0 { PORTB := 0xFF, PORTC := 0, PORTD := 0, PORTE := 0, PORTF := 0 }
          true).loopback false ≠ 0 ↔ (0 : Nat) ≠ 0) :=
  ⟨by decide, by decide,
   (out_in_loopback 0xB7 1 { PORTB := 0, PORTC := 0, PORTD := 0, PORTE := 0, PORTF := 0 }
      false false (by decide) (by decide)).1,
   (out_in_loopback 0xB7 0 { PORTB := 0xFF, PORTC := 0, PORTD := 0, PORTE := 0, PORTF := 0 }
      true false (by decide) (by decide)).1⟩

/-- Outside the bit positions 0 .. 7 the pair is not a loopback: with a pin nibble of
8 .. 15 the write changes no bit of the 8-bit register and the read returns 0. -/
theorem out_in_high_pin (id level : Nat) (r : Regs) (c1 c2 : Bool)
    (hport : (id >>> 4) &&& 0xF ∈ [0xB, 0xC, 0xD, 0xE, 0xF])
    (hpin : 8 ≤ id &&& 0xF) :
    in_ id (out id level r c1).loopback c2 = 0
    ∧ ∀ p, (out id level r c1).port p = r.port p % 256
        ∨ (out id level r c1).port p = r.port p := by
  rw [in_constant, out_constant]
  have hpin16 : id &&& 0xF < 16 := by
    have := @Nat.and_le_right id 0xF
    omega
  have hin : __inline_in id (__inline_out id level r).loopback
      = bit_is_set ((__inline_out id level r).port ((id >>> 4) &&& 0xF)) (id &&& 0xF)
          % 256 := by
    simp only [__inline_in, Nat.shiftRight_zero,
      BITS_FOR_ALL_PIN_loopback _ _ _ hport]
  have hbit : ∀ v, bit_is_set v (id &&& 0xF) = 0 := by
    intro v
    unfold bit_is_set
    have h1 : (1 <<< (id &&& 0xF)) % 65536 = 2 ^ (id &&& 0xF) := by
      rw [Nat.one_shiftLeft]
      exact Nat.mod_eq_of_lt (by
        calc 2 ^ (id &&& 0xF) < 2 ^ 16 := Nat.pow_lt_pow_right (by decide) hpin16
          _ = 65536 := rfl)
    rw [h1, Nat.and_two_pow, show (256 : Nat) = 2 ^ 8 from rfl, Nat.testBit_mod_two_pow]
    simp [show ¬ (id &&& 0xF < 8) by omega]
  refine ⟨by rw [hin, hbit], ?_⟩
  intro p
  by_cases hp : p = (id >>> 4) &&& 0xF
  · left
    subst hp
    apply Nat.eq_of_testBit_eq
    intro j
    rw [show (256 : Nat) = 2 ^ 8 from rfl, Nat.testBit_mod_two_pow]
    by_cases hl : level ≠ 0
    · have hout : __inline_out id level r
          = BITS_FOR_ALL_PORT sbi ((id >>> 4) &&& 0xF) (id &&& 0xF) r := by
        simp only [__inline_out, Nat.shiftRight_zero, if_pos hl]
      rw [hout, (BITS_FOR_ALL_PORT_port sbi _ (id &&& 0xF) r hport).1, sbi_testBit]
      by_cases hj : j < 8
      · simp [hj, show id &&& 0xF ≠ j by omega]
      · simp [hj]
    · have hout : __inline_out id level r
          = BITS_FOR_ALL_PORT cbi ((id >>> 4) &&& 0xF) (id &&& 0xF) r := by
        simp only [__inline_out, Nat.shiftRight_zero, if_neg hl]
      rw [hout, (BITS_FOR_ALL_PORT_port cbi _ (id &&& 0xF) r hport).1,
        cbi_testBit _ _ _ hpin16]
      by_cases hj : j < 8
      · simp [hj, show id &&& 0xF ≠ j by omega]
      · simp [hj]
  · right
    by_cases hl : level ≠ 0
    · have hout : __inline_out id level r
          = BITS_FOR_ALL_PORT sbi ((id >>> 4) &&& 0xF) (id &&& 0xF) r := by
        simp only [__inline_out, Nat.shiftRight_zero, if_pos hl]
      rw [hout]
      exact (BITS_FOR_ALL_PORT_port sbi _ (id &&& 0xF) r hport).2 p hp
    · have hout : __inline_out id level r
          = BITS_FOR_ALL_PORT cbi ((id >>> 4) &&& 0xF) (id &&& 0xF) r := by
        simp only [__inline_out, Nat.shiftRight_zero, if_neg hl]
      rw [hout]
      exact (BITS_FOR_ALL_PORT_port cbi _ (id &&& 0xF) r hport).2 p hp

/-! ## Facts about `probe.c`: reading a hex number -/


theorem readhex_step (val d : Nat) (hd : d < 16) :
    ((val <<< 4) % 2 ^ 32) ||| d = (16 * val + d) % 2 ^ 32 := by
  have h1 : (val <<< 4) % 2 ^ 32 = 2 ^ 4 * (val % 2 ^ 28) := by
    rw [Nat.shiftLeft_eq]
    omega
  rw [h1, ← Nat.mul_add_lt_is_or (show d < 2 ^ 4 from hd)]
  omega

theorem hex_digit_value_lt (c : Int) (h : is_hex c = true) : hex_digit_value c < 16 := by
  unfold is_hex at h
  unfold hex_digit_value
  simp only [Bool.decide_or, Bool.decide_and, Bool.or_eq_true, Bool.and_eq_true,
    decide_eq_true_eq] at h
  split
  · omega
  · split <;> omega

theorem hex_fold_mod (ds : List Int) : ∀ a b : Nat, a % 2 ^ 32 = b % 2 ^ 32 →
    ds.foldl (fun v c => 16 * v + hex_digit_value c) a % 2 ^ 32
      = ds.foldl (fun v c => 16 * v + hex_digit_value c) b % 2 ^ 32 := by
  induction ds with
  | nil => intro a b h; exact h
  | cons c ds ih =>
    intro a b h
    rw [List.foldl_cons, List.foldl_cons]
    exact ih _ _ (by omega)

theorem usb_serial_getchar_echo_cons {σ : Type} (w : World σ) (c : Int) (rest : List Int)
    (hrx : w.rx = c :: rest) (hc : c ≠ -1) :
    usb_serial_getchar_echo w
      = (some c, { w with rx := rest
                          tx := if c = 13 then w.tx ++ [[(c % 256).toNat]] ++ [[10]]
                                else w.tx ++ [[(c % 256).toNat]] }) := by
  unfold usb_serial_getchar_echo
  rw [hrx]
  simp only [usb_serial_getchar_echo_loop, if_neg hc]

/-- The loop of `usb_serial_readhex` over a run of hex digits and the byte that ends
it. -/
theorem usb_serial_readhex_loop_digits {σ : Type} (digits : List Int) :
    ∀ (fuel val : Nat) (w : World σ) (t : Int) (rest : List Int),
    (∀ c ∈ digits, is_hex c = true) → is_hex t = false → t ≠ -1 →
    w.rx = digits ++ t :: rest → digits.length + 1 ≤ fuel → val < 2 ^ 32 →
    (usb_serial_readhex_loop fuel val w).1
        = some (digits.foldl (fun v c => 16 * v + hex_digit_value c) val % 2 ^ 32)
    ∧ (usb_serial_readhex_loop fuel val w).2.rx = rest := by
  induction digits with
  | nil =>
    intro fuel val w t rest _ ht ht1 hrx hfuel hval
    obtain ⟨fuel, rfl⟩ : ∃ f, fuel = f + 1 := ⟨fuel - 1, by omega⟩
    have hg := usb_serial_getchar_echo_cons w t rest hrx ht1
    unfold is_hex at ht
    simp only [Bool.decide_or, Bool.decide_and, Bool.or_eq_false_iff, Bool.and_eq_false_imp,
      decide_eq_true_eq, decide_eq_false_iff_not] at ht
    simp only [usb_serial_readhex_loop, hg]
    rw [if_neg (by omega), if_neg (by omega), if_neg (by omega)]
    exact ⟨by rw [List.foldl_nil, Nat.mod_eq_of_lt hval], rfl⟩
  | cons c ds ih =>
    intro fuel val w t rest hd ht ht1 hrx hfuel hval
    obtain ⟨fuel, rfl⟩ : ∃ f, fuel = f + 1 := ⟨fuel - 1, by simp at hfuel; omega⟩
    have hc := hd c (List.mem_cons_self _ _)
    have hlt := hex_digit_value_lt c hc
    have hc1 : c ≠ -1 := by
      intro h
      rw [h] at hc
      exact absurd hc (by decide)
    have hg := usb_serial_getchar_echo_cons w c (ds ++ t :: rest) hrx hc1
    have hstep := readhex_step val (hex_digit_value c) hlt
    have hnext : ∀ w1 : World σ, w1.rx = ds ++ t :: rest →
        (usb_serial_readhex_loop fuel ((16 * val + hex_digit_value c) % 2 ^ 32) w1).1
          = some ((c :: ds).foldl (fun v c => 16 * v + hex_digit_value c) val % 2 ^ 32)
        ∧ (usb_serial_readhex_loop fuel ((16 * val + hex_digit_value c) % 2 ^ 32) w1).2.rx
          = rest := by
      intro w1 hw1
      obtain ⟨i1, i2⟩ := ih fuel ((16 * val + hex_digit_value c) % 2 ^ 32) w1 t rest
        (fun x hx => hd x (List.mem_cons_of_mem _ hx)) ht ht1 hw1
        (by simp at hfuel; omega) (Nat.mod_lt _ (by decide))
      refine ⟨?_, i2⟩
      rw [i1, List.foldl_cons, hex_fold_mod ds _ (16 * val + hex_digit_value c)
        (Nat.mod_mod _ _)]
    unfold is_hex at hc
    simp only [Bool.decide_or, Bool.decide_and, Bool.or_eq_true, Bool.and_eq_true,
      decide_eq_true_eq] at hc
    simp only [usb_serial_readhex_loop, hg]
    have hw1 := hnext
      { w with rx := ds ++ t :: rest
               tx := if c = 13 then w.tx ++ [[(c % 256).toNat]] ++ [[10]]
                     else w.tx ++ [[(c % 256).toNat]] } rfl
    by_cases h1 : 48 ≤ c ∧ c ≤ 57
    · have hv : hex_digit_value c = (c - 48).toNat := by
        unfold hex_digit_value
        rw [if_pos h1]
      rw [if_pos h1, ← hv, hstep]
      exact hw1
    · rw [if_neg h1]
      by_cases h2 : 65 ≤ c ∧ c ≤ 70
      · have hv : hex_digit_value c = (c - 65 + 0xA).toNat := by
          unfold hex_digit_value
          rw [if_neg h1, if_pos h2]
          congr 1
          omega
        rw [if_pos h2, ← hv, hstep]
        exact hw1
      · have hv : hex_digit_value c = (c - 97 + 0xA).toNat := by
          unfold hex_digit_value
          rw [if_neg h1, if_neg h2]
          congr 1
          omega
        rw [if_neg h2, if_pos (by omega), ← hv, hstep]
        exact hw1

theorem hex_value_upper (digits : List Int) :
    hex_value (digits.map hex_upper) = hex_value digits := by
  unfold hex_value
  rw [List.foldl_map]
  congr 1
  funext v c
  congr 1
  unfold hex_digit_value hex_upper
  split_ifs <;> omega

theorem hex_value_lower (digits : List Int) :
    hex_value (digits.map hex_lower) = hex_value digits := by
  unfold hex_value
  rw [List.foldl_map]
  congr 1
  funext v c
  congr 1
  unfold hex_digit_value hex_lower
  split_ifs <;> omega

theorem is_hex_upper (c : Int) (h : is_hex c = true) : is_hex (hex_upper c) = true := by
  unfold is_hex hex_upper at *
  simp only [Bool.decide_or, Bool.decide_and, Bool.or_eq_true, Bool.and_eq_true,
    decide_eq_true_eq] at h ⊢
  split_ifs <;> omega

theorem is_hex_lower (c : Int) (h : is_hex c = true) : is_hex (hex_lower c) = true := by
  unfold is_hex hex_lower at *
  simp only [Bool.decide_or, Bool.decide_and, Bool.or_eq_true, Bool.and_eq_true,
    decide_eq_true_eq] at h ⊢
  split_ifs <;> omega

/-- C19: let the pending input be `k ≥ 0` ASCII hex digits, of either case, followed by a
byte `t` that is not a hex digit. `usb_serial_readhex` returns the value of the digit
string read as a base-16 number, modulo 2^32 (0 when there is no digit), and has then
consumed exactly the digits and `t`: the input left is what followed `t`. The upper-case
and the lower-case spelling of the digits give the same value. -/
theorem usb_serial_readhex_value {σ : Type} (w : World σ) (digits : List Int) (t : Int)
    (rest : List Int) (hd : ∀ c ∈ digits, is_hex c = true) (ht : is_hex t = false)
    (ht1 : t ≠ -1) :
    (usb_serial_readhex { w with rx := digits ++ t :: rest }).1
        = some (hex_value digits % 2 ^ 32)
    ∧ (usb_serial_readhex { w with rx := digits ++ t :: rest }).2.rx = rest
    ∧ (digits = [] → (usb_serial_readhex { w with rx := digits ++ t :: rest }).1 = some 0)
    ∧ (usb_serial_readhex { w with rx := digits.map hex_upper ++ t :: rest }).1
        = some (hex_value digits % 2 ^ 32)
    ∧ (usb_serial_readhex { w with rx := digits.map hex_lower ++ t :: rest }).1
        = some (hex_value digits % 2 ^ 32) := by
  have key : ∀ ds : List Int, (∀ c ∈ ds, is_hex c = true) →
      (usb_serial_readhex { w with rx := ds ++ t :: rest }).1 = some (hex_value ds % 2 ^ 32)
      ∧ (usb_serial_readhex { w with rx := ds ++ t :: rest }).2.rx = rest := by
    intro ds hds
    exact usb_serial_readhex_loop_digits ds _ 0 { w with rx := ds ++ t :: rest } t rest hds ht
      ht1 rfl (by simp) (by decide)
  refine ⟨(key digits hd).1, (key digits hd).2, ?_, ?_, ?_⟩
  · intro h0
    rw [(key digits hd).1, h0]
    rfl
  · rw [← hex_value_upper digits]
    refine (key _ ?_).1
    intro c hc
    obtain ⟨c0, h0, rfl⟩ := List.mem_map.mp hc
    exact is_hex_upper c0 (hd c0 h0)
  · rw [← hex_value_lower digits]
    refine (key _ ?_).1
    intro c hc
    obtain ⟨c0, h0, rfl⟩ := List.mem_map.mp hc
    exact is_hex_lower c0 (hd c0 h0)

theorem usb_serial_readhex_value_witness :
    (∀ c ∈ [49, 97, 70], is_hex c = true) ∧ is_hex 13 = false ∧ (13 : Int) ≠ -1
    ∧ (usb_serial_readhex { World.start [] with rx := [49, 97, 70] ++ 13 :: [65] }).1
        = some (hex_value [49, 97, 70] % 2 ^ 32)
    ∧ hex_value [49, 97, 70] = 0x1AF :=
  ⟨by decide, by decide, by decide,
   (usb_serial_readhex_value (World.start []) [49, 97, 70] 13 [65] (by decide) (by decide)
      (by decide)).1, by decide⟩

/-! ## Facts about the simulated flash device -/


theorem FlashState.eq_of_parts (a b : FlashState) (h1 : a.mem = b.mem) (h2 : a.wel = b.wel)
    (h3 : a.busy = b.busy) (h4 : a.selected = b.selected) (h5 : a.cmd = b.cmd) : a = b := by
  cases a; cases b; simp_all

/-- One status read of the flash model: it reports the state and ends the operation in
progress. -/
theorem flash_status_step (s : FlashState) :
    flash_device.status_step s
      = (flash_status s % 256,
          { mem := s.mem, wel := s.wel, busy := false, selected := false, cmd := [] }) := by
  simp [Device.status_step, flash_device, flash_commit, flash_status]

theorem flash_status_wip (s : FlashState) :
    (flash_status s % 256) &&& SPI_WIP = if s.busy then 1 else 0 := by
  unfold flash_status SPI_WIP
  cases s.busy <;> cases s.wel <;> decide

/-- The flash model shows WIP clear after at most one status read. -/
theorem flash_ready : flash_device.ready_within 2 := by
  intro s
  by_cases hb : s.busy = true
  · refine ⟨1, by decide, ?_, ?_⟩
    · rw [flash_status_step, flash_status_wip, if_pos hb]
      decide
    · show (flash_device.status_step (flash_device.status_step s).2).1 &&& SPI_WIP = 0
      rw [flash_status_step, flash_status_step, flash_status_wip]
      rfl
  · refine ⟨0, by decide, ?_⟩
    show (flash_device.status_step s).1 &&& SPI_WIP = 0
    rw [flash_status_step, flash_status_wip, if_neg hb]

/-- While the flash model takes the bytes of a command other than a status read, it only
collects them. -/
theorem flash_run_collect (bytes : List Nat) : ∀ (s : FlashState) (op : Nat) (args : List Nat),
    s.selected = true → s.cmd = op :: args → op ≠ 0x05 →
    (flash_device.run s bytes).2 = { s with cmd := s.cmd ++ bytes.map (fun c => c % 256) } := by
  induction bytes with
  | nil => intro s op args _ _ _; simp [Device.run]
  | cons c bytes ih =>
    intro s op args hs hc h5
    have hx : (flash_device.xfer s (c % 256)).2 = { s with cmd := s.cmd ++ [c % 256] } := by
      simp only [flash_device, hs, hc, if_true, if_neg h5]
      split <;> rfl
    rw [Device.run]
    show (flash_device.run (flash_device.xfer s (c % 256)).2 bytes).2 = _
    rw [hx, ih { s with cmd := s.cmd ++ [c % 256] } op (args ++ [c % 256]) hs (by simp [hc]) h5]
    simp

theorem flash_addr_bytes (addr : Nat) :
    flash_addr (addr_bytes addr) = addr % 2 ^ 24 := by
  simp only [flash_addr, addr_bytes, List.getD_cons_zero, List.getD_cons_succ,
    Nat.shiftRight_eq_div_pow]
  omega

/-- The flash model after a write-enable command. -/
theorem flash_after_write_enable (s : FlashState) :
    flash_device.after_cmd s [0x06]
      = { mem := s.mem, wel := true, busy := s.busy, selected := false, cmd := [] } := by
  simp [Device.after_cmd, Device.run, flash_device, flash_commit]

/-- The flash model after a page-program command, with the latch set and nothing in
progress. -/
theorem flash_after_program (s : FlashState) (addr : Nat) (data : List Nat)
    (hw : s.wel = true) (hb : s.busy = false) (hd : data ≠ []) :
    flash_device.after_cmd s (0x02 :: addr_bytes addr ++ data)
      = { mem := flash_program s.mem (addr % 2 ^ 24) (data.map (fun c => c % 256))
          wel := false, busy := true, selected := false, cmd := [] } := by
  obtain ⟨d, tl, rfl⟩ : ∃ d tl, data = d :: tl := by
    cases data with
    | nil => exact absurd rfl hd
    | cons d tl => exact ⟨d, tl, rfl⟩
  have h1 : (flash_device.run (flash_device.select s true) (0x02 :: addr_bytes addr ++ d :: tl)).2
      = { mem := s.mem, wel := s.wel, busy := s.busy, selected := true
          cmd := 0x02 :: ((addr_bytes addr).map (fun c => c % 256)
            ++ (d :: tl).map (fun c => c % 256)) } := by
    rw [List.cons_append, Device.run]
    have hx : (flash_device.xfer (flash_device.select s true) (0x02 % 256)).2
        = { mem := s.mem, wel := s.wel, busy := s.busy, selected := true, cmd := [0x02] } := by
      simp [flash_device]
    show (flash_device.run (flash_device.xfer (flash_device.select s true) (0x02 % 256)).2 _).2
      = _
    rw [hx, flash_run_collect _ _ 0x02 [] rfl rfl (by decide)]
    simp
  unfold Device.after_cmd
  rw [h1]
  have hab := flash_addr_bytes addr
  simp only [addr_bytes, List.map_cons, List.map_nil, Nat.mod_mod, List.cons_append,
    List.nil_append] at hab ⊢
  simp only [flash_device, Bool.false_eq_true, if_false, if_true, flash_commit, hw, hb,
    not_false_eq_true, and_self]
  rw [← hab]

/-- The bytes that the flash model shifts out during a read. -/
theorem flash_read_stream (n : Nat) : ∀ (s : FlashState) (args : List Nat),
    s.selected = true → s.cmd = 0x03 :: args → 3 ≤ args.length →
    (flash_device.run s (List.replicate n 0)).1
      = (List.range n).map
          (fun i => s.mem ((flash_addr args + (args.length - 3) + i) % 2 ^ 24) % 256) := by
  induction n with
  | zero => intro s args _ _ _; rfl
  | succ n ih =>
    intro s args hs hc h3
    have hx : flash_device.xfer s (0 % 256)
        = (s.mem ((flash_addr args + (args.length - 3)) % 2 ^ 24) % 256,
            { s with cmd := s.cmd ++ [0] }) := by
      simp [flash_device, hs, hc, h3]
    have ha : flash_addr (args ++ [0]) = flash_addr args := by
      unfold flash_addr
      rw [List.getD_append _ _ _ _ (by omega), List.getD_append _ _ _ _ (by omega),
        List.getD_append _ _ _ _ (by omega)]
    rw [List.replicate_succ, Device.run, hx]
    dsimp only
    rw [ih { s with cmd := s.cmd ++ [0] } (args ++ [0]) hs (by simp [hc])
      (by rw [List.length_append]; omega), List.range_succ_eq_map, List.map_cons, List.map_map,
      ha, List.length_append, List.length_singleton]
    congr 1
    · rw [Nat.mod_mod, Nat.add_zero]
    · apply List.map_congr_left
      intro i _
      simp only [Function.comp]
      congr 2
      omega

/-- Reading back from the flash model: the memory from `addr` on. -/
theorem flash_read_back (s : FlashState) (addr n : Nat) (h : addr + n ≤ 2 ^ 24) :
    flash_device.read_back s addr n = (List.range n).map (fun i => s.mem (addr + i) % 256) := by
  unfold Device.read_back
  have h1 : (flash_device.run (flash_device.select s true) (0x03 :: addr_bytes addr)).2
      = { mem := s.mem, wel := s.wel, busy := s.busy, selected := true
          cmd := 0x03 :: (addr_bytes addr).map (fun c => c % 256) } := by
    rw [Device.run]
    have hx : (flash_device.xfer (flash_device.select s true) (0x03 % 256)).2
        = { mem := s.mem, wel := s.wel, busy := s.busy, selected := true, cmd := [0x03] } := by
      simp [flash_device]
    show (flash_device.run (flash_device.xfer (flash_device.select s true) (0x03 % 256)).2 _).2
      = _
    rw [hx, flash_run_collect _ _ 0x03 [] rfl rfl (by decide)]
    simp
  have hm : (addr_bytes addr).map (fun c => c % 256) = addr_bytes addr := by
    simp [addr_bytes]
  rw [h1, hm, flash_read_stream n _ (addr_bytes addr) rfl rfl (by simp [addr_bytes]),
    flash_addr_bytes]
  apply List.map_congr_left
  intro i hi
  have hi' : i < n := List.mem_range.mp hi
  have hl : (addr_bytes addr).length = 3 := rfl
  dsimp only
  rw [hl, Nat.mod_eq_of_lt (show addr < 2 ^ 24 by omega), Nat.sub_self, Nat.add_zero,
    Nat.mod_eq_of_lt (show addr + i < 2 ^ 24 by omega)]

/-! ## Facts about `probe.c`: upload -/


theorem upload_getchar_cons (c : Int) (rest : List Int) (h : c ≠ -1) :
    upload_getchar (c :: rest) = (some c, rest) := by
  simp [upload_getchar, h]

/-- The loop that reads one chunk in `spi_upload`, run for `n` of its 128 turns on input
that starts with the bytes of the chunk. -/
theorem upload_read_chunk_take (buf chunk : List Nat) (rest : List Int)
    (hc : ∀ x ∈ chunk, x < 256) (n : Nat) (hn : n ≤ chunk.length) (hb : n ≤ buf.length) :
    (List.range n).foldl
        (fun (s : Bool × List Nat × List Int) i =>
          if s.1 then
            match upload_getchar s.2.2 with
            | (none, rx) => (false, s.2.1, rx)
            | (some c, rx) => (true, s.2.1.set i (c % 256).toNat, rx)
          else s)
        (true, buf, chunk.map (fun x : Nat => (x : Int)) ++ rest)
      = (true, chunk.take n ++ buf.drop n,
          (chunk.drop n).map (fun x : Nat => (x : Int)) ++ rest) := by
  induction n with
  | zero => simp
  | succ n ih =>
    have hd : chunk.drop n = chunk[n] :: chunk.drop (n + 1) :=
      List.drop_eq_getElem_cons (by omega)
    have hbd : buf.drop n = buf[n] :: buf.drop (n + 1) :=
      List.drop_eq_getElem_cons (by omega)
    have hx : chunk[n] < 256 := hc _ (List.getElem_mem _)
    have hne : (chunk[n] : Int) ≠ -1 := by omega
    have hv : ((chunk[n] : Int) % 256).toNat = chunk[n] := by omega
    have hlen : (chunk.take n).length = n := by
      rw [List.length_take]
      omega
    rw [List.range_succ, List.foldl_append, ih (by omega) (by omega)]
    simp only [List.foldl_cons, List.foldl_nil, if_true, hd, List.map_cons, List.cons_append,
      upload_getchar_cons _ _ hne, hv]
    rw [List.set_append_right _ _ (by omega), hlen, Nat.sub_self, hbd, List.set_cons_zero,
      List.take_succ, List.getElem?_eq_getElem (by omega)]
    simp only [Option.toList_some, List.append_assoc, List.singleton_append]

theorem upload_read_chunk_eq (buf chunk : List Nat) (rest : List Int)
    (hc : ∀ x ∈ chunk, x < 256) (hl : chunk.length = 128) (hb : buf.length = 128) :
    upload_read_chunk buf (chunk.map (fun x : Nat => (x : Int)) ++ rest) = (true, chunk, rest) := by
  have h := upload_read_chunk_take buf chunk rest hc 128 (by omega) (by omega)
  rw [List.take_of_length_le (by omega), List.drop_of_length_le (by omega),
    List.drop_of_length_le (by omega), List.append_nil, List.map_nil, List.nil_append] at h
  exact h

/-- The loop that shifts one chunk out in `spi_upload`, run for `n` of its 128 turns. -/
theorem upload_send_chunk_take {σ : Type} (D : Device σ) (buf : List Nat) (bu : Nat)
    (w : World σ) (n : Nat) (hn : n ≤ buf.length) :
    ((List.range n).foldl
        (fun (s : Nat × World σ) i => ((s.1 + 1) % 2 ^ 32, (spi_send D (buf.getD i 0) s.2).2))
        (bu, w)).2
      = { w with dev := (D.run w.dev (buf.take n)).2
                 spi := w.spi ++ (buf.take n).map (fun b => SpiEvent.byte (b % 256)) } := by
  induction n with
  | zero => simp [Device.run]
  | succ n ih =>
    have hg : buf.getD n 0 = buf[n] := by
      rw [List.getD_eq_getElem?_getD, List.getElem?_eq_getElem (by omega)]
      rfl
    rw [List.range_succ, List.foldl_append]
    simp only [List.foldl_cons, List.foldl_nil]
    rw [ih (by omega), List.take_succ, List.getElem?_eq_getElem (by omega), hg,
      Device.run_append]
    simp only [spi_send, Device.run, List.map_append, Option.toList_some, List.map_cons,
      List.map_nil, List.append_assoc]

theorem upload_send_chunk_eq {σ : Type} (D : Device σ) (buf : List Nat) (bu : Nat)
    (w : World σ) (hl : buf.length = 128) :
    (upload_send_chunk D buf bu w).2
      = { w with dev := (D.run w.dev buf).2
                 spi := w.spi ++ buf.map (fun b => SpiEvent.byte (b % 256)) } := by
  unfold upload_send_chunk sizeof_data
  rw [upload_send_chunk_take D buf bu w 128 (by omega), List.take_of_length_le (by omega)]

set_option maxRecDepth 8000 in
/-- One turn of the loop of `spi_upload` when the host has the next 128 bytes ready: a
write-enable, a status read, one page-program command with these 128 bytes at `addr`,
and the busy-wait. -/
theorem spi_upload_loop_turn {σ : Type} (D : Device σ) (polls len fuel offset addr lo lc : Nat)
    (g : Globals) (w : World σ) (chunk : List Nat) (rest : List Int)
    (hoff : offset < len) (hrx : w.rx = chunk.map (fun x : Nat => (x : Int)) ++ rest)
    (hc : ∀ x ∈ chunk, x < 256) (hl : chunk.length = 128)
    (hg : g.xmodem_block.data.length = 128) :
    ∃ (g1 : Globals) (lo1 lc1 : Nat) (w1 : World σ),
      g1.xmodem_block.data = chunk
      ∧ w1.rx = rest ∧ w1.tx = w.tx
      ∧ w1.dev = D.after_cmd (D.status_step (D.after_cmd (D.status_step w.dev).2 [0x06])).2
          (0x02 :: addr_bytes addr ++ chunk)
      ∧ w1.spi = w.spi ++ write_enable_events ++ status_events ++ program_events addr chunk
      ∧ (∀ w2, spi_wait_wip D polls w1 = (some (), w2) →
          spi_upload_loop D polls len (fuel + 1) offset addr lo lc g w
            = spi_upload_loop D polls len fuel ((offset + 128) % 2 ^ 32)
                ((addr + 128) % 2 ^ 32) lo1 lc1 g1 w2)
      ∧ (∀ w2, spi_wait_wip D polls w1 = (none, w2) →
          spi_upload_loop D polls len (fuel + 1) offset addr lo lc g w = (none, g1, w2)) := by
  have hread := upload_read_chunk_eq g.xmodem_block.data chunk rest hc hl hg
  refine ⟨{ xmodem_block := { g.xmodem_block with data := chunk }
            bytes_uploaded := (upload_send_chunk D chunk g.bytes_uploaded
              (spi_send D (addr >>> 0) (spi_send D (addr >>> 8) (spi_send D (addr >>> 16)
                (spi_send D 0x02 (spi_cs D 1 (spi_status D
                  (spi_write_enable D { w with rx := rest })).2)).2).2).2).2).1
            target_flash_size := g.target_flash_size },
    (led_blink lo lc (upload_send_chunk D chunk g.bytes_uploaded
      (spi_send D (addr >>> 0) (spi_send D (addr >>> 8) (spi_send D (addr >>> 16)
        (spi_send D 0x02 (spi_cs D 1 (spi_status D
          (spi_write_enable D { w with rx := rest })).2)).2).2).2).2).2.regs).1,
    (led_blink lo lc (upload_send_chunk D chunk g.bytes_uploaded
      (spi_send D (addr >>> 0) (spi_send D (addr >>> 8) (spi_send D (addr >>> 16)
        (spi_send D 0x02 (spi_cs D 1 (spi_status D
          (spi_write_enable D { w with rx := rest })).2)).2).2).2).2).2.regs).2.1,
    spi_cs D 0 { (upload_send_chunk D chunk g.bytes_uploaded
      (spi_send D (addr >>> 0) (spi_send D (addr >>> 8) (spi_send D (addr >>> 16)
        (spi_send D 0x02 (spi_cs D 1 (spi_status D
          (spi_write_enable D { w with rx := rest })).2)).2).2).2).2).2 with
      regs := (led_blink lo lc (upload_send_chunk D chunk g.bytes_uploaded
        (spi_send D (addr >>> 0) (spi_send D (addr >>> 8) (spi_send D (addr >>> 16)
          (spi_send D 0x02 (spi_cs D 1 (spi_status D
            (spi_write_enable D { w with rx := rest })).2)).2).2).2).2).2.regs).2.2 },
    rfl, ?_, ?_, ?_, ?_, ?_, ?_⟩
  · rw [upload_send_chunk_eq D chunk _ _ hl]
    simp [spi_cs, spi_send, spi_status, spi_write_enable, spi_power]
  · rw [upload_send_chunk_eq D chunk _ _ hl]
    simp [spi_cs, spi_send, spi_status, spi_write_enable, spi_power]
  · rw [upload_send_chunk_eq D chunk _ _ hl]
    simp [spi_cs, spi_send, spi_status, spi_write_enable, spi_power, Device.after_cmd,
      Device.status_step, Device.run, addr_bytes, Device.run_append, SPI_WRITE_ENABLE]
  · rw [upload_send_chunk_eq D chunk _ _ hl]
    simp [spi_cs, spi_send, spi_status, spi_write_enable, spi_power, write_enable_events,
      status_events, program_events, SPI_WRITE_ENABLE]
  · intro w2 h2
    simp only [spi_upload_loop, if_pos hoff, hrx, hread, if_true, h2, sizeof_data]
  · intro w2 h2
    simp only [spi_upload_loop, if_pos hoff, hrx, hread, if_true, h2, sizeof_data]

theorem flash_after_polls_mem (k : Nat) : ∀ s : FlashState,
    (flash_device.after_polls k s).mem = s.mem := by
  induction k with
  | zero => intro s; rfl
  | succ k ih =>
    intro s
    rw [Device.after_polls, ih, flash_status_step]

/-- What one turn of the loop of `spi_upload` does to the flash model, up to the
busy-wait: the page is programmed, whatever state the chip was in. -/
theorem flash_upload_turn (s : FlashState) (addr : Nat) (chunk : List Nat) (hd : chunk ≠ []) :
    flash_device.after_cmd
        (flash_device.status_step (flash_device.after_cmd (flash_device.status_step s).2
          [0x06])).2
        (0x02 :: addr_bytes addr ++ chunk)
      = { mem := flash_program s.mem (addr % 2 ^ 24) (chunk.map (fun c => c % 256))
          wel := false, busy := true, selected := false, cmd := [] } := by
  rw [flash_status_step, flash_after_write_enable, flash_status_step,
    flash_after_program _ addr chunk rfl rfl hd]

theorem flash_program_chunk (mem : Nat → Nat) (addr : Nat) (chunk : List Nat)
    (ha : addr % 128 = 0) (hl : chunk.length = 128) (hc : ∀ x ∈ chunk, x < 256) :
    flash_program mem addr (chunk.map (fun c => c % 256)) = flash_write mem addr chunk := by
  funext a
  unfold flash_program flash_write
  rw [List.length_map, hl]
  by_cases h : addr ≤ a ∧ a < addr + 128
  · have hi : (a + 256 - addr % 256) % 256 = a - addr := by omega
    rw [if_pos ⟨by omega, by omega⟩, if_pos h, hi, List.getD_eq_getElem?_getD,
      List.getD_eq_getElem?_getD, List.getElem?_map,
      List.getElem?_eq_getElem (show a - addr < chunk.length by omega)]
    have hx : chunk[a - addr] < 256 := hc _ (List.getElem_mem _)
    simp only [Option.map_some', Option.getD_some]
    rw [Nat.mod_mod, Nat.mod_eq_of_lt hx]
  · rw [if_neg (by omega), if_neg h]

theorem flash_write_append (mem : Nat → Nat) (addr : Nat) (A B : List Nat) :
    flash_write (flash_write mem addr A) (addr + A.length) B = flash_write mem addr (A ++ B) := by
  funext a
  unfold flash_write
  rw [List.length_append]
  by_cases h1 : addr ≤ a ∧ a < addr + A.length
  · rw [if_neg (by omega), if_pos h1, if_pos ⟨by omega, by omega⟩,
      List.getD_append _ _ _ _ (by omega)]
  · by_cases h2 : addr + A.length ≤ a ∧ a < addr + A.length + B.length
    · rw [if_pos h2, if_neg h1, if_pos ⟨by omega, by omega⟩,
        List.getD_append_right _ _ _ _ (by omega)]
      congr 2
      omega
    · rw [if_neg h2, if_neg h1, if_neg (by omega)]

theorem flash_write_nil (mem : Nat → Nat) (addr : Nat) : flash_write mem addr [] = mem := by
  funext a
  unfold flash_write
  rw [if_neg (by simp)]

set_option maxRecDepth 8000 in
/-- The loop of `spi_upload` ends when `offset` has reached `len`. -/
theorem spi_upload_loop_exit {σ : Type} (D : Device σ) (polls len fuel offset addr lo lc : Nat)
    (g : Globals) (w : World σ) (h : ¬ offset < len) :
    spi_upload_loop D polls len (fuel + 1) offset addr lo lc g w = (some (), g, w) := by
  simp only [spi_upload_loop]
  rw [if_neg h]

/-- The loop of `spi_upload` on the flash model, `n` chunks before the end: it returns,
has taken exactly the `128 * n` data bytes off the input, and has programmed them from
`addr` on. -/
theorem spi_upload_loop_flash (polls : Nat) (hp : 2 ≤ polls) (len : Nat) (hlen : len < 2 ^ 32)
    (n : Nat) :
    ∀ (fuel offset addr lo lc : Nat) (g : Globals) (w : World FlashState) (data : List Nat)
      (rest : List Int),
    offset + 128 * n = len → addr + 128 * n ≤ 2 ^ 24 → addr % 128 = 0 →
    w.rx = data.map (fun x : Nat => (x : Int)) ++ rest → data.length = 128 * n →
    (∀ x ∈ data, x < 256) → g.xmodem_block.data.length = 128 → n + 1 ≤ fuel →
    ∃ (g1 : Globals) (w1 : World FlashState),
      spi_upload_loop flash_device polls len fuel offset addr lo lc g w = (some (), g1, w1)
      ∧ w1.rx = rest ∧ w1.tx = w.tx
      ∧ w1.dev.mem = flash_write w.dev.mem addr data := by
  induction n with
  | zero =>
    intro fuel offset addr lo lc g w data rest hoff _ _ hrx hdl _ _ hfuel
    obtain ⟨fuel, rfl⟩ : ∃ f, fuel = f + 1 := ⟨fuel - 1, by omega⟩
    have hd : data = [] := List.eq_nil_of_length_eq_zero (by omega)
    subst hd
    exact ⟨g, w, spi_upload_loop_exit flash_device polls len fuel offset addr lo lc g w
      (by omega), by simpa using hrx, rfl, (flash_write_nil _ _).symm⟩
  | succ n ih =>
    intro fuel offset addr lo lc g w data rest hoff hfit ha hrx hdl hdb hg hfuel
    obtain ⟨fuel, rfl⟩ : ∃ f, fuel = f + 1 := ⟨fuel - 1, by omega⟩
    have hsplit : data = data.take 128 ++ data.drop 128 := (List.take_append_drop 128 data).symm
    have htl : (data.take 128).length = 128 := by rw [List.length_take]; omega
    have hdl2 : (data.drop 128).length = 128 * n := by rw [List.length_drop]; omega
    have hrx2 : w.rx = (data.take 128).map (fun x : Nat => (x : Int))
        ++ ((data.drop 128).map (fun x : Nat => (x : Int)) ++ rest) := by
      rw [hrx, ← List.append_assoc, ← List.map_append, ← hsplit]
    obtain ⟨g1, lo1, lc1, w1, t1, t2, t3, t4, _, t6, _⟩ :=
      spi_upload_loop_turn flash_device polls len fuel offset addr lo lc g w (data.take 128)
        ((data.drop 128).map (fun x : Nat => (x : Int)) ++ rest) (by omega) hrx2
        (fun x hx => hdb x (List.mem_of_mem_take hx)) htl hg
    rw [flash_upload_turn _ _ _ (by intro h; rw [h] at htl; simp at htl),
      Nat.mod_eq_of_lt (by omega),
      flash_program_chunk _ _ _ ha htl (fun x hx => hdb x (List.mem_of_mem_take hx))] at t4
    obtain ⟨k, hk, hb⟩ := flash_ready w1.dev
    obtain ⟨w2, d1, d2, d3, d4, _⟩ := spi_wait_wip_done flash_device k polls w1 (by omega) hb
    have hmem : w2.dev.mem = flash_write w.dev.mem addr (data.take 128) := by
      rw [d4, flash_after_polls_mem, t4]
    obtain ⟨g2, w3, e1, e2, e3, e4⟩ := ih fuel (offset + 128) (addr + 128) lo1 lc1 g1 w2
      (data.drop 128) rest (by omega) (by omega) (by omega) (by rw [d2, t2]) hdl2
      (fun x hx => hdb x (List.mem_of_mem_drop hx)) (by rw [t1]; exact htl) (by omega)
    refine ⟨g2, w3, ?_, e2, ?_, ?_⟩
    · rw [t6 w2 d1, Nat.mod_eq_of_lt (by omega), Nat.mod_eq_of_lt (by omega)]
      exact e1
    · rw [e3, d3, t3]
    · rw [e4, hmem]
      have := flash_write_append w.dev.mem addr (data.take 128) (data.drop 128)
      rw [htl, ← hsplit] at this
      exact this

set_option maxRecDepth 8000 in
/-- When address and length are multiples of 4096, `spi_upload` answers with the `G` line
and runs its loop; when the loop returns, it writes `done!`. -/
theorem spi_upload_accept {σ : Type} (D : Device σ) (polls : Nat) (g : Globals)
    (w w1 w2 : World σ) (addr len : Nat)
    (h1 : usb_serial_readhex w = (some addr, w1))
    (h2 : usb_serial_readhex w1 = (some len, w2))
    (ha : addr % 4096 = 0) (hl : len % 4096 = 0) (g1 : Globals) (w3 : World σ)
    (hloop : spi_upload_loop D polls len (w2.rx.length + 1) 0 addr 1 0
        { g with bytes_uploaded := 0 }
        { w2 with tx := w2.tx ++ [spi_upload_outbuf false addr len]
                  regs := out 0xD6 1 w2.regs } = (some (), g1, w3)) :
    spi_upload D polls g w = (some (), g1, send_str (cstr "done!\r\n") w3) := by
  have hb : (spi_upload_outbuf false addr len).take 19 = spi_upload_outbuf false addr len :=
    rfl
  simp only [spi_upload, h1, h2, and_SPI_PAGE_MASK, ha, hl]
  simp only [ne_eq, not_true_eq_false, decide_False, Bool.or_self, if_false,
    Bool.false_eq_true, usb_serial_write, hb]
  split
  · next g' w' heq =>
    have e := heq.symm.trans hloop
    exact absurd (congrArg Prod.fst e) (by simp)
  · next u g' w' heq =>
    have e := heq.symm.trans hloop
    have e1 : g' = g1 := congrArg (fun r => r.2.1) e
    have e2 : w' = w3 := congrArg (fun r => r.2.2) e
    rw [e1, e2]

theorem and_255 (d : Nat) (h : d < 256) : 0xFF &&& d = d := by
  rw [Nat.and_comm, show (0xFF : Nat) = 2 ^ 8 - 1 from rfl, Nat.and_pow_two_sub_one_eq_mod]
  exact Nat.mod_eq_of_lt h

theorem cstr_done :
    ((cstr "done!\r\n").takeWhile (fun c => c ≠ 0)).map (fun c => [c % 256])
      = (cstr "done!\r\n").map (fun c => [c]) := by decide

/-- The round trip of `spi_upload` and a read on the flash model, with the worlds after
the two numbers were read given by name. -/
theorem spi_upload_flash (polls : Nat) (g : Globals) (w w1 w2 : World FlashState)
    (addr len : Nat) (data : List Nat) (rest : List Int)
    (hp : 2 ≤ polls)
    (h1 : usb_serial_readhex w = (some addr, w1))
    (h2 : usb_serial_readhex w1 = (some len, w2))
    (ha : addr % 4096 = 0) (hl : len % 4096 = 0) (hfit : addr + len ≤ 2 ^ 24)
    (hrx : w2.rx = data.map (fun x : Nat => (x : Int)) ++ rest)
    (hdl : data.length = len) (hdb : ∀ x ∈ data, x < 256)
    (hbuf : g.xmodem_block.data.length = 128)
    (herased : ∀ a, addr ≤ a → a < addr + len → w.dev.mem a = 0xFF) :
    (spi_upload flash_device polls g w).1 = some ()
    ∧ (spi_upload flash_device polls g w).2.2.rx = rest
    ∧ (spi_upload flash_device polls g w).2.2.tx
        = w2.tx ++ [spi_upload_outbuf false addr len] ++ (cstr "done!\r\n").map (fun c => [c])
    ∧ flash_device.read_back (spi_upload flash_device polls g w).2.2.dev addr len = data
    ∧ (∀ a, a < addr ∨ addr + len ≤ a →
        (spi_upload flash_device polls g w).2.2.dev.mem a = w.dev.mem a) := by
  have e1 := usb_serial_readhex_spi w
  have e2 := usb_serial_readhex_spi w1
  rw [h1] at e1
  rw [h2] at e2
  have hdev : w2.dev = w.dev := e2.2.trans e1.2
  obtain ⟨g1, w3, l1, l2, l3, l4⟩ := spi_upload_loop_flash polls hp len (by omega) (len / 128)
    (w2.rx.length + 1) 0 addr 1 0 { g with bytes_uploaded := 0 }
    { w2 with tx := w2.tx ++ [spi_upload_outbuf false addr len]
              regs := out 0xD6 1 w2.regs }
    data rest (by omega) (by omega) (by omega) hrx (by omega) hdb hbuf
    (by
      rw [hrx, List.length_append, List.length_map, hdl]
      omega)
  rw [spi_upload_accept flash_device polls g w w1 w2 addr len h1 h2 ha hl g1 w3 l1]
  have hmem : w3.dev.mem = flash_write w.dev.mem addr data := by
    rw [l4]
    show flash_write w2.dev.mem addr data = _
    rw [hdev]
  refine ⟨rfl, ?_, ?_, ?_, ?_⟩
  · rw [send_str_eq]
    exact l2
  · rw [send_str_eq, cstr_done]
    show w3.tx ++ _ = _
    rw [l3]
  · rw [send_str_eq]
    show flash_device.read_back w3.dev addr len = data
    rw [flash_read_back _ _ _ hfit, hmem]
    apply List.ext_getElem
    · rw [List.length_map, List.length_range, hdl]
    · intro i hi1 hi2
      rw [List.getElem_map, List.getElem_range]
      unfold flash_write
      have hx : data[i] < 256 := hdb _ (List.getElem_mem _)
      rw [if_pos ⟨by omega, by omega⟩, herased _ (by omega) (by omega),
        show addr + i - addr = i by omega, List.getD_eq_getElem?_getD,
        List.getElem?_eq_getElem hi2, Option.getD_some, and_255 _ hx, Nat.mod_eq_of_lt hx]
  · intro a hout
    rw [send_str_eq]
    show w3.dev.mem a = _
    rw [hmem]
    unfold flash_write
    rw [if_neg (by omega)]


/-- The value and the input left by `usb_serial_readhex` when the pending input starts
with hex digits and a byte that ends them. -/
theorem usb_serial_readhex_digits {σ : Type} (w : World σ) (digits : List Int) (t : Int)
    (rest : List Int) (hrx : w.rx = digits ++ t :: rest)
    (hd : ∀ c ∈ digits, is_hex c = true) (ht : is_hex t = false) (ht1 : t ≠ -1) :
    (usb_serial_readhex w).1 = some (hex_value digits % 2 ^ 32)
    ∧ (usb_serial_readhex w).2.rx = rest :=
  usb_serial_readhex_loop_digits digits _ 0 w t rest hd ht ht1 hrx
    (by rw [hrx, List.length_append, List.length_cons]; omega) (by decide)

/-! ## `spi_upload` and `spi_read_size`: the round trip -/

theorem hex_rows_cons (row rest : List Nat) (h : row.length = 16) :
    hex_rows (row ++ rest) = hex_row row :: hex_rows rest := by
  unfold hex_rows
  have hlen : (row ++ rest).length / 16 = rest.length / 16 + 1 := by
    rw [List.length_append, h]
    omega
  rw [hlen, List.range_succ_eq_map, List.map_cons, List.map_map]
  congr 1
  · rw [Nat.mul_zero, List.drop_zero, List.take_append_of_le_length (by omega),
      List.take_of_length_le (by omega)]
  · apply List.map_congr_left
    intro i _
    simp only [Function.comp]
    rw [show 16 * (i + 1) = row.length + 16 * i by omega, List.drop_append]

theorem hex_rows_nil : hex_rows [] = [] := rfl

theorem set_append_replicate (pre : List Nat) (k v : Nat) :
    (pre ++ List.replicate (k + 1) 0).set pre.length v = (pre ++ [v]) ++ List.replicate k 0 := by
  induction pre with
  | nil => simp [List.replicate_succ]
  | cons a pre ih => simpa using ih

theorem hex_flat_length (bytes : List Nat) :
    ((bytes.map (fun b => [hexdigit (b >>> 4), hexdigit b, 32])).flatten).length
      = 3 * bytes.length := by
  induction bytes with
  | nil => rfl
  | cons b bytes ih =>
    simp only [List.map_cons, List.flatten_cons, List.length_append, List.length_cons,
      List.length_nil, ih]
    omega

/-- The fold of `spi_read_line` after `n` bytes: three characters for each byte, the rest
of the buffer untouched. -/
theorem spi_read_line_fold (data : List Nat) : ∀ n : Nat, n ≤ 16 → n ≤ data.length →
    (List.range n).foldl
      (fun (s : List Nat × Nat) i =>
        let buf := s.1.set s.2 (hexdigit (data.getD i 0 >>> 4))
        let off := (s.2 + 1) % 256
        let buf := buf.set off (hexdigit (data.getD i 0 >>> 0))
        let off := (off + 1) % 256
        let buf := buf.set off 32
        let off := (off + 1) % 256
        (buf, off))
      (List.replicate (16 * 3 + 2) 0, 0)
    = (((data.take n).map (fun b => [hexdigit (b >>> 4), hexdigit b, 32])).flatten
        ++ List.replicate (50 - 3 * n) 0, 3 * n) := by
  intro n
  induction n with
  | zero => intro _ _; rfl
  | succ n ih =>
    intro h16 hlen
    rw [List.range_succ, List.foldl_append, ih (by omega) (by omega)]
    simp only [List.foldl_cons, List.foldl_nil]
    have hl := hex_flat_length (data.take n)
    rw [List.length_take, Nat.min_eq_left (by omega)] at hl
    have hget : data.getD n 0 = data[n] := by
      rw [List.getD_eq_getElem?_getD, List.getElem?_eq_getElem (by omega)]
      rfl
    have htake : data.take (n + 1) = data.take n ++ [data[n]] := by
      rw [List.take_succ, List.getElem?_eq_getElem (by omega)]
      rfl
    have o1 : (3 * n + 1) % 256 = 3 * n + 1 := by omega
    have o2 : (3 * n + 1 + 1) % 256 = 3 * n + 2 := by omega
    have o3 : (3 * n + 2 + 1) % 256 = 3 * (n + 1) := by omega
    rw [o1, o2, o3, hget, htake, List.map_append, List.flatten_append]
    congr 1
    generalize hp : ((data.take n).map (fun b => [hexdigit (b >>> 4), hexdigit b, 32])).flatten
      = pre at hl ⊢
    have e1 : 50 - 3 * n = (50 - 3 * (n + 1)) + 1 + 1 + 1 := by omega
    have s1 := set_append_replicate pre (50 - 3 * (n + 1) + 1 + 1) (hexdigit (data[n] >>> 4))
    have s2 := set_append_replicate (pre ++ [hexdigit (data[n] >>> 4)]) (50 - 3 * (n + 1) + 1)
      (hexdigit (data[n] >>> 0))
    have s3 := set_append_replicate
      ((pre ++ [hexdigit (data[n] >>> 4)]) ++ [hexdigit (data[n] >>> 0)]) (50 - 3 * (n + 1)) 32
    simp only [List.length_append, List.length_singleton, hl] at s1 s2 s3
    rw [e1, s1, show 3 * n + 1 = 3 * n + 1 from rfl, s2, s3]
    simp [Nat.shiftRight_zero]

/-- The line buffer of `spi_read_size` for a full row of 16 bytes: all of its 50 bytes
are written, and they are the line of `hex_row`. -/
theorem spi_read_line_row (data : List Nat) (h : data.length = 16) :
    spi_read_line data 16 = (hex_row data, 50) := by
  unfold spi_read_line
  rw [spi_read_line_fold data 16 (by omega) (by omega)]
  have hl := hex_flat_length data
  rw [h] at hl
  rw [List.take_of_length_le (by omega)]
  generalize hp : ((data.map (fun b => [hexdigit (b >>> 4), hexdigit b, 32])).flatten)
    = pre at hl ⊢
  have s1 := set_append_replicate pre 1 13
  have s2 := set_append_replicate (pre ++ [13]) 0 10
  simp only [List.length_append, List.length_singleton, hl] at s1 s2
  dsimp only
  have s1 : (pre ++ List.replicate (50 - 3 * 16) 0).set (3 * 16) 13
      = pre ++ [13] ++ List.replicate 1 0 := s1
  have s2 : (pre ++ [13] ++ List.replicate 1 0).set ((3 * 16 + 1) % 256) 10
      = pre ++ [13] ++ [10] := by
    have e : pre ++ [13] ++ [10] ++ List.replicate 0 0 = pre ++ [13] ++ [10] := by simp
    rw [← e]
    exact s2
  rw [s1, s2]
  unfold hex_row
  rw [hp]
  simp

theorem hex_row_length (data : List Nat) (h : data.length = 16) : (hex_row data).length = 50 := by
  unfold hex_row
  rw [List.length_append, hex_flat_length, h]
  rfl

/-- The loop of `spi_read_size` for `n` rows of 16 bytes: it clocks out `16 * n` bytes
and prints them as `n` lines. -/
theorem spi_read_size_loop_rows {σ : Type} (D : Device σ) (n : Nat) :
    ∀ (fuel : Nat) (data : List Nat) (w : World σ), data.length = 16 → n ≤ fuel →
    spi_read_size_loop D fuel ((16 * n : Nat) : Int) data w
      = (0, { w with
              dev := (D.run w.dev (List.replicate (16 * n) 0)).2
              spi := w.spi ++ List.replicate (16 * n) (SpiEvent.byte 0)
              tx := w.tx ++ hex_rows (D.run w.dev (List.replicate (16 * n) 0)).1 }) := by
  induction n with
  | zero =>
    intro fuel data w _ _
    have hw : ({ w with dev := (D.run w.dev (List.replicate (16 * 0) 0)).2
                        spi := w.spi ++ List.replicate (16 * 0) (SpiEvent.byte 0)
                        tx := w.tx ++ hex_rows (D.run w.dev (List.replicate (16 * 0) 0)).1 }
        : World σ) = w := by
      cases w
      simp [Device.run, hex_rows]
    rw [hw]
    cases fuel with
    | zero => rfl
    | succ f =>
      rw [spi_read_size_loop, if_neg (by simp)]
      rfl
  | succ n ih =>
    intro fuel data w hd hf
    obtain ⟨f, rfl⟩ : ∃ f, fuel = f + 1 := ⟨fuel - 1, by omega⟩
    have hx : (((16 * (n + 1) : Nat) : Int)) > 0 := by omega
    have hx16 : ¬ (((16 * (n + 1) : Nat) : Int)) < 16 := by omega
    have hfill : spi_read_fill D 16 data w
        = ((D.run w.dev (List.replicate 16 0)).1,
            { w with dev := (D.run w.dev (List.replicate 16 0)).2
                     spi := w.spi ++ List.replicate 16 (SpiEvent.byte 0) }) := by
      unfold spi_read_fill
      rw [prom_send_fill_take D data w 16 (by omega), List.drop_of_length_le (by omega),
        List.append_nil]
    have hlen : (D.run w.dev (List.replicate 16 0)).1.length = 16 := by
      rw [Device.run_length, List.length_replicate]
    rw [spi_read_size_loop, if_pos hx]
    dsimp only
    rw [if_neg hx16, hfill]
    dsimp only
    rw [spi_read_line_row _ hlen]
    dsimp only
    have hsub : ((16 * (n + 1) : Nat) : Int) - ((16 : Nat) : Int) = ((16 * n : Nat) : Int) := by
      omega
    rw [hsub, ih f _ _ hlen (by omega)]
    have hrun := Device.run_replicate_add D w.dev 16 (16 * n)
    rw [show 16 * (n + 1) = 16 + 16 * n by omega, hrun]
    dsimp only [usb_serial_write]
    rw [hex_rows_cons _ _ hlen, List.replicate_add, List.take_of_length_le
      (by rw [hex_row_length _ hlen])]
    simp only [List.append_assoc, List.singleton_append]

/-- The device after `spi_read_size` has selected it and sent the read command. -/
theorem spi_read_cmd_world {σ : Type} (D : Device σ) (addr : Nat) (w : World σ) :
    (spi_send D (addr >>> 0) (spi_send D (addr >>> 8) (spi_send D (addr >>> 16)
        (spi_send D 0x03 (spi_cs D 1 (spi_power 1 w))).2).2).2).2
      = { w with
          regs := (spi_cs D 1 (spi_power 1 w)).regs
          dev := (D.run (D.select w.dev true) (0x03 :: addr_bytes addr)).2
          spi := w.spi ++ [SpiEvent.cs true, SpiEvent.byte 0x03,
            SpiEvent.byte ((addr >>> 16) % 256), SpiEvent.byte ((addr >>> 8) % 256),
            SpiEvent.byte (addr % 256)] } := by
  simp [spi_send, spi_cs, spi_power, Device.run, addr_bytes, Nat.mod_mod]

/-- What `spi_read_size` prints and shifts for a length that is a multiple of 16 and
passes the guard against `INT32_MAX`: it returns, and it has read and printed
`read_size_count len` bytes from `addr` on, in lines of 16. -/
theorem spi_read_size_rows {σ : Type} (D : Device σ) (w : World σ) (addr len : Nat)
    (h1 : (usb_serial_readhex w).1 = some addr)
    (h2 : (usb_serial_readhex (usb_serial_readhex w).2).1 = some len)
    (h3 : len ≤ INT32_MAX) (h16 : len % 16 = 0) :
    (spi_read_size D w).1 = some ()
    ∧ (spi_read_size D w).2.rx = (usb_serial_readhex (usb_serial_readhex w).2).2.rx
    ∧ (spi_read_size D w).2.tx
        = (usb_serial_readhex (usb_serial_readhex w).2).2.tx
          ++ hex_rows (D.read_back w.dev addr (read_size_count len))
    ∧ (spi_read_size D w).2.spi
        = w.spi ++ [SpiEvent.cs true, SpiEvent.byte 0x03,
            SpiEvent.byte ((addr >>> 16) % 256), SpiEvent.byte ((addr >>> 8) % 256),
            SpiEvent.byte (addr % 256)]
          ++ List.replicate (read_size_count len) (SpiEvent.byte 0) ++ [SpiEvent.cs false] := by
  have e1 : usb_serial_readhex w = (some addr, (usb_serial_readhex w).2) := by
    rw [← h1]
  have e2 : usb_serial_readhex (usb_serial_readhex w).2
      = (some len, (usb_serial_readhex (usb_serial_readhex w).2).2) := by
    rw [← h2]
  have d1 := usb_serial_readhex_spi w
  have d2 := usb_serial_readhex_spi (usb_serial_readhex w).2
  generalize (usb_serial_readhex (usb_serial_readhex w).2).2 = w2 at e2 d2 ⊢
  have hdev : w2.dev = w.dev := d2.2.trans d1.2
  have hspi : w2.spi = w.spi := d2.1.trans d1.1
  unfold spi_read_size
  rw [e1]
  dsimp only
  rw [e2]
  dsimp only
  rw [if_neg (by omega), spi_read_cmd_world]
  by_cases hx : len % 65536 < 32768
  · obtain ⟨n, hn⟩ : ∃ n, len % 65536 = 16 * n := ⟨len % 65536 / 16, by omega⟩
    have hc : read_size_count len = 16 * n := by
      unfold read_size_count
      rw [if_pos hx, hn]
    rw [if_pos hx, hn, Int.toNat_ofNat,
      spi_read_size_loop_rows D n (16 * n) _ _ (List.length_replicate 16 0) (by omega), hc]
    unfold Device.read_back
    simp only [spi_cs, spi_power, hdev, hspi]
    simp
  · have hc : read_size_count len = 0 := by
      unfold read_size_count
      rw [if_neg hx]
    have ht : (((len % 65536 : Nat) : Int) - 65536).toNat = 0 := by
      apply Int.toNat_eq_zero.mpr
      omega
    rw [if_neg hx, ht, hc]
    unfold Device.read_back
    simp only [spi_read_size_loop, spi_cs, spi_power, hdev, hspi]
    simp [Device.run, hex_rows]

theorem read_size_count_le (len : Nat) : read_size_count len ≤ len := by
  unfold read_size_count
  split
  · exact Nat.mod_le _ _
  · omega

/-- What the flash model shifts out for the first `k` bytes of a read is the start of what
it shifts out for `n` bytes. -/
theorem flash_read_back_take (s : FlashState) (addr n k : Nat) (h : addr + n ≤ 2 ^ 24)
    (hk : k ≤ n) :
    flash_device.read_back s addr k = (flash_device.read_back s addr n).take k := by
  rw [flash_read_back s addr n h, flash_read_back s addr k (by omega), ← List.map_take,
    List.take_range, Nat.min_eq_left hk]

/-- The entries of the operator in `round_trip_example`, before the upload and after it. -/
theorem round_trip_example_entries (digits : List Int) (n : Nat)
    (hd : ∀ c ∈ digits, is_hex c = true) (hv : hex_value digits % 2 ^ 32 = n)
    (h4096 : n % 4096 = 0) (hfit : 0 + n ≤ 2 ^ 24) :
    (usb_serial_readhex (round_trip_example digits n)).1 = some 0
    ∧ (usb_serial_readhex (usb_serial_readhex (round_trip_example digits n)).2).1 = some n
    ∧ (usb_serial_readhex (usb_serial_readhex (round_trip_example digits n)).2).2.rx
        = (List.replicate n 0x5A).map (fun x : Nat => (x : Int))
            ++ ([48] ++ 13 :: (digits ++ 13 :: []))
    ∧ (usb_serial_readhex
        (spi_upload flash_device 2 Globals.init (round_trip_example digits n)).2.2).1 = some 0
    ∧ (usb_serial_readhex (usb_serial_readhex
        (spi_upload flash_device 2 Globals.init (round_trip_example digits n)).2.2).2).1
        = some n := by
  have e1 := usb_serial_readhex_digits (round_trip_example digits n) [48] 13
    (digits ++ 13 :: ((List.replicate n 0x5A).map (fun x : Nat => (x : Int))
      ++ ([48] ++ 13 :: (digits ++ 13 :: []))))
    rfl (by decide) (by decide) (by decide)
  have e2 := usb_serial_readhex_digits (usb_serial_readhex (round_trip_example digits n)).2
    digits 13 ((List.replicate n 0x5A).map (fun x : Nat => (x : Int))
      ++ ([48] ++ 13 :: (digits ++ 13 :: []))) e1.2 hd (by decide) (by decide)
  rw [hv] at e2
  have e1v : (usb_serial_readhex (round_trip_example digits n)).1 = some 0 := e1.1
  have u := spi_upload_flash 2 Globals.init (round_trip_example digits n)
    (usb_serial_readhex (round_trip_example digits n)).2
    (usb_serial_readhex (usb_serial_readhex (round_trip_example digits n)).2).2 0 n
    (List.replicate n 0x5A) ([48] ++ 13 :: (digits ++ 13 :: [])) (Nat.le_refl 2)
    (Prod.ext e1v rfl) (Prod.ext e2.1 rfl) (by decide) h4096 hfit e2.2
    (List.length_replicate n 0x5A)
    (fun x hx => by rw [List.eq_of_mem_replicate hx]; decide)
    (List.length_replicate 128 0) (fun _ _ _ => rfl)
  have e3 := usb_serial_readhex_digits
    (spi_upload flash_device 2 Globals.init (round_trip_example digits n)).2.2 [48] 13
    (digits ++ 13 :: []) u.2.1 (by decide) (by decide) (by decide)
  have e4 := usb_serial_readhex_digits (usb_serial_readhex
    (spi_upload flash_device 2 Globals.init (round_trip_example digits n)).2.2).2
    digits 13 [] e3.2 hd (by decide) (by decide)
  rw [hv] at e4
  exact ⟨e1v, e2.1, e2.2, e3.1, e4.1⟩

/-- C20: the flash model is a chip with the command set that `probe.c` uses: bytes erased
to 0xFF, a page program (0x02) that takes effect only after a write-enable (0x06) and
writes the old byte AND the data byte, a status register with WIP and WEL, and a read
(0x03) that counts the address up. Let the operator enter an address and a length that
are multiples of 4096, with the region inside the 24-bit address space and erased, let
the host then send `len` data bytes, and let the operator then enter the same address and
length for `spi_read_size`. `spi_upload` returns, having taken exactly the data bytes off
the input; the region of the flash then holds the data and no byte outside it has
changed. `spi_read_size` returns as well; after the echo of the two entries it has
clocked out and printed, in lines of 16 bytes, the first `read_size_count len` bytes of
the data and nothing else. For a length below 0x8000 that is all of the data. From 0x8000
on it is less than the data: `int x = (int)len` keeps 16 bits of the length, so for the
length 0x8000 no data byte is read and no line is printed. -/
theorem spi_upload_round_trip (polls : Nat) (g : Globals) (w : World FlashState)
    (addr len : Nat) (data : List Nat) (rest : List Int)
    (hp : 2 ≤ polls)
    (h1 : (usb_serial_readhex w).1 = some addr)
    (h2 : (usb_serial_readhex (usb_serial_readhex w).2).1 = some len)
    (ha : addr % 4096 = 0) (hl : len % 4096 = 0) (hfit : addr + len ≤ 2 ^ 24)
    (hrx : (usb_serial_readhex (usb_serial_readhex w).2).2.rx
      = data.map (fun x : Nat => (x : Int)) ++ rest)
    (hdl : data.length = len) (hdb : ∀ x ∈ data, x < 256)
    (hbuf : g.xmodem_block.data.length = 128)
    (herased : ∀ a, addr ≤ a → a < addr + len → w.dev.mem a = 0xFF)
    (h3 : (usb_serial_readhex (spi_upload flash_device polls g w).2.2).1 = some addr)
    (h4 : (usb_serial_readhex
      (usb_serial_readhex (spi_upload flash_device polls g w).2.2).2).1 = some len) :
    (spi_upload flash_device polls g w).1 = some ()
    ∧ (spi_upload flash_device polls g w).2.2.rx = rest
    ∧ flash_device.read_back (spi_upload flash_device polls g w).2.2.dev addr len = data
    ∧ (∀ a, a < addr ∨ addr + len ≤ a →
        (spi_upload flash_device polls g w).2.2.dev.mem a = w.dev.mem a)
    ∧ (spi_read_size flash_device (spi_upload flash_device polls g w).2.2).1 = some ()
    ∧ (spi_read_size flash_device (spi_upload flash_device polls g w).2.2).2.spi
        = (spi_upload flash_device polls g w).2.2.spi
          ++ [SpiEvent.cs true, SpiEvent.byte 0x03, SpiEvent.byte ((addr >>> 16) % 256),
              SpiEvent.byte ((addr >>> 8) % 256), SpiEvent.byte (addr % 256)]
          ++ List.replicate (read_size_count len) (SpiEvent.byte 0) ++ [SpiEvent.cs false]
    ∧ (spi_read_size flash_device (spi_upload flash_device polls g w).2.2).2.tx
        = (usb_serial_readhex
            (usb_serial_readhex (spi_upload flash_device polls g w).2.2).2).2.tx
          ++ hex_rows (data.take (read_size_count len))
    ∧ (len < 32768 → data.take (read_size_count len) = data)
    ∧ (32768 ≤ len → (data.take (read_size_count len)).length < data.length)
    ∧ (len = 32768 → data.take (read_size_count len) = []) := by
  obtain ⟨r1, r2, _, r4, r5⟩ := spi_upload_flash polls g w (usb_serial_readhex w).2
    (usb_serial_readhex (usb_serial_readhex w).2).2 addr len data rest hp
    (Prod.ext h1 rfl) (Prod.ext h2 rfl) ha hl hfit hrx hdl hdb hbuf herased
  obtain ⟨s1, _, s3, s4⟩ := spi_read_size_rows flash_device
    (spi_upload flash_device polls g w).2.2 addr len h3 h4
    (by unfold INT32_MAX; omega) (by omega)
  have hle := read_size_count_le len
  refine ⟨r1, r2, r4, r5, s1, s4, ?_, ?_, ?_, ?_⟩
  · rw [s3, flash_read_back_take _ addr len _ hfit hle, r4]
  · intro h
    have hc : read_size_count len = len := by
      unfold read_size_count
      rw [Nat.mod_eq_of_lt (by omega), if_pos h]
    rw [hc, List.take_of_length_le (by omega)]
  · intro h
    rw [List.length_take, hdl]
    have hc : read_size_count len < len := by
      unfold read_size_count
      split <;> omega
    omega
  · intro h
    subst h
    rfl

/-- An erased flash chip, address 0 and 0x5A bytes. With the length 8000 (hex) the upload
programs 32768 bytes, and `spi_read_size` with the same entries clocks out no data byte
and prints no line. With the length 1000 (hex) it prints the 4096 bytes. -/
theorem spi_upload_round_trip_witness :
    ((usb_serial_readhex (round_trip_example [56, 48, 48, 48] 32768)).1 = some 0
      ∧ (usb_serial_readhex
          (usb_serial_readhex (round_trip_example [56, 48, 48, 48] 32768)).2).1 = some 32768
      ∧ (usb_serial_readhex (spi_upload flash_device 2 Globals.init
          (round_trip_example [56, 48, 48, 48] 32768)).2.2).1 = some 0
      ∧ (usb_serial_readhex (usb_serial_readhex (spi_upload flash_device 2 Globals.init
          (round_trip_example [56, 48, 48, 48] 32768)).2.2).2).1 = some 32768
      ∧ flash_device.read_back (spi_upload flash_device 2 Globals.init
          (round_trip_example [56, 48, 48, 48] 32768)).2.2.dev 0 32768
          = List.replicate 32768 0x5A
      ∧ (spi_read_size flash_device (spi_upload flash_device 2 Globals.init
          (round_trip_example [56, 48, 48, 48] 32768)).2.2).2.spi
          = (spi_upload flash_device 2 Globals.init
              (round_trip_example [56, 48, 48, 48] 32768)).2.2.spi
            ++ [SpiEvent.cs true, SpiEvent.byte 0x03, SpiEvent.byte 0, SpiEvent.byte 0,
                SpiEvent.byte 0]
            ++ [] ++ [SpiEvent.cs false]
      ∧ (spi_read_size flash_device (spi_upload flash_device 2 Globals.init
          (round_trip_example [56, 48, 48, 48] 32768)).2.2).2.tx
          = (usb_serial_readhex (usb_serial_readhex (spi_upload flash_device 2 Globals.init
              (round_trip_example [56, 48, 48, 48] 32768)).2.2).2).2.tx ++ [])
    ∧ ((usb_serial_readhex (round_trip_example [49, 48, 48, 48] 4096)).1 = some 0
      ∧ (usb_serial_readhex
          (usb_serial_readhex (round_trip_example [49, 48, 48, 48] 4096)).2).1 = some 4096
      ∧ (spi_read_size flash_device (spi_upload flash_device 2 Globals.init
          (round_trip_example [49, 48, 48, 48] 4096)).2.2).2.tx
          = (usb_serial_readhex (usb_serial_readhex (spi_upload flash_device 2 Globals.init
              (round_trip_example [49, 48, 48, 48] 4096)).2.2).2).2.tx
            ++ hex_rows ((List.replicate 4096 0x5A).take (read_size_count 4096))
      ∧ (List.replicate 4096 0x5A).take (read_size_count 4096) = List.replicate 4096 0x5A) :=
  have a := round_trip_example_entries [56, 48, 48, 48] 32768 (by decide) (by decide)
    (by decide) (by decide)
  have b := round_trip_example_entries [49, 48, 48, 48] 4096 (by decide) (by decide)
    (by decide) (by decide)
  have ta := spi_upload_round_trip 2 Globals.init (round_trip_example [56, 48, 48, 48] 32768)
    0 32768 (List.replicate 32768 0x5A) ([48] ++ 13 :: ([56, 48, 48, 48] ++ 13 :: []))
    (Nat.le_refl 2) a.1 a.2.1 (by decide) (by decide) (by decide) a.2.2.1
    (List.length_replicate 32768 0x5A)
    (fun x hx => by rw [List.eq_of_mem_replicate hx]; decide)
    (List.length_replicate 128 0) (fun _ _ _ => rfl) a.2.2.2.1 a.2.2.2.2
  have tb := spi_upload_round_trip 2 Globals.init (round_trip_example [49, 48, 48, 48] 4096)
    0 4096 (List.replicate 4096 0x5A) ([48] ++ 13 :: ([49, 48, 48, 48] ++ 13 :: []))
    (Nat.le_refl 2) b.1 b.2.1 (by decide) (by decide) (by decide) b.2.2.1
    (List.length_replicate 4096 0x5A)
    (fun x hx => by rw [List.eq_of_mem_replicate hx]; decide)
    (List.length_replicate 128 0) (fun _ _ _ => rfl) b.2.2.2.1 b.2.2.2.2
  ⟨⟨a.1, a.2.1, a.2.2.2.1, a.2.2.2.2, ta.2.2.1, ta.2.2.2.2.2.1, ta.2.2.2.2.2.2.1⟩,
   ⟨b.1, b.2.1, tb.2.2.2.2.2.2.1, tb.2.2.2.2.2.2.2.1 (by decide)⟩⟩

/-! ## The password eraser on the simulated flash device -/

theorem erase_matches_from_congr (img img1 : List Nat) (start n : Nat)
    (h : ∀ i, img.getD i 0 = img1.getD i 0) :
    erase_matches_from img start n = erase_matches_from img1 start n := by
  unfold erase_matches_from
  simp only [h]

/-- What the flash model shifts out after the read command at address 0, seen through
`getD`. -/
theorem flash_image_getD (s : FlashState) (n : Nat) (hn : n ≤ 2 ^ 24) (i : Nat) :
    (flash_device.run (flash_device.after_read_cmd s) (List.replicate n 0)).1.getD i 0
      = if i < n then s.mem i % 256 else 0 := by
  have h : (flash_device.run (flash_device.after_read_cmd s) (List.replicate n 0)).1
      = (List.range n).map (fun i => s.mem (0 + i) % 256) :=
    flash_read_back s 0 n (by omega)
  rw [h, List.getD_eq_getElem?_getD, List.getElem?_map]
  by_cases hi : i < n
  · rw [List.getElem?_range hi, if_pos hi]
    simp only [Option.map_some', Option.getD_some, Nat.zero_add]
  · rw [List.getElem?_eq_none (by rw [List.length_range]; omega), if_neg hi]
    rfl

set_option maxRecDepth 8000 in
theorem pwd_example_image (i : Nat) :
    (flash_device.run (flash_device.after_read_cmd pwd_example.dev)
        (List.replicate 8388608 0)).1.getD i 0
      = ([0xFF, 0x23, 0x80, 0x4E, 0xFF, 0x23, 0x80, 0x4E] ++ List.replicate 248 0 ++ []).getD
          i 0 := by
  rw [flash_image_getD _ _ (by decide), List.append_nil]
  have hmem : pwd_example.dev.mem i
      = ([0xFF, 0x23, 0x80, 0x4E, 0xFF, 0x23, 0x80, 0x4E] ++ List.replicate 248 0).getD i 0 :=
    rfl
  rw [hmem]
  have hA : ([0xFF, 0x23, 0x80, 0x4E, 0xFF, 0x23, 0x80, 0x4E]
      ++ List.replicate 248 0).length = 256 := by
    rw [List.length_append, List.length_replicate]
    rfl
  by_cases h256 : i < 256
  · rw [if_pos (by omega)]
    have hall : ∀ x ∈ [0xFF, 0x23, 0x80, 0x4E, 0xFF, 0x23, 0x80, 0x4E] ++ List.replicate 248 0,
        x < 256 := by
      intro x hx
      rcases List.mem_append.mp hx with hx | hx
      · revert x
        decide
      · rw [List.eq_of_mem_replicate hx]
        decide
    rw [List.getD_eq_getElem?_getD, List.getElem?_eq_getElem (by rw [hA]; exact h256),
      Option.getD_some]
    exact Nat.mod_eq_of_lt (hall _ (List.getElem_mem _))
  · have h0 : ([0xFF, 0x23, 0x80, 0x4E, 0xFF, 0x23, 0x80, 0x4E]
        ++ List.replicate 248 0).getD i 0 = 0 := by
      rw [List.getD_eq_getElem?_getD, List.getElem?_eq_none (by rw [hA]; omega)]
      rfl
    rw [h0]
    split <;> rfl

set_option maxRecDepth 8000 in
/-- The signature matches in the image of `pwd_example`: addresses 0 and 4, both in the
sector at 0. -/
theorem pwd_example_matches :
    erase_matches (flash_device.run (flash_device.after_read_cmd pwd_example.dev)
        (List.replicate 8388608 0)).1 = [0, 4] := by
  unfold erase_matches
  rw [erase_matches_from_congr _ _ 0 32768 pwd_example_image,
    show (32768 : Nat) = 32767 + 1 from rfl,
    erase_matches_from_append _ [] 0 32767
      (by rw [List.length_append, List.length_replicate]; rfl),
    erase_matches_from_none [] _ _ (by intro i; simp)]
  decide


theorem spi_erase_pwd_records_witness :
    (erase_matches (flash_device.run (flash_device.after_read_cmd pwd_example.dev)
        (List.replicate 8388608 0)).1).length ≤ 4
    ∧ flash_device.ready_within 2
    ∧ (spi_erase_pwd flash_device 2 pwd_example).2.tx
        = pwd_example.tx ++ (cstr "Locating passwords...\r\n").map (fun c => [c])
          ++ (cstr "Erasing passwords...\r\n").map (fun c => [c])
          ++ (((erase_matches (flash_device.run (flash_device.after_read_cmd pwd_example.dev)
                (List.replicate 8388608 0)).1).map sector_of).map clear_report).flatten
          ++ (cstr "All done!\r\n").map (fun c => [c]) :=
  ⟨by rw [pwd_example_matches]; decide, flash_ready,
   (spi_erase_pwd_records flash_device 2 pwd_example
      (by rw [pwd_example_matches]; decide) flash_ready).2.1⟩

/-- C14 (counterexample): a flash chip whose image holds the signature at addresses 0 and
4, both in the 4 KiB sector at address 0, and nowhere else. `spi_erase_pwd` returns,
having printed the line for the sector at 0 twice and sent the sector-erase command for
address 0 twice, each time after a write-enable: the sector is in the list twice. -/
theorem spi_erase_pwd_dedup_counterexample :
    erase_matches (flash_device.run (flash_device.after_read_cmd pwd_example.dev)
        (List.replicate 8388608 0)).1 = [0, 4]
    ∧ sector_of 0 = 0 ∧ sector_of 4 = 0
    ∧ (spi_erase_pwd flash_device 2 pwd_example).1 = some ()
    ∧ (spi_erase_pwd flash_device 2 pwd_example).2.tx
        = (cstr "Locating passwords...\r\n").map (fun c => [c])
          ++ (cstr "Erasing passwords...\r\n").map (fun c => [c])
          ++ clear_report 0 ++ clear_report 0
          ++ (cstr "All done!\r\n").map (fun c => [c])
    ∧ ∃ k1 k2, (spi_erase_pwd flash_device 2 pwd_example).2.spi
        = read_cmd_events ++ List.replicate 8388608 (SpiEvent.byte 0) ++ [SpiEvent.cs false]
          ++ (write_enable_events ++ erase_events 0
              ++ (List.replicate (k1 + 1) status_events).flatten)
          ++ (write_enable_events ++ erase_events 0
              ++ (List.replicate (k2 + 1) status_events).flatten) := by
  obtain ⟨ks, h1, _, h3, h4, h5⟩ := spi_erase_pwd_erases flash_device 2 pwd_example
    (by rw [pwd_example_matches]; decide) flash_ready
  rw [pwd_example_matches] at h1 h4 h5
  obtain ⟨k1, k2, rfl⟩ : ∃ k1 k2, ks = [k1, k2] := by
    match ks, h1 with
    | [a, b], _ => exact ⟨a, b, rfl⟩
  have hs : List.map sector_of [0, 4] = [0, 0] := by decide
  rw [hs] at h4 h5
  refine ⟨pwd_example_matches, by decide, by decide, h3, ?_, k1, k2, ?_⟩
  · rw [h4]
    show [] ++ _ ++ _ ++ _ ++ _ = _
    simp only [List.nil_append, List.map_cons, List.map_nil, List.flatten_cons,
      List.flatten_nil, List.append_nil, List.append_assoc]
  · rw [h5]
    show [] ++ _ ++ _ ++ _ ++ _ = _
    simp only [List.nil_append, List.zip_cons_cons, List.zip_nil_right, List.map_cons,
      List.map_nil, List.flatten_cons, List.flatten_nil, List.append_nil, List.append_assoc,
      clear_events]

/-! ## Facts about `spi_rdid` -/

theorem RdidBuf.put_foldl (vs : List Nat) : ∀ b : RdidBuf, b.off + vs.length ≤ 255 →
    (vs.foldl RdidBuf.put b).off = b.off + vs.length
    ∧ (vs.foldl RdidBuf.put b).stores = b.stores ++ List.range' b.off vs.length
    ∧ (b.off + vs.length ≤ b.mem.length →
        (vs.foldl RdidBuf.put b).mem
          = b.mem.take b.off ++ vs.map (fun v => v % 256) ++ b.mem.drop (b.off + vs.length)) := by
  induction vs with
  | nil => intro b _; simp
  | cons v vs ih =>
    intro b h
    simp only [List.length_cons] at h
    have e1 : (b.put v).off = b.off + 1 := by
      simp only [RdidBuf.put]; omega
    have e2 : (b.put v).stores = b.stores ++ [b.off] := rfl
    have e3 : (b.put v).mem = b.mem.set b.off (v % 256) := rfl
    obtain ⟨h1, h2, h3⟩ := ih (b.put v) (by rw [e1]; omega)
    rw [List.foldl_cons, h1, h2, e1, e2]
    refine ⟨by simp only [List.length_cons]; omega, by simp [List.range'], ?_⟩
    intro hm
    simp only [List.length_cons] at hm
    rw [h3 (by rw [e1, e3, List.length_set]; omega), e1, e3]
    have hlt : b.off < b.mem.length := by omega
    have hl : (b.mem.take b.off ++ [v % 256]).length = b.off + 1 := by
      rw [List.length_append, List.length_take]; simp; omega
    have hs : b.mem.set b.off (v % 256)
        = (b.mem.take b.off ++ [v % 256]) ++ b.mem.drop (b.off + 1) := by
      rw [List.set_eq_take_append_cons_drop, if_pos hlt]; simp
    rw [List.drop_set_of_lt _ _ (by omega)]
    rw [hs, List.take_left' hl]
    simp [Nat.add_assoc, Nat.add_comm 1]

theorem spi_rdid_fill_eq (b1 b2 b3 : Nat) (uniqueid past : List Nat) :
    spi_rdid_fill b1 b2 b3 uniqueid past
      = (rdid_line b1 b2 b3 uniqueid).foldl RdidBuf.put
          { mem := List.replicate 32 0 ++ past, off := 0, stores := [] } := by
  have r1 : List.range 2 = [0, 1] := rfl
  have r2 : List.range' 2 14 = [2, 3, 4, 5, 6, 7, 8, 9, 10, 11, 12, 13, 14, 15] := rfl
  unfold spi_rdid_fill rdid_line
  rw [r1, r2]
  by_cases hm : b1 = 0x20 ∧ b2 = 0xBA
  · simp only [if_pos hm]; rfl
  · simp only [if_neg hm]; rfl

theorem rdid_line_length (b1 b2 b3 : Nat) (uniqueid : List Nat) :
    (rdid_line b1 b2 b3 uniqueid).length = if b1 = 0x20 ∧ b2 = 0xBA then 42 else 8 := by
  unfold rdid_line
  by_cases hm : b1 = 0x20 ∧ b2 = 0xBA
  · simp only [if_pos hm]; rfl
  · simp only [if_neg hm]; rfl

/-- The read loop of `spi_runiqueid`, run for `n` of its 16 turns. -/
theorem spi_runiqueid_take {σ : Type} (D : Device σ) (data : List Nat) (w : World σ)
    (n : Nat) (h : n ≤ data.length) :
    (List.range n).foldl
        (fun s i => let r := spi_send D 0x1 s.2; (s.1.set i r.1, r.2)) (data, w)
      = ((D.run w.dev (List.replicate n 1)).1 ++ data.drop n,
          { w with dev := (D.run w.dev (List.replicate n 1)).2
                   spi := w.spi ++ List.replicate n (SpiEvent.byte 1) }) := by
  induction n with
  | zero => simp [Device.run]
  | succ n ih =>
    have hlen := Device.run_length D (List.replicate n 1) w.dev
    rw [List.range_succ, List.foldl_append, ih (by omega), List.replicate_succ',
      Device.run_append, List.replicate_succ' n (SpiEvent.byte 1)]
    simp only [List.foldl_cons, List.foldl_nil, spi_send, Device.run]
    have hd : data.drop n = data[n] :: data.drop (n + 1) :=
      List.drop_eq_getElem_cons (by omega)
    rw [List.set_append_right _ _ (by simp [hlen])]
    simp only [hlen, List.length_replicate, Nat.sub_self, hd, List.set_cons_zero]
    simp

theorem spi_runiqueid_eq {σ : Type} (D : Device σ) (w : World σ) :
    spi_runiqueid D w
      = ((D.run w.dev (List.replicate 17 1)).1.drop 1,
          { w with dev := (D.run w.dev (List.replicate 17 1)).2
                   spi := w.spi ++ List.replicate 17 (SpiEvent.byte 1) }) := by
  unfold spi_runiqueid
  rw [spi_runiqueid_take D _ _ 16 (by simp)]
  have e : List.replicate 17 1 = [1] ++ List.replicate 16 1 := rfl
  have e2 : List.replicate 17 (SpiEvent.byte 1)
      = [SpiEvent.byte 1] ++ List.replicate 16 (SpiEvent.byte 1) := rfl
  rw [e, e2, Device.run_append]
  simp [spi_send, Device.run]

theorem spi_runiqueid_length {σ : Type} (D : Device σ) (w : World σ) :
    (spi_runiqueid D w).1.length = 16 := by
  rw [spi_runiqueid_eq]
  simp [Device.run_length]

theorem Device.uniqueid_length {σ : Type} (D : Device σ) (s : σ) :
    (D.uniqueid s).length = 16 := by
  simp [Device.uniqueid, Device.run_length]

theorem hexdigit_lt (x : Nat) : hexdigit x < 256 := by
  have h : (x % 256) &&& 0xF ≤ 0xF := Nat.and_le_right
  simp only [hexdigit]
  split <;> omega

theorem rdid_line_lt (b1 b2 b3 : Nat) (uniqueid : List Nat) :
    ∀ v ∈ rdid_line b1 b2 b3 uniqueid, v < 256 := by
  intro v hv
  have hh := hexdigit_lt
  have key : ∀ l : List Nat,
      ∀ v ∈ (l.map (fun i => [hexdigit (uniqueid.getD i 0 >>> 4),
        hexdigit (uniqueid.getD i 0 >>> 4)])).flatten, v < 256 := by
    intro l v hv
    simp only [List.mem_flatten, List.mem_map] at hv
    obtain ⟨t, ⟨u, _, rfl⟩, h⟩ := hv
    simp only [List.mem_cons, List.mem_singleton, List.not_mem_nil, or_false, or_self] at h
    rw [h]; exact hh _
  unfold rdid_line at hv
  rw [List.mem_append, List.mem_append] at hv
  rcases hv with (h | h) | h
  · simp only [List.mem_cons, List.mem_singleton, List.not_mem_nil, or_false] at h
    rcases h with h | h | h | h | h | h <;> rw [h] <;> exact hh _
  · split at h
    · rw [List.mem_append, List.mem_append, List.mem_append, List.mem_singleton] at h
      rcases h with ((h | h) | h) | h
      · omega
      · exact key _ v h
      · omega
      · exact key _ v h
    · simp at h
  · simp only [List.mem_cons, List.mem_singleton, List.not_mem_nil, or_false] at h
    rcases h with h | h <;> omega

/-- What `spi_rdid` leaves in `buf` and hands to `usb_serial_write`, when the memory after
the 32 bytes of `buf` can take what is stored past them. -/
theorem spi_rdid_fill_line (b1 b2 b3 : Nat) (uniqueid past : List Nat)
    (hp : 10 ≤ past.length) :
    (spi_rdid_fill b1 b2 b3 uniqueid past).mem.take (spi_rdid_fill b1 b2 b3 uniqueid past).off
      = rdid_line b1 b2 b3 uniqueid := by
  have hl := rdid_line_length b1 b2 b3 uniqueid
  have hl2 : (rdid_line b1 b2 b3 uniqueid).length ≤ 42 := by rw [hl]; split <;> omega
  obtain ⟨h1, _, h3⟩ := RdidBuf.put_foldl (rdid_line b1 b2 b3 uniqueid)
    { mem := List.replicate 32 0 ++ past, off := 0, stores := [] } (by simp only; omega)
  rw [spi_rdid_fill_eq b1 b2 b3 uniqueid past, h1, h3 (by simp; omega)]
  have hm : (rdid_line b1 b2 b3 uniqueid).map (fun v => v % 256) = rdid_line b1 b2 b3 uniqueid := by
    conv => rhs; rw [← List.map_id (rdid_line b1 b2 b3 uniqueid)]
    apply List.map_congr_left
    intro v hv
    exact Nat.mod_eq_of_lt (rdid_line_lt b1 b2 b3 uniqueid v hv)
  rw [hm]
  simp

theorem spi_rdid_fill_stores (b1 b2 b3 : Nat) (uniqueid past : List Nat) :
    (spi_rdid_fill b1 b2 b3 uniqueid past).stores
        = List.range (if b1 = 0x20 ∧ b2 = 0xBA then 42 else 8)
    ∧ (spi_rdid_fill b1 b2 b3 uniqueid past).off = if b1 = 0x20 ∧ b2 = 0xBA then 42 else 8 := by
  have hl := rdid_line_length b1 b2 b3 uniqueid
  have hl2 : (rdid_line b1 b2 b3 uniqueid).length ≤ 42 := by rw [hl]; split <;> omega
  obtain ⟨h1, h2, _⟩ := RdidBuf.put_foldl (rdid_line b1 b2 b3 uniqueid)
    { mem := List.replicate 32 0 ++ past, off := 0, stores := [] } (by simp only; omega)
  rw [spi_rdid_fill_eq b1 b2 b3 uniqueid past, h1, h2, hl]
  simp [List.range_eq_range']

theorem Device.rdid_eq {σ : Type} (D : Device σ) (w : World σ) :
    (spi_send D 0x1 (spi_send D 0x9F (spi_cs D 1 (spi_power 1 w))).2).1 = (D.rdid w.dev).1
    ∧ (spi_send D 0x2 (spi_send D 0x1 (spi_send D 0x9F (spi_cs D 1 (spi_power 1 w))).2).2).1
        = (D.rdid w.dev).2.1
    ∧ (spi_send D 0x3 (spi_send D 0x2 (spi_send D 0x1
          (spi_send D 0x9F (spi_cs D 1 (spi_power 1 w))).2).2).2).1 = (D.rdid w.dev).2.2
    ∧ (spi_send D 0x3 (spi_send D 0x2 (spi_send D 0x1
          (spi_send D 0x9F (spi_cs D 1 (spi_power 1 w))).2).2).2).2
        = { w with regs := (spi_cs D 1 (spi_power 1 w)).regs
                   dev := (D.run (D.select w.dev true) [0x9F, 1, 2, 3]).2
                   spi := w.spi ++ [SpiEvent.cs true, SpiEvent.byte 0x9F, SpiEvent.byte 1,
                     SpiEvent.byte 2, SpiEvent.byte 3] } := by
  simp [spi_send, spi_cs, spi_power, Device.rdid, Device.run]

/-- The serial output and the bus traffic of `spi_rdid`. -/
theorem spi_rdid_eq {σ : Type} (D : Device σ) (past : List Nat) (w : World σ) :
    (spi_rdid D past w).tx
        = w.tx
          ++ ((spi_rdid_manufacturer (D.rdid w.dev).1).takeWhile (fun c => c ≠ 0)).map
              (fun c => [c % 256])
          ++ ((spi_rdid_chip (D.rdid w.dev).1 (D.rdid w.dev).2.1 (D.rdid w.dev).2.2).takeWhile
              (fun c => c ≠ 0)).map (fun c => [c % 256])
          ++ [(spi_rdid_fill (D.rdid w.dev).1 (D.rdid w.dev).2.1 (D.rdid w.dev).2.2
                (if (D.rdid w.dev).1 = 0x20 ∧ (D.rdid w.dev).2.1 = 0xBA then D.uniqueid w.dev
                  else []) past).mem.take
              (spi_rdid_fill (D.rdid w.dev).1 (D.rdid w.dev).2.1 (D.rdid w.dev).2.2
                (if (D.rdid w.dev).1 = 0x20 ∧ (D.rdid w.dev).2.1 = 0xBA then D.uniqueid w.dev
                  else []) past).off]
    ∧ (spi_rdid D past w).spi
        = w.spi ++ [SpiEvent.cs true, SpiEvent.byte 0x9F, SpiEvent.byte 1, SpiEvent.byte 2,
            SpiEvent.byte 3]
          ++ (if (D.rdid w.dev).1 = 0x20 ∧ (D.rdid w.dev).2.1 = 0xBA then
                List.replicate 17 (SpiEvent.byte 1) else [])
          ++ [SpiEvent.cs false]
    ∧ (spi_rdid D past w).rx = w.rx := by
  obtain ⟨e1, e2, e3, e4⟩ := Device.rdid_eq D w
  unfold spi_rdid
  simp only [e1, e2, e3, e4, send_str_eq, usb_serial_write]
  by_cases hm : (D.rdid w.dev).1 = 0x20 ∧ (D.rdid w.dev).2.1 = 0xBA
  · simp only [if_pos hm, spi_runiqueid_eq, Device.uniqueid]
    simp [spi_cs, spi_power]
  · simp only [if_neg hm]
    simp [spi_cs, spi_power]

/-- Two unique ids that differ in a low nibble only are printed by `spi_rdid` as the same
line. -/
theorem spi_rdid_same_output :
    (script_device (rdid_script 0x12)).uniqueid rdid_example.dev
        ≠ (script_device (rdid_script 0x1F)).uniqueid rdid_example.dev
    ∧ (spi_rdid (script_device (rdid_script 0x12)) (List.replicate 10 0) rdid_example).tx
        = (spi_rdid (script_device (rdid_script 0x1F)) (List.replicate 10 0) rdid_example).tx := by
  constructor
  · decide
  · rfl

/-- C24: `spi_rdid` stores into `buf` at the indices 0, 1, 2, ... in order. For an
identification answer with `b1 = 0x20` and `b2 = 0xBA` (the Micron case, in which the
unique id is appended) there are 42 stores, at the indices 0 to 41, of which 32 to 41 lie
past the end of `char buf[32]`, and the length handed to `usb_serial_write` is 42; for
every other answer there are 8 stores, at the indices 0 to 7, and the length is 8. The
last write of `spi_rdid` to the serial port is the one of that length from `buf`. -/
theorem spi_rdid_buf_overrun {σ : Type} (D : Device σ) (w : World σ) (b1 b2 b3 : Nat)
    (uniqueid past : List Nat) :
    (spi_rdid_fill b1 b2 b3 uniqueid past).stores
        = List.range (if b1 = 0x20 ∧ b2 = 0xBA then 42 else 8)
    ∧ (spi_rdid_fill b1 b2 b3 uniqueid past).off = (if b1 = 0x20 ∧ b2 = 0xBA then 42 else 8)
    ∧ (spi_rdid D past w).tx.getLast?
        = some ((spi_rdid_fill (D.rdid w.dev).1 (D.rdid w.dev).2.1 (D.rdid w.dev).2.2
                (if (D.rdid w.dev).1 = 0x20 ∧ (D.rdid w.dev).2.1 = 0xBA then D.uniqueid w.dev
                  else []) past).mem.take
              (spi_rdid_fill (D.rdid w.dev).1 (D.rdid w.dev).2.1 (D.rdid w.dev).2.2
                (if (D.rdid w.dev).1 = 0x20 ∧ (D.rdid w.dev).2.1 = 0xBA then D.uniqueid w.dev
                  else []) past).off) := by
  refine ⟨(spi_rdid_fill_stores b1 b2 b3 uniqueid past).1,
    (spi_rdid_fill_stores b1 b2 b3 uniqueid past).2, ?_⟩
  rw [(spi_rdid_eq D past w).1, List.getLast?_append]
  simp

/-- C25: when the device answers the identification command with `b1 = 0x20` and
`b2 = 0xBA`, the line that `spi_rdid` writes after the two names is `20BA`, the two digits
of `b3`, `-`, then for each of the 16 bytes read after the length byte the digit of its
high nibble twice (a `-` after the first two bytes), then CR LF. The low nibble of a
unique-id byte is not printed. (The memory after `buf` is taken to hold the ten bytes
that are stored past its end.) -/
theorem spi_rdid_unique_id_digits {σ : Type} (D : Device σ) (past : List Nat) (w : World σ)
    (h1 : (D.rdid w.dev).1 = 0x20) (h2 : (D.rdid w.dev).2.1 = 0xBA)
    (hp : 10 ≤ past.length) :
    (spi_rdid D past w).tx
      = w.tx ++ (cstr "Micron ").map (fun c => [c])
          ++ ((spi_rdid_chip 0x20 0xBA (D.rdid w.dev).2.2).takeWhile (fun c => c ≠ 0)).map
              (fun c => [c % 256])
          ++ [[50, 48, 66, 65, hexdigit ((D.rdid w.dev).2.2 >>> 4), hexdigit (D.rdid w.dev).2.2, 45]
              ++ ((List.range 2).map (fun i =>
                    [hexdigit ((D.uniqueid w.dev).getD i 0 >>> 4),
                      hexdigit ((D.uniqueid w.dev).getD i 0 >>> 4)])).flatten
              ++ [45]
              ++ ((List.range' 2 14).map (fun i =>
                    [hexdigit ((D.uniqueid w.dev).getD i 0 >>> 4),
                      hexdigit ((D.uniqueid w.dev).getD i 0 >>> 4)])).flatten
              ++ [13, 10]] := by
  rw [(spi_rdid_eq D past w).1, h1, h2, if_pos ⟨rfl, rfl⟩, spi_rdid_fill_line _ _ _ _ _ hp]
  have e1 : ((spi_rdid_manufacturer 32).takeWhile (fun c => c ≠ 0)).map (fun c => [c % 256])
      = (cstr "Micron ").map (fun c => [c]) := by decide
  have e2 : ∀ (b3 : Nat) (u : List Nat), rdid_line 32 186 b3 u
      = [50, 48, 66, 65, hexdigit (b3 >>> 4), hexdigit b3, 45]
          ++ ((List.range 2).map (fun i =>
                [hexdigit (u.getD i 0 >>> 4), hexdigit (u.getD i 0 >>> 4)])).flatten
          ++ [45]
          ++ ((List.range' 2 14).map (fun i =>
                [hexdigit (u.getD i 0 >>> 4), hexdigit (u.getD i 0 >>> 4)])).flatten
          ++ [13, 10] := by
    intro b3 u
    unfold rdid_line
    rw [if_pos ⟨rfl, rfl⟩]
    have a1 : hexdigit (32 >>> 4) = 50 := by decide
    have a2 : hexdigit 32 = 48 := by decide
    have a3 : hexdigit (186 >>> 4) = 66 := by decide
    have a4 : hexdigit 186 = 65 := by decide
    rw [a1, a2, a3, a4]
    simp only [List.append_assoc, List.cons_append, List.nil_append]
  rw [e1, e2]

theorem spi_rdid_unique_id_digits_witness :
    ((script_device (rdid_script 0x12)).rdid rdid_example.dev).1 = 0x20
    ∧ ((script_device (rdid_script 0x12)).rdid rdid_example.dev).2.1 = 0xBA
    ∧ (script_device (rdid_script 0x12)).uniqueid rdid_example.dev
        = [0x12, 0x34, 0x56, 0x78, 0x9A, 0xBC, 0xDE, 0xF0, 0x11, 0x22, 0x33, 0x44, 0x55, 0x66,
            0x77, 0x88]
    ∧ (spi_rdid (script_device (rdid_script 0x12)) (List.replicate 10 0) rdid_example).tx.getLast?
        = some (cstr "20BA17-1133-557799BBDDFF1122334455667788\x0d\x0a") := by
  refine ⟨by decide, by decide, by decide, ?_⟩
  rw [spi_rdid_unique_id_digits (script_device (rdid_script 0x12)) (List.replicate 10 0)
    rdid_example (by decide) (by decide) (by decide)]
  rfl

/-! ## Facts about the stores of `spi_erase_pwd` -/

theorem range'_glue (a b c : Nat) (h1 : a ≤ b) (h2 : b ≤ c) :
    List.range' a (b - a) ++ List.range' b (c - b) = List.range' a (c - a) := by
  have h := List.range'_append_1 a (b - a) (c - b)
  rw [show a + (b - a) = b by omega, show c - b + (b - a) = c - a by omega] at h
  exact h

/-- A loop over a state `(go, pwd_addr, pwd_count)` and the same loop with a list of
store indices carried along: if each turn of the second does what the turn of the first
does and adds the indices from the old count up to the new one, so do the loops. -/
theorem foldl_stores {ι : Type} (f : Bool × List Nat × Nat → ι → Bool × List Nat × Nat)
    (g : (Bool × List Nat × Nat) × List Nat → ι → (Bool × List Nat × Nat) × List Nat)
    (hstep : ∀ (s : Bool × List Nat × Nat) (log : List Nat) (i : ι), (s.1 = true → s.2.2 ≤ 4) →
      g (s, log) i = (f s i, log ++ List.range' s.2.2 ((f s i).2.2 - s.2.2))
      ∧ s.2.2 ≤ (f s i).2.2
      ∧ ((f s i).1 = true → (f s i).2.2 ≤ 4)
      ∧ (s.1 = true → (f s i).1 = false → (f s i).2.2 = 5)
      ∧ (s.1 = false → f s i = s))
    (l : List ι) :
    ∀ (s : Bool × List Nat × Nat) (log : List Nat), (s.1 = true → s.2.2 ≤ 4) →
      l.foldl g (s, log) = (l.foldl f s, log ++ List.range' s.2.2 ((l.foldl f s).2.2 - s.2.2))
      ∧ s.2.2 ≤ (l.foldl f s).2.2
      ∧ ((l.foldl f s).1 = true → (l.foldl f s).2.2 ≤ 4)
      ∧ (s.1 = true → (l.foldl f s).1 = false → (l.foldl f s).2.2 = 5)
      ∧ (s.1 = false → l.foldl f s = s) := by
  induction l with
  | nil =>
    intro s log hs
    refine ⟨by simp, Nat.le_refl _, hs, ?_, fun _ => rfl⟩
    intro h1 h2
    simp only [List.foldl_nil] at h2
    rw [h1] at h2
    cases h2
  | cons i l ih =>
    intro s log hs
    obtain ⟨a1, a2, a3, a4, a5⟩ := hstep s log i hs
    obtain ⟨b1, b2, b3, b4, b5⟩ := ih (f s i) (log ++ List.range' s.2.2 ((f s i).2.2 - s.2.2)) a3
    simp only [List.foldl_cons]
    rw [a1, b1, List.append_assoc, range'_glue _ _ _ a2 b2]
    refine ⟨rfl, Nat.le_trans a2 b2, b3, ?_, ?_⟩
    · intro h1 h2
      cases hf : (f s i).1 with
      | true => exact b4 hf h2
      | false =>
        rw [b5 hf]
        exact a4 h1 hf
    · intro h1
      have hb := b5 (by rw [a5 h1]; exact h1)
      rw [a5 h1] at hb
      rw [a5 h1]
      exact hb

/-- One window: the compare loop of `spi_erase_pwd` with the store indices carried along
computes what `spi_erase_pwd_scan` computes, and adds the indices from the count it starts
with up to the count it ends with. The count ends at 5 exactly when the function is
stopped. -/
theorem spi_erase_pwd_scan_stores_eq (data : List Nat) (start_addr : Nat)
    (s : Bool × List Nat × Nat) (log : List Nat) (hs : s.1 = true → s.2.2 ≤ 4) :
    spi_erase_pwd_scan_stores data start_addr (s, log)
      = (spi_erase_pwd_scan data start_addr s,
          log ++ List.range' s.2.2 ((spi_erase_pwd_scan data start_addr s).2.2 - s.2.2))
    ∧ s.2.2 ≤ (spi_erase_pwd_scan data start_addr s).2.2
    ∧ ((spi_erase_pwd_scan data start_addr s).1 = true →
        (spi_erase_pwd_scan data start_addr s).2.2 ≤ 4)
    ∧ (s.1 = true → (spi_erase_pwd_scan data start_addr s).1 = false →
        (spi_erase_pwd_scan data start_addr s).2.2 = 5)
    ∧ (s.1 = false → spi_erase_pwd_scan data start_addr s = s) := by
  unfold spi_erase_pwd_scan_stores spi_erase_pwd_scan
  refine foldl_stores _ _ ?_ (List.range 255) s log hs
  intro s lg i hs
  obtain ⟨run, pa, pc⟩ := s
  cases run with
  | false => simp
  | true =>
    have hpc : pc ≤ 4 := hs rfl
    have hmod : (pc + 1) % 256 = pc + 1 := Nat.mod_eq_of_lt (by omega)
    have hM : MAX_PWDS = 4 := rfl
    by_cases hA : data.getD i 0 = 0xFF ∧ data.getD (i + 1) 0 = 0x23
    · by_cases hB : i < 253 ∧ data.getD (i + 2) 0 = 0x80 ∧ data.getD (i + 3) 0 = 0x4E
      · simp only [if_pos hA, if_pos hB, if_true, hmod, hM]
        by_cases hgt : pc + 1 > 4
        · simp only [if_pos hgt]
          and_intros
          all_goals first | omega | simp [List.range']
        · simp only [if_neg hgt]
          and_intros
          all_goals first | omega | simp [List.range']
      · simp only [if_pos hA, if_neg hB, if_true]
        and_intros
        all_goals first | omega | simp [List.range']
    · simp only [if_neg hA, if_true]
      and_intros
      all_goals first | omega | simp [List.range']

/-- The scan loop of `spi_erase_pwd` with the store indices carried along computes what
`spi_erase_pwd_loop` computes, and adds the indices from the count it starts with up to
the count it ends with; it is left by `return` with the count 5, and otherwise with a
count of at most 4. -/
theorem spi_erase_pwd_loop_stores_eq {σ : Type} (D : Device σ) (end_addr : Nat) :
    ∀ (fuel start_addr led_on led_count : Nat) (data pwd_addr : List Nat) (pwd_count : Nat)
      (w : World σ) (log : List Nat), pwd_count ≤ 4 →
    spi_erase_pwd_loop_stores D end_addr fuel start_addr led_on led_count data pwd_addr
        pwd_count w log
      = ((spi_erase_pwd_loop D end_addr fuel start_addr led_on led_count data pwd_addr
            pwd_count w).1,
         (spi_erase_pwd_loop D end_addr fuel start_addr led_on led_count data pwd_addr
            pwd_count w).2.1,
         (spi_erase_pwd_loop D end_addr fuel start_addr led_on led_count data pwd_addr
            pwd_count w).2.2.1,
         (spi_erase_pwd_loop D end_addr fuel start_addr led_on led_count data pwd_addr
            pwd_count w).2.2.2,
         log ++ List.range' pwd_count
          ((spi_erase_pwd_loop D end_addr fuel start_addr led_on led_count data pwd_addr
            pwd_count w).2.2.1 - pwd_count))
    ∧ pwd_count ≤ (spi_erase_pwd_loop D end_addr fuel start_addr led_on led_count data
        pwd_addr pwd_count w).2.2.1
    ∧ ((spi_erase_pwd_loop D end_addr fuel start_addr led_on led_count data pwd_addr
          pwd_count w).1 = LoopExit.ret →
        (spi_erase_pwd_loop D end_addr fuel start_addr led_on led_count data pwd_addr
          pwd_count w).2.2.1 = 5)
    ∧ ((spi_erase_pwd_loop D end_addr fuel start_addr led_on led_count data pwd_addr
          pwd_count w).1 ≠ LoopExit.ret →
        (spi_erase_pwd_loop D end_addr fuel start_addr led_on led_count data pwd_addr
          pwd_count w).2.2.1 ≤ 4) := by
  intro fuel
  induction fuel with
  | zero =>
    intro start_addr led_on led_count data pwd_addr pwd_count w log hpc
    rw [spi_erase_pwd_loop_stores, spi_erase_pwd_loop]
    refine ⟨by simp, Nat.le_refl _, ?_, fun _ => hpc⟩
    intro h
    cases h
  | succ fuel ih =>
    intro start_addr led_on led_count data pwd_addr pwd_count w log hpc
    obtain ⟨h1, h2, h3, h4, _⟩ := spi_erase_pwd_scan_stores_eq (spi_read_window D data w).1
      start_addr (true, pwd_addr, pwd_count) log (fun _ => hpc)
    rw [spi_erase_pwd_loop_stores, spi_erase_pwd_loop]
    dsimp only
    rw [h1]
    generalize spi_erase_pwd_scan (spi_read_window D data w).1 start_addr
      (true, pwd_addr, pwd_count) = sc at h1 h2 h3 h4 ⊢
    obtain ⟨run, pa2, pc2⟩ := sc
    dsimp only at h2 h3 h4 ⊢
    cases run with
    | false =>
      have h5 : pc2 = 5 := h4 rfl rfl
      rw [if_neg (by decide), if_neg (by decide)]
      exact ⟨rfl, h2, fun _ => h5, fun h => absurd rfl h⟩
    | true =>
      have hle : pc2 ≤ 4 := h3 rfl
      rw [if_pos rfl, if_pos rfl]
      by_cases hend : (start_addr + 256) % 2 ^ 32 ≥ end_addr
      · rw [if_pos hend, if_pos hend]
        refine ⟨rfl, h2, ?_, fun _ => hle⟩
        intro h
        cases h
      · rw [if_neg hend, if_neg hend]
        obtain ⟨i1, i2, i3, i4⟩ := ih ((start_addr + 256) % 2 ^ 32)
          (led_blink_slow led_on led_count (spi_read_window D data w).2.regs).1
          (led_blink_slow led_on led_count (spi_read_window D data w).2.regs).2.1
          (spi_read_window D data w).1 pa2 pc2
          { (spi_read_window D data w).2 with
            regs := (led_blink_slow led_on led_count (spi_read_window D data w).2.regs).2.2 }
          (log ++ List.range' pwd_count (pc2 - pwd_count)) hle
        rw [i1, List.append_assoc, range'_glue _ _ _ h2 i2]
        exact ⟨rfl, Nat.le_trans h2 i2, i3, i4⟩

/-- C23: the stores of `spi_erase_pwd` into `pwd_addr`, which is declared with
`MAX_PWDS` = 4 entries, are at the indices 0, 1, 2, ... in order, one per signature match
read, up to and including a fifth match: with `n` matches in the 8 MiB image the indices
stored to are those below `min n 5`. With four matches or fewer every index is below 4;
with five or more the function stores at index 4, one past the last entry, and then
returns. (The loops with the store indices carried along run as the loops of
`spi_erase_pwd`: see `spi_erase_pwd_loop_stores_eq`.) -/
theorem spi_erase_pwd_store_indices {σ : Type} (D : Device σ) (w : World σ) :
    spi_erase_pwd_stores D w
      = List.range (min (erase_matches
          (D.run (D.after_read_cmd w.dev) (List.replicate 8388608 0)).1).length 5)
    ∧ ((erase_matches (D.run (D.after_read_cmd w.dev) (List.replicate 8388608 0)).1).length ≤ 4
        → ∀ i ∈ spi_erase_pwd_stores D w, i < MAX_PWDS)
    ∧ (4 < (erase_matches (D.run (D.after_read_cmd w.dev) (List.replicate 8388608 0)).1).length
        → MAX_PWDS ∈ spi_erase_pwd_stores D w) := by
  have e1 : (8 <<< 20 : Nat) = 8388608 := by decide
  have e2 : (8388608 / 256 : Nat) = 32768 := by decide
  have e3 : ¬ MAX_PWDS > 255 := by decide
  have hM : MAX_PWDS = 4 := rfl
  have key : spi_erase_pwd_stores D w
      = List.range (min (erase_matches
          (D.run (D.after_read_cmd w.dev) (List.replicate 8388608 0)).1).length 5) := by
    unfold spi_erase_pwd_stores
    rw [if_neg e3, e1, e2]
    obtain ⟨i1, _, i3, _⟩ := spi_erase_pwd_loop_stores_eq D 8388608 32768 0 1 0
      (List.replicate 256 0) (List.replicate MAX_PWDS 0) 0 (spi_erase_pwd_start D w) []
      (Nat.zero_le 4)
    rw [i1]
    dsimp only
    rw [List.nil_append, Nat.sub_zero, List.range_eq_range']
    by_cases hle : (erase_matches
        (D.run (D.after_read_cmd w.dev) (List.replicate 8388608 0)).1).length ≤ 4
    · obtain ⟨regs1, h⟩ := (spi_erase_pwd_scan_all D w).1 hle
      rw [h, Nat.min_eq_left (by omega)]
    · obtain ⟨pa, pc, m, regs1, dev1, h⟩ := (spi_erase_pwd_scan_all D w).2 (by omega)
      rw [h] at i3 ⊢
      rw [Nat.min_eq_right (by omega)]
      exact congrArg (List.range' 0) (i3 rfl)
  refine ⟨key, ?_, ?_⟩
  · intro hle i hi
    rw [key, Nat.min_eq_left (by omega), List.mem_range] at hi
    omega
  · intro hgt
    rw [key, Nat.min_eq_right (by omega), List.mem_range, hM]
    omega

/-- The image that the flash model shifts out after the read command when its memory is
one 256-byte window `head` followed by zeros. -/
theorem flash_first_window (s : FlashState) (head : List Nat) (hlen : head.length = 256)
    (hall : ∀ x ∈ head, x < 256) (hmem : ∀ i, s.mem i = head.getD i 0) (i : Nat) :
    (flash_device.run (flash_device.after_read_cmd s) (List.replicate 8388608 0)).1.getD i 0
      = (head ++ []).getD i 0 := by
  rw [flash_image_getD _ _ (by decide), List.append_nil, hmem]
  by_cases h256 : i < 256
  · rw [if_pos (by omega)]
    rw [List.getD_eq_getElem?_getD, List.getElem?_eq_getElem (by rw [hlen]; exact h256),
      Option.getD_some]
    exact Nat.mod_eq_of_lt (hall _ (List.getElem_mem _))
  · have h0 : head.getD i 0 = 0 := by
      rw [List.getD_eq_getElem?_getD, List.getElem?_eq_none (by rw [hlen]; omega)]
      rfl
    rw [h0]
    split <;> rfl

set_option maxRecDepth 8000 in
/-- The signature matches in the image of `pwd_example5`: five, all in the sector at 0. -/
theorem pwd_example5_matches :
    erase_matches (flash_device.run (flash_device.after_read_cmd pwd_example5.dev)
        (List.replicate 8388608 0)).1 = [0, 4, 8, 12, 16] := by
  have hlen : ([0xFF, 0x23, 0x80, 0x4E, 0xFF, 0x23, 0x80, 0x4E, 0xFF, 0x23, 0x80, 0x4E,
      0xFF, 0x23, 0x80, 0x4E, 0xFF, 0x23, 0x80, 0x4E] ++ List.replicate 236 0).length = 256 := by
    rw [List.length_append, List.length_replicate]
    rfl
  have hall : ∀ x ∈ [0xFF, 0x23, 0x80, 0x4E, 0xFF, 0x23, 0x80, 0x4E, 0xFF, 0x23, 0x80, 0x4E,
      0xFF, 0x23, 0x80, 0x4E, 0xFF, 0x23, 0x80, 0x4E] ++ List.replicate 236 0, x < 256 := by
    intro x hx
    rcases List.mem_append.mp hx with hx | hx
    · revert x
      decide
    · rw [List.eq_of_mem_replicate hx]
      decide
  unfold erase_matches
  rw [erase_matches_from_congr _ _ 0 32768
      (flash_first_window pwd_example5.dev _ hlen hall (fun _ => rfl)),
    show (32768 : Nat) = 32767 + 1 from rfl,
    erase_matches_from_append _ [] 0 32767 hlen,
    erase_matches_from_none [] _ _ (by intro i; simp)]
  decide

theorem spi_erase_pwd_store_indices_witness :
    4 < (erase_matches (flash_device.run (flash_device.after_read_cmd pwd_example5.dev)
        (List.replicate 8388608 0)).1).length
    ∧ spi_erase_pwd_stores flash_device pwd_example5 = [0, 1, 2, 3, 4]
    ∧ MAX_PWDS ∈ spi_erase_pwd_stores flash_device pwd_example5 := by
  have h := spi_erase_pwd_store_indices flash_device pwd_example5
  rw [pwd_example5_matches] at h
  exact ⟨by rw [pwd_example5_matches]; decide, h.1, h.2.2 (by decide)⟩

/-! ## Facts about chip select -/

theorem cs_asserted_append (l m : List SpiEvent) :
    cs_asserted (l ++ m)
      = m.foldl
          (fun st e =>
            match e with
            | SpiEvent.cs b => b
            | SpiEvent.byte _ => st)
          (cs_asserted l) := by
  unfold cs_asserted
  rw [List.foldl_append]

theorem cs_asserted_concat (l : List SpiEvent) (b : Bool) :
    cs_asserted (l ++ [SpiEvent.cs b]) = b := by
  rw [cs_asserted_append]
  rfl

theorem cs_asserted_replicate (l : List SpiEvent) (n x : Nat) :
    cs_asserted (l ++ List.replicate n (SpiEvent.byte x)) = cs_asserted l := by
  rw [cs_asserted_append]
  induction n with
  | zero => rfl
  | succ n ih => rw [List.replicate_succ, List.foldl_cons]; exact ih

/-- A stretch of the log that ends with chip select released leaves it released. -/
theorem cs_asserted_released (l m : List SpiEvent) :
    cs_asserted (l ++ (m ++ [SpiEvent.cs false])) = false := by
  rw [← List.append_assoc]
  exact cs_asserted_concat _ false

theorem cs_asserted_status (l : List SpiEvent) (k : Nat) (h : cs_asserted l = false) :
    cs_asserted (l ++ (List.replicate k status_events).flatten) = false := by
  induction k with
  | zero => simpa using h
  | succ k ih =>
    rw [List.replicate_succ', List.flatten_append, ← List.append_assoc, cs_asserted_append]
    rfl

/-- `spi_read_size` when the length entered is above `INT32_MAX`: the function returns
after the read command, with chip select asserted. -/
theorem spi_read_size_early {σ : Type} (D : Device σ) (w : World σ) (addr len : Nat)
    (h1 : (usb_serial_readhex w).1 = some addr)
    (h2 : (usb_serial_readhex (usb_serial_readhex w).2).1 = some len)
    (h3 : len > INT32_MAX) :
    (spi_read_size D w).1 = some ()
    ∧ (spi_read_size D w).2.spi
        = w.spi ++ [SpiEvent.cs true, SpiEvent.byte 0x03, SpiEvent.byte ((addr >>> 16) % 256),
            SpiEvent.byte ((addr >>> 8) % 256), SpiEvent.byte (addr % 256)] := by
  have e1 : usb_serial_readhex w = (some addr, (usb_serial_readhex w).2) := by
    rw [← h1]
  have e2 : usb_serial_readhex (usb_serial_readhex w).2
      = (some len, (usb_serial_readhex (usb_serial_readhex w).2).2) := by
    rw [← h2]
  have s1 := (usb_serial_readhex_spi w).1
  have s2 := (usb_serial_readhex_spi (usb_serial_readhex w).2).1
  unfold spi_read_size
  rw [e1]
  dsimp only
  rw [e2]
  dsimp only
  rw [if_pos h3]
  refine ⟨rfl, ?_⟩
  simp [spi_send, spi_cs, spi_power, s1, s2]

/-- `spi_read_size` on its other path, and `spi_read`, release chip select. -/
theorem spi_read_size_released {σ : Type} (D : Device σ) (w : World σ) (addr len : Nat)
    (h1 : (usb_serial_readhex w).1 = some addr)
    (h2 : (usb_serial_readhex (usb_serial_readhex w).2).1 = some len)
    (h3 : len ≤ INT32_MAX) :
    (spi_read_size D w).1 = some () ∧ cs_asserted (spi_read_size D w).2.spi = false := by
  have e1 : usb_serial_readhex w = (some addr, (usb_serial_readhex w).2) := by
    rw [← h1]
  have e2 : usb_serial_readhex (usb_serial_readhex w).2
      = (some len, (usb_serial_readhex (usb_serial_readhex w).2).2) := by
    rw [← h2]
  unfold spi_read_size
  rw [e1]
  dsimp only
  rw [e2]
  dsimp only
  rw [if_neg (by omega)]
  refine ⟨rfl, ?_⟩
  simp only [spi_cs, spi_power]
  exact cs_asserted_concat _ false

theorem spi_read_released {σ : Type} (D : Device σ) (w : World σ) (addr : Nat)
    (h1 : (usb_serial_readhex w).1 = some addr) :
    (spi_read D w).1 = some () ∧ cs_asserted (spi_read D w).2.spi = false := by
  have e1 : usb_serial_readhex w = (some addr, (usb_serial_readhex w).2) := by
    rw [← h1]
  unfold spi_read
  rw [e1]
  refine ⟨rfl, ?_⟩
  simp only [spi_cs, spi_power, usb_serial_write]
  exact cs_asserted_concat _ false

/-- The loop of `spi_read_size` ends with `x` at most zero when it is given `x` turns. -/
theorem spi_read_size_loop_done {σ : Type} (D : Device σ) : ∀ (fuel : Nat) (x : Int)
    (data : List Nat) (w : World σ), x ≤ fuel → (spi_read_size_loop D fuel x data w).1 ≤ 0 := by
  intro fuel
  induction fuel with
  | zero =>
    intro x data w h
    simpa [spi_read_size_loop] using h
  | succ fuel ih =>
    intro x data w h
    rw [spi_read_size_loop]
    by_cases hx : x > 0
    · rw [if_pos hx]
      dsimp only
      apply ih
      split <;> push_cast <;> omega
    · rw [if_neg hx]
      dsimp only
      omega

/-- `prom_send` when the receiver acknowledges `n` frames and `xmodem_send` fails on the
next one: the function returns from inside its loop, after the read command and
`128 * (n + 1)` bytes read, without releasing chip select. -/
theorem prom_send_fail_spi {σ : Type} (D : Device σ) (g : Globals) (w : World σ) (n : Nat)
    (tail : List Int) (r : Int)
    (hd : g.xmodem_block.data.length = 128)
    (hrx : w.rx = List.replicate n 6 ++ tail)
    (hn : 128 * n < g.target_flash_size) (h32 : 128 * n < 2 ^ 32)
    (hr : (xmodem_send_outcome 1 tail).1 = some r) (hneg : r < 0) :
    (prom_send D g w).1 = some ()
    ∧ (prom_send D g w).2.2.spi
        = w.spi ++ [SpiEvent.cs true, SpiEvent.byte 3, SpiEvent.byte 0, SpiEvent.byte 0,
            SpiEvent.byte 0] ++ List.replicate (128 * (n + 1)) (SpiEvent.byte 0) := by
  obtain ⟨block2, w2, e, _, _, hspi⟩ := prom_send_loop_fail D g.target_flash_size tail r n
    ((prom_send_start D w).rx.length + 1) 0 1 0 0
    { g.xmodem_block with soh := 1, block_num := 0 } (prom_send_start D w) hd rfl rfl
    (by rw [prom_send_start_rx]; exact hrx)
    (by rw [prom_send_start_rx, hrx, List.length_append, List.length_replicate]; omega)
    (by omega) (by omega) hr hneg
  rw [prom_send_eq, e]
  refine ⟨rfl, ?_⟩
  show w2.spi = _
  rw [hspi, prom_send_start_spi]

/-- C22: chip select is not released on every return path. Three paths return with chip
select asserted: `spi_read_size` when the length entered is above `INT32_MAX` (the
`return` of line 887), `prom_send` when `xmodem_send` fails on a frame (the `return` of
line 1043), and `spi_erase_pwd` when the image holds more than four signature matches
(the `return` of line 671). In each case the function returns and the last chip-select
event of the SPI log is the assertion that preceded the read command. -/
theorem chip_select_left_asserted {σ : Type} (D : Device σ) :
    (∀ (w : World σ) (addr len : Nat),
      (usb_serial_readhex w).1 = some addr →
      (usb_serial_readhex (usb_serial_readhex w).2).1 = some len →
      len > INT32_MAX →
      (spi_read_size D w).1 = some () ∧ cs_asserted (spi_read_size D w).2.spi = true)
    ∧ (∀ (g : Globals) (w : World σ) (n : Nat) (tail : List Int) (r : Int),
      g.xmodem_block.data.length = 128 →
      w.rx = List.replicate n 6 ++ tail →
      128 * n < g.target_flash_size → 128 * n < 2 ^ 32 →
      (xmodem_send_outcome 1 tail).1 = some r → r < 0 →
      (prom_send D g w).1 = some () ∧ cs_asserted (prom_send D g w).2.2.spi = true)
    ∧ (∀ (polls : Nat) (w : World σ),
      4 < (erase_matches (D.run (D.after_read_cmd w.dev) (List.replicate 8388608 0)).1).length →
      (spi_erase_pwd D polls w).1 = some ()
        ∧ cs_asserted (spi_erase_pwd D polls w).2.spi = true) := by
  refine ⟨?_, ?_, ?_⟩
  · intro w addr len h1 h2 h3
    obtain ⟨a, b⟩ := spi_read_size_early D w addr len h1 h2 h3
    refine ⟨a, ?_⟩
    rw [b, cs_asserted_append]
    rfl
  · intro g w n tail r hd hrx hn h32 hr hneg
    obtain ⟨a, b⟩ := prom_send_fail_spi D g w n tail r hd hrx hn h32 hr hneg
    refine ⟨a, ?_⟩
    rw [b, cs_asserted_replicate, cs_asserted_append]
    rfl
  · intro polls w hgt
    obtain ⟨a, _, m, b⟩ := spi_erase_pwd_aborts D polls w hgt
    refine ⟨a, ?_⟩
    rw [b, cs_asserted_replicate, cs_asserted_append]
    rfl

theorem chip_select_left_asserted_witness :
    ((usb_serial_readhex (World.start [48, 13, 56, 48, 48, 48, 48, 48, 48, 48, 13])).1 = some 0
      ∧ (usb_serial_readhex
          (usb_serial_readhex (World.start [48, 13, 56, 48, 48, 48, 48, 48, 48, 48, 13])).2).1
          = some 0x80000000
      ∧ 0x80000000 > INT32_MAX
      ∧ (spi_read_size (const_device 0)
          (World.start [48, 13, 56, 48, 48, 48, 48, 48, 48, 48, 13])).1 = some ()
      ∧ cs_asserted (spi_read_size (const_device 0)
          (World.start [48, 13, 56, 48, 48, 48, 48, 48, 48, 48, 13])).2.spi = true)
    ∧ ((xmodem_send_outcome 1 [24]).1 = some (-1)
      ∧ (prom_send (const_device 0) Globals.init (World.start [24])).1 = some ()
      ∧ cs_asserted (prom_send (const_device 0) Globals.init (World.start [24])).2.2.spi = true)
    ∧ (4 < (erase_matches (flash_device.run (flash_device.after_read_cmd pwd_example5.dev)
          (List.replicate 8388608 0)).1).length
      ∧ (spi_erase_pwd flash_device 2 pwd_example5).1 = some ()
      ∧ cs_asserted (spi_erase_pwd flash_device 2 pwd_example5).2.spi = true) :=
  ⟨⟨rfl, rfl, by decide,
    (chip_select_left_asserted (const_device 0)).1
      (World.start [48, 13, 56, 48, 48, 48, 48, 48, 48, 48, 13]) 0 0x80000000 rfl rfl
      (by decide)⟩,
   ⟨rfl,
    (chip_select_left_asserted (const_device 0)).2.1 Globals.init (World.start [24]) 0 [24]
      (-1) rfl rfl (by decide) (by decide) rfl (by decide)⟩,
   ⟨by rw [pwd_example5_matches]; decide,
    (chip_select_left_asserted flash_device).2.2 2 pwd_example5
      (by rw [pwd_example5_matches]; decide)⟩⟩

/-! The operations that do release chip select on every path. -/

theorem spi_status_released {σ : Type} (D : Device σ) (w : World σ) :
    cs_asserted (spi_status D w).2.spi = false := by
  rw [(spi_status_eq D w).2.2.2.2, cs_asserted_append]
  rfl

theorem spi_write_enable_released {σ : Type} (D : Device σ) (w : World σ) :
    cs_asserted (spi_write_enable D w).spi = false := by
  rw [(spi_write_enable_eq D w).2.2, cs_asserted_append]
  rfl

/-- The busy-wait leaves chip select released when it finds it released. -/
theorem spi_wait_wip_released {σ : Type} (D : Device σ) (polls : Nat) (w : World σ)
    (r : Option Unit × World σ) (hr : spi_wait_wip D polls w = r)
    (h : cs_asserted w.spi = false) : cs_asserted r.2.spi = false := by
  obtain ⟨k, _, hk⟩ := spi_wait_wip_spi D polls w
  rw [← hr, hk]
  exact cs_asserted_status _ k h

theorem spi_erase_sector_released {σ : Type} (D : Device σ) (polls addr : Nat) (w : World σ) :
    cs_asserted (spi_erase_sector D polls addr w).2.spi = false := by
  obtain ⟨w1, e, _, _, _, hs⟩ := spi_erase_sector_eq D polls addr w
  rw [e]
  apply spi_wait_wip_released D polls w1 _ rfl
  rw [hs, cs_asserted_append]
  rfl

theorem spi_erase_block_released {σ : Type} (D : Device σ) (polls addr : Nat) (w : World σ) :
    cs_asserted (spi_erase_block D polls addr w).2.spi = false := by
  obtain ⟨w1, e, _, _, hs⟩ := spi_erase_block_eq D polls addr w
  rw [e]
  apply spi_wait_wip_released D polls w1 _ rfl
  rw [hs, cs_asserted_append]
  rfl

theorem spi_rdid_released {σ : Type} (D : Device σ) (past : List Nat) (w : World σ) :
    cs_asserted (spi_rdid D past w).spi = false := by
  rw [(spi_rdid_eq D past w).2.1]
  exact cs_asserted_concat _ false

theorem spi_dump_released {σ : Type} (D : Device σ) (w : World σ)
    (h : (spi_dump D w).1 = some ()) : cs_asserted (spi_dump D w).2.spi = false := by
  obtain ⟨r, hr⟩ : ∃ r, spi_dump_loop D 8388608 131072 0 (List.replicate 64 0)
      (spi_dump_start D w) = r := ⟨_, rfl⟩
  rw [spi_dump_eq D w r hr] at h ⊢
  rcases r with ⟨_ | _, w1⟩
  · cases h
  · simp only [spi_dump_finish, spi_power, spi_cs]
    exact cs_asserted_concat _ false

theorem spi_locate_pwd_none {σ : Type} (D : Device σ) (w w1 : World σ)
    (h : spi_locate_pwd_loop D 8388608 32768 0 1 0 (List.replicate 256 0)
      (spi_locate_pwd_start D w) = (none, w1)) :
    spi_locate_pwd D w = (none, w1) := by
  have e1 : (8 <<< 20 : Nat) = 8388608 := by decide
  have e2 : (8388608 / 256 : Nat) = 32768 := by decide
  unfold spi_locate_pwd
  simp only [e1, e2, h]

theorem spi_locate_pwd_released {σ : Type} (D : Device σ) (w : World σ)
    (h : (spi_locate_pwd D w).1 = some ()) : cs_asserted (spi_locate_pwd D w).2.spi = false := by
  obtain ⟨r, hl⟩ : ∃ r, spi_locate_pwd_loop D 8388608 32768 0 1 0 (List.replicate 256 0)
      (spi_locate_pwd_start D w) = r := ⟨_, rfl⟩
  rcases r with ⟨_ | _, w1⟩
  · rw [spi_locate_pwd_none D w w1 hl] at h
    cases h
  · rw [spi_locate_pwd_eq D w w1 hl, (spi_locate_pwd_finish D w1).2]
    exact cs_asserted_concat _ false

theorem cs_asserted_clear_events (l : List SpiEvent) (ps : List (Nat × Nat))
    (h : cs_asserted l = false) :
    cs_asserted (l ++ (ps.map (fun p => clear_events p.1 p.2)).flatten) = false := by
  induction ps generalizing l with
  | nil => simpa using h
  | cons p ps ih =>
    rw [List.map_cons, List.flatten_cons, ← List.append_assoc]
    apply ih
    unfold clear_events
    rw [← List.append_assoc]
    apply cs_asserted_status
    rw [cs_asserted_append]
    rfl

theorem spi_erase_pwd_released {σ : Type} (D : Device σ) (polls : Nat) (w : World σ)
    (hle : (erase_matches
      (D.run (D.after_read_cmd w.dev) (List.replicate 8388608 0)).1).length ≤ 4)
    (hr : D.ready_within polls) :
    (spi_erase_pwd D polls w).1 = some ()
    ∧ cs_asserted (spi_erase_pwd D polls w).2.spi = false := by
  obtain ⟨ks, _, _, h3, _, h5⟩ := spi_erase_pwd_erases D polls w hle hr
  refine ⟨h3, ?_⟩
  rw [h5]
  exact cs_asserted_clear_events _ _ (cs_asserted_concat _ false)

/-- The upload loop leaves chip select released when it finds it released. -/
theorem spi_upload_loop_released {σ : Type} (D : Device σ) (polls len : Nat) :
    ∀ (fuel offset addr led_on led_count : Nat) (g : Globals) (w : World σ),
      cs_asserted w.spi = false →
      cs_asserted (spi_upload_loop D polls len fuel offset addr led_on led_count g w).2.2.spi
        = false := by
  intro fuel
  induction fuel with
  | zero =>
    intro offset addr led_on led_count g w h
    rw [spi_upload_loop]
    exact h
  | succ fuel ih =>
    intro offset addr led_on led_count g w h
    rw [spi_upload_loop]
    by_cases ho : offset < len
    · rw [if_pos ho]
      dsimp only
      by_cases hc : (upload_read_chunk g.xmodem_block.data w.rx).1 = true
      · rw [if_pos hc]
        split
        · rename_i w2 heq
          exact spi_wait_wip_released D polls _ _ heq (cs_asserted_concat _ false)
        · rename_i u w2 heq
          apply ih
          exact spi_wait_wip_released D polls _ _ heq (cs_asserted_concat _ false)
      · rw [if_neg hc]
        exact h
    · rw [if_neg ho]
      exact h

theorem spi_upload_loop_released_of_eq {σ : Type} (D : Device σ) (polls len : Nat)
    (fuel offset addr led_on led_count : Nat) (g : Globals) (w : World σ)
    (r : Option Unit × Globals × World σ)
    (hr : spi_upload_loop D polls len fuel offset addr led_on led_count g w = r)
    (h : cs_asserted w.spi = false) : cs_asserted r.2.2.spi = false := by
  rw [← hr]
  exact spi_upload_loop_released D polls len fuel offset addr led_on led_count g w h

theorem spi_upload_released {σ : Type} (D : Device σ) (polls : Nat) (g : Globals)
    (w : World σ) (h : cs_asserted w.spi = false) :
    cs_asserted (spi_upload D polls g w).2.2.spi = false := by
  have s1 := (usb_serial_readhex_spi w).1
  have s2 := (usb_serial_readhex_spi (usb_serial_readhex w).2).1
  unfold spi_upload
  rcases h1 : usb_serial_readhex w with ⟨_ | addr, w1⟩
  · rw [h1] at s1
    dsimp only at s1 ⊢
    rw [s1]; exact h
  · rw [h1] at s1 s2
    dsimp only at s1 s2 ⊢
    rcases h2 : usb_serial_readhex w1 with ⟨_ | len, w2⟩
    · rw [h2] at s2
      dsimp only at s2 ⊢
      rw [s2, s1]; exact h
    · rw [h2] at s2
      dsimp only at s2 ⊢
      have hw2 : cs_asserted w2.spi = false := by rw [s2, s1]; exact h
      split
      · exact hw2
      · split
        · rename_i g3 w3 heq
          exact spi_upload_loop_released_of_eq D polls len _ _ _ _ _ _ _ _ heq hw2
        · rename_i u g3 w3 heq
          rw [(send_str_spi _ _).1]
          exact spi_upload_loop_released_of_eq D polls len _ _ _ _ _ _ _ _ heq hw2

/-! ## Facts about the page-program commands of the upload functions -/

theorem spi_commands_go_bytes (bs : List Nat) : ∀ (c : List Nat) (t : List SpiEvent),
    spi_commands_go (some c) (bs.map SpiEvent.byte ++ SpiEvent.cs false :: t)
      = (c ++ bs) :: spi_commands_go none t := by
  induction bs with
  | nil => intro c t; simp [spi_commands_go]
  | cons b bs ih =>
    intro c t
    rw [List.map_cons, List.cons_append, spi_commands_go, ih]
    simp

/-- One command, from chip select asserted to chip select released, in front of a log. -/
theorem spi_commands_go_command (bs : List Nat) (t : List SpiEvent) :
    spi_commands_go none (SpiEvent.cs true :: (bs.map SpiEvent.byte ++ SpiEvent.cs false :: t))
      = bs :: spi_commands_go none t := by
  rw [spi_commands_go, spi_commands_go_bytes]
  rfl

theorem page_programs_status (t : List SpiEvent) :
    page_programs (status_events ++ t) = page_programs t := by
  unfold page_programs status_events
  have h := spi_commands_go_command [0x05, 0x00] t
  simp only [List.map_cons, List.map_nil, List.cons_append, List.nil_append] at h ⊢
  rw [h]
  rfl

theorem page_programs_polls (k : Nat) (t : List SpiEvent) :
    page_programs ((List.replicate k status_events).flatten ++ t) = page_programs t := by
  induction k with
  | zero => rfl
  | succ k ih =>
    rw [List.replicate_succ, List.flatten_cons, List.append_assoc, page_programs_status, ih]

theorem page_programs_write_enable (t : List SpiEvent) :
    page_programs (write_enable_events ++ t) = page_programs t := by
  unfold write_enable_events
  rw [List.append_assoc, page_programs_status]
  unfold page_programs
  have h := spi_commands_go_command [0x06] t
  simp only [List.map_cons, List.map_nil, List.cons_append, List.nil_append] at h ⊢
  rw [h]
  rfl

theorem page_programs_erase (a : Nat) (t : List SpiEvent) :
    page_programs (erase_events a ++ t) = page_programs t := by
  unfold page_programs erase_events
  have h := spi_commands_go_command [0x20, (a >>> 16) % 256, (a >>> 8) % 256, a % 256] t
  simp only [List.map_cons, List.map_nil, List.cons_append, List.nil_append] at h ⊢
  rw [h]
  rfl

theorem page_programs_clear (a k : Nat) (t : List SpiEvent) :
    page_programs (clear_events a k ++ t) = page_programs t := by
  unfold clear_events
  rw [List.append_assoc, List.append_assoc, page_programs_write_enable, page_programs_erase,
    page_programs_polls]

/-- A page-program command in front of a log is the first page-program command of the
log. -/
theorem page_programs_program (addr : Nat) (data : List Nat) (t : List SpiEvent) :
    page_programs (program_events addr data ++ t)
      = (0x02 :: addr_bytes addr ++ data.map (fun b => b % 256)) :: page_programs t := by
  unfold page_programs program_events
  have h := spi_commands_go_command
    (0x02 :: addr_bytes addr ++ data.map (fun b => b % 256)) t
  simp only [addr_bytes, List.map_cons, List.map_nil, List.cons_append, List.nil_append,
    List.map_append, List.map_map, List.append_assoc] at h ⊢
  rw [show (SpiEvent.byte ∘ fun b => b % 256) = (fun b => SpiEvent.byte (b % 256)) from rfl] at h
  rw [h]
  rfl

theorem map_mod_256 (chunk : List Nat) (hc : ∀ x ∈ chunk, x < 256) :
    chunk.map (fun b => b % 256) = chunk := by
  conv => rhs; rw [← List.map_id chunk]
  apply List.map_congr_left
  intro v hv
  exact Nat.mod_eq_of_lt (hc v hv)

/-- The expected commands, one chunk at a time. -/
theorem upload_programs_cons (addr : Nat) (chunk rest : List Nat) (hl : chunk.length = 128)
    (ha : addr < 2 ^ 32) :
    upload_programs addr (chunk ++ rest)
      = (0x02 :: addr_bytes addr ++ chunk) :: upload_programs ((addr + 128) % 2 ^ 32) rest := by
  unfold upload_programs
  have hlen : (chunk ++ rest).length / 128 = rest.length / 128 + 1 := by
    rw [List.length_append, hl]
    omega
  rw [hlen, List.range_succ_eq_map, List.map_cons, List.map_map]
  congr 1
  · rw [Nat.mul_zero, Nat.add_zero, Nat.mod_eq_of_lt ha, List.drop_zero,
      List.take_append_of_le_length (by omega), List.take_of_length_le (by omega)]
  · apply List.map_congr_left
    intro i _
    simp only [Function.comp]
    have e1 : (addr + 128 * (i + 1)) % 2 ^ 32 = ((addr + 128) % 2 ^ 32 + 128 * i) % 2 ^ 32 := by
      omega
    have e2 : (chunk ++ rest).drop (128 * (i + 1)) = rest.drop (128 * i) := by
      rw [show 128 * (i + 1) = chunk.length + 128 * i by omega, List.drop_append]
    rw [e1, e2]

theorem upload_programs_nil (addr : Nat) : upload_programs addr [] = [] := rfl

/-- The busy-wait on a device that becomes ready: it returns, and adds only status reads
to the log. -/
theorem spi_wait_wip_ready {σ : Type} (D : Device σ) (polls : Nat) (hr : D.ready_within polls)
    (w : World σ) :
    ∃ (k : Nat) (w1 : World σ), spi_wait_wip D polls w = (some (), w1)
      ∧ w1.rx = w.rx ∧ w1.tx = w.tx
      ∧ w1.spi = w.spi ++ (List.replicate (k + 1) status_events).flatten := by
  obtain ⟨k, hk, hb⟩ := hr w.dev
  obtain ⟨w1, d1, d2, d3, _, d5⟩ := spi_wait_wip_done D k polls w hk hb
  exact ⟨k, w1, d1, d2, d3, d5⟩

/-- The erase block of `spi_flasharea` on a device that becomes ready: it returns and
adds no page-program command to the log. -/
theorem spi_flasharea_erase_ready {σ : Type} (D : Device σ) (polls : Nat)
    (hr : D.ready_within polls) (addr : Nat) (w : World σ) :
    ∃ (w1 : World σ) (log : List SpiEvent),
      spi_flasharea_erase D polls addr w = (some (), w1)
      ∧ w1.rx = w.rx ∧ w1.tx = w.tx
      ∧ w1.spi = w.spi ++ log
      ∧ ∀ t, page_programs (log ++ t) = page_programs t := by
  unfold spi_flasharea_erase
  by_cases h : addr &&& SPI_PAGE_MASK = 0
  · rw [if_pos h]
    dsimp only
    obtain ⟨we, heq, c1, c2, _, c4⟩ := spi_erase_sector_eq D polls addr (spi_write_enable D w)
    obtain ⟨k, w1, d1, d2, d3, d5⟩ := spi_wait_wip_ready D polls hr we
    obtain ⟨e1, e2, e3⟩ := spi_write_enable_eq D w
    refine ⟨w1, clear_events addr k, heq.trans d1, ?_, ?_, ?_, page_programs_clear addr k⟩
    · rw [d2, c1, e1]
    · rw [d3, c2, e2]
    · rw [d5, c4, e3]
      simp only [clear_events, List.append_assoc]
  · rw [if_neg h]
    exact ⟨w, [], rfl, rfl, rfl, by simp, fun t => rfl⟩

/-- The page-program part of one turn of `spi_flasharea`: a write-enable, a status read,
and one page-program command with the 128 bytes of the block at `addr`. -/
theorem spi_flasharea_program_eq {σ : Type} (D : Device σ) (addr led_on led_count : Nat)
    (g : Globals) (w : World σ) (hl : g.xmodem_block.data.length = 128) :
    (spi_flasharea_program D addr led_on led_count g w).2.2.1.xmodem_block = g.xmodem_block
    ∧ (spi_flasharea_program D addr led_on led_count g w).2.2.2.rx = w.rx
    ∧ (spi_flasharea_program D addr led_on led_count g w).2.2.2.tx = w.tx
    ∧ (spi_flasharea_program D addr led_on led_count g w).2.2.2.spi
        = w.spi ++ write_enable_events ++ status_events
          ++ program_events addr g.xmodem_block.data := by
  unfold spi_flasharea_program
  dsimp only
  rw [upload_send_chunk_eq D g.xmodem_block.data _ _ hl]
  refine ⟨rfl, ?_, ?_, ?_⟩
  · simp [spi_cs, spi_send, spi_status, spi_write_enable, spi_power]
  · simp [spi_cs, spi_send, spi_status, spi_write_enable, spi_power]
  · simp [spi_cs, spi_send, spi_status, spi_write_enable, spi_power, write_enable_events,
      status_events, program_events, SPI_WRITE_ENABLE]

theorem page_programs_turn (addr k : Nat) (chunk : List Nat) (hc : ∀ x ∈ chunk, x < 256)
    (t : List SpiEvent) :
    page_programs (write_enable_events ++ status_events ++ program_events addr chunk
        ++ (List.replicate (k + 1) status_events).flatten ++ t)
      = (0x02 :: addr_bytes addr ++ chunk) :: page_programs t := by
  rw [List.append_assoc, List.append_assoc, List.append_assoc, page_programs_write_enable,
    page_programs_status, page_programs_program, page_programs_polls, map_mod_256 chunk hc]

set_option maxRecDepth 8000 in
/-- The loop of `spi_biosupload` and `spi_flasharea` on a device that becomes ready, `n`
chunks before the end, with the `128 * n` data bytes pending: it returns, has taken
exactly these bytes off the input, and the page-program commands it has sent are those
of `upload_programs`. -/
theorem spi_flasharea_loop_programs {σ : Type} (D : Device σ) (polls : Nat)
    (hr : D.ready_within polls) (len : Nat) (hlen : len < 2 ^ 32) (n : Nat) :
    ∀ (fuel offset addr lo lc : Nat) (g : Globals) (w : World σ) (data : List Nat)
      (rest : List Int),
      n + 1 ≤ fuel → offset + 128 * n = len → addr < 2 ^ 32 →
      w.rx = data.map (fun x : Nat => (x : Int)) ++ rest → data.length = 128 * n →
      (∀ x ∈ data, x < 256) → g.xmodem_block.data.length = 128 →
      ∃ (g1 : Globals) (w1 : World σ) (log : List SpiEvent),
        spi_flasharea_loop D polls len fuel offset addr lo lc g w = (some (), g1, w1)
        ∧ w1.rx = rest ∧ w1.tx = w.tx
        ∧ w1.spi = w.spi ++ log
        ∧ ∀ t, page_programs (log ++ t) = upload_programs addr data ++ page_programs t := by
  induction n with
  | zero =>
    intro fuel offset addr lo lc g w data rest hf ho ha hrx hd hc hg
    obtain ⟨f, rfl⟩ : ∃ f, fuel = f + 1 := ⟨fuel - 1, by omega⟩
    have hnil : data = [] := List.eq_nil_of_length_eq_zero (by omega)
    subst hnil
    rw [spi_flasharea_loop, if_neg (by omega)]
    refine ⟨g, w, [], rfl, by simpa using hrx, rfl, by simp, fun t => rfl⟩
  | succ n ih =>
    intro fuel offset addr lo lc g w data rest hf ho ha hrx hd hc hg
    obtain ⟨f, rfl⟩ : ∃ f, fuel = f + 1 := ⟨fuel - 1, by omega⟩
    have hsplit : data = data.take 128 ++ data.drop 128 := (List.take_append_drop 128 data).symm
    have hl1 : (data.take 128).length = 128 := by rw [List.length_take]; omega
    have hl2 : (data.drop 128).length = 128 * n := by rw [List.length_drop]; omega
    have hc1 : ∀ x ∈ data.take 128, x < 256 := fun x hx => hc x (List.mem_of_mem_take hx)
    have hc2 : ∀ x ∈ data.drop 128, x < 256 := fun x hx => hc x (List.mem_of_mem_drop hx)
    have hrx2 : w.rx = (data.take 128).map (fun x : Nat => (x : Int))
        ++ ((data.drop 128).map (fun x : Nat => (x : Int)) ++ rest) := by
      rw [← List.append_assoc, ← List.map_append, ← hsplit]
      exact hrx
    have hread := upload_read_chunk_eq g.xmodem_block.data (data.take 128)
      ((data.drop 128).map (fun x : Nat => (x : Int)) ++ rest) hc1 hl1 hg
    rw [spi_flasharea_loop, if_pos (by omega)]
    dsimp only
    rw [hrx2, hread]
    dsimp only
    rw [if_pos rfl]
    obtain ⟨we, elog, ee, e1, e2, e3, e4⟩ := spi_flasharea_erase_ready D polls hr addr
      { w with rx := (data.drop 128).map (fun x : Nat => (x : Int)) ++ rest }
    rw [ee]
    dsimp only
    obtain ⟨p1, p2, p3, p4⟩ := spi_flasharea_program_eq D addr lo lc
      { g with xmodem_block := { g.xmodem_block with data := data.take 128 } } we hl1
    obtain ⟨k, ww, q1, q2, q3, q4⟩ := spi_wait_wip_ready D polls hr
      (spi_flasharea_program D addr lo lc
        { g with xmodem_block := { g.xmodem_block with data := data.take 128 } } we).2.2.2
    rw [q1]
    dsimp only
    obtain ⟨g1, w1, log, r1, r2, r3, r4, r5⟩ := ih f ((offset + sizeof_data) % 2 ^ 32)
      ((addr + sizeof_data) % 2 ^ 32)
      (spi_flasharea_program D addr lo lc
        { g with xmodem_block := { g.xmodem_block with data := data.take 128 } } we).1
      (spi_flasharea_program D addr lo lc
        { g with xmodem_block := { g.xmodem_block with data := data.take 128 } } we).2.1
      (spi_flasharea_program D addr lo lc
        { g with xmodem_block := { g.xmodem_block with data := data.take 128 } } we).2.2.1
      ww (data.drop 128) rest (by omega)
      (by unfold sizeof_data; rw [Nat.mod_eq_of_lt (by omega)]; omega)
      (Nat.mod_lt _ (by decide))
      (by rw [q2, p2, e1]) hl2 hc2 (by rw [p1]; exact hl1)
    refine ⟨g1, w1,
      elog ++ (write_enable_events ++ status_events ++ program_events addr (data.take 128)
        ++ (List.replicate (k + 1) status_events).flatten) ++ log, r1, r2, ?_, ?_, ?_⟩
    · rw [r3, q3, p3, e2]
    · rw [r4, q4, p4, e3]
      simp only [List.append_assoc]
    · intro t
      rw [List.append_assoc, List.append_assoc, e4,
        page_programs_turn addr k (data.take 128) hc1, r5]
      conv => rhs; rw [hsplit, upload_programs_cons addr _ _ hl1 ha]
      rfl

set_option maxRecDepth 8000 in
/-- The loop of `spi_upload` on a device that becomes ready, `n` chunks before the end,
with the `128 * n` data bytes pending: it returns, has taken exactly these bytes off the
input, and the page-program commands it has sent are those of `upload_programs`. -/
theorem spi_upload_loop_programs {σ : Type} (D : Device σ) (polls : Nat)
    (hr : D.ready_within polls) (len : Nat) (hlen : len < 2 ^ 32) (n : Nat) :
    ∀ (fuel offset addr lo lc : Nat) (g : Globals) (w : World σ) (data : List Nat)
      (rest : List Int),
      n + 1 ≤ fuel → offset + 128 * n = len → addr < 2 ^ 32 →
      w.rx = data.map (fun x : Nat => (x : Int)) ++ rest → data.length = 128 * n →
      (∀ x ∈ data, x < 256) → g.xmodem_block.data.length = 128 →
      ∃ (g1 : Globals) (w1 : World σ) (log : List SpiEvent),
        spi_upload_loop D polls len fuel offset addr lo lc g w = (some (), g1, w1)
        ∧ w1.rx = rest ∧ w1.tx = w.tx
        ∧ w1.spi = w.spi ++ log
        ∧ ∀ t, page_programs (log ++ t) = upload_programs addr data ++ page_programs t := by
  induction n with
  | zero =>
    intro fuel offset addr lo lc g w data rest hf ho ha hrx hd hc hg
    obtain ⟨f, rfl⟩ : ∃ f, fuel = f + 1 := ⟨fuel - 1, by omega⟩
    have hnil : data = [] := List.eq_nil_of_length_eq_zero (by omega)
    subst hnil
    rw [spi_upload_loop_exit D polls len f offset addr lo lc g w (by omega)]
    refine ⟨g, w, [], rfl, by simpa using hrx, rfl, by simp, fun t => rfl⟩
  | succ n ih =>
    intro fuel offset addr lo lc g w data rest hf ho ha hrx hd hc hg
    obtain ⟨f, rfl⟩ : ∃ f, fuel = f + 1 := ⟨fuel - 1, by omega⟩
    have hsplit : data = data.take 128 ++ data.drop 128 := (List.take_append_drop 128 data).symm
    have hl1 : (data.take 128).length = 128 := by rw [List.length_take]; omega
    have hl2 : (data.drop 128).length = 128 * n := by rw [List.length_drop]; omega
    have hc1 : ∀ x ∈ data.take 128, x < 256 := fun x hx => hc x (List.mem_of_mem_take hx)
    have hc2 : ∀ x ∈ data.drop 128, x < 256 := fun x hx => hc x (List.mem_of_mem_drop hx)
    have hrx2 : w.rx = (data.take 128).map (fun x : Nat => (x : Int))
        ++ ((data.drop 128).map (fun x : Nat => (x : Int)) ++ rest) := by
      rw [← List.append_assoc, ← List.map_append, ← hsplit]
      exact hrx
    obtain ⟨g1, lo1, lc1, w1, a1, a2, a3, _, a5, a6, _⟩ := spi_upload_loop_turn D polls len f
      offset addr lo lc g w (data.take 128)
      ((data.drop 128).map (fun x : Nat => (x : Int)) ++ rest) (by omega) hrx2 hc1 hl1 hg
    obtain ⟨k, ww, q1, q2, q3, q4⟩ := spi_wait_wip_ready D polls hr w1
    rw [a6 ww q1]
    obtain ⟨g2, w2, log, r1, r2, r3, r4, r5⟩ := ih f ((offset + 128) % 2 ^ 32)
      ((addr + 128) % 2 ^ 32) lo1 lc1 g1 ww (data.drop 128) rest (by omega)
      (by rw [Nat.mod_eq_of_lt (by omega)]; omega)
      (Nat.mod_lt _ (by decide))
      (by rw [q2, a2]) hl2 hc2 (by rw [a1]; exact hl1)
    refine ⟨g2, w2,
      (write_enable_events ++ status_events ++ program_events addr (data.take 128)
        ++ (List.replicate (k + 1) status_events).flatten) ++ log, r1, r2, ?_, ?_, ?_⟩
    · rw [r3, q3, a3]
    · rw [r4, q4, a5]
      simp only [List.append_assoc]
    · intro t
      rw [List.append_assoc, page_programs_turn addr k (data.take 128) hc1, r5]
      conv => rhs; rw [hsplit, upload_programs_cons addr _ _ hl1 ha]
      rfl

set_option maxRecDepth 8000 in
/-- When address and length are multiples of 4096, `spi_flasharea` answers with the `G`
line and runs its loop; when the loop returns, it writes `done!`. -/
theorem spi_flasharea_accept {σ : Type} (D : Device σ) (polls : Nat) (g : Globals)
    (w : World σ) (addr len : Nat)
    (ha : addr % 4096 = 0) (hl : len % 4096 = 0) (g1 : Globals) (w3 : World σ)
    (hloop : spi_flasharea_loop D polls len (w.rx.length + 1) 0 addr 1 0
        { g with bytes_uploaded := 0 }
        { w with tx := w.tx ++ [spi_flasharea_outbuf false addr len]
                 regs := out 0xD6 1 w.regs } = (some (), g1, w3)) :
    spi_flasharea D polls addr len g w = (some (), g1, send_str (cstr "done!\r\n") w3) := by
  have hb : (spi_flasharea_outbuf false addr len).take 17 = spi_flasharea_outbuf false addr len :=
    rfl
  simp only [spi_flasharea, and_SPI_PAGE_MASK, ha, hl]
  simp only [ne_eq, not_true_eq_false, decide_False, Bool.or_self, if_false,
    Bool.false_eq_true, usb_serial_write, hb]
  split
  · next g' w' heq =>
    have e := heq.symm.trans hloop
    exact absurd (congrArg Prod.fst e) (by simp)
  · next u g' w' heq =>
    have e := heq.symm.trans hloop
    have e1 : g' = g1 := congrArg (fun r => r.2.1) e
    have e2 : w' = w3 := congrArg (fun r => r.2.2) e
    rw [e1, e2]

/-- The body of `spi_biosupload` is that of `spi_flasharea` at its two constants. -/
theorem spi_biosupload_eq {σ : Type} (D : Device σ) (polls : Nat) (g : Globals) (w : World σ) :
    spi_biosupload D polls g w = spi_flasharea D polls 0x190000 0x670000 g w := rfl

/-- The page-program commands of `spi_flasharea` on a device that becomes ready. -/
theorem spi_flasharea_programs {σ : Type} (D : Device σ) (polls : Nat)
    (hr : D.ready_within polls) (g : Globals) (w : World σ) (addr len : Nat)
    (data : List Nat) (rest : List Int)
    (ha : addr % 4096 = 0) (hl : len % 4096 = 0) (ha32 : addr < 2 ^ 32) (hl32 : len < 2 ^ 32)
    (hrx : w.rx = data.map (fun x : Nat => (x : Int)) ++ rest)
    (hdl : data.length = len) (hdb : ∀ x ∈ data, x < 256)
    (hbuf : g.xmodem_block.data.length = 128) :
    ∃ log : List SpiEvent,
      (spi_flasharea D polls addr len g w).1 = some ()
      ∧ (spi_flasharea D polls addr len g w).2.2.rx = rest
      ∧ (spi_flasharea D polls addr len g w).2.2.spi = w.spi ++ log
      ∧ page_programs log = upload_programs addr data := by
  obtain ⟨g1, w3, log, l1, l2, _, l4, l5⟩ := spi_flasharea_loop_programs D polls hr len hl32
    (len / 128) (w.rx.length + 1) 0 addr 1 0 { g with bytes_uploaded := 0 }
    { w with tx := w.tx ++ [spi_flasharea_outbuf false addr len]
             regs := out 0xD6 1 w.regs }
    data rest
    (by rw [hrx, List.length_append, List.length_map, hdl]; omega)
    (by omega) ha32 hrx (by omega) hdb hbuf
  rw [spi_flasharea_accept D polls g w addr len ha hl g1 w3 l1]
  refine ⟨log, rfl, ?_, ?_, ?_⟩
  · rw [send_str_eq]; exact l2
  · rw [send_str_eq]; exact l4
  · have h := l5 []
    rw [List.append_nil] at h
    rw [h]
    exact List.append_nil _

/-- The page-program commands of `spi_upload` on a device that becomes ready. -/
theorem spi_upload_programs {σ : Type} (D : Device σ) (polls : Nat)
    (hr : D.ready_within polls) (g : Globals) (w : World σ) (addr len : Nat)
    (data : List Nat) (rest : List Int)
    (h1 : (usb_serial_readhex w).1 = some addr)
    (h2 : (usb_serial_readhex (usb_serial_readhex w).2).1 = some len)
    (ha : addr % 4096 = 0) (hl : len % 4096 = 0) (ha32 : addr < 2 ^ 32) (hl32 : len < 2 ^ 32)
    (hrx : (usb_serial_readhex (usb_serial_readhex w).2).2.rx
      = data.map (fun x : Nat => (x : Int)) ++ rest)
    (hdl : data.length = len) (hdb : ∀ x ∈ data, x < 256)
    (hbuf : g.xmodem_block.data.length = 128) :
    ∃ log : List SpiEvent,
      (spi_upload D polls g w).1 = some ()
      ∧ (spi_upload D polls g w).2.2.rx = rest
      ∧ (spi_upload D polls g w).2.2.spi = w.spi ++ log
      ∧ page_programs log = upload_programs addr data := by
  have s1 := (usb_serial_readhex_spi w).1
  have s2 := (usb_serial_readhex_spi (usb_serial_readhex w).2).1
  obtain ⟨g1, w3, log, l1, l2, _, l4, l5⟩ := spi_upload_loop_programs D polls hr len hl32
    (len / 128) ((usb_serial_readhex (usb_serial_readhex w).2).2.rx.length + 1) 0 addr 1 0
    { g with bytes_uploaded := 0 }
    { (usb_serial_readhex (usb_serial_readhex w).2).2 with
      tx := (usb_serial_readhex (usb_serial_readhex w).2).2.tx
        ++ [spi_upload_outbuf false addr len]
      regs := out 0xD6 1 (usb_serial_readhex (usb_serial_readhex w).2).2.regs }
    data rest
    (by rw [hrx, List.length_append, List.length_map, hdl]; omega)
    (by omega) ha32 hrx (by omega) hdb hbuf
  rw [spi_upload_accept D polls g w (usb_serial_readhex w).2
    (usb_serial_readhex (usb_serial_readhex w).2).2 addr len (Prod.ext h1 rfl)
    (Prod.ext h2 rfl) ha hl g1 w3 l1]
  refine ⟨log, rfl, ?_, ?_, ?_⟩
  · rw [send_str_eq]; exact l2
  · rw [send_str_eq]
    show w3.spi = _
    rw [l4]
    show (usb_serial_readhex (usb_serial_readhex w).2).2.spi ++ log = _
    rw [s2, s1]
  · have h := l5 []
    rw [List.append_nil] at h
    rw [h]
    exact List.append_nil _

/-- The commands of `upload_programs` for a 4 KiB-aligned start: as many as there are
chunks, each with the opcode, three address bytes and 128 data bytes, at an address that
is a multiple of 128, so that its 128 bytes lie within one 256-byte page. -/
theorem upload_programs_aligned (addr : Nat) (data : List Nat) (ha : addr % 4096 = 0)
    (hd : data.length % 128 = 0) :
    (upload_programs addr data).length = data.length / 128
    ∧ ∀ i, i < data.length / 128 →
        (upload_programs addr data)[i]?
            = some (0x02 :: addr_bytes ((addr + 128 * i) % 2 ^ 32)
                ++ (data.drop (128 * i)).take 128)
        ∧ ((data.drop (128 * i)).take 128).length = 128
        ∧ ((addr + 128 * i) % 2 ^ 32) % 128 = 0
        ∧ ((addr + 128 * i) % 2 ^ 32) % 256 + 128 ≤ 256
        ∧ ((addr + 128 * i) % 2 ^ 24) % 256 + 128 ≤ 256 := by
  refine ⟨by simp [upload_programs], ?_⟩
  intro i hi
  refine ⟨?_, ?_, by omega, by omega, by omega⟩
  · unfold upload_programs
    rw [List.getElem?_map, List.getElem?_range hi]
    rfl
  · rw [List.length_take, List.length_drop]
    omega

/-- C21: let the device show WIP clear after fewer than `polls` status reads, whatever
its state, and let the host have the `len` data bytes pending. For a start address and a
length that are multiples of 4096 (and 32-bit numbers), `spi_upload` (after the operator
has entered them), `spi_flasharea` and `spi_biosupload` (with its constants 0x190000 and
0x670000) return, and the page-program commands (opcode 0x02) in what they add to the SPI
log are exactly those of `upload_programs`: one per chunk of 128 data bytes, in order, the
`i`-th with the address bytes of `addr + 128 * i` and the `i`-th chunk as its payload.
There are `len / 128` of them, each carries exactly 128 payload bytes, its address is a
multiple of 128, and its 128 bytes end at or before the next multiple of 256. -/
theorem upload_page_programs {σ : Type} (D : Device σ) (polls : Nat)
    (hr : D.ready_within polls) :
    (∀ (g : Globals) (w : World σ) (addr len : Nat) (data : List Nat) (rest : List Int),
      (usb_serial_readhex w).1 = some addr →
      (usb_serial_readhex (usb_serial_readhex w).2).1 = some len →
      addr % 4096 = 0 → len % 4096 = 0 → addr < 2 ^ 32 → len < 2 ^ 32 →
      (usb_serial_readhex (usb_serial_readhex w).2).2.rx
        = data.map (fun x : Nat => (x : Int)) ++ rest →
      data.length = len → (∀ x ∈ data, x < 256) → g.xmodem_block.data.length = 128 →
      ∃ log : List SpiEvent,
        (spi_upload D polls g w).1 = some ()
        ∧ (spi_upload D polls g w).2.2.spi = w.spi ++ log
        ∧ page_programs log = upload_programs addr data)
    ∧ (∀ (g : Globals) (w : World σ) (addr len : Nat) (data : List Nat) (rest : List Int),
      addr % 4096 = 0 → len % 4096 = 0 → addr < 2 ^ 32 → len < 2 ^ 32 →
      w.rx = data.map (fun x : Nat => (x : Int)) ++ rest →
      data.length = len → (∀ x ∈ data, x < 256) → g.xmodem_block.data.length = 128 →
      ∃ log : List SpiEvent,
        (spi_flasharea D polls addr len g w).1 = some ()
        ∧ (spi_flasharea D polls addr len g w).2.2.spi = w.spi ++ log
        ∧ page_programs log = upload_programs addr data)
    ∧ (∀ (g : Globals) (w : World σ) (data : List Nat) (rest : List Int),
      w.rx = data.map (fun x : Nat => (x : Int)) ++ rest →
      data.length = 0x670000 → (∀ x ∈ data, x < 256) → g.xmodem_block.data.length = 128 →
      ∃ log : List SpiEvent,
        (spi_biosupload D polls g w).1 = some ()
        ∧ (spi_biosupload D polls g w).2.2.spi = w.spi ++ log
        ∧ page_programs log = upload_programs 0x190000 data)
    ∧ (∀ (addr : Nat) (data : List Nat), addr % 4096 = 0 → data.length % 4096 = 0 →
      (upload_programs addr data).length = data.length / 128
      ∧ ∀ i, i < data.length / 128 →
          (upload_programs addr data)[i]?
              = some (0x02 :: addr_bytes ((addr + 128 * i) % 2 ^ 32)
                  ++ (data.drop (128 * i)).take 128)
          ∧ ((data.drop (128 * i)).take 128).length = 128
          ∧ ((addr + 128 * i) % 2 ^ 32) % 128 = 0
          ∧ ((addr + 128 * i) % 2 ^ 32) % 256 + 128 ≤ 256
          ∧ ((addr + 128 * i) % 2 ^ 24) % 256 + 128 ≤ 256) := by
  refine ⟨?_, ?_, ?_, ?_⟩
  · intro g w addr len data rest h1 h2 ha hl ha32 hl32 hrx hdl hdb hbuf
    obtain ⟨log, a, _, c, d⟩ := spi_upload_programs D polls hr g w addr len data rest h1 h2
      ha hl ha32 hl32 hrx hdl hdb hbuf
    exact ⟨log, a, c, d⟩
  · intro g w addr len data rest ha hl ha32 hl32 hrx hdl hdb hbuf
    obtain ⟨log, a, _, c, d⟩ := spi_flasharea_programs D polls hr g w addr len data rest
      ha hl ha32 hl32 hrx hdl hdb hbuf
    exact ⟨log, a, c, d⟩
  · intro g w data rest hrx hdl hdb hbuf
    obtain ⟨log, a, _, c, d⟩ := spi_flasharea_programs D polls hr g w 0x190000 0x670000 data
      rest (by decide) (by decide) (by decide) (by decide) hrx hdl hdb hbuf
    rw [spi_biosupload_eq]
    exact ⟨log, a, c, d⟩
  · intro addr data ha hd
    exact upload_programs_aligned addr data ha (by omega)

/-- An erased flash chip; an operator who enters address 0 and length 1000 (hex) and a host
that sends 4096 bytes for `spi_upload`; 4096 bytes for `spi_flasharea` at 0x330000; the
0x670000 bytes of the BIOS area for `spi_biosupload`. -/
theorem upload_page_programs_witness :
    flash_device.ready_within 2
    ∧ (usb_serial_readhex upload_example).1 = some 0
    ∧ (usb_serial_readhex (usb_serial_readhex upload_example).2).1 = some 4096
    ∧ (∃ log : List SpiEvent,
        (spi_upload flash_device 2 Globals.init upload_example).1 = some ()
        ∧ (spi_upload flash_device 2 Globals.init upload_example).2.2.spi
            = upload_example.spi ++ log
        ∧ page_programs log = upload_programs 0 (List.replicate 4096 0x5A))
    ∧ (∃ log : List SpiEvent,
        (spi_flasharea flash_device 2 0x330000 4096 Globals.init flasharea_example).1 = some ()
        ∧ (spi_flasharea flash_device 2 0x330000 4096 Globals.init flasharea_example).2.2.spi
            = flasharea_example.spi ++ log
        ∧ page_programs log = upload_programs 0x330000 (List.replicate 4096 0x5A))
    ∧ (∃ log : List SpiEvent,
        (spi_biosupload flash_device 2 Globals.init biosupload_example).1 = some ()
        ∧ (spi_biosupload flash_device 2 Globals.init biosupload_example).2.2.spi
            = biosupload_example.spi ++ log
        ∧ page_programs log = upload_programs 0x190000 (List.replicate 0x670000 0x5A))
    ∧ (upload_programs 0x190000 (List.replicate 0x670000 0x5A)).length = 0x670000 / 128 :=
  have e1 := usb_serial_readhex_digits upload_example [48] 13
    ([49, 48, 48, 48, 13] ++ ((List.replicate 4096 0x5A).map (fun x : Nat => (x : Int)) ++ []))
    rfl (by decide) (by decide) (by decide)
  have e2 := usb_serial_readhex_digits (usb_serial_readhex upload_example).2 [49, 48, 48, 48]
    13 ((List.replicate 4096 0x5A).map (fun x : Nat => (x : Int)) ++ []) e1.2 (by decide)
    (by decide) (by decide)
  ⟨flash_ready, e1.1, e2.1,
   (upload_page_programs flash_device 2 flash_ready).1 Globals.init upload_example 0 4096
      (List.replicate 4096 0x5A) [] e1.1 e2.1 (by decide) (by decide) (by decide) (by decide)
      e2.2 (List.length_replicate 4096 0x5A)
      (fun x hx => by rw [List.eq_of_mem_replicate hx]; decide)
      (List.length_replicate 128 0),
   (upload_page_programs flash_device 2 flash_ready).2.1 Globals.init flasharea_example
      0x330000 4096 (List.replicate 4096 0x5A) [] (by decide) (by decide) (by decide)
      (by decide) rfl (List.length_replicate 4096 0x5A)
      (fun x hx => by rw [List.eq_of_mem_replicate hx]; decide)
      (List.length_replicate 128 0),
   (upload_page_programs flash_device 2 flash_ready).2.2.1 Globals.init biosupload_example
      (List.replicate 0x670000 0x5A) [] rfl (List.length_replicate 0x670000 0x5A)
      (fun x hx => by rw [List.eq_of_mem_replicate hx]; decide)
      (List.length_replicate 128 0),
   by
    have h := ((upload_page_programs flash_device 2 flash_ready).2.2.2 0x190000
      (List.replicate 0x670000 0x5A) (by decide)
      (by rw [List.length_replicate])).1
    rw [List.length_replicate] at h
    exact h⟩

/-- The loop of `spi_biosupload` and `spi_flasharea` leaves chip select released when it
finds it released. -/
theorem spi_flasharea_loop_released {σ : Type} (D : Device σ) (polls len : Nat) :
    ∀ (fuel offset addr led_on led_count : Nat) (g : Globals) (w : World σ),
      cs_asserted w.spi = false →
      cs_asserted (spi_flasharea_loop D polls len fuel offset addr led_on led_count g w).2.2.spi
        = false := by
  intro fuel
  induction fuel with
  | zero =>
    intro offset addr led_on led_count g w h
    rw [spi_flasharea_loop]
    exact h
  | succ fuel ih =>
    intro offset addr led_on led_count g w h
    rw [spi_flasharea_loop]
    by_cases ho : offset < len
    · rw [if_pos ho]
      dsimp only
      by_cases hc : (upload_read_chunk g.xmodem_block.data w.rx).1 = true
      · rw [if_pos hc]
        have he : cs_asserted (spi_flasharea_erase D polls addr
            { w with rx := (upload_read_chunk g.xmodem_block.data w.rx).2.2 }).2.spi = false := by
          unfold spi_flasharea_erase
          split
          · exact spi_erase_sector_released D polls addr _
          · exact h
        split
        · rename_i w2 heq
          rw [heq] at he
          exact he
        · rename_i u w2 heq
          have hp : ∀ (lo lc : Nat) (g0 : Globals) (w0 : World σ),
              cs_asserted (spi_flasharea_program D addr lo lc g0 w0).2.2.2.spi = false := by
            intro lo lc g0 w0
            exact cs_asserted_concat _ false
          split
          · rename_i w3 heq3
            exact spi_wait_wip_released D polls _ _ heq3 (hp _ _ _ _)
          · rename_i u3 w3 heq3
            apply ih
            exact spi_wait_wip_released D polls _ _ heq3 (hp _ _ _ _)
      · rw [if_neg hc]
        exact h
    · rw [if_neg ho]
      exact h

theorem spi_flasharea_loop_released_of_eq {σ : Type} (D : Device σ) (polls len : Nat)
    (fuel offset addr led_on led_count : Nat) (g : Globals) (w : World σ)
    (r : Option Unit × Globals × World σ)
    (hr : spi_flasharea_loop D polls len fuel offset addr led_on led_count g w = r)
    (h : cs_asserted w.spi = false) : cs_asserted r.2.2.spi = false := by
  rw [← hr]
  exact spi_flasharea_loop_released D polls len fuel offset addr led_on led_count g w h

theorem spi_flasharea_released {σ : Type} (D : Device σ) (polls addr len : Nat) (g : Globals)
    (w : World σ) (h : cs_asserted w.spi = false) :
    cs_asserted (spi_flasharea D polls addr len g w).2.2.spi = false := by
  unfold spi_flasharea
  dsimp only
  split
  · exact h
  · split
    · rename_i g3 w3 heq
      exact spi_flasharea_loop_released_of_eq D polls len _ _ _ _ _ _ _ _ heq h
    · rename_i u g3 w3 heq
      rw [(send_str_spi _ _).1]
      exact spi_flasharea_loop_released_of_eq D polls len _ _ _ _ _ _ _ _ heq h

theorem spi_biosupload_released {σ : Type} (D : Device σ) (polls : Nat) (g : Globals)
    (w : World σ) (h : cs_asserted w.spi = false) :
    cs_asserted (spi_biosupload D polls g w).2.2.spi = false := by
  rw [spi_biosupload_eq]
  exact spi_flasharea_released D polls _ _ g w h

/-! ## `spi_erase_pwd`: the store past the array and the claim of a fail-closed abort -/

/-- The scan loop of `spi_erase_pwd` with the store indices carried along, as the function
runs it: with at most four matches it is left by `break` after stores at the indices
below the number of matches; with more than four it reaches the store at index 4, having
sent nothing but the read command and dummy bytes. -/
theorem spi_erase_pwd_loop_stores_all {σ : Type} (D : Device σ) (w : World σ) :
    ((erase_matches (D.run (D.after_read_cmd w.dev) (List.replicate 8388608 0)).1).length ≤ 4 →
      (spi_erase_pwd_loop_stores D 8388608 32768 0 1 0 (List.replicate 256 0)
          (List.replicate MAX_PWDS 0) 0 (spi_erase_pwd_start D w) []).1 = LoopExit.brk
      ∧ (spi_erase_pwd_loop_stores D 8388608 32768 0 1 0 (List.replicate 256 0)
          (List.replicate MAX_PWDS 0) 0 (spi_erase_pwd_start D w) []).2.2.2.2
        = List.range (erase_matches
            (D.run (D.after_read_cmd w.dev) (List.replicate 8388608 0)).1).length)
    ∧ (4 < (erase_matches (D.run (D.after_read_cmd w.dev) (List.replicate 8388608 0)).1).length →
      ∃ (pa : List Nat) (pc m : Nat) (regs1 : Regs) (dev1 : σ),
        spi_erase_pwd_loop_stores D 8388608 32768 0 1 0 (List.replicate 256 0)
            (List.replicate MAX_PWDS 0) 0 (spi_erase_pwd_start D w) []
          = (LoopExit.ret, pa, pc,
              { rx := w.rx
                tx := w.tx ++ (cstr "Locating passwords...\r\n").map (fun c => [c])
                dev := dev1
                spi := w.spi ++ read_cmd_events ++ List.replicate m (SpiEvent.byte 0)
                regs := regs1 },
              [0, 1, 2, 3, 4])) := by
  obtain ⟨i1, _, i3, _⟩ := spi_erase_pwd_loop_stores_eq D 8388608 32768 0 1 0
    (List.replicate 256 0) (List.replicate MAX_PWDS 0) 0 (spi_erase_pwd_start D w) []
    (Nat.zero_le 4)
  constructor
  · intro hle
    obtain ⟨regs1, h⟩ := (spi_erase_pwd_scan_all D w).1 hle
    rw [i1, h]
    dsimp only
    rw [List.nil_append, Nat.sub_zero, List.range_eq_range']
    exact ⟨rfl, rfl⟩
  · intro hgt
    obtain ⟨pa, pc, m, regs1, dev1, h⟩ := (spi_erase_pwd_scan_all D w).2 hgt
    rw [h] at i3
    have h5 : pc = 5 := i3 rfl
    refine ⟨pa, pc, m, regs1, dev1, ?_⟩
    rw [i1, h]
    dsimp only
    rw [h5]
    rfl

theorem spi_erase_pwd_stores_loop {σ : Type} (D : Device σ) (w : World σ) :
    spi_erase_pwd_stores D w
      = (spi_erase_pwd_loop_stores D 8388608 32768 0 1 0 (List.replicate 256 0)
          (List.replicate MAX_PWDS 0) 0 (spi_erase_pwd_start D w) []).2.2.2.2 := by
  have e1 : (8 <<< 20 : Nat) = 8388608 := by decide
  have e2 : (8388608 / 256 : Nat) = 32768 := by decide
  have e3 : ¬ MAX_PWDS > 255 := by decide
  unfold spi_erase_pwd_stores
  rw [if_neg e3, e1, e2]

/-- C13: let `img` be the 8 MiB that the device shifts out after the read command
03 00 00 00, and count the signature matches of `spi_erase_pwd` in it (FF 23 80 4E at an
offset of at most 252 in a 256-byte window).

* With more than four matches the abort is not reached by defined behaviour: the scan
  loop stores at index `MAX_PWDS` of `pwd_addr`, one past its last entry (line 667),
  before the test of line 669 that was to stop the function. The SPI log of the scan
  loop, to which nothing is added after that store, is the read command followed by
  dummy bytes that clock data out: up to the store no write-enable (0x06) and no
  sector-erase (0x20) command has been sent. What the function does after the store is
  not defined by C.
* With at most four matches every store into `pwd_addr` is inside the array; on a device
  that shows WIP clear after fewer than `polls` status reads the function returns, and
  after the read of the 8 MiB the SPI traffic is, for each recorded sector in order, its
  own write-enable (a status read, then 0x06), the sector-erase command 0x20 with that
  address, and the status polls; nothing else. -/
theorem spi_erase_pwd_fail_closed {σ : Type} (D : Device σ) (polls : Nat) (w : World σ) :
    (4 < (erase_matches
        (D.run (D.after_read_cmd w.dev) (List.replicate 8388608 0)).1).length →
      MAX_PWDS ∈ spi_erase_pwd_stores D w
      ∧ ∃ m, (spi_erase_pwd_loop_stores D 8388608 32768 0 1 0 (List.replicate 256 0)
              (List.replicate MAX_PWDS 0) 0 (spi_erase_pwd_start D w) []).2.2.2.1.spi
            = w.spi ++ read_cmd_events ++ List.replicate m (SpiEvent.byte 0))
    ∧ ((erase_matches
        (D.run (D.after_read_cmd w.dev) (List.replicate 8388608 0)).1).length ≤ 4 →
      D.ready_within polls →
      (∀ i ∈ spi_erase_pwd_stores D w, i < MAX_PWDS)
      ∧ (spi_erase_pwd D polls w).1 = some ()
      ∧ ∃ ks : List Nat,
          ks.length = (erase_matches
            (D.run (D.after_read_cmd w.dev) (List.replicate 8388608 0)).1).length
          ∧ (spi_erase_pwd D polls w).2.spi
            = w.spi ++ read_cmd_events ++ List.replicate 8388608 (SpiEvent.byte 0)
              ++ [SpiEvent.cs false]
              ++ ((((erase_matches (D.run (D.after_read_cmd w.dev)
                    (List.replicate 8388608 0)).1).map sector_of).zip ks).map
                  (fun p => write_enable_events ++ erase_events p.1
                    ++ (List.replicate (p.2 + 1) status_events).flatten)).flatten) := by
  constructor
  · intro hgt
    obtain ⟨pa, pc, m, regs1, dev1, h⟩ := (spi_erase_pwd_loop_stores_all D w).2 hgt
    refine ⟨?_, m, ?_⟩
    · rw [spi_erase_pwd_stores_loop, h]
      show MAX_PWDS ∈ [0, 1, 2, 3, 4]
      decide
    · rw [h]
  · intro hle hr
    obtain ⟨ks, k1, _, k3, _, k5⟩ := spi_erase_pwd_erases D polls w hle hr
    refine ⟨?_, k3, ks, k1, k5⟩
    intro i hi
    rw [spi_erase_pwd_stores_loop, ((spi_erase_pwd_loop_stores_all D w).1 hle).2,
      List.mem_range] at hi
    have hM : MAX_PWDS = 4 := rfl
    omega

/-- The flash image with the signature at 0, 4, 8, 12 and 16: the store at index
`MAX_PWDS` takes place. The flash image with the signature at 0 and 4: all stores are
inside the array and the function returns. -/
theorem spi_erase_pwd_fail_closed_witness :
    (4 < (erase_matches (flash_device.run (flash_device.after_read_cmd pwd_example5.dev)
        (List.replicate 8388608 0)).1).length
      ∧ MAX_PWDS ∈ spi_erase_pwd_stores flash_device pwd_example5)
    ∧ ((erase_matches (flash_device.run (flash_device.after_read_cmd pwd_example.dev)
        (List.replicate 8388608 0)).1).length ≤ 4
      ∧ flash_device.ready_within 2
      ∧ (∀ i ∈ spi_erase_pwd_stores flash_device pwd_example, i < MAX_PWDS)
      ∧ (spi_erase_pwd flash_device 2 pwd_example).1 = some ()) :=
  ⟨⟨by rw [pwd_example5_matches]; decide,
    ((spi_erase_pwd_fail_closed flash_device 2 pwd_example5).1
      (by rw [pwd_example5_matches]; decide)).1⟩,
   ⟨by rw [pwd_example_matches]; decide, flash_ready,
    ((spi_erase_pwd_fail_closed flash_device 2 pwd_example).2
      (by rw [pwd_example_matches]; decide) flash_ready).1,
    ((spi_erase_pwd_fail_closed flash_device 2 pwd_example).2
      (by rw [pwd_example_matches]; decide) flash_ready).2.1⟩⟩

end Spiflash
